import Mathlib

/-!
# WjCryptLib: AES block cipher and the CBC / CTR / OFB modes

A shallow embedding of `CryptLib_Aes.c`, `WjCryptLib_AesCtr.c`,
`WjCryptLib_AesOfb.c` and `WjCryptLib_AesCbc.c`.

Conventions of the embedding:

* a `uint8_t` buffer is a `List Nat`; an entry is a byte when it is below 256;
  reading past the end of a list yields 0 and writing past the end is dropped;
* the cast `(AesState*)Block` makes `state[i][j]` the byte `Block[4*i + j]`;
* `uint32_t` / `uint64_t` arithmetic is `Nat` arithmetic reduced modulo
  `2^32` / `2^64` wherever the C expression can leave the range;
* a C function that updates memory through pointers returns the new values.
-/

namespace WjCryptLib

/-! ## Constants of CryptLib_Aes.c -/

/-- Forward substitution table `SBOX` of CryptLib_Aes.c. -/
def SBOX : List Nat :=
  [ 0x63, 0x7c, 0x77, 0x7b, 0xf2, 0x6b, 0x6f, 0xc5, 0x30, 0x01, 0x67, 0x2b, 0xfe, 0xd7, 0xab, 0x76,
    0xca, 0x82, 0xc9, 0x7d, 0xfa, 0x59, 0x47, 0xf0, 0xad, 0xd4, 0xa2, 0xaf, 0x9c, 0xa4, 0x72, 0xc0,
    0xb7, 0xfd, 0x93, 0x26, 0x36, 0x3f, 0xf7, 0xcc, 0x34, 0xa5, 0xe5, 0xf1, 0x71, 0xd8, 0x31, 0x15,
    0x04, 0xc7, 0x23, 0xc3, 0x18, 0x96, 0x05, 0x9a, 0x07, 0x12, 0x80, 0xe2, 0xeb, 0x27, 0xb2, 0x75,
    0x09, 0x83, 0x2c, 0x1a, 0x1b, 0x6e, 0x5a, 0xa0, 0x52, 0x3b, 0xd6, 0xb3, 0x29, 0xe3, 0x2f, 0x84,
    0x53, 0xd1, 0x00, 0xed, 0x20, 0xfc, 0xb1, 0x5b, 0x6a, 0xcb, 0xbe, 0x39, 0x4a, 0x4c, 0x58, 0xcf,
    0xd0, 0xef, 0xaa, 0xfb, 0x43, 0x4d, 0x33, 0x85, 0x45, 0xf9, 0x02, 0x7f, 0x50, 0x3c, 0x9f, 0xa8,
    0x51, 0xa3, 0x40, 0x8f, 0x92, 0x9d, 0x38, 0xf5, 0xbc, 0xb6, 0xda, 0x21, 0x10, 0xff, 0xf3, 0xd2,
    0xcd, 0x0c, 0x13, 0xec, 0x5f, 0x97, 0x44, 0x17, 0xc4, 0xa7, 0x7e, 0x3d, 0x64, 0x5d, 0x19, 0x73,
    0x60, 0x81, 0x4f, 0xdc, 0x22, 0x2a, 0x90, 0x88, 0x46, 0xee, 0xb8, 0x14, 0xde, 0x5e, 0x0b, 0xdb,
    0xe0, 0x32, 0x3a, 0x0a, 0x49, 0x06, 0x24, 0x5c, 0xc2, 0xd3, 0xac, 0x62, 0x91, 0x95, 0xe4, 0x79,
    0xe7, 0xc8, 0x37, 0x6d, 0x8d, 0xd5, 0x4e, 0xa9, 0x6c, 0x56, 0xf4, 0xea, 0x65, 0x7a, 0xae, 0x08,
    0xba, 0x78, 0x25, 0x2e, 0x1c, 0xa6, 0xb4, 0xc6, 0xe8, 0xdd, 0x74, 0x1f, 0x4b, 0xbd, 0x8b, 0x8a,
    0x70, 0x3e, 0xb5, 0x66, 0x48, 0x03, 0xf6, 0x0e, 0x61, 0x35, 0x57, 0xb9, 0x86, 0xc1, 0x1d, 0x9e,
    0xe1, 0xf8, 0x98, 0x11, 0x69, 0xd9, 0x8e, 0x94, 0x9b, 0x1e, 0x87, 0xe9, 0xce, 0x55, 0x28, 0xdf,
    0x8c, 0xa1, 0x89, 0x0d, 0xbf, 0xe6, 0x42, 0x68, 0x41, 0x99, 0x2d, 0x0f, 0xb0, 0x54, 0xbb, 0x16 ]

/-- Inverse substitution table `RSBOX` of CryptLib_Aes.c. -/
def RSBOX : List Nat :=
  [ 0x52, 0x09, 0x6a, 0xd5, 0x30, 0x36, 0xa5, 0x38, 0xbf, 0x40, 0xa3, 0x9e, 0x81, 0xf3, 0xd7, 0xfb,
    0x7c, 0xe3, 0x39, 0x82, 0x9b, 0x2f, 0xff, 0x87, 0x34, 0x8e, 0x43, 0x44, 0xc4, 0xde, 0xe9, 0xcb,
    0x54, 0x7b, 0x94, 0x32, 0xa6, 0xc2, 0x23, 0x3d, 0xee, 0x4c, 0x95, 0x0b, 0x42, 0xfa, 0xc3, 0x4e,
    0x08, 0x2e, 0xa1, 0x66, 0x28, 0xd9, 0x24, 0xb2, 0x76, 0x5b, 0xa2, 0x49, 0x6d, 0x8b, 0xd1, 0x25,
    0x72, 0xf8, 0xf6, 0x64, 0x86, 0x68, 0x98, 0x16, 0xd4, 0xa4, 0x5c, 0xcc, 0x5d, 0x65, 0xb6, 0x92,
    0x6c, 0x70, 0x48, 0x50, 0xfd, 0xed, 0xb9, 0xda, 0x5e, 0x15, 0x46, 0x57, 0xa7, 0x8d, 0x9d, 0x84,
    0x90, 0xd8, 0xab, 0x00, 0x8c, 0xbc, 0xd3, 0x0a, 0xf7, 0xe4, 0x58, 0x05, 0xb8, 0xb3, 0x45, 0x06,
    0xd0, 0x2c, 0x1e, 0x8f, 0xca, 0x3f, 0x0f, 0x02, 0xc1, 0xaf, 0xbd, 0x03, 0x01, 0x13, 0x8a, 0x6b,
    0x3a, 0x91, 0x11, 0x41, 0x4f, 0x67, 0xdc, 0xea, 0x97, 0xf2, 0xcf, 0xce, 0xf0, 0xb4, 0xe6, 0x73,
    0x96, 0xac, 0x74, 0x22, 0xe7, 0xad, 0x35, 0x85, 0xe2, 0xf9, 0x37, 0xe8, 0x1c, 0x75, 0xdf, 0x6e,
    0x47, 0xf1, 0x1a, 0x71, 0x1d, 0x29, 0xc5, 0x89, 0x6f, 0xb7, 0x62, 0x0e, 0xaa, 0x18, 0xbe, 0x1b,
    0xfc, 0x56, 0x3e, 0x4b, 0xc6, 0xd2, 0x79, 0x20, 0x9a, 0xdb, 0xc0, 0xfe, 0x78, 0xcd, 0x5a, 0xf4,
    0x1f, 0xdd, 0xa8, 0x33, 0x88, 0x07, 0xc7, 0x31, 0xb1, 0x12, 0x10, 0x59, 0x27, 0x80, 0xec, 0x5f,
    0x60, 0x51, 0x7f, 0xa9, 0x19, 0xb5, 0x4a, 0x0d, 0x2d, 0xe5, 0x7a, 0x9f, 0x93, 0xc9, 0x9c, 0xef,
    0xa0, 0xe0, 0x3b, 0x4d, 0xae, 0x2a, 0xf5, 0xb0, 0xc8, 0xeb, 0xbb, 0x3c, 0x83, 0x53, 0x99, 0x61,
    0x17, 0x2b, 0x04, 0x7e, 0xba, 0x77, 0xd6, 0x26, 0xe1, 0x69, 0x14, 0x63, 0x55, 0x21, 0x0c, 0x7d ]

/-- Round constants `RCON` of CryptLib_Aes.c. -/
def RCON : List Nat :=
  [ 0x8d, 0x01, 0x02, 0x04, 0x08, 0x10, 0x20, 0x40, 0x80, 0x1b, 0x36 ]

/-- Modelled from the spec: the header constant `AES_KEY_SIZE_128` (the header
declaring it is not part of the sources); a 128 bit key has 16 bytes. -/
def AES_KEY_SIZE_128 : Nat := 16

/-- Modelled from the spec: the header constant `AES_KEY_SIZE_192`; a 192 bit
key has 24 bytes. -/
def AES_KEY_SIZE_192 : Nat := 24

/-- Modelled from the spec: the header constant `AES_KEY_SIZE_256`; a 256 bit
key has 32 bytes. -/
def AES_KEY_SIZE_256 : Nat := 32

/-- Modelled from the spec: the header constant `AES_BLOCK_SIZE`; a block is a
fixed 16-byte unit. -/
def AES_BLOCK_SIZE : Nat := 16

/-- Modelled from the spec: the number of bytes of the `RoundKey` array of
`AesContext`, enough for the `4 * (14 + 1)` words of the largest schedule. -/
def AES_ROUND_KEY_BYTES : Nat := 240

/-- Modelled from the spec: the type `AesContext` (its header is not part of
the sources): the round key schedule and the two sizes that `KeyExpansion`,
`AesEncryptInPlace` and `AesDecryptInPlace` read from it. -/
structure AesContext where
  RoundKey : List Nat
  NumberOfRounds : Nat
  KeySizeInWords : Nat
deriving DecidableEq, Repr

/-! ## Internal functions of CryptLib_Aes.c -/

/-- Read `State->state[i][j]`. -/
def stGet (State : List Nat) (i j : Nat) : Nat := State.getD (4 * i + j) 0

/-- Write `State->state[i][j] = v`. -/
def stSet (State : List Nat) (i j v : Nat) : List Nat := State.set (4 * i + j) v

/-- The body of the second loop of `KeyExpansion` for word index `i`. -/
def KeyExpansionStep (KeySizeInWords : Nat) (RoundKey : List Nat) (i : Nat) : List Nat :=
  let temp0 := RoundKey.getD ((i - 1) * 4 + 0) 0
  let temp1 := RoundKey.getD ((i - 1) * 4 + 1) 0
  let temp2 := RoundKey.getD ((i - 1) * 4 + 2) 0
  let temp3 := RoundKey.getD ((i - 1) * 4 + 3) 0
  let temp : Nat × Nat × Nat × Nat :=
    if 0 = i % KeySizeInWords then
      (SBOX.getD temp1 0 ^^^ RCON.getD (i / KeySizeInWords) 0,
        SBOX.getD temp2 0, SBOX.getD temp3 0, SBOX.getD temp0 0)
    else (temp0, temp1, temp2, temp3)
  let temp : Nat × Nat × Nat × Nat :=
    if AES_KEY_SIZE_256 / 4 = KeySizeInWords then
      if 4 = i % KeySizeInWords then
        (SBOX.getD temp.1 0, SBOX.getD temp.2.1 0, SBOX.getD temp.2.2.1 0, SBOX.getD temp.2.2.2 0)
      else temp
    else temp
  let RoundKey := RoundKey.set (i * 4 + 0) (RoundKey.getD ((i - KeySizeInWords) * 4 + 0) 0 ^^^ temp.1)
  let RoundKey := RoundKey.set (i * 4 + 1) (RoundKey.getD ((i - KeySizeInWords) * 4 + 1) 0 ^^^ temp.2.1)
  let RoundKey := RoundKey.set (i * 4 + 2) (RoundKey.getD ((i - KeySizeInWords) * 4 + 2) 0 ^^^ temp.2.2.1)
  RoundKey.set (i * 4 + 3) (RoundKey.getD ((i - KeySizeInWords) * 4 + 3) 0 ^^^ temp.2.2.2)

/-- The body of the first loop of `KeyExpansion`: copy key word `i`. -/
def KeyCopyStep (Key : List Nat) (RoundKey : List Nat) (i : Nat) : List Nat :=
  let RoundKey := RoundKey.set (i * 4 + 0) (Key.getD (i * 4 + 0) 0)
  let RoundKey := RoundKey.set (i * 4 + 1) (Key.getD (i * 4 + 1) 0)
  let RoundKey := RoundKey.set (i * 4 + 2) (Key.getD (i * 4 + 2) 0)
  RoundKey.set (i * 4 + 3) (Key.getD (i * 4 + 3) 0)

/-- `KeyExpansion`: produces the `Nb (Nr + 1)` round keys from the key. -/
def KeyExpansion (Key : List Nat) (Context : AesContext) : AesContext :=
  let RoundKey := (List.range Context.KeySizeInWords).foldl (KeyCopyStep Key) Context.RoundKey
  let RoundKey :=
    (List.range' Context.KeySizeInWords
        (4 * (Context.NumberOfRounds + 1) - Context.KeySizeInWords)).foldl
      (KeyExpansionStep Context.KeySizeInWords) RoundKey
  { Context with RoundKey := RoundKey }

/-- `AddRoundKey`: XOR round key `Round` onto the state. -/
def AddRoundKey (Round : Nat) (Context : AesContext) (State : List Nat) : List Nat :=
  [0, 1, 2, 3].foldl (fun State i =>
    [0, 1, 2, 3].foldl (fun State j =>
      stSet State i j (stGet State i j ^^^ Context.RoundKey.getD ((Round * 4 * 4) + (i * 4) + j) 0))
      State) State

/-- `SubBytes`: substitute every byte of the state through `SBOX`. -/
def SubBytes (State : List Nat) : List Nat :=
  [0, 1, 2, 3].foldl (fun State i =>
    [0, 1, 2, 3].foldl (fun State j => stSet State j i (SBOX.getD (stGet State j i) 0)) State) State

/-- `ShiftRows`: the sequence of assignments of the C function. -/
def ShiftRows (State : List Nat) : List Nat :=
  let temp := stGet State 0 1
  let State := stSet State 0 1 (stGet State 1 1)
  let State := stSet State 1 1 (stGet State 2 1)
  let State := stSet State 2 1 (stGet State 3 1)
  let State := stSet State 3 1 temp
  let temp := stGet State 0 2
  let State := stSet State 0 2 (stGet State 2 2)
  let State := stSet State 2 2 temp
  let temp := stGet State 1 2
  let State := stSet State 1 2 (stGet State 3 2)
  let State := stSet State 3 2 temp
  let temp := stGet State 0 3
  let State := stSet State 0 3 (stGet State 3 3)
  let State := stSet State 3 3 (stGet State 2 3)
  let State := stSet State 2 3 (stGet State 1 3)
  stSet State 1 3 temp

/-- `xtime`: `(x<<1) ^ (((x>>7) & 1) * 0x1b)` truncated to `uint8_t`. -/
def xtime (x : Nat) : Nat := ((x <<< 1) ^^^ (((x >>> 7) &&& 1) * 0x1b)) % 256

/-- `MixColumns`: the loop body of the C function applied to `i = 0..3`. -/
def MixColumns (State : List Nat) : List Nat :=
  [0, 1, 2, 3].foldl (fun State i =>
    let t := stGet State i 0
    let Tmp := stGet State i 0 ^^^ stGet State i 1 ^^^ stGet State i 2 ^^^ stGet State i 3
    let Tm := stGet State i 0 ^^^ stGet State i 1
    let Tm := xtime Tm
    let State := stSet State i 0 (stGet State i 0 ^^^ (Tm ^^^ Tmp))
    let Tm := stGet State i 1 ^^^ stGet State i 2
    let Tm := xtime Tm
    let State := stSet State i 1 (stGet State i 1 ^^^ (Tm ^^^ Tmp))
    let Tm := stGet State i 2 ^^^ stGet State i 3
    let Tm := xtime Tm
    let State := stSet State i 2 (stGet State i 2 ^^^ (Tm ^^^ Tmp))
    let Tm := stGet State i 3 ^^^ t
    let Tm := xtime Tm
    stSet State i 3 (stGet State i 3 ^^^ (Tm ^^^ Tmp))) State

/-- The macro `Multiply(x, y)`: the five-term sum gated by the bits of `y`. -/
def Multiply (x y : Nat) : Nat :=
  ((y &&& 1) * x) ^^^
  (((y >>> 1) &&& 1) * xtime x) ^^^
  (((y >>> 2) &&& 1) * xtime (xtime x)) ^^^
  (((y >>> 3) &&& 1) * xtime (xtime (xtime x))) ^^^
  (((y >>> 4) &&& 1) * xtime (xtime (xtime (xtime x))))

/-- `InvMixColumns`: the loop body of the C function applied to `i = 0..3`. -/
def InvMixColumns (State : List Nat) : List Nat :=
  [0, 1, 2, 3].foldl (fun State i =>
    let a := stGet State i 0
    let b := stGet State i 1
    let c := stGet State i 2
    let d := stGet State i 3
    let State := stSet State i 0
      (Multiply a 0x0e ^^^ Multiply b 0x0b ^^^ Multiply c 0x0d ^^^ Multiply d 0x09)
    let State := stSet State i 1
      (Multiply a 0x09 ^^^ Multiply b 0x0e ^^^ Multiply c 0x0b ^^^ Multiply d 0x0d)
    let State := stSet State i 2
      (Multiply a 0x0d ^^^ Multiply b 0x09 ^^^ Multiply c 0x0e ^^^ Multiply d 0x0b)
    stSet State i 3
      (Multiply a 0x0b ^^^ Multiply b 0x0d ^^^ Multiply c 0x09 ^^^ Multiply d 0x0e)) State

/-- `InvSubBytes`: substitute every byte of the state through `RSBOX`. -/
def InvSubBytes (State : List Nat) : List Nat :=
  [0, 1, 2, 3].foldl (fun State i =>
    [0, 1, 2, 3].foldl (fun State j => stSet State j i (RSBOX.getD (stGet State j i) 0)) State) State

/-- `InvShiftRows`: the sequence of assignments of the C function. -/
def InvShiftRows (State : List Nat) : List Nat :=
  let temp := stGet State 3 1
  let State := stSet State 3 1 (stGet State 2 1)
  let State := stSet State 2 1 (stGet State 1 1)
  let State := stSet State 1 1 (stGet State 0 1)
  let State := stSet State 0 1 temp
  let temp := stGet State 0 2
  let State := stSet State 0 2 (stGet State 2 2)
  let State := stSet State 2 2 temp
  let temp := stGet State 1 2
  let State := stSet State 1 2 (stGet State 3 2)
  let State := stSet State 3 2 temp
  let temp := stGet State 0 3
  let State := stSet State 0 3 (stGet State 1 3)
  let State := stSet State 1 3 (stGet State 2 3)
  let State := stSet State 2 3 (stGet State 3 3)
  stSet State 3 3 temp

/-! ## Exported functions of CryptLib_Aes.c -/

/-- The context after `memset( Context, 0, sizeof(*Context) )`. -/
def zeroContext : AesContext :=
  { RoundKey := List.replicate AES_ROUND_KEY_BYTES 0, NumberOfRounds := 0, KeySizeInWords := 0 }

/-- `AesInitialise128`. -/
def AesInitialise128 (Key : List Nat) : AesContext :=
  KeyExpansion Key { zeroContext with KeySizeInWords := AES_KEY_SIZE_128 / 4, NumberOfRounds := 10 }

/-- `AesInitialise192`. -/
def AesInitialise192 (Key : List Nat) : AesContext :=
  KeyExpansion Key { zeroContext with KeySizeInWords := AES_KEY_SIZE_192 / 4, NumberOfRounds := 12 }

/-- `AesInitialise256`. -/
def AesInitialise256 (Key : List Nat) : AesContext :=
  KeyExpansion Key { zeroContext with KeySizeInWords := AES_KEY_SIZE_256 / 4, NumberOfRounds := 14 }

/-- One iteration of the round loop of `AesEncryptInPlace`. -/
def EncryptRound (Context : AesContext) (Block : List Nat) (round : Nat) : List Nat :=
  AddRoundKey round Context (MixColumns (ShiftRows (SubBytes Block)))

/-- `AesEncryptInPlace`: the rounds `1 .. NumberOfRounds - 1` run in the loop,
the last round has no `MixColumns`. -/
def AesEncryptInPlace (Context : AesContext) (Block : List Nat) : List Nat :=
  let Block := AddRoundKey 0 Context Block
  let Block := (List.range' 1 (Context.NumberOfRounds - 1)).foldl (EncryptRound Context) Block
  let Block := SubBytes Block
  let Block := ShiftRows Block
  AddRoundKey Context.NumberOfRounds Context Block

/-- One iteration of the round loop of `AesDecryptInPlace`. -/
def DecryptRound (Context : AesContext) (Block : List Nat) (round : Nat) : List Nat :=
  InvMixColumns (AddRoundKey round Context (InvSubBytes (InvShiftRows Block)))

/-- `AesDecryptInPlace`: the loop runs `round = NumberOfRounds - 1` down to 1
(`NumberOfRounds` is 10, 12 or 14 in an initialised context). -/
def AesDecryptInPlace (Context : AesContext) (Block : List Nat) : List Nat :=
  let Block := AddRoundKey Context.NumberOfRounds Context Block
  let Block :=
    (List.range' 1 (Context.NumberOfRounds - 1)).reverse.foldl (DecryptRound Context) Block
  let Block := InvShiftRows Block
  let Block := InvSubBytes Block
  AddRoundKey 0 Context Block

/-- `memcpy( Dest + d, Src + s, n )`: copies `n` bytes. -/
def memcpy (Dest : List Nat) (d : Nat) (Src : List Nat) (s : Nat) (n : Nat) : List Nat :=
  (List.range n).foldl (fun Dest i => Dest.set (d + i) (Src.getD (s + i) 0)) Dest

/-- `AesEncrypt`: `memcpy( Output, Input, AES_BLOCK_SIZE )`, then encrypt in
place; the result is the 16-byte block left in `Output`. -/
def AesEncrypt (Context : AesContext) (Input : List Nat) : List Nat :=
  AesEncryptInPlace Context (memcpy (List.replicate AES_BLOCK_SIZE 0) 0 Input 0 AES_BLOCK_SIZE)

/-- `AesDecrypt`: `memcpy( Output, Input, AES_BLOCK_SIZE )`, then decrypt in
place; the result is the 16-byte block left in `Output`. -/
def AesDecrypt (Context : AesContext) (Input : List Nat) : List Nat :=
  AesDecryptInPlace Context (memcpy (List.replicate AES_BLOCK_SIZE 0) 0 Input 0 AES_BLOCK_SIZE)

/-! ## Well-formedness of byte buffers -/

/-- Every entry of the list is a byte. -/
def Bytes (l : List Nat) : Prop := ∀ x ∈ l, x < 256

instance (l : List Nat) : Decidable (Bytes l) := by
  unfold Bytes; infer_instance

/-- A well-formed AES block: 16 entries, each a byte. -/
def IsBlock (s : List Nat) : Prop := s.length = 16 ∧ Bytes s

instance (s : List Nat) : Decidable (IsBlock s) := by
  unfold IsBlock; infer_instance

/-! ## Helpers shared by the mode files -/

/-- The macro `MIN( x, y )`. -/
def MIN (x y : Nat) : Nat := if x < y then x else y

/-- Subtraction of two `uint32_t` values, wrapping modulo `2^32`. -/
def sub32 (a b : Nat) : Nat := (a + 2 ^ 32 - b % 2 ^ 32) % 2 ^ 32

/-- `memset( Buffer, 0, Size )`. -/
def memset0 (Buffer : List Nat) (Size : Nat) : List Nat :=
  (List.range Size).foldl (fun Buffer i => Buffer.set i 0) Buffer

/-- The macro `STORE64H( x, y )` with `y = Dest + d`: stores the 64 bit value
`x` most significant byte first. -/
def STORE64H (x : Nat) (Dest : List Nat) (d : Nat) : List Nat :=
  let Dest := Dest.set (d + 0) ((x >>> 56) &&& 255)
  let Dest := Dest.set (d + 1) ((x >>> 48) &&& 255)
  let Dest := Dest.set (d + 2) ((x >>> 40) &&& 255)
  let Dest := Dest.set (d + 3) ((x >>> 32) &&& 255)
  let Dest := Dest.set (d + 4) ((x >>> 24) &&& 255)
  let Dest := Dest.set (d + 5) ((x >>> 16) &&& 255)
  let Dest := Dest.set (d + 6) ((x >>> 8) &&& 255)
  Dest.set (d + 7) (x &&& 255)

/-- `XorBuffers( SourceBuffer1 + o1, SourceBuffer2 + o2, DestinationBuffer + od, Amount )`:
for `i < Amount` the destination byte `i` becomes the XOR of the two source
bytes `i`. A call whose first source and destination are the same C buffer is
modelled by passing the same list twice: byte `i` is read before it is written. -/
def XorBuffers (SourceBuffer1 : List Nat) (o1 : Nat) (SourceBuffer2 : List Nat) (o2 : Nat)
    (DestinationBuffer : List Nat) (od : Nat) (Amount : Nat) : List Nat :=
  (List.range Amount).foldl
    (fun Dest i => Dest.set (od + i) (SourceBuffer1.getD (o1 + i) 0 ^^^ SourceBuffer2.getD (o2 + i) 0))
    DestinationBuffer

/-! ## WjCryptLib_AesCtr.c -/

/-- Modelled from the spec: the header constant `AES_CTR_IV_SIZE` (the CTR
header is not part of the sources); the CTR IV has 8 bytes. -/
def AES_CTR_IV_SIZE : Nat := 8

/-- Modelled from the spec: the type `AesCtrContext` (the CTR header is not
part of the sources): the AES context, the 8-byte IV, the 64 bit stream byte
index, the 64 bit index of the cached keystream block and that block. -/
structure AesCtrContext where
  Aes : AesContext
  IV : List Nat
  StreamIndex : Nat
  CurrentCipherBlockIndex : Nat
  CurrentCipherBlock : List Nat
deriving DecidableEq, Repr

/-- `CreateCurrentCipherBlock`: IV, then the block index in big endian form,
then one AES encryption in place. -/
def CreateCurrentCipherBlock (Context : AesCtrContext) : AesCtrContext :=
  let blk := memcpy Context.CurrentCipherBlock 0 Context.IV 0 AES_CTR_IV_SIZE
  let blk := STORE64H Context.CurrentCipherBlockIndex blk AES_CTR_IV_SIZE
  { Context with CurrentCipherBlock := AesEncryptInPlace Context.Aes blk }

/-- `AesCtrInitialise`. The context is an output parameter; its arrays are
taken zero-filled before the call. -/
def AesCtrInitialise (InitialisedAesContext : AesContext) (IV : List Nat) : AesCtrContext :=
  CreateCurrentCipherBlock
    { Aes := InitialisedAesContext
      IV := memcpy (List.replicate AES_CTR_IV_SIZE 0) 0 IV 0 AES_CTR_IV_SIZE
      StreamIndex := 0
      CurrentCipherBlockIndex := 0
      CurrentCipherBlock := List.replicate AES_BLOCK_SIZE 0 }

/-- `AesCtrSetStreamIndex`. -/
def AesCtrSetStreamIndex (Context : AesCtrContext) (StreamIndex : Nat) : AesCtrContext :=
  let blockIndex := StreamIndex / AES_BLOCK_SIZE
  let Context := { Context with StreamIndex := StreamIndex }
  if blockIndex ≠ Context.CurrentCipherBlockIndex then
    CreateCurrentCipherBlock { Context with CurrentCipherBlockIndex := blockIndex }
  else Context

/-- The variables of `AesCtrXor` that the loop updates. -/
structure CtrLoopVars where
  OutBuffer : List Nat
  preCipherBlock : List Nat
  encCipherBlock : List Nat
  cipherBlockIndex : Nat
deriving DecidableEq, Repr

/-- The body of the `for` loop of `AesCtrXor` for loop counter `i`. The offset
computation is reduced modulo `2^32` and the block index modulo `2^64`. -/
def AesCtrXorBody (Aes : AesContext) (InBuffer : List Nat) (Size : Nat)
    (loopStartingCipherBlockIndex loopStartingOutputOffset : Nat)
    (v : CtrLoopVars) (i : Nat) : CtrLoopVars :=
  let outputOffset := (loopStartingOutputOffset + (AES_BLOCK_SIZE * i)) % 2 ^ 32
  let amountLeft := sub32 Size outputOffset
  let chunkSize := MIN amountLeft AES_BLOCK_SIZE
  let cipherBlockIndex := (loopStartingCipherBlockIndex + i) % 2 ^ 64
  let preCipherBlock := STORE64H cipherBlockIndex v.preCipherBlock AES_CTR_IV_SIZE
  let encCipherBlock := AesEncrypt Aes preCipherBlock
  { OutBuffer := XorBuffers InBuffer outputOffset encCipherBlock 0 v.OutBuffer outputOffset chunkSize
    preCipherBlock := preCipherBlock
    encCipherBlock := encCipherBlock
    cipherBlockIndex := cipherBlockIndex }

/-- `AesCtrXor` (sequential build): returns the updated context and the
updated output buffer. The local arrays start zero-filled. -/
def AesCtrXor (Context : AesCtrContext) (InBuffer OutBuffer : List Nat) (Size : Nat) :
    AesCtrContext × List Nat :=
  let amountAvailableInBlock := (AES_BLOCK_SIZE - (Context.StreamIndex % AES_BLOCK_SIZE)) % 2 ^ 32
  let firstChunkSize := MIN amountAvailableInBlock Size
  let OutBuffer := XorBuffers InBuffer 0 Context.CurrentCipherBlock
    (sub32 AES_BLOCK_SIZE amountAvailableInBlock) OutBuffer 0 firstChunkSize
  let numIterations := ((sub32 Size firstChunkSize + AES_BLOCK_SIZE) % 2 ^ 32) / AES_BLOCK_SIZE
  let loopStartingCipherBlockIndex := (Context.CurrentCipherBlockIndex + 1) % 2 ^ 64
  let loopStartingOutputOffset := firstChunkSize
  let preCipherBlock := memcpy (List.replicate AES_KEY_SIZE_128 0) 0 Context.IV 0 AES_CTR_IV_SIZE
  let v := (List.range numIterations).foldl
    (AesCtrXorBody Context.Aes InBuffer Size loopStartingCipherBlockIndex loopStartingOutputOffset)
    { OutBuffer := OutBuffer
      preCipherBlock := preCipherBlock
      encCipherBlock := List.replicate AES_KEY_SIZE_128 0
      cipherBlockIndex := 0 }
  let Context := { Context with StreamIndex := (Context.StreamIndex + Size) % 2 ^ 64 }
  let Context :=
    if numIterations > 0 then
      { Context with
        CurrentCipherBlockIndex := v.cipherBlockIndex
        CurrentCipherBlock := memcpy Context.CurrentCipherBlock 0 v.encCipherBlock 0 AES_BLOCK_SIZE }
    else Context
  (Context, v.OutBuffer)

/-- `AesCtrOutput`: zero the buffer, then XOR the stream onto it in place. -/
def AesCtrOutput (Context : AesCtrContext) (Buffer : List Nat) (Size : Nat) :
    AesCtrContext × List Nat :=
  let Buffer := memset0 Buffer Size
  AesCtrXor Context Buffer Buffer Size

/-! ## WjCryptLib_AesOfb.c -/

/-- Modelled from the spec: the header constant `AES_OFB_IV_SIZE` (the OFB
header is not part of the sources); the OFB IV has 16 bytes. -/
def AES_OFB_IV_SIZE : Nat := 16

/-- Modelled from the spec: the type `AesOfbContext` (the OFB header is not
part of the sources): the AES context, the current keystream block and the
32 bit index within it. -/
structure AesOfbContext where
  Aes : AesContext
  CurrentCipherBlock : List Nat
  IndexWithinCipherBlock : Nat
deriving DecidableEq, Repr

/-- `AesOfbInitialise`. The context is an output parameter; its block is taken
zero-filled before the call. -/
def AesOfbInitialise (InitialisedAesContext : AesContext) (IV : List Nat) : AesOfbContext :=
  let blk := memcpy (List.replicate AES_BLOCK_SIZE 0) 0 IV 0 AES_BLOCK_SIZE
  { Aes := InitialisedAesContext
    CurrentCipherBlock := AesEncryptInPlace InitialisedAesContext blk
    IndexWithinCipherBlock := 0 }

/-- The variables of `AesOfbXor` that the `while` loop updates. -/
structure OfbLoopVars where
  Context : AesOfbContext
  OutBuffer : List Nat
  amountLeft : Nat
  outputOffset : Nat
  chunkSize : Nat
deriving DecidableEq, Repr

/-- The body of the `while` loop of `AesOfbXor`. -/
def AesOfbXorBody (InBuffer : List Nat) (v : OfbLoopVars) : OfbLoopVars :=
  let CurrentCipherBlock := AesEncryptInPlace v.Context.Aes v.Context.CurrentCipherBlock
  let chunkSize := MIN v.amountLeft AES_BLOCK_SIZE
  { Context :=
      { v.Context with
        CurrentCipherBlock := CurrentCipherBlock
        IndexWithinCipherBlock := chunkSize }
    OutBuffer := XorBuffers InBuffer v.outputOffset CurrentCipherBlock 0 v.OutBuffer
      v.outputOffset chunkSize
    amountLeft := sub32 v.amountLeft chunkSize
    outputOffset := (v.outputOffset + chunkSize) % 2 ^ 32
    chunkSize := chunkSize }

/-- The `while( amountLeft > 0 )` loop of `AesOfbXor`, run for at most `fuel`
iterations. -/
def AesOfbXorLoop (InBuffer : List Nat) : Nat → OfbLoopVars → OfbLoopVars
  | 0, v => v
  | fuel + 1, v =>
    if v.amountLeft > 0 then AesOfbXorLoop InBuffer fuel (AesOfbXorBody InBuffer v) else v

/-- `AesOfbXor`: returns the updated context and the updated output buffer.
Every iteration of the loop lowers `amountLeft`, so `amountLeft` iterations
are enough fuel. -/
def AesOfbXor (Context : AesOfbContext) (InBuffer OutBuffer : List Nat) (Size : Nat) :
    AesOfbContext × List Nat :=
  let amountLeft := Size
  let outputOffset := 0
  let amountAvailableInBlock := sub32 AES_BLOCK_SIZE Context.IndexWithinCipherBlock
  let chunkSize := MIN amountAvailableInBlock amountLeft
  let OutBuffer := XorBuffers InBuffer 0 Context.CurrentCipherBlock
    (sub32 AES_BLOCK_SIZE amountAvailableInBlock) OutBuffer 0 chunkSize
  let amountLeft := sub32 amountLeft chunkSize
  let outputOffset := (outputOffset + chunkSize) % 2 ^ 32
  let Context :=
    { Context with
      IndexWithinCipherBlock := (Context.IndexWithinCipherBlock + chunkSize) % 2 ^ 32 }
  let v := AesOfbXorLoop InBuffer amountLeft
    { Context := Context
      OutBuffer := OutBuffer
      amountLeft := amountLeft
      outputOffset := outputOffset
      chunkSize := chunkSize }
  let Context :=
    if AES_BLOCK_SIZE = v.chunkSize then
      { v.Context with
        CurrentCipherBlock := AesEncryptInPlace v.Context.Aes v.Context.CurrentCipherBlock
        IndexWithinCipherBlock := 0 }
    else v.Context
  (Context, v.OutBuffer)

/-- `AesOfbOutput`: zero the buffer, then XOR the stream onto it in place. -/
def AesOfbOutput (Context : AesOfbContext) (Buffer : List Nat) (Size : Nat) :
    AesOfbContext × List Nat :=
  let Buffer := memset0 Buffer Size
  AesOfbXor Context Buffer Buffer Size

/-! ## WjCryptLib_AesCbc.c -/

/-- `AES_CBC_IV_SIZE` of WjCryptLib_AesCbc.h. -/
def AES_CBC_IV_SIZE : Nat := AES_BLOCK_SIZE

/-- `AesCbcContext` of WjCryptLib_AesCbc.h. -/
structure AesCbcContext where
  Aes : AesContext
  PreviousCipherBlock : List Nat
deriving DecidableEq, Repr

/-- `XorAesBlock( Block1, Block2 + o2 )`: XORs the 16 bytes at `Block2 + o2`
onto `Block1 + o1`. -/
def XorAesBlock (Block1 : List Nat) (o1 : Nat) (Block2 : List Nat) (o2 : Nat) : List Nat :=
  (List.range AES_BLOCK_SIZE).foldl
    (fun Block1 i => Block1.set (o1 + i) (Block1.getD (o1 + i) 0 ^^^ Block2.getD (o2 + i) 0))
    Block1

/-- `AesCbcInitialise`. The context is an output parameter; its block is taken
zero-filled before the call. -/
def AesCbcInitialise (InitialisedAesContext : AesContext) (IV : List Nat) : AesCbcContext :=
  { Aes := InitialisedAesContext
    PreviousCipherBlock := memcpy (List.replicate AES_BLOCK_SIZE 0) 0 IV 0 AES_BLOCK_SIZE }

/-- The variables of `AesCbcEncrypt` / `AesCbcDecrypt` that the loop updates. -/
structure CbcLoopVars where
  Context : AesCbcContext
  OutBuffer : List Nat
  offset : Nat
deriving DecidableEq, Repr

/-- The body of the loop of `AesCbcEncrypt`. -/
def AesCbcEncryptBody (InBuffer : List Nat) (v : CbcLoopVars) (_i : Nat) : CbcLoopVars :=
  let Previous := XorAesBlock v.Context.PreviousCipherBlock 0 InBuffer v.offset
  let Previous := AesEncryptInPlace v.Context.Aes Previous
  { Context := { v.Context with PreviousCipherBlock := Previous }
    OutBuffer := memcpy v.OutBuffer v.offset Previous 0 AES_BLOCK_SIZE
    offset := (v.offset + AES_BLOCK_SIZE) % 2 ^ 32 }

/-- `AesCbcEncrypt`: returns the return code, the updated context and the
updated output buffer. -/
def AesCbcEncrypt (Context : AesCbcContext) (InBuffer OutBuffer : List Nat) (Size : Nat) :
    Int × AesCbcContext × List Nat :=
  let numBlocks := Size / AES_BLOCK_SIZE
  if 0 ≠ Size % AES_BLOCK_SIZE then (-1, Context, OutBuffer)
  else
    let v := (List.range numBlocks).foldl (AesCbcEncryptBody InBuffer)
      { Context := Context, OutBuffer := OutBuffer, offset := 0 }
    (0, v.Context, v.OutBuffer)

/-- The body of the loop of `AesCbcDecrypt`. When the C call decrypts in place
the ciphertext block is read before the output block is written, so the input
is a list of its own. -/
def AesCbcDecryptBody (InBuffer : List Nat) (v : CbcLoopVars) (_i : Nat) : CbcLoopVars :=
  let previousCipherBlock :=
    memcpy (List.replicate AES_BLOCK_SIZE 0) 0 v.Context.PreviousCipherBlock 0 AES_BLOCK_SIZE
  let Previous := memcpy v.Context.PreviousCipherBlock 0 InBuffer v.offset AES_BLOCK_SIZE
  let OutBuffer := memcpy v.OutBuffer v.offset (AesDecrypt v.Context.Aes Previous) 0 AES_BLOCK_SIZE
  let OutBuffer := XorAesBlock OutBuffer v.offset previousCipherBlock 0
  { Context := { v.Context with PreviousCipherBlock := Previous }
    OutBuffer := OutBuffer
    offset := (v.offset + AES_BLOCK_SIZE) % 2 ^ 32 }

/-- `AesCbcDecrypt`: returns the return code, the updated context and the
updated output buffer. -/
def AesCbcDecrypt (Context : AesCbcContext) (InBuffer OutBuffer : List Nat) (Size : Nat) :
    Int × AesCbcContext × List Nat :=
  let numBlocks := Size / AES_BLOCK_SIZE
  if 0 ≠ Size % AES_BLOCK_SIZE then (-1, Context, OutBuffer)
  else
    let v := (List.range numBlocks).foldl (AesCbcDecryptBody InBuffer)
      { Context := Context, OutBuffer := OutBuffer, offset := 0 }
    (0, v.Context, v.OutBuffer)

/-! ## CryptLib_AesCtr.c

The earlier version of the CTR module. Its `CreateCurrentCipherBlock`,
`XorBuffers`, `AesCtrInitialise` and `AesCtrSetStreamIndex` have the same bodies
as in WjCryptLib_AesCtr.c (the order of the arguments apart) and share the
definitions above; the functions that differ are embedded in the namespace
`Legacy`. -/

namespace Legacy

/-- The variables of `AesCtrXor` (CryptLib_AesCtr.c) that the `while` loop
updates. -/
structure CtrLoopVars where
  Context : AesCtrContext
  OutBuffer : List Nat
  amountLeft : Nat
  outputOffset : Nat
  chunkSize : Nat
deriving DecidableEq, Repr

/-- The body of the `while` loop of `AesCtrXor` (CryptLib_AesCtr.c). -/
def AesCtrXorBody (InBuffer : List Nat) (v : CtrLoopVars) : CtrLoopVars :=
  let Context := CreateCurrentCipherBlock
    { v.Context with
      CurrentCipherBlockIndex := (v.Context.CurrentCipherBlockIndex + 1) % 2 ^ 64 }
  let chunkSize := MIN v.amountLeft AES_BLOCK_SIZE
  { Context := Context
    OutBuffer := XorBuffers InBuffer v.outputOffset Context.CurrentCipherBlock 0 v.OutBuffer
      v.outputOffset chunkSize
    amountLeft := sub32 v.amountLeft chunkSize
    outputOffset := (v.outputOffset + chunkSize) % 2 ^ 32
    chunkSize := chunkSize }

/-- The `while( amountLeft > 0 )` loop of `AesCtrXor` (CryptLib_AesCtr.c), run
for at most `fuel` iterations. -/
def AesCtrXorLoop (InBuffer : List Nat) : Nat → CtrLoopVars → CtrLoopVars
  | 0, v => v
  | fuel + 1, v =>
    if v.amountLeft > 0 then AesCtrXorLoop InBuffer fuel (AesCtrXorBody InBuffer v) else v

/-- `AesCtrXor` of CryptLib_AesCtr.c: returns the updated context and the
updated output buffer. Every iteration of the loop lowers `amountLeft`, so
`amountLeft` iterations are enough fuel. -/
def AesCtrXor (Context : AesCtrContext) (InBuffer OutBuffer : List Nat) (Size : Nat) :
    AesCtrContext × List Nat :=
  let amountLeft := Size
  let outputOffset := 0
  let amountAvailableInBlock := (AES_BLOCK_SIZE - (Context.StreamIndex % AES_BLOCK_SIZE)) % 2 ^ 32
  let chunkSize := MIN amountAvailableInBlock amountLeft
  let OutBuffer := XorBuffers InBuffer 0 Context.CurrentCipherBlock
    (sub32 AES_BLOCK_SIZE amountAvailableInBlock) OutBuffer 0 chunkSize
  let amountLeft := sub32 amountLeft chunkSize
  let outputOffset := (outputOffset + chunkSize) % 2 ^ 32
  let v := AesCtrXorLoop InBuffer amountLeft
    { Context := Context
      OutBuffer := OutBuffer
      amountLeft := amountLeft
      outputOffset := outputOffset
      chunkSize := chunkSize }
  let Context := { v.Context with StreamIndex := (v.Context.StreamIndex + Size) % 2 ^ 64 }
  let Context :=
    if AES_BLOCK_SIZE = v.chunkSize then
      CreateCurrentCipherBlock
        { Context with CurrentCipherBlockIndex := (Context.CurrentCipherBlockIndex + 1) % 2 ^ 64 }
    else Context
  (Context, v.OutBuffer)

/-- `AesCtrOutput` of CryptLib_AesCtr.c: zero the buffer, then XOR the stream
onto it in place. -/
def AesCtrOutput (Context : AesCtrContext) (Buffer : List Nat) (Size : Nat) :
    AesCtrContext × List Nat :=
  let Buffer := memset0 Buffer Size
  AesCtrXor Context Buffer Buffer Size

/-- `AesCtrInitialiseWithKey` of CryptLib_AesCtr.c: returns the return code and
the context, which is left as it was when the key size is refused. -/
def AesCtrInitialiseWithKey (Key : List Nat) (KeySize : Nat) (IV : List Nat)
    (Context : AesCtrContext) : Int × AesCtrContext :=
  if KeySize = AES_KEY_SIZE_128 then (0, AesCtrInitialise (AesInitialise128 Key) IV)
  else if KeySize = AES_KEY_SIZE_192 then (0, AesCtrInitialise (AesInitialise192 Key) IV)
  else if KeySize = AES_KEY_SIZE_256 then (0, AesCtrInitialise (AesInitialise256 Key) IV)
  else (-1, Context)

/-- `AesCtrXorWithKey` of CryptLib_AesCtr.c: returns the return code and the
output buffer. The local context starts zero-filled. -/
def AesCtrXorWithKey (Key : List Nat) (KeySize : Nat) (IV InBuffer OutBuffer : List Nat)
    (BufferSize : Nat) : Int × List Nat :=
  let r := AesCtrInitialiseWithKey Key KeySize IV
    { Aes := zeroContext
      IV := List.replicate AES_CTR_IV_SIZE 0
      StreamIndex := 0
      CurrentCipherBlockIndex := 0
      CurrentCipherBlock := List.replicate AES_BLOCK_SIZE 0 }
  let error := r.1
  if 0 = error then (error, (AesCtrXor r.2 InBuffer OutBuffer BufferSize).2)
  else (error, OutBuffer)

end Legacy

/-! ## WjCryptLib_Rc4.c -/

/-- Modelled from the spec: the type `Rc4Context` (the RC4 header is not part of
the sources), with the fields the code uses: the indices `i` and `j` and the
permutation `S` of 256 bytes. -/
structure Rc4Context where
  i : Nat
  j : Nat
  S : List Nat
deriving DecidableEq, Repr

/-- The macro `SwapBytes( S[a], S[b] )`. -/
def SwapBytes (S : List Nat) (a b : Nat) : List Nat :=
  let temp := S.getD a 0
  let S := S.set a (S.getD b 0)
  S.set b temp

/-- The body of the key schedule loop of `Rc4Initialise`, on the pair of the
permutation and `j`. -/
def Rc4KeyStep (Key : List Nat) (KeySize : Nat) (v : List Nat × Nat) (i : Nat) :
    List Nat × Nat :=
  let j := (v.2 + v.1.getD i 0 + Key.getD (i % KeySize) 0) % 256
  (SwapBytes v.1 i j, j)

/-- The body of the drop loop of `Rc4Initialise`; the fields `i` and `j` stand
for the local variables, which the function stores into the context at the
end. -/
def Rc4DropStep (v : Rc4Context) (_n : Nat) : Rc4Context :=
  let i := (v.i + 1) % 256
  let j := (v.j + v.S.getD i 0) % 256
  { i := i, j := j, S := SwapBytes v.S i j }

/-- `Rc4Initialise`. The context is an output parameter; its array is taken
zero-filled before the call. -/
def Rc4Initialise (Key : List Nat) (KeySize DropN : Nat) : Rc4Context :=
  let S := (List.range 256).foldl (fun S i => S.set i (i % 256)) (List.replicate 256 0)
  let v := (List.range 256).foldl (Rc4KeyStep Key KeySize) (S, 0)
  (List.range DropN).foldl Rc4DropStep { i := 0, j := 0, S := v.1 }

/-- The body of the loop of `Rc4Output` for loop counter `n`. -/
def Rc4OutputStep (v : Rc4Context × List Nat) (n : Nat) : Rc4Context × List Nat :=
  let i := (v.1.i + 1) % 256
  let j := (v.1.j + v.1.S.getD i 0) % 256
  let S := SwapBytes v.1.S i j
  ({ i := i, j := j, S := S }, v.2.set n (S.getD ((S.getD i 0 + S.getD j 0) % 256) 0))

/-- `Rc4Output`: returns the updated context and the updated buffer. -/
def Rc4Output (Context : Rc4Context) (Buffer : List Nat) (Size : Nat) :
    Rc4Context × List Nat :=
  (List.range Size).foldl Rc4OutputStep (Context, Buffer)

/-! ## Values and specification-side definitions used by the theorems -/


/-- The key schedule `AesInitialise128` expands from the all-zero 16-byte key. -/
def zeroKeySchedule128 : AesContext :=
  { RoundKey :=
      [ 0, 0, 0, 0, 0, 0, 0, 0, 0, 0, 0, 0, 0, 0, 0, 0,
      98, 99, 99, 99, 98, 99, 99, 99, 98, 99, 99, 99, 98, 99, 99, 99,
      155, 152, 152, 201, 249, 251, 251, 170, 155, 152, 152, 201, 249, 251, 251, 170,
      144, 151, 52, 80, 105, 108, 207, 250, 242, 244, 87, 51, 11, 15, 172, 153,
      238, 6, 218, 123, 135, 106, 21, 129, 117, 158, 66, 178, 126, 145, 238, 43,
      127, 46, 43, 136, 248, 68, 62, 9, 141, 218, 124, 187, 243, 75, 146, 144,
      236, 97, 75, 133, 20, 37, 117, 140, 153, 255, 9, 55, 106, 180, 155, 167,
      33, 117, 23, 135, 53, 80, 98, 11, 172, 175, 107, 60, 198, 27, 240, 155,
      14, 249, 3, 51, 59, 169, 97, 56, 151, 6, 10, 4, 81, 29, 250, 159,
      177, 212, 216, 226, 138, 125, 185, 218, 29, 123, 179, 222, 76, 102, 73, 65,
      180, 239, 91, 203, 62, 146, 226, 17, 35, 233, 81, 207, 111, 143, 24, 142,
      0, 0, 0, 0, 0, 0, 0, 0, 0, 0, 0, 0, 0, 0, 0, 0,
      0, 0, 0, 0, 0, 0, 0, 0, 0, 0, 0, 0, 0, 0, 0, 0,
      0, 0, 0, 0, 0, 0, 0, 0, 0, 0, 0, 0, 0, 0, 0, 0,
      0, 0, 0, 0, 0, 0, 0, 0, 0, 0, 0, 0, 0, 0, 0, 0 ]
    NumberOfRounds := 10
    KeySizeInWords := 4 }

/-- The 8-byte big-endian encoding of a 64 bit value, most significant byte
first. -/
def bigEndian64 (x : Nat) : List Nat :=
  [(x / 2 ^ 56) % 256, (x / 2 ^ 48) % 256, (x / 2 ^ 40) % 256, (x / 2 ^ 32) % 256,
   (x / 2 ^ 24) % 256, (x / 2 ^ 16) % 256, (x / 2 ^ 8) % 256, x % 256]

/-- CTR keystream block `b`: the AES encryption of the IV followed by the
big-endian encoding of the block counter. -/
def ctrKeystreamBlock (Aes : AesContext) (IV : List Nat) (b : Nat) : List Nat :=
  AesEncryptInPlace Aes (IV ++ bigEndian64 b)

/-- CTR keystream byte `j`: byte `j mod 16` of keystream block `j div 16`. -/
def ctrKeystreamByte (Aes : AesContext) (IV : List Nat) (j : Nat) : Nat :=
  (ctrKeystreamBlock Aes IV (j / 16)).getD (j % 16) 0

/-- The CTR session states reachable from `AesCtrInitialise Aes IV` by calls of
`AesCtrXor`, `AesCtrOutput` and `AesCtrSetStreamIndex` with arguments in the
range of their C types. -/
inductive CtrReachable (Aes : AesContext) (IV : List Nat) : AesCtrContext → Prop
  | init : CtrReachable Aes IV (AesCtrInitialise Aes IV)
  | xor (c : AesCtrContext) (InBuffer OutBuffer : List Nat) (Size : Nat) :
      CtrReachable Aes IV c → Size < 2 ^ 32 →
      CtrReachable Aes IV (AesCtrXor c InBuffer OutBuffer Size).1
  | output (c : AesCtrContext) (Buffer : List Nat) (Size : Nat) :
      CtrReachable Aes IV c → Size < 2 ^ 32 →
      CtrReachable Aes IV (AesCtrOutput c Buffer Size).1
  | seek (c : AesCtrContext) (StreamIndex : Nat) :
      CtrReachable Aes IV c → StreamIndex < 2 ^ 64 →
      CtrReachable Aes IV (AesCtrSetStreamIndex c StreamIndex)

/-- The invariant of CTR sessions: the AES context and the IV are those of the
initialisation, the cached block is the keystream block of the cached index,
and both indices are 64 bit values. -/
structure CtrInv (Aes : AesContext) (IV : List Nat) (c : AesCtrContext) : Prop where
  aes : c.Aes = Aes
  iv : c.IV = IV
  block : c.CurrentCipherBlock = ctrKeystreamBlock Aes IV c.CurrentCipherBlockIndex
  index_lt : c.CurrentCipherBlockIndex < 2 ^ 64
  stream_lt : c.StreamIndex < 2 ^ 64


/-- OFB keystream chain from a block `B`: `B` re-encrypted `j` times. -/
def ofbBlock (Aes : AesContext) (B : List Nat) : Nat → List Nat
  | 0 => B
  | j + 1 => AesEncryptInPlace Aes (ofbBlock Aes B j)

/-- The OFB keystream seen from a session state: byte `t` of the output still
to come when the current block is `B` and `idx` of its bytes are used up. -/
def ofbStreamByte (Aes : AesContext) (B : List Nat) (idx t : Nat) : Nat :=
  (ofbBlock Aes B ((idx + t) / 16)).getD ((idx + t) % 16) 0

/-- The OFB keystream still to come from a session. -/
def ofbStream (c : AesOfbContext) (t : Nat) : Nat :=
  ofbStreamByte c.Aes c.CurrentCipherBlock c.IndexWithinCipherBlock t

/-- The invariant of OFB sessions: a 16-byte block and an index of at most 16. -/
def OfbInv (c : AesOfbContext) : Prop :=
  c.CurrentCipherBlock.length = 16 ∧ c.IndexWithinCipherBlock ≤ 16

/-- A buffer XORed bytewise with a stream. -/
def xorWithStream (S : Nat → Nat) (D : List Nat) : List Nat :=
  (List.range D.length).map (fun k => D.getD k 0 ^^^ S k)

/-- Successive in-place `AesOfbXor` calls on the slices `Ds` of one input, the
context carried over; the results concatenated. -/
def ofbXorChunks (c : AesOfbContext) : List (List Nat) → List Nat
  | [] => []
  | D :: Ds => (AesOfbXor c D D D.length).2 ++ ofbXorChunks (AesOfbXor c D D D.length).1 Ds

/-- Successive `AesOfbOutput` calls filling the buffers `Bs`, the context
carried over; the results concatenated. -/
def ofbOutputChunks (c : AesOfbContext) : List (List Nat) → List Nat
  | [] => []
  | B :: Bs =>
    (AesOfbOutput c B B.length).2 ++ ofbOutputChunks (AesOfbOutput c B B.length).1 Bs

/-! ## Evaluation of the block cipher on explicit blocks

The definitions of this section compute the same values as the embedding of
`AesEncryptInPlace` (proved below) with fewer list traversals; they serve to
evaluate known-answer vectors. -/

/-- `SBOX` packed into one number, entry `x` in bits `8 x .. 8 x + 7`. -/
def sboxPacked : Nat :=
  0x16bb54b00f2d99416842e6bf0d89a18cdf2855cee9871e9b948ed9691198f8e19e1dc186b95735610ef6034866b53e708a8bbd4b1f74dde8c6b4a61c2e2578ba08ae7a65eaf4566ca94ed58d6d37c8e779e4959162acd3c25c2406490a3a32e0db0b5ede14b8ee4688902a22dc4f816073195d643d7ea7c41744975fec130ccdd2f3ff1021dab6bcf5389d928f40a351a89f3c507f02f94585334d43fbaaefd0cf584c4a39becb6a5bb1fc20ed00d153842fe329b3d63b52a05a6e1b1a2c830975b227ebe28012079a059618c323c7041531d871f1e5a534ccf73f362693fdb7c072a49cafa2d4adf04759fa7dc982ca76abd7fe2b670130c56f6bf27b777c63

/-- Entry `x` of the packed table. -/
def fastSbox (x : Nat) : Nat := (sboxPacked >>> (8 * x)) % 256

/-- `AddRoundKey` on an explicit block, the round key read once. -/
def fastAddRoundKey (Round : Nat) (Context : AesContext) (State : List Nat) : List Nat :=
  match Context.RoundKey.drop (Round * 4 * 4), State with
  | k0 :: k1 :: k2 :: k3 :: k4 :: k5 :: k6 :: k7 :: k8 :: k9 :: k10 :: k11 :: k12 :: k13 :: k14 :: k15 :: _, [s0, s1, s2, s3, s4, s5, s6, s7, s8, s9, s10, s11, s12, s13, s14, s15] =>
    [s0 ^^^ k0, s1 ^^^ k1, s2 ^^^ k2, s3 ^^^ k3, s4 ^^^ k4, s5 ^^^ k5, s6 ^^^ k6, s7 ^^^ k7, s8 ^^^ k8, s9 ^^^ k9, s10 ^^^ k10, s11 ^^^ k11, s12 ^^^ k12, s13 ^^^ k13, s14 ^^^ k14, s15 ^^^ k15]
  | _, _ => AddRoundKey Round Context State

/-- One encryption round on an explicit block, the round key read once. -/
def fastEncryptRound (Context : AesContext) (State : List Nat) (round : Nat) : List Nat :=
  match Context.RoundKey.drop (round * 4 * 4), State with
  | k0 :: k1 :: k2 :: k3 :: k4 :: k5 :: k6 :: k7 :: k8 :: k9 :: k10 :: k11 :: k12 :: k13 :: k14 :: k15 :: _, [s0, s1, s2, s3, s4, s5, s6, s7, s8, s9, s10, s11, s12, s13, s14, s15] =>
    let b0 := fastSbox s0
    let b1 := fastSbox s1
    let b2 := fastSbox s2
    let b3 := fastSbox s3
    let b4 := fastSbox s4
    let b5 := fastSbox s5
    let b6 := fastSbox s6
    let b7 := fastSbox s7
    let b8 := fastSbox s8
    let b9 := fastSbox s9
    let b10 := fastSbox s10
    let b11 := fastSbox s11
    let b12 := fastSbox s12
    let b13 := fastSbox s13
    let b14 := fastSbox s14
    let b15 := fastSbox s15
    [(b0 ^^^ (xtime (b0 ^^^ b5) ^^^ (b0 ^^^ b5 ^^^ b10 ^^^ b15))) ^^^ k0,
      (b5 ^^^ (xtime (b5 ^^^ b10) ^^^ (b0 ^^^ b5 ^^^ b10 ^^^ b15))) ^^^ k1,
      (b10 ^^^ (xtime (b10 ^^^ b15) ^^^ (b0 ^^^ b5 ^^^ b10 ^^^ b15))) ^^^ k2,
      (b15 ^^^ (xtime (b15 ^^^ b0) ^^^ (b0 ^^^ b5 ^^^ b10 ^^^ b15))) ^^^ k3,
      (b4 ^^^ (xtime (b4 ^^^ b9) ^^^ (b4 ^^^ b9 ^^^ b14 ^^^ b3))) ^^^ k4,
      (b9 ^^^ (xtime (b9 ^^^ b14) ^^^ (b4 ^^^ b9 ^^^ b14 ^^^ b3))) ^^^ k5,
      (b14 ^^^ (xtime (b14 ^^^ b3) ^^^ (b4 ^^^ b9 ^^^ b14 ^^^ b3))) ^^^ k6,
      (b3 ^^^ (xtime (b3 ^^^ b4) ^^^ (b4 ^^^ b9 ^^^ b14 ^^^ b3))) ^^^ k7,
      (b8 ^^^ (xtime (b8 ^^^ b13) ^^^ (b8 ^^^ b13 ^^^ b2 ^^^ b7))) ^^^ k8,
      (b13 ^^^ (xtime (b13 ^^^ b2) ^^^ (b8 ^^^ b13 ^^^ b2 ^^^ b7))) ^^^ k9,
      (b2 ^^^ (xtime (b2 ^^^ b7) ^^^ (b8 ^^^ b13 ^^^ b2 ^^^ b7))) ^^^ k10,
      (b7 ^^^ (xtime (b7 ^^^ b8) ^^^ (b8 ^^^ b13 ^^^ b2 ^^^ b7))) ^^^ k11,
      (b12 ^^^ (xtime (b12 ^^^ b1) ^^^ (b12 ^^^ b1 ^^^ b6 ^^^ b11))) ^^^ k12,
      (b1 ^^^ (xtime (b1 ^^^ b6) ^^^ (b12 ^^^ b1 ^^^ b6 ^^^ b11))) ^^^ k13,
      (b6 ^^^ (xtime (b6 ^^^ b11) ^^^ (b12 ^^^ b1 ^^^ b6 ^^^ b11))) ^^^ k14,
      (b11 ^^^ (xtime (b11 ^^^ b12) ^^^ (b12 ^^^ b1 ^^^ b6 ^^^ b11))) ^^^ k15]
  | _, _ => EncryptRound Context State round

/-- The last encryption round on an explicit block, the round key read once. -/
def fastFinalRound (Context : AesContext) (State : List Nat) : List Nat :=
  match Context.RoundKey.drop (Context.NumberOfRounds * 4 * 4), State with
  | k0 :: k1 :: k2 :: k3 :: k4 :: k5 :: k6 :: k7 :: k8 :: k9 :: k10 :: k11 :: k12 :: k13 :: k14 :: k15 :: _, [s0, s1, s2, s3, s4, s5, s6, s7, s8, s9, s10, s11, s12, s13, s14, s15] =>
    let b0 := fastSbox s0
    let b1 := fastSbox s1
    let b2 := fastSbox s2
    let b3 := fastSbox s3
    let b4 := fastSbox s4
    let b5 := fastSbox s5
    let b6 := fastSbox s6
    let b7 := fastSbox s7
    let b8 := fastSbox s8
    let b9 := fastSbox s9
    let b10 := fastSbox s10
    let b11 := fastSbox s11
    let b12 := fastSbox s12
    let b13 := fastSbox s13
    let b14 := fastSbox s14
    let b15 := fastSbox s15
    [b0 ^^^ k0, b5 ^^^ k1, b10 ^^^ k2, b15 ^^^ k3, b4 ^^^ k4, b9 ^^^ k5, b14 ^^^ k6, b3 ^^^ k7, b8 ^^^ k8, b13 ^^^ k9, b2 ^^^ k10, b7 ^^^ k11, b12 ^^^ k12, b1 ^^^ k13, b6 ^^^ k14, b11 ^^^ k15]
  | _, _ => AddRoundKey Context.NumberOfRounds Context (ShiftRows (SubBytes State))

/-- `AesEncryptInPlace` computed round by round on explicit blocks. -/
def fastAesEncryptInPlace (Context : AesContext) (Block : List Nat) : List Nat :=
  fastFinalRound Context
    ((List.range' 1 (Context.NumberOfRounds - 1)).foldl (fastEncryptRound Context)
      (fastAddRoundKey 0 Context Block))


/-- One step of the key expansion on the bytes produced so far, kept in
reverse order (last byte first): word `i` is prepended. -/
def fastKeyExpansionStep (KeySizeInWords : Nat) (rev : List Nat) (i : Nat) : List Nat :=
  match rev, rev.drop (4 * KeySizeInWords - 4) with
  | t3 :: t2 :: t1 :: t0 :: _, p3 :: p2 :: p1 :: p0 :: _ =>
    let temp : Nat × Nat × Nat × Nat :=
      if 0 = i % KeySizeInWords then
        (fastSbox t1 ^^^ RCON.getD (i / KeySizeInWords) 0, fastSbox t2, fastSbox t3, fastSbox t0)
      else (t0, t1, t2, t3)
    let temp : Nat × Nat × Nat × Nat :=
      if AES_KEY_SIZE_256 / 4 = KeySizeInWords then
        if 4 = i % KeySizeInWords then
          (fastSbox temp.1, fastSbox temp.2.1, fastSbox temp.2.2.1, fastSbox temp.2.2.2)
        else temp
      else temp
    (p3 ^^^ temp.2.2.2) :: (p2 ^^^ temp.2.2.1) :: (p1 ^^^ temp.2.1) :: (p0 ^^^ temp.1) :: rev
  | _, _ => rev

/-- The round key bytes of `KeyExpansion` on a zero-filled context, computed on
the reversed list of the bytes produced so far. -/
def fastKeyExpansion (KeySizeInWords NumberOfRounds : Nat) (Key : List Nat) : List Nat :=
  ((List.range' KeySizeInWords (4 * (NumberOfRounds + 1) - KeySizeInWords)).foldl
      (fastKeyExpansionStep KeySizeInWords)
      ((List.range (4 * KeySizeInWords)).map (fun k => Key.getD k 0)).reverse).reverse ++
    List.replicate (AES_ROUND_KEY_BYTES - 16 * (NumberOfRounds + 1)) 0

/-! ## Blocks of a buffer and the CBC chain -/

/-- Block `i` of a buffer: the 16 bytes from offset `16 i`. -/
def blockAt (Buffer : List Nat) (i : Nat) : List Nat :=
  (List.range 16).map (fun k => Buffer.getD (16 * i + k) 0)

/-- The bytewise XOR of two 16-byte blocks. -/
def xorBlock (A B : List Nat) : List Nat :=
  (List.range 16).map (fun k => A.getD k 0 ^^^ B.getD k 0)

/-- The CBC chaining values of an encryption: value 0 is the block the session
holds on entry, value `i + 1` is the encryption of input block `i` XORed with
value `i`. -/
def cbcChain (Aes : AesContext) (Previous InBuffer : List Nat) : Nat → List Nat
  | 0 => Previous
  | i + 1 => AesEncrypt Aes (xorBlock (blockAt InBuffer i) (cbcChain Aes Previous InBuffer i))

/-- The chaining value for block `i` of a CBC call, read from the ciphertext
buffer: the block the session holds on entry for `i = 0`, ciphertext block
`i - 1` otherwise. -/
def cbcPrevious (Previous CipherBuffer : List Nat) (i : Nat) : List Nat :=
  if i = 0 then Previous else blockAt CipherBuffer (i - 1)

/-! ## The OFB keystream of a fresh session -/

/-- Block `j + 1` of the OFB chain of a fresh session, counted from 1:
`O_1 = AesEncrypt(IV)` and `O_{j+1} = AesEncrypt(O_j)`; `ofbChainBlock Aes IV j`
is `O_{j+1}`. -/
def ofbChainBlock (Aes : AesContext) (IV : List Nat) : Nat → List Nat
  | 0 => AesEncrypt Aes IV
  | j + 1 => AesEncrypt Aes (ofbChainBlock Aes IV j)

/-- The first `m` blocks of the OFB chain concatenated: `O_1 ++ O_2 ++ .. ++ O_m`. -/
def ofbKeystream (Aes : AesContext) (IV : List Nat) (m : Nat) : List Nat :=
  ((List.range m).map (ofbChainBlock Aes IV)).flatten

/-! ## Words of the key schedule -/

/-- Word `i` of a round key array: the four bytes from offset `4 i`. -/
def keyWord (RoundKey : List Nat) (i : Nat) : List Nat :=
  [RoundKey.getD (4 * i) 0, RoundKey.getD (4 * i + 1) 0, RoundKey.getD (4 * i + 2) 0,
    RoundKey.getD (4 * i + 3) 0]

/-- A four-byte word with its bytes rotated left by one. -/
def RotWord : List Nat → List Nat
  | [a, b, c, d] => [b, c, d, a]
  | w => w

/-- A word with every byte substituted through `SBOX`. -/
def SubWord (w : List Nat) : List Nat := w.map (fun x => SBOX.getD x 0)

/-- The bytewise XOR of two words. -/
def xorWord (u v : List Nat) : List Nat := List.zipWith (fun a b => a ^^^ b) u v

/-- The transformation of word `i - 1` in the key schedule recurrence for
`keyWords` key words: rotate, substitute and XOR the first byte with the round
constant when `i mod keyWords = 0`; substitute only when `keyWords = 8` and
`i mod 8 = 4`; otherwise nothing. -/
def keyScheduleCore (keyWords i : Nat) (w : List Nat) : List Nat :=
  if i % keyWords = 0 then xorWord (SubWord (RotWord w)) [RCON.getD (i / keyWords) 0, 0, 0, 0]
  else if keyWords = 8 ∧ i % 8 = 4 then SubWord w
  else w

/-! ## Multiplication in GF(2^8) -/

/-- The product of two bytes as polynomials over GF(2) (carry-less product). -/
def polyMul (a b : Nat) : Nat :=
  (List.range 8).foldl (fun acc i => if b.testBit i then acc ^^^ (a <<< i) else acc) 0

/-- Reduction of a polynomial of degree at most 14 modulo
`x^8 + x^4 + x^3 + x + 1` (`0x11b`). -/
def polyReduce (p : Nat) : Nat :=
  [14, 13, 12, 11, 10, 9, 8].foldl
    (fun p i => if p.testBit i then p ^^^ (0x11b <<< (i - 8)) else p) p

/-- Multiplication in GF(2^8) modulo `x^8 + x^4 + x^3 + x + 1`. -/
def gfMul (a b : Nat) : Nat := polyReduce (polyMul a b)

/-- The OFB session states that the exported functions can reach from
`AesOfbInitialise Aes IV`; `Size` is a 32 bit value. -/
inductive OfbReachable (Aes : AesContext) (IV : List Nat) : AesOfbContext → Prop
  | init : OfbReachable Aes IV (AesOfbInitialise Aes IV)
  | xor (c : AesOfbContext) (InBuffer OutBuffer : List Nat) (Size : Nat) :
      OfbReachable Aes IV c → Size < 2 ^ 32 →
      OfbReachable Aes IV (AesOfbXor c InBuffer OutBuffer Size).1
  | output (c : AesOfbContext) (Buffer : List Nat) (Size : Nat) :
      OfbReachable Aes IV c → Size < 2 ^ 32 →
      OfbReachable Aes IV (AesOfbOutput c Buffer Size).1

/-! ## Key expansion with checked array accesses

`KeyExpansion` once more, statement by statement, on a `RoundKey` array of
exactly the `16 * (NumberOfRounds + 1)` bytes a schedule needs, in which every
byte is marked as not yet written (`none`) until the expansion writes it. A
read of a byte outside the array or of a byte not yet written, a write outside
the array, and a read of `RCON` outside the entries `1 .. 10` make the run
fail. -/

/-- A checked read of `Context->RoundKey[k]`: fails outside the array and on a
byte that has not been written. -/
def readRoundKey (RoundKey : List (Option Nat)) (k : Nat) : Option Nat :=
  RoundKey.getD k none

/-- A checked write `Context->RoundKey[k] = v`: fails outside the array. -/
def writeRoundKey (RoundKey : List (Option Nat)) (k v : Nat) : Option (List (Option Nat)) :=
  if k < RoundKey.length then some (RoundKey.set k (some v)) else none

/-- A checked read of `RCON[k]`: fails outside the table and on entry 0. -/
def readRCON (k : Nat) : Option Nat :=
  if 1 ≤ k ∧ k < RCON.length then some (RCON.getD k 0) else none

/-- The body of the first loop of `KeyExpansion` with checked accesses. -/
def KeyCopyStepChecked (Key : List Nat) (RoundKey : List (Option Nat)) (i : Nat) :
    Option (List (Option Nat)) := do
  let RoundKey ← writeRoundKey RoundKey (i * 4 + 0) (Key.getD (i * 4 + 0) 0)
  let RoundKey ← writeRoundKey RoundKey (i * 4 + 1) (Key.getD (i * 4 + 1) 0)
  let RoundKey ← writeRoundKey RoundKey (i * 4 + 2) (Key.getD (i * 4 + 2) 0)
  writeRoundKey RoundKey (i * 4 + 3) (Key.getD (i * 4 + 3) 0)

/-- The body of the second loop of `KeyExpansion` with checked accesses. -/
def KeyExpansionStepChecked (KeySizeInWords : Nat) (RoundKey : List (Option Nat)) (i : Nat) :
    Option (List (Option Nat)) := do
  let temp0 ← readRoundKey RoundKey ((i - 1) * 4 + 0)
  let temp1 ← readRoundKey RoundKey ((i - 1) * 4 + 1)
  let temp2 ← readRoundKey RoundKey ((i - 1) * 4 + 2)
  let temp3 ← readRoundKey RoundKey ((i - 1) * 4 + 3)
  let temp : Nat × Nat × Nat × Nat ←
    if 0 = i % KeySizeInWords then do
      let rcon ← readRCON (i / KeySizeInWords)
      pure (SBOX.getD temp1 0 ^^^ rcon, SBOX.getD temp2 0, SBOX.getD temp3 0, SBOX.getD temp0 0)
    else pure (temp0, temp1, temp2, temp3)
  let temp : Nat × Nat × Nat × Nat :=
    if AES_KEY_SIZE_256 / 4 = KeySizeInWords then
      if 4 = i % KeySizeInWords then
        (SBOX.getD temp.1 0, SBOX.getD temp.2.1 0, SBOX.getD temp.2.2.1 0, SBOX.getD temp.2.2.2 0)
      else temp
    else temp
  let x ← readRoundKey RoundKey ((i - KeySizeInWords) * 4 + 0)
  let RoundKey ← writeRoundKey RoundKey (i * 4 + 0) (x ^^^ temp.1)
  let x ← readRoundKey RoundKey ((i - KeySizeInWords) * 4 + 1)
  let RoundKey ← writeRoundKey RoundKey (i * 4 + 1) (x ^^^ temp.2.1)
  let x ← readRoundKey RoundKey ((i - KeySizeInWords) * 4 + 2)
  let RoundKey ← writeRoundKey RoundKey (i * 4 + 2) (x ^^^ temp.2.2.1)
  let x ← readRoundKey RoundKey ((i - KeySizeInWords) * 4 + 3)
  writeRoundKey RoundKey (i * 4 + 3) (x ^^^ temp.2.2.2)

/-- `KeyExpansion` with checked accesses, started on an array of
`16 * (NumberOfRounds + 1)` bytes none of which has been written. -/
def KeyExpansionChecked (Key : List Nat) (Context : AesContext) : Option (List (Option Nat)) := do
  let RoundKey ← (List.range Context.KeySizeInWords).foldlM (KeyCopyStepChecked Key)
    (List.replicate (16 * (Context.NumberOfRounds + 1)) none)
  (List.range' Context.KeySizeInWords
      (4 * (Context.NumberOfRounds + 1) - Context.KeySizeInWords)).foldlM
    (KeyExpansionStepChecked Context.KeySizeInWords) RoundKey

/-! # Theorems -/

/-! ## The AES block cipher -/


theorem length16_cases {α : Type} (s : List α) (h : s.length = 16) :
    ∃ a0 a1 a2 a3 a4 a5 a6 a7 a8 a9 a10 a11 a12 a13 a14 a15,
      s = [a0, a1, a2, a3, a4, a5, a6, a7, a8, a9, a10, a11, a12, a13, a14, a15] := by
  rcases s with _ | ⟨a0, s⟩; · simp at h
  rcases s with _ | ⟨a1, s⟩; · simp at h
  rcases s with _ | ⟨a2, s⟩; · simp at h
  rcases s with _ | ⟨a3, s⟩; · simp at h
  rcases s with _ | ⟨a4, s⟩; · simp at h
  rcases s with _ | ⟨a5, s⟩; · simp at h
  rcases s with _ | ⟨a6, s⟩; · simp at h
  rcases s with _ | ⟨a7, s⟩; · simp at h
  rcases s with _ | ⟨a8, s⟩; · simp at h
  rcases s with _ | ⟨a9, s⟩; · simp at h
  rcases s with _ | ⟨a10, s⟩; · simp at h
  rcases s with _ | ⟨a11, s⟩; · simp at h
  rcases s with _ | ⟨a12, s⟩; · simp at h
  rcases s with _ | ⟨a13, s⟩; · simp at h
  rcases s with _ | ⟨a14, s⟩; · simp at h
  rcases s with _ | ⟨a15, s⟩; · simp at h
  rcases s with _ | ⟨x, s⟩
  · exact ⟨a0, a1, a2, a3, a4, a5, a6, a7, a8, a9, a10, a11, a12, a13, a14, a15, rfl⟩
  · simp at h



theorem shiftLeft_one_xor (a b : Nat) : (a ^^^ b) <<< 1 = a <<< 1 ^^^ b <<< 1 := by
  apply Nat.eq_of_testBit_eq; intro i
  simp only [Nat.testBit_shiftLeft, Nat.testBit_xor]
  cases decide (i ≥ 1) <;> simp

theorem shiftRight_xor (a b k : Nat) : (a ^^^ b) >>> k = a >>> k ^^^ b >>> k := by
  apply Nat.eq_of_testBit_eq; intro i
  simp only [Nat.testBit_shiftRight, Nat.testBit_xor]

theorem xor_mod_256 (a b : Nat) : (a ^^^ b) % 256 = a % 256 ^^^ b % 256 := by
  apply Nat.eq_of_testBit_eq; intro i
  have h : (256 : Nat) = 2 ^ 8 := by norm_num
  simp only [h, Nat.testBit_mod_two_pow, Nat.testBit_xor]
  cases decide (i < 8) <;> simp

theorem hibit_xor (x y : Nat) :
    (((x ^^^ y) >>> 7) &&& 1) * 0x1b = ((x >>> 7) &&& 1) * 0x1b ^^^ ((y >>> 7) &&& 1) * 0x1b := by
  have hx : (x >>> 7) % 2 = 0 ∨ (x >>> 7) % 2 = 1 := Nat.mod_two_eq_zero_or_one _
  have hy : (y >>> 7) % 2 = 0 ∨ (y >>> 7) % 2 = 1 := Nat.mod_two_eq_zero_or_one _
  have hxy : ((x ^^^ y) >>> 7) % 2 = ((x >>> 7) % 2 + (y >>> 7) % 2) % 2 := by
    rw [shiftRight_xor, Nat.xor_mod_two_eq, Nat.add_mod]
  simp only [Nat.and_one_is_mod, hxy]
  rcases hx with hx | hx <;> rcases hy with hy | hy <;> simp [hx, hy]

theorem xtime_xor (x y : Nat) : xtime (x ^^^ y) = xtime x ^^^ xtime y := by
  unfold xtime
  rw [shiftLeft_one_xor, hibit_xor, ← xor_mod_256]
  congr 1
  simp only [Nat.xor_assoc]
  congr 1
  rw [← Nat.xor_assoc, ← Nat.xor_assoc, Nat.xor_comm (y <<< 1)]

theorem xtime_lt (x : Nat) : xtime x < 256 := Nat.mod_lt _ (by decide)



theorem Multiply_0e (x : Nat) :
    Multiply x 0x0e = xtime x ^^^ xtime (xtime x) ^^^ xtime (xtime (xtime x)) := by
  simp [Multiply]

theorem Multiply_0b (x : Nat) :
    Multiply x 0x0b = x ^^^ xtime x ^^^ xtime (xtime (xtime x)) := by
  simp [Multiply]

theorem Multiply_0d (x : Nat) :
    Multiply x 0x0d = x ^^^ xtime (xtime x) ^^^ xtime (xtime (xtime x)) := by
  simp [Multiply]

theorem Multiply_09 (x : Nat) :
    Multiply x 0x09 = x ^^^ xtime (xtime (xtime x)) := by
  simp [Multiply]

theorem xor_left_comm (a b c : Nat) : a ^^^ (b ^^^ c) = b ^^^ (a ^^^ c) := by
  rw [← Nat.xor_assoc, Nat.xor_comm a b, Nat.xor_assoc]

theorem xor_self_left (a b : Nat) : a ^^^ (a ^^^ b) = b := Nat.xor_cancel_left a b

theorem invmix_col0 (a b c d : Nat) :
    Multiply (a ^^^ (xtime (a ^^^ b) ^^^ (a ^^^ b ^^^ c ^^^ d))) 0x0e ^^^
    Multiply (b ^^^ (xtime (b ^^^ c) ^^^ (a ^^^ b ^^^ c ^^^ d))) 0x0b ^^^
    Multiply (c ^^^ (xtime (c ^^^ d) ^^^ (a ^^^ b ^^^ c ^^^ d))) 0x0d ^^^
    Multiply (d ^^^ (xtime (d ^^^ a) ^^^ (a ^^^ b ^^^ c ^^^ d))) 0x09 = a := by
    simp only [Multiply_0e, Multiply_0b, Multiply_0d, Multiply_09, xtime_xor, Nat.xor_assoc]
    generalize xtime (xtime (xtime (xtime a))) = a4
    generalize xtime (xtime (xtime (xtime b))) = b4
    generalize xtime (xtime (xtime (xtime c))) = c4
    generalize xtime (xtime (xtime (xtime d))) = d4
    generalize xtime (xtime (xtime a)) = a3
    generalize xtime (xtime (xtime b)) = b3
    generalize xtime (xtime (xtime c)) = c3
    generalize xtime (xtime (xtime d)) = d3
    generalize xtime (xtime a) = a2
    generalize xtime (xtime b) = b2
    generalize xtime (xtime c) = c2
    generalize xtime (xtime d) = d2
    generalize xtime a = a1
    generalize xtime b = b1
    generalize xtime c = c1
    generalize xtime d = d1
    simp only [Nat.xor_comm, xor_left_comm, xor_self_left, Nat.xor_self, Nat.xor_zero]

theorem invmix_col1 (a b c d : Nat) :
    Multiply (a ^^^ (xtime (a ^^^ b) ^^^ (a ^^^ b ^^^ c ^^^ d))) 0x09 ^^^
    Multiply (b ^^^ (xtime (b ^^^ c) ^^^ (a ^^^ b ^^^ c ^^^ d))) 0x0e ^^^
    Multiply (c ^^^ (xtime (c ^^^ d) ^^^ (a ^^^ b ^^^ c ^^^ d))) 0x0b ^^^
    Multiply (d ^^^ (xtime (d ^^^ a) ^^^ (a ^^^ b ^^^ c ^^^ d))) 0x0d = b := by
    simp only [Multiply_0e, Multiply_0b, Multiply_0d, Multiply_09, xtime_xor, Nat.xor_assoc]
    generalize xtime (xtime (xtime (xtime a))) = a4
    generalize xtime (xtime (xtime (xtime b))) = b4
    generalize xtime (xtime (xtime (xtime c))) = c4
    generalize xtime (xtime (xtime (xtime d))) = d4
    generalize xtime (xtime (xtime a)) = a3
    generalize xtime (xtime (xtime b)) = b3
    generalize xtime (xtime (xtime c)) = c3
    generalize xtime (xtime (xtime d)) = d3
    generalize xtime (xtime a) = a2
    generalize xtime (xtime b) = b2
    generalize xtime (xtime c) = c2
    generalize xtime (xtime d) = d2
    generalize xtime a = a1
    generalize xtime b = b1
    generalize xtime c = c1
    generalize xtime d = d1
    simp only [Nat.xor_comm, xor_left_comm, xor_self_left, Nat.xor_self, Nat.xor_zero]

theorem invmix_col2 (a b c d : Nat) :
    Multiply (a ^^^ (xtime (a ^^^ b) ^^^ (a ^^^ b ^^^ c ^^^ d))) 0x0d ^^^
    Multiply (b ^^^ (xtime (b ^^^ c) ^^^ (a ^^^ b ^^^ c ^^^ d))) 0x09 ^^^
    Multiply (c ^^^ (xtime (c ^^^ d) ^^^ (a ^^^ b ^^^ c ^^^ d))) 0x0e ^^^
    Multiply (d ^^^ (xtime (d ^^^ a) ^^^ (a ^^^ b ^^^ c ^^^ d))) 0x0b = c := by
    simp only [Multiply_0e, Multiply_0b, Multiply_0d, Multiply_09, xtime_xor, Nat.xor_assoc]
    generalize xtime (xtime (xtime (xtime a))) = a4
    generalize xtime (xtime (xtime (xtime b))) = b4
    generalize xtime (xtime (xtime (xtime c))) = c4
    generalize xtime (xtime (xtime (xtime d))) = d4
    generalize xtime (xtime (xtime a)) = a3
    generalize xtime (xtime (xtime b)) = b3
    generalize xtime (xtime (xtime c)) = c3
    generalize xtime (xtime (xtime d)) = d3
    generalize xtime (xtime a) = a2
    generalize xtime (xtime b) = b2
    generalize xtime (xtime c) = c2
    generalize xtime (xtime d) = d2
    generalize xtime a = a1
    generalize xtime b = b1
    generalize xtime c = c1
    generalize xtime d = d1
    simp only [Nat.xor_comm, xor_left_comm, xor_self_left, Nat.xor_self, Nat.xor_zero]

theorem invmix_col3 (a b c d : Nat) :
    Multiply (a ^^^ (xtime (a ^^^ b) ^^^ (a ^^^ b ^^^ c ^^^ d))) 0x0b ^^^
    Multiply (b ^^^ (xtime (b ^^^ c) ^^^ (a ^^^ b ^^^ c ^^^ d))) 0x0d ^^^
    Multiply (c ^^^ (xtime (c ^^^ d) ^^^ (a ^^^ b ^^^ c ^^^ d))) 0x09 ^^^
    Multiply (d ^^^ (xtime (d ^^^ a) ^^^ (a ^^^ b ^^^ c ^^^ d))) 0x0e = d := by
    simp only [Multiply_0e, Multiply_0b, Multiply_0d, Multiply_09, xtime_xor, Nat.xor_assoc]
    generalize xtime (xtime (xtime (xtime a))) = a4
    generalize xtime (xtime (xtime (xtime b))) = b4
    generalize xtime (xtime (xtime (xtime c))) = c4
    generalize xtime (xtime (xtime (xtime d))) = d4
    generalize xtime (xtime (xtime a)) = a3
    generalize xtime (xtime (xtime b)) = b3
    generalize xtime (xtime (xtime c)) = c3
    generalize xtime (xtime (xtime d)) = d3
    generalize xtime (xtime a) = a2
    generalize xtime (xtime b) = b2
    generalize xtime (xtime c) = c2
    generalize xtime (xtime d) = d2
    generalize xtime a = a1
    generalize xtime b = b1
    generalize xtime c = c1
    generalize xtime d = d1
    simp only [Nat.xor_comm, xor_left_comm, xor_self_left, Nat.xor_self, Nat.xor_zero]


theorem InvMixColumns_MixColumns (s : List Nat) (h : s.length = 16) :
    InvMixColumns (MixColumns s) = s := by
  obtain ⟨a0, a1, a2, a3, a4, a5, a6, a7, a8, a9, a10, a11, a12, a13, a14, a15, rfl⟩ :=
    length16_cases s h
  simp [MixColumns, InvMixColumns, stGet, stSet, invmix_col0, invmix_col1, invmix_col2, invmix_col3]

theorem InvShiftRows_ShiftRows (s : List Nat) (h : s.length = 16) :
    InvShiftRows (ShiftRows s) = s := by
  obtain ⟨a0, a1, a2, a3, a4, a5, a6, a7, a8, a9, a10, a11, a12, a13, a14, a15, rfl⟩ :=
    length16_cases s h
  simp [ShiftRows, InvShiftRows, stGet, stSet]

theorem AddRoundKey_AddRoundKey (r : Nat) (ctx : AesContext) (s : List Nat) (h : s.length = 16) :
    AddRoundKey r ctx (AddRoundKey r ctx s) = s := by
  obtain ⟨a0, a1, a2, a3, a4, a5, a6, a7, a8, a9, a10, a11, a12, a13, a14, a15, rfl⟩ :=
    length16_cases s h
  simp [AddRoundKey, stGet, stSet, Nat.xor_cancel_right]




theorem xor_lt_256 {a b : Nat} (ha : a < 256) (hb : b < 256) : a ^^^ b < 256 :=
  Nat.xor_lt_two_pow (n := 8) ha hb

theorem Bytes_getD {l : List Nat} (h : Bytes l) (i : Nat) : l.getD i 0 < 256 := by
  rw [List.getD_eq_getElem?_getD]
  cases hi : l[i]? with
  | none => simp
  | some v =>
    simp only [Option.getD_some]
    exact h v (List.getElem?_mem hi)

theorem Bytes_set {l : List Nat} (h : Bytes l) (i : Nat) {v : Nat} (hv : v < 256) :
    Bytes (l.set i v) := by
  intro x hx
  rcases List.mem_or_eq_of_mem_set hx with hx | hx
  · exact h x hx
  · exact hx ▸ hv


theorem Bytes_SBOX : Bytes SBOX := by decide!

theorem Bytes_RSBOX : Bytes RSBOX := by decide!

theorem Bytes_RCON : Bytes RCON := by decide!

theorem SBOX_lt (x : Nat) : SBOX.getD x 0 < 256 := Bytes_getD Bytes_SBOX x

theorem RSBOX_lt (x : Nat) : RSBOX.getD x 0 < 256 := Bytes_getD Bytes_RSBOX x

theorem RCON_lt (x : Nat) : RCON.getD x 0 < 256 := Bytes_getD Bytes_RCON x

set_option maxRecDepth 100000 in
theorem RSBOX_SBOX_map : SBOX.map (fun y => RSBOX.getD y 0) = List.range 256 := by decide!

set_option maxRecDepth 100000 in
theorem SBOX_RSBOX_map : RSBOX.map (fun y => SBOX.getD y 0) = List.range 256 := by decide!

set_option maxRecDepth 100000 in
theorem length_SBOX : SBOX.length = 256 := by decide!

set_option maxRecDepth 100000 in
theorem length_RSBOX : RSBOX.length = 256 := by decide!

theorem getD_of_map_eq_range (T U : List Nat) (hT : T.length = 256)
    (h : T.map (fun y => U.getD y 0) = List.range 256) (x : Nat) (hx : x < 256) :
    U.getD (T.getD x 0) 0 = x := by
  have h1 : (T.map (fun y => U.getD y 0)).getD x 0 = (List.range 256).getD x 0 := by rw [h]
  have hx' : x < T.length := by rw [hT]; exact hx
  rw [List.getD_eq_getElem?_getD, List.getD_eq_getElem?_getD] at h1
  rw [List.getElem?_map, List.getElem?_range hx] at h1
  rw [List.getD_eq_getElem?_getD T]
  rw [List.getElem?_eq_getElem hx'] at h1 ⊢
  simpa using h1

theorem RSBOX_SBOX (x : Nat) (hx : x < 256) : RSBOX.getD (SBOX.getD x 0) 0 = x :=
  getD_of_map_eq_range SBOX RSBOX length_SBOX RSBOX_SBOX_map x hx

theorem SBOX_RSBOX (x : Nat) (hx : x < 256) : SBOX.getD (RSBOX.getD x 0) 0 = x :=
  getD_of_map_eq_range RSBOX SBOX length_RSBOX SBOX_RSBOX_map x hx

theorem foldl_preserves {α β : Type} (P : α → Prop) (f : α → β → α)
    (h : ∀ a b, P a → P (f a b)) : ∀ (l : List β) (a : α), P a → P (l.foldl f a)
  | [], _, ha => ha
  | b :: l, a, ha => foldl_preserves P f h l (f a b) (h a b ha)

theorem length_SubBytes (s : List Nat) : (SubBytes s).length = s.length := by
  simp [SubBytes, stSet]

theorem length_ShiftRows (s : List Nat) : (ShiftRows s).length = s.length := by
  simp [ShiftRows, stSet]

theorem length_MixColumns (s : List Nat) : (MixColumns s).length = s.length := by
  simp [MixColumns, stSet]

theorem length_AddRoundKey (r : Nat) (ctx : AesContext) (s : List Nat) :
    (AddRoundKey r ctx s).length = s.length := by
  simp [AddRoundKey, stSet]

theorem length_InvSubBytes (s : List Nat) : (InvSubBytes s).length = s.length := by
  simp [InvSubBytes, stSet]

theorem length_InvShiftRows (s : List Nat) : (InvShiftRows s).length = s.length := by
  simp [InvShiftRows, stSet]

theorem length_InvMixColumns (s : List Nat) : (InvMixColumns s).length = s.length := by
  simp [InvMixColumns, stSet]

theorem stGet_lt {s : List Nat} (h : Bytes s) (i j : Nat) : stGet s i j < 256 :=
  Bytes_getD h _

theorem Bytes_stSet {s : List Nat} (h : Bytes s) (i j : Nat) {v : Nat} (hv : v < 256) :
    Bytes (stSet s i j v) :=
  Bytes_set h _ hv

theorem Bytes_SubBytes (s : List Nat) (hb : Bytes s) : Bytes (SubBytes s) := by
  unfold SubBytes
  refine foldl_preserves Bytes _ (fun st i hst => ?_) _ _ hb
  refine foldl_preserves Bytes _ (fun st j hst => ?_) _ _ hst
  exact Bytes_stSet hst _ _ (SBOX_lt _)

theorem Bytes_InvSubBytes (s : List Nat) (hb : Bytes s) : Bytes (InvSubBytes s) := by
  unfold InvSubBytes
  refine foldl_preserves Bytes _ (fun st i hst => ?_) _ _ hb
  refine foldl_preserves Bytes _ (fun st j hst => ?_) _ _ hst
  exact Bytes_stSet hst _ _ (RSBOX_lt _)

theorem Bytes_ShiftRows (s : List Nat) (h : s.length = 16) (hb : Bytes s) :
    Bytes (ShiftRows s) := by
  obtain ⟨a0, a1, a2, a3, a4, a5, a6, a7, a8, a9, a10, a11, a12, a13, a14, a15, rfl⟩ :=
    length16_cases s h
  simp only [Bytes, List.mem_cons, forall_eq_or_imp] at hb
  simp [ShiftRows, stGet, stSet, Bytes, hb]

theorem Bytes_InvShiftRows (s : List Nat) (h : s.length = 16) (hb : Bytes s) :
    Bytes (InvShiftRows s) := by
  obtain ⟨a0, a1, a2, a3, a4, a5, a6, a7, a8, a9, a10, a11, a12, a13, a14, a15, rfl⟩ :=
    length16_cases s h
  simp only [Bytes, List.mem_cons, forall_eq_or_imp] at hb
  simp [InvShiftRows, stGet, stSet, Bytes, hb]

theorem mixbyte_lt {a p q : Nat} (ha : a < 256) (hq : q < 256) :
    a ^^^ (xtime p ^^^ q) < 256 :=
  xor_lt_256 ha (xor_lt_256 (xtime_lt p) hq)

theorem xor4_lt {a b c d : Nat} (ha : a < 256) (hb : b < 256) (hc : c < 256) (hd : d < 256) :
    a ^^^ b ^^^ c ^^^ d < 256 :=
  xor_lt_256 (xor_lt_256 (xor_lt_256 ha hb) hc) hd

theorem Bytes_MixColumns (s : List Nat) (h : s.length = 16) (hb : Bytes s) :
    Bytes (MixColumns s) := by
  obtain ⟨a0, a1, a2, a3, a4, a5, a6, a7, a8, a9, a10, a11, a12, a13, a14, a15, rfl⟩ :=
    length16_cases s h
  simp only [Bytes, List.mem_cons, forall_eq_or_imp] at hb
  simp [MixColumns, stGet, stSet, Bytes, hb, mixbyte_lt, xor4_lt]

theorem Bytes_AddRoundKey (r : Nat) (ctx : AesContext) (s : List Nat)
    (hb : Bytes s) (hk : Bytes ctx.RoundKey) : Bytes (AddRoundKey r ctx s) := by
  unfold AddRoundKey
  refine foldl_preserves Bytes _ (fun st i hst => ?_) _ _ hb
  refine foldl_preserves Bytes _ (fun st j hst => ?_) _ _ hst
  exact Bytes_stSet hst _ _ (xor_lt_256 (stGet_lt hst _ _) (Bytes_getD hk _))

theorem InvSubBytes_SubBytes (s : List Nat) (h : s.length = 16) (hb : Bytes s) :
    InvSubBytes (SubBytes s) = s := by
  obtain ⟨a0, a1, a2, a3, a4, a5, a6, a7, a8, a9, a10, a11, a12, a13, a14, a15, rfl⟩ :=
    length16_cases s h
  simp only [Bytes, List.mem_cons, forall_eq_or_imp] at hb
  simp [SubBytes, InvSubBytes, stGet, stSet, RSBOX_SBOX, hb, -List.getD_eq_getElem?_getD]

theorem Bytes_KeyCopyStep (Key rk : List Nat) (i : Nat) (hK : Bytes Key) (h : Bytes rk) :
    Bytes (KeyCopyStep Key rk i) := by
  unfold KeyCopyStep
  exact Bytes_set (Bytes_set (Bytes_set (Bytes_set h _ (Bytes_getD hK _)) _ (Bytes_getD hK _)) _
    (Bytes_getD hK _)) _ (Bytes_getD hK _)

theorem Bytes_set_xor {l : List Nat} (h : Bytes l) {i j t : Nat} (ht : t < 256) :
    Bytes (l.set i (l.getD j 0 ^^^ t)) :=
  Bytes_set h _ (xor_lt_256 (Bytes_getD h _) ht)

theorem Bytes_KeyExpansionStep (n : Nat) (rk : List Nat) (i : Nat) (h : Bytes rk) :
    Bytes (KeyExpansionStep n rk i) := by
  unfold KeyExpansionStep
  dsimp only
  split_ifs <;> dsimp only <;>
  refine Bytes_set_xor (Bytes_set_xor (Bytes_set_xor (Bytes_set_xor h ?_) ?_) ?_) ?_ <;>
  first
    | exact SBOX_lt _
    | exact Bytes_getD h _
    | exact xor_lt_256 (SBOX_lt _) (RCON_lt _)

theorem Bytes_KeyExpansion (Key : List Nat) (ctx : AesContext) (hK : Bytes Key)
    (h : Bytes ctx.RoundKey) : Bytes (KeyExpansion Key ctx).RoundKey := by
  unfold KeyExpansion
  dsimp only
  refine foldl_preserves Bytes _ (fun rk i hrk => Bytes_KeyExpansionStep _ rk i hrk) _ _ ?_
  exact foldl_preserves Bytes _ (fun rk i hrk => Bytes_KeyCopyStep Key rk i hK hrk) _ _ h




theorem IsBlock_EncryptRound (ctx : AesContext) (hk : Bytes ctx.RoundKey) (s : List Nat) (r : Nat)
    (h : IsBlock s) : IsBlock (EncryptRound ctx s r) := by
  obtain ⟨hl, hb⟩ := h
  have h1 : (SubBytes s).length = 16 := by rw [length_SubBytes, hl]
  have h2 : (ShiftRows (SubBytes s)).length = 16 := by rw [length_ShiftRows, h1]
  have h3 : (MixColumns (ShiftRows (SubBytes s))).length = 16 := by rw [length_MixColumns, h2]
  refine ⟨by rw [EncryptRound, length_AddRoundKey, h3], ?_⟩
  exact Bytes_AddRoundKey _ _ _
    (Bytes_MixColumns _ h2 (Bytes_ShiftRows _ h1 (Bytes_SubBytes _ hb))) hk

theorem IsBlock_AddRoundKey (ctx : AesContext) (hk : Bytes ctx.RoundKey) (s : List Nat) (r : Nat)
    (h : IsBlock s) : IsBlock (AddRoundKey r ctx s) :=
  ⟨by rw [length_AddRoundKey, h.1], Bytes_AddRoundKey _ _ _ h.2 hk⟩

theorem IsBlock_SubShift (s : List Nat) (h : IsBlock s) : IsBlock (ShiftRows (SubBytes s)) := by
  have h1 : (SubBytes s).length = 16 := by rw [length_SubBytes, h.1]
  exact ⟨by rw [length_ShiftRows, h1], Bytes_ShiftRows _ h1 (Bytes_SubBytes _ h.2)⟩

theorem InvSub_InvShift_Shift_Sub (s : List Nat) (h : IsBlock s) :
    InvSubBytes (InvShiftRows (ShiftRows (SubBytes s))) = s := by
  have h1 : (SubBytes s).length = 16 := by rw [length_SubBytes, h.1]
  rw [InvShiftRows_ShiftRows _ h1, InvSubBytes_SubBytes _ h.1 h.2]

/-- Undoing the encryption rounds: the decryption loop, run over the reversed
list of rounds on the state on which the last `SubBytes`, `ShiftRows` were
applied, followed by the final inverse shift and substitution, restores the
state before the encryption loop. -/
theorem rounds_inverse (ctx : AesContext) (hk : Bytes ctx.RoundKey) (L : List Nat) :
    ∀ s : List Nat, IsBlock s →
      InvSubBytes (InvShiftRows
        (L.reverse.foldl (DecryptRound ctx)
          (ShiftRows (SubBytes (L.foldl (EncryptRound ctx) s))))) = s := by
  induction L with
  | nil =>
    intro s hs
    rw [List.reverse_nil, List.foldl_nil, List.foldl_nil]
    exact InvSub_InvShift_Shift_Sub s hs
  | cons r L ih =>
    intro s hs
    have hu : IsBlock (ShiftRows (SubBytes s)) := IsBlock_SubShift _ hs
    have hm : (MixColumns (ShiftRows (SubBytes s))).length = 16 := by
      rw [length_MixColumns, hu.1]
    rw [List.foldl_cons, List.reverse_cons, List.foldl_append, List.foldl_cons, List.foldl_nil]
    rw [DecryptRound, ih _ (IsBlock_EncryptRound ctx hk s r hs), EncryptRound,
      AddRoundKey_AddRoundKey _ _ _ hm, InvMixColumns_MixColumns _ hu.1]
    exact InvSub_InvShift_Shift_Sub s hs

theorem AesDecryptInPlace_AesEncryptInPlace (ctx : AesContext) (hk : Bytes ctx.RoundKey)
    (Block : List Nat) (hB : IsBlock Block) :
    AesDecryptInPlace ctx (AesEncryptInPlace ctx Block) = Block := by
  unfold AesDecryptInPlace AesEncryptInPlace
  dsimp only
  have h0 : IsBlock (AddRoundKey 0 ctx Block) := IsBlock_AddRoundKey ctx hk _ _ hB
  have ht : IsBlock ((List.range' 1 (ctx.NumberOfRounds - 1)).foldl (EncryptRound ctx)
      (AddRoundKey 0 ctx Block)) :=
    foldl_preserves IsBlock _ (fun a b ha => IsBlock_EncryptRound ctx hk a b ha) _ _ h0
  rw [AddRoundKey_AddRoundKey _ _ _ (IsBlock_SubShift _ ht).1,
    rounds_inverse ctx hk _ _ h0, AddRoundKey_AddRoundKey _ _ _ hB.1]

theorem Bytes_replicate_zero (n : Nat) : Bytes (List.replicate n 0) := by
  intro x hx
  rw [List.eq_of_mem_replicate hx]
  decide

theorem Bytes_AesInitialise128 (Key : List Nat) (hK : Bytes Key) :
    Bytes (AesInitialise128 Key).RoundKey :=
  Bytes_KeyExpansion Key _ hK (Bytes_replicate_zero _)

theorem Bytes_AesInitialise192 (Key : List Nat) (hK : Bytes Key) :
    Bytes (AesInitialise192 Key).RoundKey :=
  Bytes_KeyExpansion Key _ hK (Bytes_replicate_zero _)

theorem Bytes_AesInitialise256 (Key : List Nat) (hK : Bytes Key) :
    Bytes (AesInitialise256 Key).RoundKey :=
  Bytes_KeyExpansion Key _ hK (Bytes_replicate_zero _)



/-! ## Buffers -/

theorem length_foldl_set (g : List Nat → Nat → Nat) (p : Nat → Nat) (n : Nat) (D : List Nat) :
    ((List.range n).foldl (fun D i => D.set (p i) (g D i)) D).length = D.length := by
  induction n with
  | zero => simp
  | succ n ih => rw [List.range_succ, List.foldl_append]; simp [ih]

theorem getD_set (D : List Nat) (p v k : Nat) :
    (D.set p v).getD k 0 = if k = p ∧ k < D.length then v else D.getD k 0 := by
  simp only [List.getD_eq_getElem?_getD, List.getElem?_set]
  by_cases h : p = k
  · subst h
    by_cases h2 : p < D.length
    · simp [h2]
    · simp [h2, List.getElem?_eq_none (Nat.le_of_not_lt h2)]
  · have h' : ¬ k = p := fun e => h e.symm
    simp [h, h']

theorem getD_foldl_set (g : Nat → Nat) (od n : Nat) (D : List Nat) (k : Nat) :
    ((List.range n).foldl (fun D i => D.set (od + i) (g i)) D).getD k 0 =
      if od ≤ k ∧ k < od + n ∧ k < D.length then g (k - od) else D.getD k 0 := by
  induction n with
  | zero =>
    have : ¬ (od ≤ k ∧ k < od + 0 ∧ k < D.length) := by omega
    rw [if_neg this]; rfl
  | succ n ih =>
    rw [List.range_succ, List.foldl_append, List.foldl_cons, List.foldl_nil, getD_set, ih,
      length_foldl_set (fun _ i => g i) (fun i => od + i)]
    by_cases h1 : k = od + n ∧ k < D.length
    · have h3 : od ≤ k ∧ k < od + (n + 1) ∧ k < D.length := by omega
      have h4 : k - od = n := by omega
      rw [if_pos h1, if_pos h3, h4]
    · rw [if_neg h1]
      by_cases h3 : od ≤ k ∧ k < od + n ∧ k < D.length
      · have h4 : od ≤ k ∧ k < od + (n + 1) ∧ k < D.length := by omega
        rw [if_pos h3, if_pos h4]
      · have h4 : ¬ (od ≤ k ∧ k < od + (n + 1) ∧ k < D.length) := by omega
        rw [if_neg h3, if_neg h4]

theorem ext_getD {l₁ l₂ : List Nat} (hl : l₁.length = l₂.length)
    (h : ∀ k, k < l₁.length → l₁.getD k 0 = l₂.getD k 0) : l₁ = l₂ := by
  apply List.ext_getElem hl
  intro k h1 h2
  have := h k h1
  simpa [List.getD_eq_getElem?_getD, List.getElem?_eq_getElem h1, List.getElem?_eq_getElem h2]
    using this

theorem length_memcpy (D : List Nat) (d : Nat) (S : List Nat) (s n : Nat) :
    (memcpy D d S s n).length = D.length :=
  length_foldl_set (fun _ i => S.getD (s + i) 0) (fun i => d + i) n D

theorem getD_memcpy (D : List Nat) (d : Nat) (S : List Nat) (s n k : Nat) :
    (memcpy D d S s n).getD k 0 =
      if d ≤ k ∧ k < d + n ∧ k < D.length then S.getD (s + (k - d)) 0 else D.getD k 0 :=
  getD_foldl_set (fun i => S.getD (s + i) 0) d n D k

theorem length_XorBuffers (S1 : List Nat) (o1 : Nat) (S2 : List Nat) (o2 : Nat) (D : List Nat)
    (od n : Nat) : (XorBuffers S1 o1 S2 o2 D od n).length = D.length :=
  length_foldl_set (fun _ i => S1.getD (o1 + i) 0 ^^^ S2.getD (o2 + i) 0) (fun i => od + i) n D

theorem getD_XorBuffers (S1 : List Nat) (o1 : Nat) (S2 : List Nat) (o2 : Nat) (D : List Nat)
    (od n k : Nat) :
    (XorBuffers S1 o1 S2 o2 D od n).getD k 0 =
      if od ≤ k ∧ k < od + n ∧ k < D.length then
        S1.getD (o1 + (k - od)) 0 ^^^ S2.getD (o2 + (k - od)) 0
      else D.getD k 0 :=
  getD_foldl_set (fun i => S1.getD (o1 + i) 0 ^^^ S2.getD (o2 + i) 0) od n D k

theorem length_memset0 (B : List Nat) (n : Nat) : (memset0 B n).length = B.length :=
  length_foldl_set (fun _ _ => 0) (fun i => i) n B

theorem getD_memset0 (B : List Nat) (n k : Nat) :
    (memset0 B n).getD k 0 = if k < n then 0 else B.getD k 0 := by
  have h : memset0 B n = (List.range n).foldl (fun D i => D.set (0 + i) ((fun _ => 0) i)) B := by
    simp [memset0]
  rw [h, getD_foldl_set]
  by_cases h1 : k < n
  · rw [if_pos h1]
    by_cases h2 : k < B.length
    · have : 0 ≤ k ∧ k < 0 + n ∧ k < B.length := by omega
      rw [if_pos this]
    · have : ¬ (0 ≤ k ∧ k < 0 + n ∧ k < B.length) := by omega
      rw [if_neg this, List.getD_eq_default _ _ (Nat.le_of_not_lt h2)]
  · have : ¬ (0 ≤ k ∧ k < 0 + n ∧ k < B.length) := by omega
    rw [if_neg h1, if_neg this]

/-- Copying a whole array over an array of the same length gives the source. -/
theorem memcpy_full (D S : List Nat) (n : Nat) (hD : D.length = n) (hS : S.length = n) :
    memcpy D 0 S 0 n = S := by
  apply ext_getD
  · rw [length_memcpy, hD, hS]
  · intro k hk
    rw [length_memcpy, hD] at hk
    rw [getD_memcpy]
    have : 0 ≤ k ∧ k < 0 + n ∧ k < D.length := by omega
    rw [if_pos this, Nat.zero_add, Nat.sub_zero]

theorem getD_take_lt (l : List Nat) (n t : Nat) (h : t < n) :
    (l.take n).getD t 0 = l.getD t 0 := by
  simp only [List.getD_eq_getElem?_getD, List.getElem?_take, if_pos h]

theorem getD_map_range (f : Nat → Nat) (n t : Nat) (h : t < n) :
    ((List.range n).map f).getD t 0 = f t := by
  simp only [List.getD_eq_getElem?_getD, List.getElem?_map, List.getElem?_range h, Option.map_some',
    Option.getD_some]



/-! ## Evaluation of the block cipher on explicit blocks -/

set_option maxRecDepth 100000 in
theorem fastSbox_table : (List.range 256).map fastSbox = SBOX := by decide!

theorem sboxPacked_lt : sboxPacked < 256 ^ 256 := by decide!

theorem SBOX_eq_fastSbox (x : Nat) : SBOX.getD x 0 = fastSbox x := by
  by_cases hx : x < 256
  · have h : SBOX.getD x 0 = ((List.range 256).map fastSbox).getD x 0 := by rw [fastSbox_table]
    rw [h, getD_map_range _ _ _ hx]
  · have h1 : SBOX.getD x 0 = 0 :=
      List.getD_eq_default _ _ (by rw [length_SBOX]; omega)
    have h2 : sboxPacked < 2 ^ (8 * x) := by
      rw [Nat.pow_mul]
      exact Nat.lt_of_lt_of_le sboxPacked_lt (Nat.pow_le_pow_right (by decide) (by omega))
    rw [h1, fastSbox, Nat.shiftRight_eq_div_pow, Nat.div_eq_of_lt h2]

theorem getD_of_drop (l : List Nat) (a : Nat) (ks : List Nat) (h : l.drop a = ks) (p : Nat) :
    l.getD (a + p) 0 = ks.getD p 0 := by
  rw [← h, List.getD_eq_getElem?_getD, List.getD_eq_getElem?_getD, List.getElem?_drop]

theorem fastAddRoundKey_eq (Round : Nat) (Context : AesContext) (State : List Nat) :
    fastAddRoundKey Round Context State = AddRoundKey Round Context State := by
  unfold fastAddRoundKey
  split
  · rename_i k0 k1 k2 k3 k4 k5 k6 k7 k8 k9 k10 k11 k12 k13 k14 k15 tl
      s0 s1 s2 s3 s4 s5 s6 s7 s8 s9 s10 s11 s12 s13 s14 s15 hk
    have hp := getD_of_drop _ _ _ hk
    have h0 := hp 0
    simp only [List.getD_eq_getElem?_getD] at hp h0
    simp [AddRoundKey, stGet, stSet, Nat.add_assoc, hp]
  · rfl

theorem fastEncryptRound_eq (Context : AesContext) (State : List Nat) (round : Nat) :
    fastEncryptRound Context State round = EncryptRound Context State round := by
  unfold fastEncryptRound
  split
  · rename_i k0 k1 k2 k3 k4 k5 k6 k7 k8 k9 k10 k11 k12 k13 k14 k15 tl
      s0 s1 s2 s3 s4 s5 s6 s7 s8 s9 s10 s11 s12 s13 s14 s15 hk
    have hp := getD_of_drop _ _ _ hk
    have hs := SBOX_eq_fastSbox
    simp only [List.getD_eq_getElem?_getD] at hp hs
    simp [EncryptRound, AddRoundKey, MixColumns, ShiftRows, SubBytes, stGet, stSet,
      Nat.add_assoc, hp, hs]
  · rfl

theorem fastFinalRound_eq (Context : AesContext) (State : List Nat) :
    fastFinalRound Context State =
      AddRoundKey Context.NumberOfRounds Context (ShiftRows (SubBytes State)) := by
  unfold fastFinalRound
  split
  · rename_i k0 k1 k2 k3 k4 k5 k6 k7 k8 k9 k10 k11 k12 k13 k14 k15 tl
      s0 s1 s2 s3 s4 s5 s6 s7 s8 s9 s10 s11 s12 s13 s14 s15 hk
    have hp := getD_of_drop _ _ _ hk
    have hs := SBOX_eq_fastSbox
    simp only [List.getD_eq_getElem?_getD] at hp hs
    simp [AddRoundKey, ShiftRows, SubBytes, stGet, stSet, Nat.add_assoc, hp, hs]
  · rfl

/-- The round-by-round evaluation on explicit blocks computes `AesEncryptInPlace`. -/
theorem AesEncryptInPlace_eq_fast : AesEncryptInPlace = fastAesEncryptInPlace := by
  funext Context Block
  have h1 : fastEncryptRound Context = EncryptRound Context := by
    funext s r; exact fastEncryptRound_eq Context s r
  rw [fastAesEncryptInPlace, fastFinalRound_eq, h1, fastAddRoundKey_eq, AesEncryptInPlace]

/-! ### Key expansion on a reversed list -/

theorem length_KeyCopyStep (Key rk : List Nat) (i : Nat) :
    (KeyCopyStep Key rk i).length = rk.length := by
  simp [KeyCopyStep]

theorem getD_KeyCopyStep (Key rk : List Nat) (i k : Nat) :
    (KeyCopyStep Key rk i).getD k 0 =
      if 4 * i ≤ k ∧ k < 4 * i + 4 ∧ k < rk.length then Key.getD k 0 else rk.getD k 0 := by
  unfold KeyCopyStep
  dsimp only
  simp only [getD_set, List.length_set]
  by_cases h0 : k = i * 4 + 0
  · subst h0
    by_cases hl : i * 4 + 0 < rk.length
    · rw [if_neg (by omega), if_neg (by omega), if_neg (by omega), if_pos ⟨rfl, hl⟩,
        if_pos (by omega)]
    · rw [if_neg (by omega), if_neg (by omega), if_neg (by omega), if_neg (by omega),
        if_neg (by omega)]
  · by_cases h1 : k = i * 4 + 1
    · subst h1
      by_cases hl : i * 4 + 1 < rk.length
      · rw [if_neg (by omega), if_neg (by omega), if_pos ⟨rfl, hl⟩, if_pos (by omega)]
      · rw [if_neg (by omega), if_neg (by omega), if_neg (by omega), if_neg (by omega),
          if_neg (by omega)]
    · by_cases h2 : k = i * 4 + 2
      · subst h2
        by_cases hl : i * 4 + 2 < rk.length
        · rw [if_neg (by omega), if_pos ⟨rfl, hl⟩, if_pos (by omega)]
        · rw [if_neg (by omega), if_neg (by omega), if_neg (by omega), if_neg (by omega),
            if_neg (by omega)]
      · by_cases h3 : k = i * 4 + 3
        · subst h3
          by_cases hl : i * 4 + 3 < rk.length
          · rw [if_pos ⟨rfl, hl⟩, if_pos (by omega)]
          · rw [if_neg (by omega), if_neg (by omega), if_neg (by omega), if_neg (by omega),
              if_neg (by omega)]
        · rw [if_neg (by omega), if_neg (by omega), if_neg (by omega), if_neg (by omega),
            if_neg (by omega)]

theorem foldl_KeyCopyStep (Key : List Nat) (m : Nat) (rk : List Nat) :
    ((List.range m).foldl (KeyCopyStep Key) rk).length = rk.length ∧
    ∀ k, ((List.range m).foldl (KeyCopyStep Key) rk).getD k 0 =
      if k < 4 * m ∧ k < rk.length then Key.getD k 0 else rk.getD k 0 := by
  induction m with
  | zero =>
    refine ⟨rfl, fun k => ?_⟩
    rw [if_neg (by omega)]; rfl
  | succ m ih =>
    obtain ⟨ih1, ih2⟩ := ih
    rw [List.range_succ, List.foldl_append, List.foldl_cons, List.foldl_nil]
    refine ⟨by rw [length_KeyCopyStep, ih1], fun k => ?_⟩
    rw [getD_KeyCopyStep, ih2 k, ih1]
    by_cases h1 : 4 * m ≤ k ∧ k < 4 * m + 4 ∧ k < rk.length
    · rw [if_pos h1, if_pos (by omega)]
    · rw [if_neg h1]
      by_cases h2 : k < 4 * m ∧ k < rk.length
      · rw [if_pos h2, if_pos (by omega)]
      · rw [if_neg h2, if_neg (by omega)]


theorem getD_set_ne (D : List Nat) (p v k : Nat) (h : k ≠ p) :
    (D.set p v).getD k 0 = D.getD k 0 := by
  rw [getD_set, if_neg (fun hh => h hh.1)]

theorem getD_set_eq (D : List Nat) (p v : Nat) (h : p < D.length) :
    (D.set p v).getD p 0 = v := by
  rw [getD_set, if_pos ⟨rfl, h⟩]

/-- One step of `KeyExpansion` and one step of the computation on the reversed
list stay in step: the bytes written so far are the reversed list, the bytes
not yet written are those of the initial array. -/
theorem KeyExpansionStep_sim (K i : Nat) (R0 rk rev : List Nat) (hK : 1 ≤ K) (hi : K ≤ i)
    (hlen : 4 * i + 4 ≤ R0.length) (h1 : rev.length = 4 * i) (h2 : rk.length = R0.length)
    (h3 : ∀ k, k < 4 * i → rk.getD k 0 = rev.getD (4 * i - 1 - k) 0)
    (h4 : ∀ k, 4 * i ≤ k → rk.getD k 0 = R0.getD k 0) :
    (fastKeyExpansionStep K rev i).length = 4 * (i + 1) ∧
    (KeyExpansionStep K rk i).length = R0.length ∧
    (∀ k, k < 4 * (i + 1) →
      (KeyExpansionStep K rk i).getD k 0 =
        (fastKeyExpansionStep K rev i).getD (4 * (i + 1) - 1 - k) 0) ∧
    (∀ k, 4 * (i + 1) ≤ k → (KeyExpansionStep K rk i).getD k 0 = R0.getD k 0) := by
  rcases rev with _ | ⟨t3, _ | ⟨t2, _ | ⟨t1, _ | ⟨t0, tl⟩⟩⟩⟩
  · simp at h1; omega
  · simp at h1; omega
  · simp at h1; omega
  · simp at h1; omega
  generalize hd : (t3 :: t2 :: t1 :: t0 :: tl).drop (4 * K - 4) = d
  have hdl : d.length = 4 * i - (4 * K - 4) := by rw [← hd, List.length_drop, h1]
  rcases d with _ | ⟨p3, _ | ⟨p2, _ | ⟨p1, _ | ⟨p0, tl2⟩⟩⟩⟩
  · simp at hdl; omega
  · simp at hdl; omega
  · simp at hdl; omega
  · simp at hdl; omega
  have hp := getD_of_drop _ _ _ hd
  have T0 : rk.getD ((i - 1) * 4 + 0) 0 = t0 := by
    rw [h3 _ (by omega), show 4 * i - 1 - ((i - 1) * 4 + 0) = 3 by omega]; rfl
  have T1 : rk.getD ((i - 1) * 4 + 1) 0 = t1 := by
    rw [h3 _ (by omega), show 4 * i - 1 - ((i - 1) * 4 + 1) = 2 by omega]; rfl
  have T2 : rk.getD ((i - 1) * 4 + 2) 0 = t2 := by
    rw [h3 _ (by omega), show 4 * i - 1 - ((i - 1) * 4 + 2) = 1 by omega]; rfl
  have T3 : rk.getD ((i - 1) * 4 + 3) 0 = t3 := by
    rw [h3 _ (by omega), show 4 * i - 1 - ((i - 1) * 4 + 3) = 0 by omega]; rfl
  have P0 : rk.getD ((i - K) * 4 + 0) 0 = p0 := by
    rw [h3 _ (by omega), show 4 * i - 1 - ((i - K) * 4 + 0) = 4 * K - 4 + 3 by omega, hp]; rfl
  have P1 : rk.getD ((i - K) * 4 + 1) 0 = p1 := by
    rw [h3 _ (by omega), show 4 * i - 1 - ((i - K) * 4 + 1) = 4 * K - 4 + 2 by omega, hp]; rfl
  have P2 : rk.getD ((i - K) * 4 + 2) 0 = p2 := by
    rw [h3 _ (by omega), show 4 * i - 1 - ((i - K) * 4 + 2) = 4 * K - 4 + 1 by omega, hp]; rfl
  have P3 : rk.getD ((i - K) * 4 + 3) 0 = p3 := by
    rw [h3 _ (by omega), show 4 * i - 1 - ((i - K) * 4 + 3) = 4 * K - 4 + 0 by omega, hp]; rfl
  have r1 : ∀ (D : List Nat) (v : Nat),
      (D.set (i * 4 + 0) v).getD ((i - K) * 4 + 1) 0 = D.getD ((i - K) * 4 + 1) 0 :=
    fun D v => getD_set_ne D _ v _ (by omega)
  have r2a : ∀ (D : List Nat) (v : Nat),
      (D.set (i * 4 + 0) v).getD ((i - K) * 4 + 2) 0 = D.getD ((i - K) * 4 + 2) 0 :=
    fun D v => getD_set_ne D _ v _ (by omega)
  have r2b : ∀ (D : List Nat) (v : Nat),
      (D.set (i * 4 + 1) v).getD ((i - K) * 4 + 2) 0 = D.getD ((i - K) * 4 + 2) 0 :=
    fun D v => getD_set_ne D _ v _ (by omega)
  have r3a : ∀ (D : List Nat) (v : Nat),
      (D.set (i * 4 + 0) v).getD ((i - K) * 4 + 3) 0 = D.getD ((i - K) * 4 + 3) 0 :=
    fun D v => getD_set_ne D _ v _ (by omega)
  have r3b : ∀ (D : List Nat) (v : Nat),
      (D.set (i * 4 + 1) v).getD ((i - K) * 4 + 3) 0 = D.getD ((i - K) * 4 + 3) 0 :=
    fun D v => getD_set_ne D _ v _ (by omega)
  have r3c : ∀ (D : List Nat) (v : Nat),
      (D.set (i * 4 + 2) v).getD ((i - K) * 4 + 3) 0 = D.getD ((i - K) * 4 + 3) 0 :=
    fun D v => getD_set_ne D _ v _ (by omega)
  simp only [KeyExpansionStep, fastKeyExpansionStep, hd, r1, r2a, r2b, r3a, r3b, r3c,
    T0, T1, T2, T3, P0, P1, P2, P3, SBOX_eq_fastSbox]
  generalize (if 0 = i % K then
      (fastSbox t1 ^^^ RCON.getD (i / K) 0, fastSbox t2, fastSbox t3, fastSbox t0)
    else (t0, t1, t2, t3)) = tempA
  generalize (if AES_KEY_SIZE_256 / 4 = K then
      if 4 = i % K then
        (fastSbox tempA.1, fastSbox tempA.2.1, fastSbox tempA.2.2.1, fastSbox tempA.2.2.2)
      else tempA
    else tempA) = temp
  generalize p0 ^^^ temp.1 = n0
  generalize p1 ^^^ temp.2.1 = n1
  generalize p2 ^^^ temp.2.2.1 = n2
  generalize p3 ^^^ temp.2.2.2 = n3
  refine ⟨?_, ?_, ?_, ?_⟩
  · simp only [List.length_cons] at h1 ⊢; omega
  · simp only [List.length_set]; exact h2
  · intro k hk
    by_cases c0 : k = i * 4 + 0
    · rw [c0, getD_set_ne _ _ _ _ (by omega), getD_set_ne _ _ _ _ (by omega),
        getD_set_ne _ _ _ _ (by omega), getD_set_eq _ _ _ (by omega),
        show 4 * (i + 1) - 1 - (i * 4 + 0) = 3 by omega]
      rfl
    by_cases c1 : k = i * 4 + 1
    · rw [c1, getD_set_ne _ _ _ _ (by omega), getD_set_ne _ _ _ _ (by omega),
        getD_set_eq _ _ _ (by rw [List.length_set]; omega),
        show 4 * (i + 1) - 1 - (i * 4 + 1) = 2 by omega]
      rfl
    by_cases c2 : k = i * 4 + 2
    · rw [c2, getD_set_ne _ _ _ _ (by omega),
        getD_set_eq _ _ _ (by rw [List.length_set, List.length_set]; omega),
        show 4 * (i + 1) - 1 - (i * 4 + 2) = 1 by omega]
      rfl
    by_cases c3 : k = i * 4 + 3
    · rw [c3, getD_set_eq _ _ _
          (by rw [List.length_set, List.length_set, List.length_set]; omega),
        show 4 * (i + 1) - 1 - (i * 4 + 3) = 0 by omega]
      rfl
    rw [getD_set_ne _ _ _ _ c3, getD_set_ne _ _ _ _ c2, getD_set_ne _ _ _ _ c1,
      getD_set_ne _ _ _ _ c0, h3 k (by omega),
      show 4 * (i + 1) - 1 - k = (4 * i - 1 - k) + 4 by omega]
    rfl
  · intro k hk
    rw [getD_set_ne _ _ _ _ (by omega), getD_set_ne _ _ _ _ (by omega),
      getD_set_ne _ _ _ _ (by omega), getD_set_ne _ _ _ _ (by omega), h4 k (by omega)]


theorem KeyExpansion_loop_sim (K : Nat) (R0 : List Nat) (hK : 1 ≤ K) :
    ∀ (n s : Nat) (rk rev : List Nat), K ≤ s → 4 * (s + n) ≤ R0.length →
      rev.length = 4 * s → rk.length = R0.length →
      (∀ k, k < 4 * s → rk.getD k 0 = rev.getD (4 * s - 1 - k) 0) →
      (∀ k, 4 * s ≤ k → rk.getD k 0 = R0.getD k 0) →
      ((List.range' s n).foldl (fastKeyExpansionStep K) rev).length = 4 * (s + n) ∧
      ((List.range' s n).foldl (KeyExpansionStep K) rk).length = R0.length ∧
      (∀ k, k < 4 * (s + n) →
        ((List.range' s n).foldl (KeyExpansionStep K) rk).getD k 0 =
          ((List.range' s n).foldl (fastKeyExpansionStep K) rev).getD (4 * (s + n) - 1 - k) 0) ∧
      (∀ k, 4 * (s + n) ≤ k →
        ((List.range' s n).foldl (KeyExpansionStep K) rk).getD k 0 = R0.getD k 0) := by
  intro n
  induction n with
  | zero =>
    intro s rk rev _ _ h1 h2 h3 h4
    exact ⟨h1, h2, h3, h4⟩
  | succ n ih =>
    intro s rk rev hs hlen h1 h2 h3 h4
    obtain ⟨g1, g2, g3, g4⟩ := KeyExpansionStep_sim K s R0 rk rev hK hs (by omega) h1 h2 h3 h4
    have e : s + (n + 1) = s + 1 + n := by omega
    rw [List.range'_succ, List.foldl_cons, List.foldl_cons, e]
    exact ih (s + 1) _ _ (by omega) (by omega) g1 g2 g3 g4

theorem getD_reverse (l : List Nat) (j : Nat) (h : j < l.length) :
    l.reverse.getD j 0 = l.getD (l.length - 1 - j) 0 := by
  rw [List.getD_eq_getElem?_getD, List.getD_eq_getElem?_getD, List.getElem?_reverse h]

/-- The computation on the reversed list gives the round key array of
`KeyExpansion` on a zero-filled context. -/
theorem KeyExpansion_eq_fast (K Nr : Nat) (Key : List Nat) (hK : 1 ≤ K) (hKN : K ≤ 4 * (Nr + 1))
    (hN : 16 * (Nr + 1) ≤ 240) :
    KeyExpansion Key
        { RoundKey := List.replicate AES_ROUND_KEY_BYTES 0, NumberOfRounds := Nr,
          KeySizeInWords := K } =
      { RoundKey := fastKeyExpansion K Nr Key, NumberOfRounds := Nr, KeySizeInWords := K } := by
  have hR0 : (List.replicate AES_ROUND_KEY_BYTES 0).length = 240 := List.length_replicate _ _
  obtain ⟨c1, c2⟩ := foldl_KeyCopyStep Key K (List.replicate AES_ROUND_KEY_BYTES 0)
  have hrev : (((List.range (4 * K)).map (fun k => Key.getD k 0)).reverse).length = 4 * K := by
    rw [List.length_reverse, List.length_map, List.length_range]
  obtain ⟨g1, g2, g3, g4⟩ := KeyExpansion_loop_sim K (List.replicate AES_ROUND_KEY_BYTES 0) hK
    (4 * (Nr + 1) - K) K
    ((List.range K).foldl (KeyCopyStep Key) (List.replicate AES_ROUND_KEY_BYTES 0))
    (((List.range (4 * K)).map (fun k => Key.getD k 0)).reverse)
    (Nat.le_refl _) (by rw [hR0]; omega) hrev c1
    (fun k hk => by
      rw [c2 k, if_pos ⟨hk, by rw [hR0]; omega⟩,
        getD_reverse _ _ (by rw [List.length_map, List.length_range]; omega),
        List.length_map, List.length_range, getD_map_range _ _ _ (by omega),
        show 4 * K - 1 - (4 * K - 1 - k) = k by omega])
    (fun k hk => by rw [c2 k, if_neg (by omega)])
  have eN : K + (4 * (Nr + 1) - K) = 4 * (Nr + 1) := by omega
  rw [eN] at g1 g3 g4
  unfold KeyExpansion
  dsimp only
  congr 1
  unfold fastKeyExpansion
  apply ext_getD
  · rw [g2, hR0, List.length_append, List.length_reverse, g1, List.length_replicate]
    simp only [AES_ROUND_KEY_BYTES]; omega
  · intro k hk
    rw [g2, hR0] at hk
    by_cases h : k < 4 * (4 * (Nr + 1))
    · rw [g3 k h, List.getD_append _ _ _ _ (by rw [List.length_reverse, g1]; exact h),
        getD_reverse _ _ (by rw [g1]; exact h), g1]
    · rw [g4 k (by omega), List.getD_append_right _ _ _ _ (by rw [List.length_reverse, g1]; omega),
        List.getD_eq_getElem?_getD, List.getD_eq_getElem?_getD, List.getElem?_replicate,
        List.getElem?_replicate]
      split_ifs <;> rfl

theorem AesInitialise128_eq_fast :
    AesInitialise128 = fun Key =>
      { RoundKey := fastKeyExpansion 4 10 Key, NumberOfRounds := 10, KeySizeInWords := 4 } := by
  funext Key
  exact KeyExpansion_eq_fast 4 10 Key (by decide) (by decide) (by decide)

theorem AesInitialise192_eq_fast :
    AesInitialise192 = fun Key =>
      { RoundKey := fastKeyExpansion 6 12 Key, NumberOfRounds := 12, KeySizeInWords := 6 } := by
  funext Key
  exact KeyExpansion_eq_fast 6 12 Key (by decide) (by decide) (by decide)

theorem AesInitialise256_eq_fast :
    AesInitialise256 = fun Key =>
      { RoundKey := fastKeyExpansion 8 14 Key, NumberOfRounds := 14, KeySizeInWords := 8 } := by
  funext Key
  exact KeyExpansion_eq_fast 8 14 Key (by decide) (by decide) (by decide)

/-! ## Claims about the block cipher -/

set_option maxRecDepth 100000 in
theorem AesInitialise128_zero :
    AesInitialise128 (List.replicate 16 0) = zeroKeySchedule128 := by
  rw [AesInitialise128_eq_fast]
  decide!

/-- C1: AES round trip. For every key of 16, 24 or 32 bytes, with the context
built by `AesInitialise128`, `AesInitialise192` or `AesInitialise256`
respectively, and every 16-byte block, decrypting the encrypted block in place
gives the block back. -/
theorem aes_decrypt_encrypt_round_trip (Key Block : List Nat) (ctx : AesContext)
    (hctx : (Key.length = 16 ∧ ctx = AesInitialise128 Key) ∨
      (Key.length = 24 ∧ ctx = AesInitialise192 Key) ∨
      (Key.length = 32 ∧ ctx = AesInitialise256 Key))
    (hKey : Bytes Key) (hBlock : IsBlock Block) :
    AesDecryptInPlace ctx (AesEncryptInPlace ctx Block) = Block := by
  have hk : Bytes ctx.RoundKey := by
    rcases hctx with ⟨_, rfl⟩ | ⟨_, rfl⟩ | ⟨_, rfl⟩
    · exact Bytes_AesInitialise128 Key hKey
    · exact Bytes_AesInitialise192 Key hKey
    · exact Bytes_AesInitialise256 Key hKey
  exact AesDecryptInPlace_AesEncryptInPlace ctx hk Block hBlock

/-- Witness for C1: the 16-byte key `0, 1, .., 15` and the block `0, 17, .., 255`. -/
theorem aes_decrypt_encrypt_round_trip_witness :
    Bytes (List.range 16) ∧ IsBlock ((List.range 16).map (fun i => 17 * i)) ∧
    AesDecryptInPlace (AesInitialise128 (List.range 16))
      (AesEncryptInPlace (AesInitialise128 (List.range 16))
        ((List.range 16).map (fun i => 17 * i))) = (List.range 16).map (fun i => 17 * i) :=
  ⟨by decide, by decide,
    aes_decrypt_encrypt_round_trip (List.range 16) ((List.range 16).map (fun i => 17 * i))
      (AesInitialise128 (List.range 16)) (Or.inl ⟨by decide, rfl⟩) (by decide) (by decide)⟩

set_option maxRecDepth 100000 in
/-- C2: known answer. With the context produced by `AesInitialise128` on the
all-zero 16-byte key, `AesEncryptInPlace` of the all-zero block is
`66 e9 4b d4 ef 8a 2c 3b 88 4c fa 59 ca 34 2b 2e`. -/
theorem aes128_zero_key_zero_block_known_answer :
    AesEncryptInPlace (AesInitialise128 (List.replicate 16 0)) (List.replicate 16 0) =
      [0x66, 0xe9, 0x4b, 0xd4, 0xef, 0x8a, 0x2c, 0x3b,
       0x88, 0x4c, 0xfa, 0x59, 0xca, 0x34, 0x2b, 0x2e] := by
  rw [AesInitialise128_zero, AesEncryptInPlace_eq_fast]
  decide!

set_option maxRecDepth 100000 in
/-- C3: the FIPS-197 Appendix C vectors. Encrypting the block
`00112233445566778899aabbccddeeff` gives `69c4e0d86a7b0430d8cdb78070b4c55a`
under the 16-byte key `00 01 .. 0f`, `dda97ca4864cdfe06eaf70a0ec0d7191` under
the 24-byte key `00 01 .. 17` and `8ea2b7ca516745bfeafc49904b496089` under the
32-byte key `00 01 .. 1f`. -/
theorem aes_fips197_appendix_c_known_answers :
    AesEncryptInPlace (AesInitialise128 (List.range 16))
        [0x00, 0x11, 0x22, 0x33, 0x44, 0x55, 0x66, 0x77,
         0x88, 0x99, 0xaa, 0xbb, 0xcc, 0xdd, 0xee, 0xff] =
      [0x69, 0xc4, 0xe0, 0xd8, 0x6a, 0x7b, 0x04, 0x30,
       0xd8, 0xcd, 0xb7, 0x80, 0x70, 0xb4, 0xc5, 0x5a] ∧
    AesEncryptInPlace (AesInitialise192 (List.range 24))
        [0x00, 0x11, 0x22, 0x33, 0x44, 0x55, 0x66, 0x77,
         0x88, 0x99, 0xaa, 0xbb, 0xcc, 0xdd, 0xee, 0xff] =
      [0xdd, 0xa9, 0x7c, 0xa4, 0x86, 0x4c, 0xdf, 0xe0,
       0x6e, 0xaf, 0x70, 0xa0, 0xec, 0x0d, 0x71, 0x91] ∧
    AesEncryptInPlace (AesInitialise256 (List.range 32))
        [0x00, 0x11, 0x22, 0x33, 0x44, 0x55, 0x66, 0x77,
         0x88, 0x99, 0xaa, 0xbb, 0xcc, 0xdd, 0xee, 0xff] =
      [0x8e, 0xa2, 0xb7, 0xca, 0x51, 0x67, 0x45, 0xbf,
       0xea, 0xfc, 0x49, 0x90, 0x4b, 0x49, 0x60, 0x89] := by
  rw [AesEncryptInPlace_eq_fast, AesInitialise128_eq_fast, AesInitialise192_eq_fast,
    AesInitialise256_eq_fast]
  refine ⟨?_, ?_, ?_⟩ <;> decide!


/-! ## Counter mode -/

theorem MIN_eq_min (a b : Nat) : MIN a b = min a b := by
  unfold MIN
  split_ifs <;> omega

theorem sub32_eq (a b : Nat) (ha : a < 2 ^ 32) (hb : b ≤ a) : sub32 a b = a - b := by
  unfold sub32
  have h1 : b % 2 ^ 32 = b := Nat.mod_eq_of_lt (by omega)
  rw [h1]
  omega

theorem length_EncryptRound (ctx : AesContext) (s : List Nat) (r : Nat) :
    (EncryptRound ctx s r).length = s.length := by
  rw [EncryptRound, length_AddRoundKey, length_MixColumns, length_ShiftRows, length_SubBytes]

theorem length_foldl_EncryptRound (ctx : AesContext) (L : List Nat) :
    ∀ s : List Nat, (L.foldl (EncryptRound ctx) s).length = s.length := by
  induction L with
  | nil => intro s; rfl
  | cons r L ih => intro s; rw [List.foldl_cons, ih, length_EncryptRound]

theorem length_AesEncryptInPlace (ctx : AesContext) (B : List Nat) :
    (AesEncryptInPlace ctx B).length = B.length := by
  unfold AesEncryptInPlace
  dsimp only
  rw [length_AddRoundKey, length_ShiftRows, length_SubBytes, length_foldl_EncryptRound,
    length_AddRoundKey]

theorem length_bigEndian64 (x : Nat) : (bigEndian64 x).length = 8 := rfl

theorem length_ctrKeystreamBlock (Aes : AesContext) (IV : List Nat) (hIV : IV.length = 8)
    (b : Nat) : (ctrKeystreamBlock Aes IV b).length = 16 := by
  rw [ctrKeystreamBlock, length_AesEncryptInPlace, List.length_append, hIV, length_bigEndian64]

theorem length8_cases {α : Type} (s : List α) (h : s.length = 8) :
    ∃ a0 a1 a2 a3 a4 a5 a6 a7, s = [a0, a1, a2, a3, a4, a5, a6, a7] := by
  rcases s with _ | ⟨a0, s⟩; · simp at h
  rcases s with _ | ⟨a1, s⟩; · simp at h
  rcases s with _ | ⟨a2, s⟩; · simp at h
  rcases s with _ | ⟨a3, s⟩; · simp at h
  rcases s with _ | ⟨a4, s⟩; · simp at h
  rcases s with _ | ⟨a5, s⟩; · simp at h
  rcases s with _ | ⟨a6, s⟩; · simp at h
  rcases s with _ | ⟨a7, s⟩; · simp at h
  rcases s with _ | ⟨x, s⟩
  · exact ⟨a0, a1, a2, a3, a4, a5, a6, a7, rfl⟩
  · simp at h

theorem and_255 (x : Nat) : x &&& 255 = x % 256 :=
  Nat.and_pow_two_sub_one_eq_mod x 8

/-- `STORE64H` at offset 8 of a 16-byte block that starts with the IV leaves
the IV followed by the big-endian encoding of the value. -/
theorem STORE64H_eq_append (c : Nat) (pre IV : List Nat) (hpre : pre.length = 16)
    (hIV : IV.length = 8) (h8 : ∀ k < 8, pre.getD k 0 = IV.getD k 0) :
    STORE64H c pre AES_CTR_IV_SIZE = IV ++ bigEndian64 c := by
  obtain ⟨p0, p1, p2, p3, p4, p5, p6, p7, p8, p9, p10, p11, p12, p13, p14, p15, rfl⟩ :=
    length16_cases pre hpre
  obtain ⟨i0, i1, i2, i3, i4, i5, i6, i7, rfl⟩ := length8_cases IV hIV
  have e0 := h8 0 (by decide)
  have e1 := h8 1 (by decide)
  have e2 := h8 2 (by decide)
  have e3 := h8 3 (by decide)
  have e4 := h8 4 (by decide)
  have e5 := h8 5 (by decide)
  have e6 := h8 6 (by decide)
  have e7 := h8 7 (by decide)
  simp at e0 e1 e2 e3 e4 e5 e6 e7
  simp [STORE64H, AES_CTR_IV_SIZE, bigEndian64, and_255, Nat.shiftRight_eq_div_pow,
    e0, e1, e2, e3, e4, e5, e6, e7]

theorem AesEncrypt_eq (Aes : AesContext) (B : List Nat) (hB : B.length = 16) :
    AesEncrypt Aes B = AesEncryptInPlace Aes B := by
  rw [AesEncrypt, memcpy_full _ _ _ (by simp [AES_BLOCK_SIZE]) (by simpa [AES_BLOCK_SIZE] using hB)]



/-- The block-generating part of the loop of `AesCtrXor`: after `m + 1`
iterations the counter is `start + m`, the pre-cipher block is the IV followed
by the counter and the encrypted block is the keystream block of the counter. -/
theorem ctr_loop_blocks (Aes : AesContext) (IV In : List Nat) (n start first : Nat)
    (hIV : IV.length = 8) :
    ∀ (m : Nat) (v0 : CtrLoopVars), v0.preCipherBlock.length = 16 →
      (∀ k < 8, v0.preCipherBlock.getD k 0 = IV.getD k 0) →
      let v := (List.range (m + 1)).foldl (AesCtrXorBody Aes In n start first) v0
      v.cipherBlockIndex = (start + m) % 2 ^ 64 ∧
      v.preCipherBlock = IV ++ bigEndian64 ((start + m) % 2 ^ 64) ∧
      v.encCipherBlock = ctrKeystreamBlock Aes IV ((start + m) % 2 ^ 64) := by
  intro m
  induction m with
  | zero =>
    intro v0 h16 h8
    have hp := STORE64H_eq_append ((start + 0) % 2 ^ 64) v0.preCipherBlock IV h16 hIV h8
    have hl : (IV ++ bigEndian64 ((start + 0) % 2 ^ 64)).length = 16 := by
      rw [List.length_append, hIV, length_bigEndian64]
    simp only [List.range_succ, List.range_zero, List.nil_append, List.foldl_cons, List.foldl_nil,
      AesCtrXorBody, hp, AesEncrypt_eq _ _ hl, ctrKeystreamBlock]
    exact ⟨trivial, trivial, trivial⟩
  | succ m ih =>
    intro v0 h16 h8
    obtain ⟨_, ih2, _⟩ := ih v0 h16 h8
    rw [List.range_succ, List.foldl_append]
    generalize (List.range (m + 1)).foldl (AesCtrXorBody Aes In n start first) v0 = w at ih2 ⊢
    have hw16 : w.preCipherBlock.length = 16 := by
      rw [ih2, List.length_append, hIV, length_bigEndian64]
    have hw8 : ∀ k < 8, w.preCipherBlock.getD k 0 = IV.getD k 0 := by
      intro k hk
      rw [ih2, List.getD_append _ _ _ _ (by omega)]
    have hp := STORE64H_eq_append ((start + (m + 1)) % 2 ^ 64) w.preCipherBlock IV hw16 hIV hw8
    have hl : (IV ++ bigEndian64 ((start + (m + 1)) % 2 ^ 64)).length = 16 := by
      rw [List.length_append, hIV, length_bigEndian64]
    simp only [List.foldl_cons, List.foldl_nil, AesCtrXorBody, hp, AesEncrypt_eq _ _ hl,
      ctrKeystreamBlock]
    exact ⟨trivial, trivial, trivial⟩

theorem ctr_loop_OutBuffer_step (Aes : AesContext) (In : List Nat) (n start first : Nat)
    (v : CtrLoopVars) (i : Nat) :
    (AesCtrXorBody Aes In n start first v i).OutBuffer =
      XorBuffers In ((first + AES_BLOCK_SIZE * i) % 2 ^ 32)
        (AesEncrypt Aes (STORE64H ((start + i) % 2 ^ 64) v.preCipherBlock AES_CTR_IV_SIZE)) 0
        v.OutBuffer ((first + AES_BLOCK_SIZE * i) % 2 ^ 32)
        (MIN (sub32 n ((first + AES_BLOCK_SIZE * i) % 2 ^ 32)) AES_BLOCK_SIZE) := rfl

theorem ctr_loop_pre_step (Aes : AesContext) (In : List Nat) (n start first : Nat)
    (v : CtrLoopVars) (i : Nat) :
    (AesCtrXorBody Aes In n start first v i).preCipherBlock =
      STORE64H ((start + i) % 2 ^ 64) v.preCipherBlock AES_CTR_IV_SIZE := rfl

theorem length_STORE64H (x : Nat) (D : List Nat) (d : Nat) : (STORE64H x D d).length = D.length := by
  simp [STORE64H]

theorem getD_STORE64H_lt (x : Nat) (D : List Nat) (d k : Nat) (hk : k < d) :
    (STORE64H x D d).getD k 0 = D.getD k 0 := by
  unfold STORE64H
  dsimp only
  repeat rw [getD_set, if_neg (by omega)]

/-- The pre-cipher block keeps its length and its first eight bytes. -/
theorem ctr_loop_pre (Aes : AesContext) (In : List Nat) (n start first : Nat) :
    ∀ (m : Nat) (v0 : CtrLoopVars),
      let v := (List.range m).foldl (AesCtrXorBody Aes In n start first) v0
      v.preCipherBlock.length = v0.preCipherBlock.length ∧
      ∀ k < 8, v.preCipherBlock.getD k 0 = v0.preCipherBlock.getD k 0 := by
  intro m
  induction m with
  | zero => intro v0; exact ⟨rfl, fun _ _ => rfl⟩
  | succ m ih =>
    intro v0
    obtain ⟨h1, h2⟩ := ih v0
    rw [List.range_succ, List.foldl_append]
    simp only [List.foldl_cons, List.foldl_nil, ctr_loop_pre_step, length_STORE64H]
    refine ⟨h1, fun k hk => ?_⟩
    rw [getD_STORE64H_lt _ _ _ _ (by simp [AES_CTR_IV_SIZE]; omega)]
    exact h2 k hk



/-- The output part of the loop of `AesCtrXor`: after `m` iterations the bytes
at offsets `first .. first + 16 m` (below `n`) are the input XORed with the
keystream blocks `start, start + 1, ..`; the other bytes are untouched. -/
theorem ctr_loop_out (Aes : AesContext) (IV In : List Nat) (n start first : Nat)
    (hIV : IV.length = 8) (hn : n < 2 ^ 32) :
    ∀ (m : Nat) (v0 : CtrLoopVars), v0.preCipherBlock.length = 16 →
      (∀ k < 8, v0.preCipherBlock.getD k 0 = IV.getD k 0) →
      first + 16 * m ≤ n + 16 →
      let v := (List.range m).foldl (AesCtrXorBody Aes In n start first) v0
      v.OutBuffer.length = v0.OutBuffer.length ∧
      ∀ k, v.OutBuffer.getD k 0 =
        if first ≤ k ∧ k < first + 16 * m ∧ k < n ∧ k < v0.OutBuffer.length then
          In.getD k 0 ^^^
            (ctrKeystreamBlock Aes IV ((start + (k - first) / 16) % 2 ^ 64)).getD
              ((k - first) % 16) 0
        else v0.OutBuffer.getD k 0 := by
  intro m
  induction m with
  | zero =>
    intro v0 _ _ _
    refine ⟨rfl, fun k => ?_⟩
    have : ¬ (first ≤ k ∧ k < first + 16 * 0 ∧ k < n ∧ k < v0.OutBuffer.length) := by omega
    rw [if_neg this]; rfl
  | succ m ih =>
    intro v0 h16 h8 hm
    obtain ⟨ihl, ihk⟩ := ih v0 h16 h8 (by omega)
    obtain ⟨hp16, hp8⟩ := ctr_loop_pre Aes In n start first m v0
    rw [List.range_succ, List.foldl_append]
    generalize (List.range m).foldl (AesCtrXorBody Aes In n start first) v0 = w
      at ihl ihk hp16 hp8 ⊢
    have hw8 : ∀ k < 8, w.preCipherBlock.getD k 0 = IV.getD k 0 := fun k hk => by
      rw [hp8 k hk, h8 k hk]
    have hp := STORE64H_eq_append ((start + m) % 2 ^ 64) w.preCipherBlock IV
      (by rw [hp16, h16]) hIV hw8
    have hl : (IV ++ bigEndian64 ((start + m) % 2 ^ 64)).length = 16 := by
      rw [List.length_append, hIV, length_bigEndian64]
    have hoff : (first + AES_BLOCK_SIZE * m) % 2 ^ 32 = first + 16 * m := by
      simp only [AES_BLOCK_SIZE]; omega
    have hchunk : MIN (sub32 n (first + 16 * m)) AES_BLOCK_SIZE = min (n - (first + 16 * m)) 16 := by
      rw [MIN_eq_min, sub32_eq _ _ hn (by omega)]; rfl
    simp only [List.foldl_cons, List.foldl_nil, ctr_loop_OutBuffer_step, hp, AesEncrypt_eq _ _ hl,
      hoff, hchunk, length_XorBuffers]
    refine ⟨ihl, fun k => ?_⟩
    rw [getD_XorBuffers, ihk, ihl]
    by_cases ha : first + 16 * m ≤ k ∧ k < first + 16 * m + min (n - (first + 16 * m)) 16 ∧
        k < v0.OutBuffer.length
    · have hb : first ≤ k ∧ k < first + 16 * (m + 1) ∧ k < n ∧ k < v0.OutBuffer.length := by
        omega
      have e1 : first + 16 * m + (k - (first + 16 * m)) = k := by omega
      have e2 : 0 + (k - (first + 16 * m)) = (k - first) % 16 := by omega
      have e3 : (k - first) / 16 = m := by omega
      rw [if_pos ha, if_pos hb, e1, e2, e3, ctrKeystreamBlock]
    · rw [if_neg ha]
      by_cases hb : first ≤ k ∧ k < first + 16 * m ∧ k < n ∧ k < v0.OutBuffer.length
      · have hc : first ≤ k ∧ k < first + 16 * (m + 1) ∧ k < n ∧ k < v0.OutBuffer.length := by
          omega
        rw [if_pos hb, if_pos hc]
      · have hc : ¬ (first ≤ k ∧ k < first + 16 * (m + 1) ∧ k < n ∧ k < v0.OutBuffer.length) := by
          omega
        rw [if_neg hb, if_neg hc]


theorem ctr_pre0 (IV : List Nat) :
    (memcpy (List.replicate AES_KEY_SIZE_128 0) 0 IV 0 AES_CTR_IV_SIZE).length = 16 ∧
    ∀ k < 8, (memcpy (List.replicate AES_KEY_SIZE_128 0) 0 IV 0 AES_CTR_IV_SIZE).getD k 0 =
      IV.getD k 0 := by
  refine ⟨by rw [length_memcpy]; rfl, fun k hk => ?_⟩
  rw [getD_memcpy]
  have : 0 ≤ k ∧ k < 0 + AES_CTR_IV_SIZE ∧ k < (List.replicate AES_KEY_SIZE_128 0).length := by
    simp [AES_CTR_IV_SIZE, AES_KEY_SIZE_128]; omega
  rw [if_pos this, Nat.zero_add, Nat.sub_zero]

theorem CreateCurrentCipherBlock_mk (A : AesContext) (IV : List Nat) (SI I : Nat) (B : List Nat)
    (hIV : IV.length = 8) (hb : B.length = 16) :
    CreateCurrentCipherBlock
        { Aes := A, IV := IV, StreamIndex := SI, CurrentCipherBlockIndex := I,
          CurrentCipherBlock := B } =
      { Aes := A, IV := IV, StreamIndex := SI, CurrentCipherBlockIndex := I,
        CurrentCipherBlock := ctrKeystreamBlock A IV I } := by
  unfold CreateCurrentCipherBlock
  dsimp only
  rw [STORE64H_eq_append _ _ IV (by rw [length_memcpy, hb]) hIV, ctrKeystreamBlock]
  intro k hk
  rw [getD_memcpy]
  have : 0 ≤ k ∧ k < 0 + AES_CTR_IV_SIZE ∧ k < B.length := by
    simp [AES_CTR_IV_SIZE]; omega
  rw [if_pos this, Nat.zero_add, Nat.sub_zero]

theorem AesCtrInitialise_eq (Aes : AesContext) (IV : List Nat) (hIV : IV.length = 8) :
    AesCtrInitialise Aes IV =
      { Aes := Aes, IV := IV, StreamIndex := 0, CurrentCipherBlockIndex := 0,
        CurrentCipherBlock := ctrKeystreamBlock Aes IV 0 } := by
  unfold AesCtrInitialise
  rw [memcpy_full (List.replicate AES_CTR_IV_SIZE 0) IV AES_CTR_IV_SIZE
    (List.length_replicate _ _) hIV]
  exact CreateCurrentCipherBlock_mk _ _ _ _ _ hIV (List.length_replicate _ _)

theorem CtrInv_mk (Aes : AesContext) (IV : List Nat) (SI I : Nat) (hI : I < 2 ^ 64)
    (hSI : SI < 2 ^ 64) :
    CtrInv Aes IV
      { Aes := Aes, IV := IV, StreamIndex := SI, CurrentCipherBlockIndex := I,
        CurrentCipherBlock := ctrKeystreamBlock Aes IV I } :=
  { aes := by dsimp only
    iv := by dsimp only
    block := by dsimp only
    index_lt := by dsimp only; exact hI
    stream_lt := by dsimp only; exact hSI }

theorem CtrInv_AesCtrInitialise (Aes : AesContext) (IV : List Nat) (hIV : IV.length = 8) :
    CtrInv Aes IV (AesCtrInitialise Aes IV) := by
  rw [AesCtrInitialise_eq Aes IV hIV]
  exact CtrInv_mk Aes IV 0 0 (by norm_num) (by norm_num)

theorem AesCtrSetStreamIndex_eq (Aes : AesContext) (IV : List Nat) (hIV : IV.length = 8)
    (c : AesCtrContext) (hc : CtrInv Aes IV c) (K : Nat) :
    AesCtrSetStreamIndex c K =
      { Aes := Aes, IV := IV, StreamIndex := K, CurrentCipherBlockIndex := K / 16,
        CurrentCipherBlock := ctrKeystreamBlock Aes IV (K / 16) } := by
  obtain ⟨h1, h2, h3, _, _⟩ := hc
  obtain ⟨cA, cIV, cSI, cI, cB⟩ := c
  dsimp only at h1 h2 h3
  have hb : cB.length = 16 := by
    rw [h3]; exact length_ctrKeystreamBlock _ _ hIV _
  unfold AesCtrSetStreamIndex
  simp only [AES_BLOCK_SIZE]
  split_ifs with h
  · rw [CreateCurrentCipherBlock_mk _ _ _ _ _ (by rw [h2]; exact hIV) hb, h1, h2]
  · have h' : K / 16 = cI := not_not.mp h
    rw [h1, h2, h3, h']

theorem CtrInv_AesCtrSetStreamIndex (Aes : AesContext) (IV : List Nat) (hIV : IV.length = 8)
    (c : AesCtrContext) (hc : CtrInv Aes IV c) (K : Nat) (hK : K < 2 ^ 64) :
    CtrInv Aes IV (AesCtrSetStreamIndex c K) := by
  rw [AesCtrSetStreamIndex_eq Aes IV hIV c hc K]
  exact CtrInv_mk Aes IV K (K / 16) (by omega) hK



/-- The output buffer of `AesCtrXor` for a request below `2^32 - 16` bytes:
the first chunk is the input XORed with the cached block from the cursor
position on, the following bytes are the input XORed with the keystream blocks
that follow the cached index, and bytes from `Size` on are untouched. -/
theorem AesCtrXor_out (c : AesCtrContext) (In Out : List Nat) (n : Nat)
    (hIV : c.IV.length = 8) (hn : n < 2 ^ 32 - 16) :
    (AesCtrXor c In Out n).2.length = Out.length ∧
    ∀ k, (AesCtrXor c In Out n).2.getD k 0 =
      if k < n ∧ k < Out.length then
        In.getD k 0 ^^^
          (if k < 16 - c.StreamIndex % 16 then
            c.CurrentCipherBlock.getD (c.StreamIndex % 16 + k) 0
          else
            (ctrKeystreamBlock c.Aes c.IV
              (((c.CurrentCipherBlockIndex + 1) % 2 ^ 64 +
                (k - (16 - c.StreamIndex % 16)) / 16) % 2 ^ 64)).getD
              ((k - (16 - c.StreamIndex % 16)) % 16) 0)
      else Out.getD k 0 := by
  have havail : (AES_BLOCK_SIZE - c.StreamIndex % AES_BLOCK_SIZE) % 2 ^ 32 =
      16 - c.StreamIndex % 16 := by
    simp only [AES_BLOCK_SIZE]; omega
  have hfirst : MIN (16 - c.StreamIndex % 16) n = min (16 - c.StreamIndex % 16) n :=
    MIN_eq_min _ _
  have hsub : sub32 AES_BLOCK_SIZE (16 - c.StreamIndex % 16) = c.StreamIndex % 16 := by
    rw [sub32_eq _ _ (by simp [AES_BLOCK_SIZE]) (by simp only [AES_BLOCK_SIZE]; omega)]
    simp only [AES_BLOCK_SIZE]; omega
  have hnum : (sub32 n (min (16 - c.StreamIndex % 16) n) + AES_BLOCK_SIZE) % 2 ^ 32 /
      AES_BLOCK_SIZE = (n - min (16 - c.StreamIndex % 16) n) / 16 + 1 := by
    rw [sub32_eq _ _ (by omega) (by omega)]
    simp only [AES_BLOCK_SIZE]; omega
  obtain ⟨hp16, hp8⟩ := ctr_pre0 c.IV
  unfold AesCtrXor
  simp only [havail, hfirst, hsub, hnum]
  obtain ⟨hl, hk⟩ := ctr_loop_out c.Aes c.IV In n ((c.CurrentCipherBlockIndex + 1) % 2 ^ 64)
    (min (16 - c.StreamIndex % 16) n) hIV (by omega)
    ((n - min (16 - c.StreamIndex % 16) n) / 16 + 1)
    { OutBuffer := XorBuffers In 0 c.CurrentCipherBlock (c.StreamIndex % 16) Out 0
        (min (16 - c.StreamIndex % 16) n)
      preCipherBlock := memcpy (List.replicate AES_KEY_SIZE_128 0) 0 c.IV 0 AES_CTR_IV_SIZE
      encCipherBlock := List.replicate AES_KEY_SIZE_128 0
      cipherBlockIndex := 0 } hp16 hp8 (by omega)
  dsimp only at hl hk
  rw [length_XorBuffers] at hl hk
  refine ⟨hl, fun k => ?_⟩
  rw [hk k, getD_XorBuffers]
  by_cases h1 : k < n ∧ k < Out.length
  · rw [if_pos h1]
    by_cases h2 : k < 16 - c.StreamIndex % 16
    · have h3 : ¬ (min (16 - c.StreamIndex % 16) n ≤ k ∧
          k < min (16 - c.StreamIndex % 16) n +
            16 * ((n - min (16 - c.StreamIndex % 16) n) / 16 + 1) ∧ k < n ∧ k < Out.length) := by
        omega
      have h4 : 0 ≤ k ∧ k < 0 + min (16 - c.StreamIndex % 16) n ∧ k < Out.length := by omega
      rw [if_neg h3, if_pos h4, if_pos h2, Nat.sub_zero, Nat.zero_add]
    · have h3 : min (16 - c.StreamIndex % 16) n ≤ k ∧
          k < min (16 - c.StreamIndex % 16) n +
            16 * ((n - min (16 - c.StreamIndex % 16) n) / 16 + 1) ∧ k < n ∧ k < Out.length := by
        omega
      have h5 : min (16 - c.StreamIndex % 16) n = 16 - c.StreamIndex % 16 := by omega
      rw [if_pos h3, if_neg h2, h5]
  · have h3 : ¬ (min (16 - c.StreamIndex % 16) n ≤ k ∧
        k < min (16 - c.StreamIndex % 16) n +
          16 * ((n - min (16 - c.StreamIndex % 16) n) / 16 + 1) ∧ k < n ∧ k < Out.length) := by
      omega
    have h4 : ¬ (0 ≤ k ∧ k < 0 + min (16 - c.StreamIndex % 16) n ∧ k < Out.length) := by omega
    rw [if_neg h1, if_neg h3, if_neg h4]



/-- The number of loop iterations `AesCtrXor` computes for a context and a size. -/
theorem AesCtrXor_context (Aes : AesContext) (IV : List Nat) (hIV : IV.length = 8)
    (c : AesCtrContext) (hc : CtrInv Aes IV c) (In Out : List Nat) (n : Nat) (N : Nat)
    (hN : N = (sub32 n (MIN ((AES_BLOCK_SIZE - c.StreamIndex % AES_BLOCK_SIZE) % 2 ^ 32) n) +
      AES_BLOCK_SIZE) % 2 ^ 32 / AES_BLOCK_SIZE) :
    (AesCtrXor c In Out n).1 =
      if 0 < N then
        { Aes := Aes, IV := IV, StreamIndex := (c.StreamIndex + n) % 2 ^ 64,
          CurrentCipherBlockIndex := ((c.CurrentCipherBlockIndex + 1) % 2 ^ 64 + (N - 1)) % 2 ^ 64,
          CurrentCipherBlock := ctrKeystreamBlock Aes IV
            (((c.CurrentCipherBlockIndex + 1) % 2 ^ 64 + (N - 1)) % 2 ^ 64) }
      else
        { Aes := Aes, IV := IV, StreamIndex := (c.StreamIndex + n) % 2 ^ 64,
          CurrentCipherBlockIndex := c.CurrentCipherBlockIndex,
          CurrentCipherBlock := ctrKeystreamBlock Aes IV c.CurrentCipherBlockIndex } := by
  obtain ⟨h1, h2, h3, _, _⟩ := hc
  obtain ⟨cA, cIV, cSI, cI, cB⟩ := c
  dsimp only at h1 h2 h3 hN
  subst h1 h2
  obtain ⟨hp16, hp8⟩ := ctr_pre0 cIV
  unfold AesCtrXor
  dsimp only
  rw [← hN]
  rcases Nat.eq_zero_or_pos N with h0 | hpos
  · subst h0
    rw [if_neg (by decide), if_neg (by decide), h3]
  · obtain ⟨m, rfl⟩ : ∃ m, N = m + 1 := ⟨N - 1, by omega⟩
    rw [if_pos hpos, if_pos hpos]
    obtain ⟨e1, _, e3⟩ := ctr_loop_blocks cA cIV In n ((cI + 1) % 2 ^ 64)
      (MIN ((AES_BLOCK_SIZE - cSI % AES_BLOCK_SIZE) % 2 ^ 32) n) hIV m
      { OutBuffer := XorBuffers In 0 cB
          (sub32 AES_BLOCK_SIZE ((AES_BLOCK_SIZE - cSI % AES_BLOCK_SIZE) % 2 ^ 32)) Out 0
          (MIN ((AES_BLOCK_SIZE - cSI % AES_BLOCK_SIZE) % 2 ^ 32) n)
        preCipherBlock := memcpy (List.replicate AES_KEY_SIZE_128 0) 0 cIV 0 AES_CTR_IV_SIZE
        encCipherBlock := List.replicate AES_KEY_SIZE_128 0
        cipherBlockIndex := 0 } hp16 hp8
    rw [e1, e3, memcpy_full cB _ AES_BLOCK_SIZE
      (by rw [h3]; exact length_ctrKeystreamBlock _ _ hIV _)
      (length_ctrKeystreamBlock _ _ hIV _), Nat.add_sub_cancel]

theorem CtrInv_AesCtrXor (Aes : AesContext) (IV : List Nat) (hIV : IV.length = 8)
    (c : AesCtrContext) (hc : CtrInv Aes IV c) (In Out : List Nat) (n : Nat) :
    CtrInv Aes IV (AesCtrXor c In Out n).1 := by
  rw [AesCtrXor_context Aes IV hIV c hc In Out n _ rfl]
  split_ifs
  · exact CtrInv_mk _ _ _ _ (Nat.mod_lt _ (by norm_num)) (Nat.mod_lt _ (by norm_num))
  · exact CtrInv_mk _ _ _ _ hc.index_lt (Nat.mod_lt _ (by norm_num))

theorem CtrInv_of_CtrReachable (Aes : AesContext) (IV : List Nat) (hIV : IV.length = 8)
    (c : AesCtrContext) (hc : CtrReachable Aes IV c) : CtrInv Aes IV c := by
  induction hc with
  | init => exact CtrInv_AesCtrInitialise Aes IV hIV
  | xor c In Out n _ _ ih => exact CtrInv_AesCtrXor Aes IV hIV c ih In Out n
  | output c B n _ _ ih => exact CtrInv_AesCtrXor Aes IV hIV c ih _ _ n
  | seek c K _ hK ih => exact CtrInv_AesCtrSetStreamIndex Aes IV hIV c ih K hK



/-- From a context whose cached block is the keystream block under the cursor,
`AesCtrOutput` of `n` bytes writes the keystream bytes `K .. K + n - 1`. -/
theorem AesCtrOutput_canonical (Aes : AesContext) (IV : List Nat) (hIV : IV.length = 8)
    (K n : Nat) (Buffer : List Nat) (hK : K < 2 ^ 64) (hKn : K + n ≤ 2 ^ 64)
    (hn : n < 2 ^ 32 - 16) (hB : n ≤ Buffer.length) :
    (AesCtrOutput
        { Aes := Aes, IV := IV, StreamIndex := K, CurrentCipherBlockIndex := K / 16,
          CurrentCipherBlock := ctrKeystreamBlock Aes IV (K / 16) } Buffer n).2.take n =
      (List.range n).map (fun t => ctrKeystreamByte Aes IV (K + t)) := by
  unfold AesCtrOutput
  dsimp only
  obtain ⟨hl, hk⟩ := AesCtrXor_out
    { Aes := Aes, IV := IV, StreamIndex := K, CurrentCipherBlockIndex := K / 16,
      CurrentCipherBlock := ctrKeystreamBlock Aes IV (K / 16) }
    (memset0 Buffer n) (memset0 Buffer n) n hIV hn
  dsimp only at hk
  rw [length_memset0] at hl hk
  apply ext_getD
  · rw [List.length_take, List.length_map, List.length_range, hl]; omega
  · intro t ht
    rw [List.length_take, hl] at ht
    have ht' : t < n := by omega
    rw [getD_take_lt _ _ _ ht', getD_map_range _ _ _ ht', hk t, if_pos ⟨ht', by omega⟩,
      getD_memset0, if_pos ht', Nat.zero_xor, ctrKeystreamByte]
    by_cases h : t < 16 - K % 16
    · have e1 : (K + t) / 16 = K / 16 := by omega
      have e2 : (K + t) % 16 = K % 16 + t := by omega
      rw [if_pos h, e1, e2]
    · have e1 : ((K / 16 + 1) % 2 ^ 64 + (t - (16 - K % 16)) / 16) % 2 ^ 64 = (K + t) / 16 := by
        omega
      have e2 : (t - (16 - K % 16)) % 16 = (K + t) % 16 := by omega
      rw [if_neg h, e1, e2]


/-! ## Claims about counter mode -/

set_option maxRecDepth 100000 in
/-- C4 (the code departs from the claim): chunking invariance of CTR fails when
a chunk ends inside a keystream block. With the all-zero AES-128 key and the
all-zero IV, two successive `AesCtrOutput` calls of one byte each produce
`66 e2`, whereas one call of two bytes on a fresh context produces `66 e9`:
after the first one-byte call the cached block is already block 1. -/
theorem ctr_chunked_output_differs_from_single_call :
    (AesCtrOutput (AesCtrInitialise (AesInitialise128 (List.replicate 16 0))
        (List.replicate 8 0)) [0] 1).2 ++
      (AesCtrOutput
        (AesCtrOutput (AesCtrInitialise (AesInitialise128 (List.replicate 16 0))
          (List.replicate 8 0)) [0] 1).1 [0] 1).2 = [0x66, 0xe2] ∧
    (AesCtrOutput (AesCtrInitialise (AesInitialise128 (List.replicate 16 0))
        (List.replicate 8 0)) [0, 0] 2).2 = [0x66, 0xe9] := by
  rw [AesInitialise128_zero]
  delta AesCtrOutput AesCtrXor AesCtrXorBody AesEncrypt AesCtrInitialise CreateCurrentCipherBlock
  rw [AesEncryptInPlace_eq_fast]
  refine ⟨?_, ?_⟩ <;> decide!

set_option maxRecDepth 100000 in
/-- C5 (the code departs from the claim): the state after `AesCtrXor` of one
byte on a freshly initialised context is reachable, its `StreamIndex` is 1, so
the cursor is in block 0, but its `CurrentCipherBlockIndex` is 1. -/
theorem ctr_cached_block_index_runs_ahead :
    CtrReachable zeroKeySchedule128 (List.replicate 8 0)
      (AesCtrXor (AesCtrInitialise zeroKeySchedule128 (List.replicate 8 0)) [0] [0] 1).1 ∧
    (AesCtrXor (AesCtrInitialise zeroKeySchedule128 (List.replicate 8 0)) [0] [0] 1).1.StreamIndex
      = 1 ∧
    (AesCtrXor (AesCtrInitialise zeroKeySchedule128 (List.replicate 8 0)) [0] [0]
      1).1.CurrentCipherBlockIndex = 1 ∧
    (AesCtrXor (AesCtrInitialise zeroKeySchedule128 (List.replicate 8 0)) [0] [0]
      1).1.CurrentCipherBlockIndex ≠
    (AesCtrXor (AesCtrInitialise zeroKeySchedule128 (List.replicate 8 0)) [0] [0]
      1).1.StreamIndex / 16 := by
  refine ⟨CtrReachable.xor _ _ _ _ CtrReachable.init (by norm_num), ?_, ?_, ?_⟩ <;> decide!

/-- C7: CTR seek. Keystream byte `j` is byte `j mod 16` of the AES encryption
of the IV followed by the big-endian encoding of `j div 16`. For every
reachable session, every 64 bit `K` and every `n < 2^32 - 16` with
`K + n ≤ 2^64`, the `n` bytes `AesCtrOutput` produces right after
`AesCtrSetStreamIndex K` are the keystream bytes `K .. K + n - 1`; and the
stream generated from offset 0 on a fresh context is the keystream from byte 0,
so these are its bytes at offsets `K ..`. -/
theorem ctr_seek_output_is_keystream (Aes : AesContext) (IV : List Nat) (c : AesCtrContext)
    (K n : Nat) (Buffer : List Nat) (hIV : IV.length = 8) (hc : CtrReachable Aes IV c)
    (hK : K < 2 ^ 64) (hKn : K + n ≤ 2 ^ 64) (hn : n < 2 ^ 32 - 16) (hB : n ≤ Buffer.length) :
    (AesCtrOutput (AesCtrSetStreamIndex c K) Buffer n).2.take n =
      (List.range n).map (fun t => ctrKeystreamByte Aes IV (K + t)) ∧
    ∀ (m : Nat) (Buffer0 : List Nat), m < 2 ^ 32 - 16 → m ≤ Buffer0.length →
      (AesCtrOutput (AesCtrInitialise Aes IV) Buffer0 m).2.take m =
        (List.range m).map (fun j => ctrKeystreamByte Aes IV j) := by
  constructor
  · rw [AesCtrSetStreamIndex_eq Aes IV hIV c (CtrInv_of_CtrReachable Aes IV hIV c hc) K]
    exact AesCtrOutput_canonical Aes IV hIV K n Buffer hK hKn hn hB
  · intro m Buffer0 hm hB0
    rw [AesCtrInitialise_eq Aes IV hIV]
    have h := AesCtrOutput_canonical Aes IV hIV 0 m Buffer0 (by norm_num) (by omega) hm hB0
    simpa using h

/-- Witness for C7: AES-128 with the all-zero key and IV, seek to byte 20 from
the fresh context, then five bytes. -/
theorem ctr_seek_output_is_keystream_witness :
    (List.replicate 8 0).length = 8 ∧ 20 < 2 ^ 64 ∧ 20 + 5 ≤ 2 ^ 64 ∧ 5 < 2 ^ 32 - 16 ∧
    5 ≤ (List.replicate 5 7).length ∧
    (AesCtrOutput (AesCtrSetStreamIndex
        (AesCtrInitialise zeroKeySchedule128 (List.replicate 8 0)) 20)
        (List.replicate 5 7) 5).2.take 5 =
      (List.range 5).map
        (fun t => ctrKeystreamByte zeroKeySchedule128 (List.replicate 8 0) (20 + t)) :=
  ⟨by decide, by norm_num, by norm_num, by norm_num, by decide,
    (ctr_seek_output_is_keystream zeroKeySchedule128 (List.replicate 8 0)
      (AesCtrInitialise zeroKeySchedule128 (List.replicate 8 0)) 20 5 (List.replicate 5 7)
      (by decide) CtrReachable.init (by norm_num) (by norm_num) (by norm_num) (by decide)).1⟩

set_option maxRecDepth 100000 in
/-- The endianness test vector of the CTR test program. -/
theorem ctr_endian_test_vector :
    (AesCtrOutput
      (AesCtrSetStreamIndex
        (AesCtrInitialise (AesInitialise128 [1, 1, 1, 1, 2, 2, 2, 2, 3, 3, 3, 3, 4, 4, 4, 4])
          [5, 5, 5, 5, 6, 6, 6, 6]) 0x1020304050607080)
      (List.replicate 32 0) 32).2 =
      [0x17, 0x07, 0x27, 0x7b, 0x9e, 0x51, 0xdf, 0x5b, 0x23, 0xbe, 0xa1, 0xce, 0xc9, 0x40, 0x49, 0xfc,
       0xf8, 0x8f, 0x45, 0xd1, 0xf6, 0x68, 0x28, 0x54, 0x6f, 0xef, 0xce, 0xf9, 0x23, 0x1b, 0xb0, 0x08]
    := by
  delta AesCtrOutput AesCtrXor AesCtrXorBody AesEncrypt AesCtrSetStreamIndex AesCtrInitialise
    CreateCurrentCipherBlock
  rw [AesEncryptInPlace_eq_fast, AesInitialise128_eq_fast]
  decide!

/-- C8: CTR keystream block construction. After `AesCtrInitialise` (block index
0), and after `AesCtrSetStreamIndex K` on any reachable session for any 64 bit
`K`, `CurrentCipherBlock` is the AES encryption of the 16-byte block whose
bytes 0..7 are the IV and whose bytes 8..15 are `K div 16`, most significant
byte first. From the test: key `01 01 01 01 02 02 02 02 03 03 03 03 04 04 04 04`,
IV `05 05 05 05 06 06 06 06`, seek to `0x1020304050607080`, then 32 bytes of
output give `17 07 27 7b .. 23 1b b0 08`. -/
theorem ctr_keystream_block_construction (Aes : AesContext) (IV : List Nat)
    (c : AesCtrContext) (K : Nat) (hIV : IV.length = 8) (hc : CtrReachable Aes IV c)
    (hK : K < 2 ^ 64) :
    (AesCtrInitialise Aes IV).CurrentCipherBlockIndex = 0 ∧
    (AesCtrInitialise Aes IV).CurrentCipherBlock = AesEncryptInPlace Aes (IV ++ bigEndian64 0) ∧
    (AesCtrSetStreamIndex c K).CurrentCipherBlockIndex = K / 16 ∧
    (AesCtrSetStreamIndex c K).CurrentCipherBlock =
      AesEncryptInPlace Aes (IV ++ bigEndian64 (K / 16)) ∧
    bigEndian64 (0x1020304050607080 / 16) = [0x01, 0x02, 0x03, 0x04, 0x05, 0x06, 0x07, 0x08] ∧
    (AesCtrOutput
      (AesCtrSetStreamIndex
        (AesCtrInitialise (AesInitialise128 [1, 1, 1, 1, 2, 2, 2, 2, 3, 3, 3, 3, 4, 4, 4, 4])
          [5, 5, 5, 5, 6, 6, 6, 6]) 0x1020304050607080)
      (List.replicate 32 0) 32).2 =
      [0x17, 0x07, 0x27, 0x7b, 0x9e, 0x51, 0xdf, 0x5b, 0x23, 0xbe, 0xa1, 0xce, 0xc9, 0x40, 0x49, 0xfc,
       0xf8, 0x8f, 0x45, 0xd1, 0xf6, 0x68, 0x28, 0x54, 0x6f, 0xef, 0xce, 0xf9, 0x23, 0x1b, 0xb0, 0x08]
    := by
  have _hK := hK
  rw [AesCtrSetStreamIndex_eq Aes IV hIV c (CtrInv_of_CtrReachable Aes IV hIV c hc) K,
    AesCtrInitialise_eq Aes IV hIV]
  refine ⟨?_, ?_, ?_, ?_, ?_, ctr_endian_test_vector⟩
  · dsimp only
  · simp only [ctrKeystreamBlock]
  · dsimp only
  · simp only [ctrKeystreamBlock]
  · decide

/-- Witness for C8: the all-zero AES-128 key and IV, seek to `0x1020304050607080`
from the fresh context. -/
theorem ctr_keystream_block_construction_witness :
    (List.replicate 8 0).length = 8 ∧ 0x1020304050607080 < 2 ^ 64 ∧
    (AesCtrSetStreamIndex (AesCtrInitialise zeroKeySchedule128 (List.replicate 8 0))
      0x1020304050607080).CurrentCipherBlock =
      AesEncryptInPlace zeroKeySchedule128
        (List.replicate 8 0 ++ bigEndian64 (0x1020304050607080 / 16)) :=
  ⟨by decide, by norm_num,
    (ctr_keystream_block_construction zeroKeySchedule128 (List.replicate 8 0)
      (AesCtrInitialise zeroKeySchedule128 (List.replicate 8 0)) 0x1020304050607080
      (by decide) CtrReachable.init (by norm_num)).2.2.2.1⟩

set_option maxRecDepth 100000 in
/-- C9: CTR known answer. AES-128-CTR with the all-zero key and the all-zero
8-byte IV applied by one `AesCtrXor` to 48 zero bytes gives
`66e94bd4ef8a2c3b884cfa59ca342b2e 58e2fccefa7e3061367f1d57a4e7455a
0388dace60b6a392f328c2b971b2fe78`. -/
theorem ctr_aes128_zero_known_answer :
    (AesCtrXor (AesCtrInitialise (AesInitialise128 (List.replicate 16 0)) (List.replicate 8 0))
      (List.replicate 48 0) (List.replicate 48 0) 48).2 =
      [0x66, 0xe9, 0x4b, 0xd4, 0xef, 0x8a, 0x2c, 0x3b, 0x88, 0x4c, 0xfa, 0x59, 0xca, 0x34, 0x2b, 0x2e,
       0x58, 0xe2, 0xfc, 0xce, 0xfa, 0x7e, 0x30, 0x61, 0x36, 0x7f, 0x1d, 0x57, 0xa4, 0xe7, 0x45, 0x5a,
       0x03, 0x88, 0xda, 0xce, 0x60, 0xb6, 0xa3, 0x92, 0xf3, 0x28, 0xc2, 0xb9, 0x71, 0xb2, 0xfe, 0x78]
    := by
  rw [AesInitialise128_zero]
  delta AesCtrXor AesCtrXorBody AesEncrypt AesCtrInitialise CreateCurrentCipherBlock
  rw [AesEncryptInPlace_eq_fast]
  decide!


/-! ## Output feedback mode -/

theorem ofbBlock_encrypt (Aes : AesContext) (B : List Nat) (j : Nat) :
    ofbBlock Aes (AesEncryptInPlace Aes B) j = ofbBlock Aes B (j + 1) := by
  induction j with
  | zero => simp only [ofbBlock]
  | succ j ih => simp only [ofbBlock] at ih ⊢; rw [ih]

theorem length_ofbBlock (Aes : AesContext) (B : List Nat) (j : Nat) :
    (ofbBlock Aes B j).length = B.length := by
  induction j with
  | zero => simp only [ofbBlock]
  | succ j ih => rw [ofbBlock, length_AesEncryptInPlace, ih]

theorem AesOfbXorLoop_zero (In : List Nat) (fuel : Nat) (v : OfbLoopVars)
    (h : v.amountLeft = 0) : AesOfbXorLoop In fuel v = v := by
  cases fuel with
  | zero => rfl
  | succ fuel => rw [AesOfbXorLoop, if_neg (by omega)]

theorem AesOfbXorLoop_pos (In : List Nat) (fuel : Nat) (v : OfbLoopVars)
    (h : 0 < v.amountLeft) :
    AesOfbXorLoop In (fuel + 1) v = AesOfbXorLoop In fuel (AesOfbXorBody In v) := by
  rw [AesOfbXorLoop, if_pos h]

/-- The `while` loop of `AesOfbXor`, started with `rem` bytes left at offset
`off`: with at least `rem` units of fuel the loop runs to its exit
(`amountLeft = 0`), writes the input XORed with the blocks that follow `B` in
the chain, and leaves the last block used and the size of the last chunk. -/
theorem ofb_loop (In : List Nat) (n : Nat) (hn : n < 2 ^ 32) :
    ∀ (fuel : Nat) (A : AesContext) (B : List Nat) (idx : Nat) (O : List Nat) (rem off ch : Nat),
      rem ≤ fuel → off + rem = n →
      (AesOfbXorLoop In fuel
        { Context := { Aes := A, CurrentCipherBlock := B, IndexWithinCipherBlock := idx }
          OutBuffer := O, amountLeft := rem, outputOffset := off, chunkSize := ch }).amountLeft
        = 0 ∧
      (AesOfbXorLoop In fuel
        { Context := { Aes := A, CurrentCipherBlock := B, IndexWithinCipherBlock := idx }
          OutBuffer := O, amountLeft := rem, outputOffset := off, chunkSize := ch }).OutBuffer.length
        = O.length ∧
      (AesOfbXorLoop In fuel
        { Context := { Aes := A, CurrentCipherBlock := B, IndexWithinCipherBlock := idx }
          OutBuffer := O, amountLeft := rem, outputOffset := off, chunkSize := ch }).Context.Aes
        = A ∧
      (∀ k, (AesOfbXorLoop In fuel
        { Context := { Aes := A, CurrentCipherBlock := B, IndexWithinCipherBlock := idx }
          OutBuffer := O, amountLeft := rem, outputOffset := off, chunkSize := ch }).OutBuffer.getD
          k 0 =
        if off ≤ k ∧ k < n ∧ k < O.length then
          In.getD k 0 ^^^ (ofbBlock A B ((k - off) / 16 + 1)).getD ((k - off) % 16) 0
        else O.getD k 0) ∧
      (0 < rem →
        (AesOfbXorLoop In fuel
          { Context := { Aes := A, CurrentCipherBlock := B, IndexWithinCipherBlock := idx }
            OutBuffer := O, amountLeft := rem, outputOffset := off, chunkSize := ch
          }).Context.CurrentCipherBlock = ofbBlock A B ((rem + 15) / 16) ∧
        (AesOfbXorLoop In fuel
          { Context := { Aes := A, CurrentCipherBlock := B, IndexWithinCipherBlock := idx }
            OutBuffer := O, amountLeft := rem, outputOffset := off, chunkSize := ch
          }).Context.IndexWithinCipherBlock = (rem - 1) % 16 + 1 ∧
        (AesOfbXorLoop In fuel
          { Context := { Aes := A, CurrentCipherBlock := B, IndexWithinCipherBlock := idx }
            OutBuffer := O, amountLeft := rem, outputOffset := off, chunkSize := ch
          }).chunkSize = (rem - 1) % 16 + 1) := by
  intro fuel
  induction fuel with
  | zero =>
    intro A B idx O rem off ch hrem hoff
    have h0 : rem = 0 := by omega
    subst h0
    refine ⟨rfl, rfl, rfl, fun k => ?_, fun h => absurd h (by decide)⟩
    have : ¬ (off ≤ k ∧ k < n ∧ k < O.length) := by omega
    rw [if_neg this]; rfl
  | succ fuel ih =>
    intro A B idx O rem off ch hrem hoff
    rcases Nat.eq_zero_or_pos rem with h0 | hpos
    · subst h0
      rw [AesOfbXorLoop_zero _ _ _ rfl]
      refine ⟨rfl, rfl, rfl, fun k => ?_, fun h => absurd h (by decide)⟩
      have : ¬ (off ≤ k ∧ k < n ∧ k < O.length) := by omega
      rw [if_neg this]
    · rw [AesOfbXorLoop_pos _ _ _ hpos]
      have hchunk : MIN rem AES_BLOCK_SIZE = min rem 16 := MIN_eq_min _ _
      have hsub : sub32 rem (min rem 16) = rem - min rem 16 :=
        sub32_eq _ _ (by omega) (by omega)
      have hoff' : (off + min rem 16) % 2 ^ 32 = off + min rem 16 := by omega
      simp only [AesOfbXorBody, hchunk, hsub, hoff']
      obtain ⟨i1, i2, i3, i4, i5⟩ := ih A (AesEncryptInPlace A B) (min rem 16)
        (XorBuffers In off (AesEncryptInPlace A B) 0 O off (min rem 16))
        (rem - min rem 16) (off + min rem 16) (min rem 16) (by omega) (by omega)
      rw [length_XorBuffers] at i2 i4
      refine ⟨i1, i2, i3, fun k => ?_, fun _ => ?_⟩
      · rw [i4 k, getD_XorBuffers]
        by_cases ha : off + min rem 16 ≤ k ∧ k < n ∧ k < O.length
        · have hb : off ≤ k ∧ k < n ∧ k < O.length := by omega
          have e1 : (k - (off + min rem 16)) / 16 + 1 + 1 = (k - off) / 16 + 1 := by omega
          have e2 : (k - (off + min rem 16)) % 16 = (k - off) % 16 := by omega
          rw [if_pos ha, if_pos hb, ofbBlock_encrypt, e1, e2]
        · rw [if_neg ha]
          by_cases hb : off ≤ k ∧ k < off + min rem 16 ∧ k < O.length
          · have hc : off ≤ k ∧ k < n ∧ k < O.length := by omega
            have e1 : off + (k - off) = k := by omega
            have e2 : (k - off) / 16 + 1 = 1 := by omega
            have e3 : 0 + (k - off) = (k - off) % 16 := by omega
            rw [if_pos hb, if_pos hc, e1, e2, e3]
            simp only [ofbBlock]
          · have hc : ¬ (off ≤ k ∧ k < n ∧ k < O.length) := by omega
            rw [if_neg hb, if_neg hc]
      · rcases Nat.eq_zero_or_pos (rem - min rem 16) with hz | hp
        · have hle : rem ≤ 16 := by omega
          have e1 : (rem + 15) / 16 = 1 := by omega
          have e2 : (rem - 1) % 16 + 1 = min rem 16 := by omega
          rw [AesOfbXorLoop_zero _ _ _ hz, e1, e2]
          simp only [ofbBlock, and_self]
        · obtain ⟨j1, j2, j3⟩ := i5 hp
          have e1 : (rem - min rem 16 + 15) / 16 + 1 = (rem + 15) / 16 := by omega
          have e2 : (rem - min rem 16 - 1) % 16 + 1 = (rem - 1) % 16 + 1 := by omega
          rw [j1, j2, j3, ofbBlock_encrypt, e1, e2]
          simp only [and_self]



theorem ofbBlock_add (Aes : AesContext) (B : List Nat) (K j : Nat) :
    ofbBlock Aes (ofbBlock Aes B K) j = ofbBlock Aes B (K + j) := by
  induction j with
  | zero => simp only [ofbBlock, Nat.add_zero]
  | succ j ih => rw [ofbBlock, ih, ← Nat.add_assoc, ofbBlock]

theorem ofbStreamByte_shift (A : AesContext) (B : List Nat) (K c t : Nat) :
    ofbStreamByte A (ofbBlock A B K) c t = ofbStreamByte A B (16 * K + c) t := by
  have e1 : (16 * K + c + t) / 16 = K + (c + t) / 16 := by omega
  have e2 : (16 * K + c + t) % 16 = (c + t) % 16 := by omega
  rw [ofbStreamByte, ofbStreamByte, ofbBlock_add, e1, e2]

theorem ofbStreamByte_add (A : AesContext) (B : List Nat) (idx n t : Nat) :
    ofbStreamByte A B idx (n + t) = ofbStreamByte A B (idx + n) t := by
  rw [ofbStreamByte, ofbStreamByte, Nat.add_assoc]

/-- `AesOfbXor` with the arithmetic of its first chunk carried out. -/
theorem AesOfbXor_unfold (A : AesContext) (B : List Nat) (idx : Nat) (In Out : List Nat) (n : Nat)
    (hidx : idx ≤ 16) (hn : n < 2 ^ 32) :
    AesOfbXor { Aes := A, CurrentCipherBlock := B, IndexWithinCipherBlock := idx } In Out n =
      ((if AES_BLOCK_SIZE = (AesOfbXorLoop In (n - min (16 - idx) n)
            { Context := { Aes := A, CurrentCipherBlock := B,
                           IndexWithinCipherBlock := idx + min (16 - idx) n }
              OutBuffer := XorBuffers In 0 B idx Out 0 (min (16 - idx) n)
              amountLeft := n - min (16 - idx) n
              outputOffset := min (16 - idx) n
              chunkSize := min (16 - idx) n }).chunkSize then
          { (AesOfbXorLoop In (n - min (16 - idx) n)
            { Context := { Aes := A, CurrentCipherBlock := B,
                           IndexWithinCipherBlock := idx + min (16 - idx) n }
              OutBuffer := XorBuffers In 0 B idx Out 0 (min (16 - idx) n)
              amountLeft := n - min (16 - idx) n
              outputOffset := min (16 - idx) n
              chunkSize := min (16 - idx) n }).Context with
            CurrentCipherBlock := AesEncryptInPlace
              (AesOfbXorLoop In (n - min (16 - idx) n)
                { Context := { Aes := A, CurrentCipherBlock := B,
                               IndexWithinCipherBlock := idx + min (16 - idx) n }
                  OutBuffer := XorBuffers In 0 B idx Out 0 (min (16 - idx) n)
                  amountLeft := n - min (16 - idx) n
                  outputOffset := min (16 - idx) n
                  chunkSize := min (16 - idx) n }).Context.Aes
              (AesOfbXorLoop In (n - min (16 - idx) n)
                { Context := { Aes := A, CurrentCipherBlock := B,
                               IndexWithinCipherBlock := idx + min (16 - idx) n }
                  OutBuffer := XorBuffers In 0 B idx Out 0 (min (16 - idx) n)
                  amountLeft := n - min (16 - idx) n
                  outputOffset := min (16 - idx) n
                  chunkSize := min (16 - idx) n }).Context.CurrentCipherBlock
            IndexWithinCipherBlock := 0 }
        else
          (AesOfbXorLoop In (n - min (16 - idx) n)
            { Context := { Aes := A, CurrentCipherBlock := B,
                           IndexWithinCipherBlock := idx + min (16 - idx) n }
              OutBuffer := XorBuffers In 0 B idx Out 0 (min (16 - idx) n)
              amountLeft := n - min (16 - idx) n
              outputOffset := min (16 - idx) n
              chunkSize := min (16 - idx) n }).Context),
       (AesOfbXorLoop In (n - min (16 - idx) n)
            { Context := { Aes := A, CurrentCipherBlock := B,
                           IndexWithinCipherBlock := idx + min (16 - idx) n }
              OutBuffer := XorBuffers In 0 B idx Out 0 (min (16 - idx) n)
              amountLeft := n - min (16 - idx) n
              outputOffset := min (16 - idx) n
              chunkSize := min (16 - idx) n }).OutBuffer) := by
  have h1 : sub32 AES_BLOCK_SIZE idx = 16 - idx :=
    sub32_eq _ _ (by simp [AES_BLOCK_SIZE]) (by simpa [AES_BLOCK_SIZE] using hidx)
  have h2 : sub32 AES_BLOCK_SIZE (16 - idx) = idx := by
    rw [sub32_eq _ _ (by simp [AES_BLOCK_SIZE]) (by simp only [AES_BLOCK_SIZE]; omega)]
    simp only [AES_BLOCK_SIZE]; omega
  have h3 : MIN (16 - idx) n = min (16 - idx) n := MIN_eq_min _ _
  have h4 : sub32 n (min (16 - idx) n) = n - min (16 - idx) n :=
    sub32_eq _ _ hn (by omega)
  have h5 : (0 + min (16 - idx) n) % 2 ^ 32 = min (16 - idx) n := by omega
  have h6 : (idx + min (16 - idx) n) % 2 ^ 32 = idx + min (16 - idx) n := by omega
  unfold AesOfbXor
  simp only [h1, h2, h3, h4, h5, h6]



/-- What `AesOfbXor` does from a session with block `B` of which `idx` bytes
are used: it XORs the input with the keystream seen from that state, leaves
bytes from `Size` on untouched, and leaves the session at stream position
`idx + n` counted from the start of `B`. -/
theorem AesOfbXor_spec (A : AesContext) (B : List Nat) (idx : Nat) (In Out : List Nat) (n : Nat)
    (hidx : idx ≤ 16) (hn : n < 2 ^ 32) :
    (AesOfbXor { Aes := A, CurrentCipherBlock := B, IndexWithinCipherBlock := idx }
      In Out n).2.length = Out.length ∧
    (∀ k, (AesOfbXor { Aes := A, CurrentCipherBlock := B, IndexWithinCipherBlock := idx }
        In Out n).2.getD k 0 =
      if k < n ∧ k < Out.length then In.getD k 0 ^^^ ofbStreamByte A B idx k
      else Out.getD k 0) ∧
    (AesOfbXor { Aes := A, CurrentCipherBlock := B, IndexWithinCipherBlock := idx }
      In Out n).1.Aes = A ∧
    ∃ K c, c ≤ 16 ∧ 16 * K + c = idx + n ∧
      (AesOfbXor { Aes := A, CurrentCipherBlock := B, IndexWithinCipherBlock := idx }
        In Out n).1.CurrentCipherBlock = ofbBlock A B K ∧
      (AesOfbXor { Aes := A, CurrentCipherBlock := B, IndexWithinCipherBlock := idx }
        In Out n).1.IndexWithinCipherBlock = c := by
  rw [AesOfbXor_unfold A B idx In Out n hidx hn]
  obtain ⟨_, l2, l3, l4, l5⟩ := ofb_loop In n hn (n - min (16 - idx) n) A B
    (idx + min (16 - idx) n) (XorBuffers In 0 B idx Out 0 (min (16 - idx) n))
    (n - min (16 - idx) n) (min (16 - idx) n) (min (16 - idx) n) (Nat.le_refl _) (by omega)
  rw [length_XorBuffers] at l2 l4
  generalize hw : AesOfbXorLoop In (n - min (16 - idx) n)
    { Context := { Aes := A, CurrentCipherBlock := B,
                   IndexWithinCipherBlock := idx + min (16 - idx) n }
      OutBuffer := XorBuffers In 0 B idx Out 0 (min (16 - idx) n)
      amountLeft := n - min (16 - idx) n
      outputOffset := min (16 - idx) n
      chunkSize := min (16 - idx) n } = w at l2 l3 l4 l5 ⊢
  dsimp only
  refine ⟨l2, fun k => ?_, ?_, ?_⟩
  · rw [l4 k, getD_XorBuffers, ofbStreamByte]
    by_cases h1 : k < n ∧ k < Out.length
    · rw [if_pos h1]
      by_cases h2 : k < 16 - idx
      · have h3 : ¬ (min (16 - idx) n ≤ k ∧ k < n ∧ k < Out.length) := by omega
        have h4 : 0 ≤ k ∧ k < 0 + min (16 - idx) n ∧ k < Out.length := by omega
        have e1 : (idx + k) / 16 = 0 := by omega
        have e2 : (idx + k) % 16 = idx + k := by omega
        rw [if_neg h3, if_pos h4, e1, e2, Nat.sub_zero, Nat.zero_add]
        simp only [ofbBlock]
      · have h3 : min (16 - idx) n ≤ k ∧ k < n ∧ k < Out.length := by omega
        have e1 : (k - min (16 - idx) n) / 16 + 1 = (idx + k) / 16 := by omega
        have e2 : (k - min (16 - idx) n) % 16 = (idx + k) % 16 := by omega
        rw [if_pos h3, e1, e2]
    · have h3 : ¬ (min (16 - idx) n ≤ k ∧ k < n ∧ k < Out.length) := by omega
      have h4 : ¬ (0 ≤ k ∧ k < 0 + min (16 - idx) n ∧ k < Out.length) := by omega
      rw [if_neg h1, if_neg h3, if_neg h4]
  · split_ifs
    · exact l3
    · exact l3
  · rcases Nat.eq_zero_or_pos (n - min (16 - idx) n) with hz | hp
    · rw [AesOfbXorLoop_zero _ _ _ hz] at hw
      subst hw
      dsimp only
      by_cases h16 : AES_BLOCK_SIZE = min (16 - idx) n
      · have h16' : 16 = min (16 - idx) n := h16
        rw [if_pos h16]
        refine ⟨1, 0, by omega, by omega, ?_, rfl⟩
        simp only [ofbBlock]
      · have h16' : ¬ 16 = min (16 - idx) n := h16
        rw [if_neg h16]
        refine ⟨0, idx + min (16 - idx) n, by omega, by omega, ?_, rfl⟩
        simp only [ofbBlock]
    · obtain ⟨j1, j2, j3⟩ := l5 hp
      by_cases h16 : AES_BLOCK_SIZE = w.chunkSize
      · have h16' : 16 = w.chunkSize := h16
        rw [if_pos h16]
        refine ⟨(n - min (16 - idx) n + 15) / 16 + 1, 0, by omega, by omega, ?_, rfl⟩
        dsimp only
        rw [j1, l3, ofbBlock]
      · have h16' : ¬ 16 = w.chunkSize := h16
        rw [if_neg h16]
        exact ⟨(n - min (16 - idx) n + 15) / 16, (n - min (16 - idx) n - 1) % 16 + 1,
          by omega, by omega, j1, j2⟩



theorem length_xorWithStream (S : Nat → Nat) (D : List Nat) :
    (xorWithStream S D).length = D.length := by
  rw [xorWithStream, List.length_map, List.length_range]

theorem getD_xorWithStream (S : Nat → Nat) (D : List Nat) (k : Nat) (hk : k < D.length) :
    (xorWithStream S D).getD k 0 = D.getD k 0 ^^^ S k := by
  rw [xorWithStream, getD_map_range _ _ _ hk]

theorem xorWithStream_append (S : Nat → Nat) (D J : List Nat) :
    xorWithStream S (D ++ J) =
      xorWithStream S D ++ xorWithStream (fun t => S (D.length + t)) J := by
  apply ext_getD
  · rw [length_xorWithStream, List.length_append, List.length_append, length_xorWithStream,
      length_xorWithStream]
  · intro k hk
    rw [length_xorWithStream, List.length_append] at hk
    rw [getD_xorWithStream _ _ _ (by rw [List.length_append]; exact hk)]
    by_cases h : k < D.length
    · rw [List.getD_append _ _ _ _ h,
        List.getD_append _ _ _ _ (by rw [length_xorWithStream]; exact h),
        getD_xorWithStream _ _ _ h]
    · have h' : D.length ≤ k := Nat.le_of_not_lt h
      rw [List.getD_append_right _ _ _ _ h',
        List.getD_append_right _ _ _ _ (by rw [length_xorWithStream]; exact h'),
        length_xorWithStream, getD_xorWithStream _ _ _ (by omega)]
      have e : D.length + (k - D.length) = k := by omega
      rw [e]

/-- An in-place `AesOfbXor` over a whole buffer XORs it with the keystream
still to come and moves the keystream on by the length of the buffer. -/
theorem AesOfbXor_inplace (c : AesOfbContext) (hc : OfbInv c) (D : List Nat)
    (hD : D.length < 2 ^ 32) :
    (AesOfbXor c D D D.length).2 = xorWithStream (ofbStream c) D ∧
    OfbInv (AesOfbXor c D D D.length).1 ∧
    (ofbStream (AesOfbXor c D D D.length).1 = fun t => ofbStream c (D.length + t)) := by
  obtain ⟨A, B, idx⟩ := c
  obtain ⟨hB, hidx⟩ := hc
  dsimp only at hB hidx
  obtain ⟨s1, s2, s3, K, c', s4, s5, s6, s7⟩ := AesOfbXor_spec A B idx D D D.length hidx hD
  refine ⟨?_, ⟨?_, ?_⟩, ?_⟩
  · apply ext_getD
    · rw [s1, length_xorWithStream]
    · intro k hk
      rw [s1] at hk
      rw [s2 k, if_pos ⟨hk, hk⟩, getD_xorWithStream _ _ _ hk, ofbStream]
  · rw [s6, length_ofbBlock]; exact hB
  · rw [s7]; exact s4
  · funext t
    rw [ofbStream, ofbStream, s3, s6, s7, ofbStreamByte_shift, s5, ofbStreamByte_add]

theorem ofbXorChunks_eq (Ds : List (List Nat)) :
    ∀ c : AesOfbContext, OfbInv c → Ds.flatten.length < 2 ^ 32 →
      ofbXorChunks c Ds = xorWithStream (ofbStream c) Ds.flatten := by
  induction Ds with
  | nil => intro c _ _; rfl
  | cons D Ds ih =>
    intro c hc hlen
    rw [List.flatten_cons, List.length_append] at hlen
    obtain ⟨h1, h2, h3⟩ := AesOfbXor_inplace c hc D (by omega)
    rw [ofbXorChunks, h1, ih _ h2 (by omega), h3, List.flatten_cons, xorWithStream_append]


theorem memset0_full (B : List Nat) : memset0 B B.length = List.replicate B.length 0 := by
  apply ext_getD
  · rw [length_memset0, List.length_replicate]
  · intro k hk
    rw [length_memset0] at hk
    rw [getD_memset0, if_pos hk, List.getD_eq_getElem?_getD, List.getElem?_replicate, if_pos hk]
    rfl

theorem xorWithStream_zero (S : Nat → Nat) (n : Nat) :
    xorWithStream S (List.replicate n 0) = (List.range n).map S := by
  apply ext_getD
  · rw [length_xorWithStream, List.length_replicate, List.length_map, List.length_range]
  · intro k hk
    rw [length_xorWithStream, List.length_replicate] at hk
    rw [getD_xorWithStream _ _ _ (by rw [List.length_replicate]; exact hk),
      getD_map_range _ _ _ hk, List.getD_eq_getElem?_getD, List.getElem?_replicate, if_pos hk]
    exact Nat.zero_xor _

theorem AesOfbOutput_eq (c : AesOfbContext) (B : List Nat) :
    AesOfbOutput c B B.length =
      AesOfbXor c (List.replicate B.length 0) (List.replicate B.length 0) B.length := by
  rw [AesOfbOutput, memset0_full]

theorem ofbOutputChunks_eq (Bs : List (List Nat)) :
    ∀ c : AesOfbContext, OfbInv c → Bs.flatten.length < 2 ^ 32 →
      ofbOutputChunks c Bs = (List.range Bs.flatten.length).map (ofbStream c) := by
  induction Bs with
  | nil => intro c _ _; rfl
  | cons B Bs ih =>
    intro c hc hlen
    rw [List.flatten_cons, List.length_append] at hlen
    have h := AesOfbXor_inplace c hc (List.replicate B.length 0)
      (by rw [List.length_replicate]; omega)
    rw [List.length_replicate] at h
    obtain ⟨h1, h2, h3⟩ := h
    rw [ofbOutputChunks, AesOfbOutput_eq, h1, ih _ h2 (by omega), h3, List.flatten_cons,
      List.length_append, xorWithStream_zero, List.range_add, List.map_append, List.map_map]
    rfl

theorem OfbInv_AesOfbInitialise (Aes : AesContext) (IV : List Nat) :
    OfbInv (AesOfbInitialise Aes IV) := by
  refine ⟨?_, Nat.zero_le _⟩
  rw [AesOfbInitialise]
  dsimp only
  rw [length_AesEncryptInPlace, length_memcpy, List.length_replicate]
  rfl


/-! ## Claims about output feedback mode -/

/-- C6: OFB chunking invariance. For every AES context, every IV and every
finite list of buffers of lengths `n1, .., nk` (with `n1 + .. + nk` a 32 bit
size): calling `AesOfbOutput` successively with the lengths `n1, .., nk` on a
freshly initialised context and concatenating the results gives the same bytes
as one call of length `n1 + .. + nk` on a freshly initialised context; and
likewise `AesOfbXor` on the slices of one input gives the same bytes as one
`AesOfbXor` on the whole input. -/
theorem ofb_chunking_invariance (Aes : AesContext) (IV : List Nat) (Ds : List (List Nat))
    (hsum : (Ds.map List.length).sum < 2 ^ 32) :
    ofbOutputChunks (AesOfbInitialise Aes IV) Ds =
      (AesOfbOutput (AesOfbInitialise Aes IV) Ds.flatten (Ds.map List.length).sum).2 ∧
    ofbXorChunks (AesOfbInitialise Aes IV) Ds =
      (AesOfbXor (AesOfbInitialise Aes IV) Ds.flatten Ds.flatten (Ds.map List.length).sum).2 := by
  have hlen : Ds.flatten.length = (Ds.map List.length).sum := List.length_flatten Ds
  rw [← hlen] at hsum ⊢
  have hinv := OfbInv_AesOfbInitialise Aes IV
  constructor
  · have h := AesOfbXor_inplace _ hinv (List.replicate Ds.flatten.length 0)
      (by rw [List.length_replicate]; exact hsum)
    rw [List.length_replicate] at h
    rw [ofbOutputChunks_eq Ds _ hinv hsum, AesOfbOutput_eq, h.1, xorWithStream_zero]
  · rw [ofbXorChunks_eq Ds _ hinv hsum, (AesOfbXor_inplace _ hinv Ds.flatten hsum).1]

/-- Witness for C6: the all-zero AES-128 key and IV, chunks of 3, 14 and 20 bytes. -/
theorem ofb_chunking_invariance_witness :
    ([[1, 2, 3], List.replicate 14 9, List.range 20].map List.length).sum < 2 ^ 32 ∧
    ofbOutputChunks (AesOfbInitialise zeroKeySchedule128 (List.replicate 16 0))
        [[1, 2, 3], List.replicate 14 9, List.range 20] =
      (AesOfbOutput (AesOfbInitialise zeroKeySchedule128 (List.replicate 16 0))
        [[1, 2, 3], List.replicate 14 9, List.range 20].flatten
        ([[1, 2, 3], List.replicate 14 9, List.range 20].map List.length).sum).2 :=
  ⟨by decide,
    (ofb_chunking_invariance zeroKeySchedule128 (List.replicate 16 0)
      [[1, 2, 3], List.replicate 14 9, List.range 20] (by decide)).1⟩

/-! ## Claims about cipher block chaining -/

/-- C10: CBC rejection is atomic. For every context, every buffer and every
`Size` that is not a multiple of 16, `AesCbcEncrypt` returns -1, leaves the
output buffer as it was and leaves the context (`PreviousCipherBlock` and key
schedule) as it was. -/
theorem cbc_encrypt_rejection_is_atomic (Context : AesCbcContext) (InBuffer OutBuffer : List Nat)
    (Size : Nat) (hSize : Size % 16 ≠ 0) :
    AesCbcEncrypt Context InBuffer OutBuffer Size = (-1, Context, OutBuffer) := by
  unfold AesCbcEncrypt
  dsimp only
  rw [if_pos (fun h => hSize h.symm)]

/-- Witness for C10: a request of 20 bytes. -/
theorem cbc_encrypt_rejection_is_atomic_witness :
    20 % 16 ≠ 0 ∧
    AesCbcEncrypt (AesCbcInitialise zeroKeySchedule128 (List.range 16)) (List.range 20)
      (List.replicate 20 7) 20 =
      (-1, AesCbcInitialise zeroKeySchedule128 (List.range 16), List.replicate 20 7) :=
  ⟨by decide,
    cbc_encrypt_rejection_is_atomic (AesCbcInitialise zeroKeySchedule128 (List.range 16))
      (List.range 20) (List.replicate 20 7) 20 (by decide)⟩

/-! ## The CBC loops -/

theorem XorAesBlock_foldl (B1 : List Nat) (o1 : Nat) (B2 : List Nat) (o2 : Nat) :
    ∀ n : Nat,
      ((List.range n).foldl
        (fun Block1 i => Block1.set (o1 + i) (Block1.getD (o1 + i) 0 ^^^ B2.getD (o2 + i) 0))
        B1).length = B1.length ∧
      ∀ k, ((List.range n).foldl
        (fun Block1 i => Block1.set (o1 + i) (Block1.getD (o1 + i) 0 ^^^ B2.getD (o2 + i) 0))
        B1).getD k 0 =
        if o1 ≤ k ∧ k < o1 + n ∧ k < B1.length then B1.getD k 0 ^^^ B2.getD (o2 + (k - o1)) 0
        else B1.getD k 0 := by
  intro n
  induction n with
  | zero =>
    refine ⟨rfl, fun k => ?_⟩
    rw [List.range_zero, List.foldl_nil, if_neg (by omega)]
  | succ n ih =>
    obtain ⟨hl, hg⟩ := ih
    rw [List.range_succ, List.foldl_append, List.foldl_cons, List.foldl_nil]
    refine ⟨by rw [List.length_set, hl], fun k => ?_⟩
    have e : ((List.range n).foldl
        (fun Block1 i => Block1.set (o1 + i) (Block1.getD (o1 + i) 0 ^^^ B2.getD (o2 + i) 0))
        B1).getD (o1 + n) 0 = B1.getD (o1 + n) 0 := by
      rw [hg (o1 + n), if_neg (by omega)]
    rw [getD_set, hl, e, hg k]
    by_cases h1 : k = o1 + n ∧ k < B1.length
    · rw [if_pos h1, if_pos (by omega)]
      obtain ⟨h1a, _⟩ := h1
      rw [h1a, show o1 + n - o1 = n by omega]
    · rw [if_neg h1]
      by_cases h2 : o1 ≤ k ∧ k < o1 + n ∧ k < B1.length
      · rw [if_pos h2, if_pos (by omega)]
      · rw [if_neg h2, if_neg (by omega)]

theorem length_XorAesBlock (B1 : List Nat) (o1 : Nat) (B2 : List Nat) (o2 : Nat) :
    (XorAesBlock B1 o1 B2 o2).length = B1.length :=
  (XorAesBlock_foldl B1 o1 B2 o2 AES_BLOCK_SIZE).1

theorem getD_XorAesBlock (B1 : List Nat) (o1 : Nat) (B2 : List Nat) (o2 k : Nat) :
    (XorAesBlock B1 o1 B2 o2).getD k 0 =
      if o1 ≤ k ∧ k < o1 + 16 ∧ k < B1.length then B1.getD k 0 ^^^ B2.getD (o2 + (k - o1)) 0
      else B1.getD k 0 :=
  (XorAesBlock_foldl B1 o1 B2 o2 AES_BLOCK_SIZE).2 k

theorem length_blockAt (Buffer : List Nat) (i : Nat) : (blockAt Buffer i).length = 16 := by
  rw [blockAt, List.length_map, List.length_range]

theorem getD_blockAt (Buffer : List Nat) (i k : Nat) (hk : k < 16) :
    (blockAt Buffer i).getD k 0 = Buffer.getD (16 * i + k) 0 := by
  rw [blockAt, getD_map_range _ _ _ hk]

theorem length_xorBlock (A B : List Nat) : (xorBlock A B).length = 16 := by
  rw [xorBlock, List.length_map, List.length_range]

theorem getD_xorBlock (A B : List Nat) (k : Nat) (hk : k < 16) :
    (xorBlock A B).getD k 0 = A.getD k 0 ^^^ B.getD k 0 := by
  rw [xorBlock, getD_map_range _ _ _ hk]

theorem xorBlock_comm (A B : List Nat) : xorBlock A B = xorBlock B A := by
  apply ext_getD
  · rw [length_xorBlock, length_xorBlock]
  · intro k hk
    rw [length_xorBlock] at hk
    rw [getD_xorBlock _ _ _ hk, getD_xorBlock _ _ _ hk, Nat.xor_comm]

theorem XorAesBlock_eq_xorBlock (Previous InBuffer : List Nat) (j : Nat)
    (hP : Previous.length = 16) :
    XorAesBlock Previous 0 InBuffer (16 * j) = xorBlock (blockAt InBuffer j) Previous := by
  apply ext_getD
  · rw [length_XorAesBlock, length_xorBlock, hP]
  · intro k hk
    rw [length_XorAesBlock, hP] at hk
    rw [getD_XorAesBlock, if_pos (by omega), getD_xorBlock _ _ _ hk, getD_blockAt _ _ _ hk,
      Nat.sub_zero, Nat.xor_comm]

theorem length_AesEncrypt (Aes : AesContext) (B : List Nat) : (AesEncrypt Aes B).length = 16 := by
  rw [AesEncrypt, length_AesEncryptInPlace, length_memcpy, List.length_replicate]
  rfl

theorem length_cbcChain (Aes : AesContext) (Previous InBuffer : List Nat)
    (hP : Previous.length = 16) (i : Nat) : (cbcChain Aes Previous InBuffer i).length = 16 := by
  cases i with
  | zero => exact hP
  | succ i => rw [cbcChain, length_AesEncrypt]

theorem AesCbcEncryptBody_eq (Aes : AesContext) (Previous InBuffer OutBuffer : List Nat)
    (j i : Nat) (hP : Previous.length = 16) :
    AesCbcEncryptBody InBuffer
        { Context := { Aes := Aes, PreviousCipherBlock := Previous }
          OutBuffer := OutBuffer, offset := 16 * j } i =
      { Context :=
          { Aes := Aes
            PreviousCipherBlock := AesEncrypt Aes (xorBlock (blockAt InBuffer j) Previous) }
        OutBuffer :=
          memcpy OutBuffer (16 * j) (AesEncrypt Aes (xorBlock (blockAt InBuffer j) Previous)) 0 16
        offset := (16 * j + 16) % 2 ^ 32 } := by
  simp only [AesCbcEncryptBody, AES_BLOCK_SIZE]
  rw [XorAesBlock_eq_xorBlock _ _ _ hP, AesEncrypt_eq _ _ (length_xorBlock _ _)]

theorem cbc_encrypt_loop (Aes : AesContext) (Previous InBuffer OutBuffer : List Nat)
    (hP : Previous.length = 16) :
    ∀ m : Nat, 16 * m < 2 ^ 32 →
      ((List.range m).foldl (AesCbcEncryptBody InBuffer)
          { Context := { Aes := Aes, PreviousCipherBlock := Previous }
            OutBuffer := OutBuffer, offset := 0 }).Context =
        { Aes := Aes, PreviousCipherBlock := cbcChain Aes Previous InBuffer m } ∧
      ((List.range m).foldl (AesCbcEncryptBody InBuffer)
          { Context := { Aes := Aes, PreviousCipherBlock := Previous }
            OutBuffer := OutBuffer, offset := 0 }).offset = 16 * m ∧
      ((List.range m).foldl (AesCbcEncryptBody InBuffer)
          { Context := { Aes := Aes, PreviousCipherBlock := Previous }
            OutBuffer := OutBuffer, offset := 0 }).OutBuffer.length = OutBuffer.length ∧
      ∀ k, ((List.range m).foldl (AesCbcEncryptBody InBuffer)
          { Context := { Aes := Aes, PreviousCipherBlock := Previous }
            OutBuffer := OutBuffer, offset := 0 }).OutBuffer.getD k 0 =
        if k < 16 * m ∧ k < OutBuffer.length then
          (cbcChain Aes Previous InBuffer (k / 16 + 1)).getD (k % 16) 0
        else OutBuffer.getD k 0 := by
  intro m
  induction m with
  | zero =>
    intro _
    refine ⟨rfl, rfl, rfl, fun k => ?_⟩
    rw [List.range_zero, List.foldl_nil, if_neg (by omega)]
  | succ m ih =>
    intro hm
    obtain ⟨h1, h2, h3, h4⟩ := ih (by omega)
    rw [List.range_succ, List.foldl_append, List.foldl_cons, List.foldl_nil]
    generalize (List.range m).foldl (AesCbcEncryptBody InBuffer)
      { Context := { Aes := Aes, PreviousCipherBlock := Previous }
        OutBuffer := OutBuffer, offset := 0 } = v at h1 h2 h3 h4
    obtain ⟨vc, vo, voff⟩ := v
    simp only at h1 h2 h3 h4
    subst h1 h2
    rw [AesCbcEncryptBody_eq _ _ _ _ _ _ (length_cbcChain _ _ _ hP m)]
    dsimp only
    refine ⟨?_, ?_, ?_, fun k => ?_⟩
    · rw [cbcChain]
    · omega
    · rw [length_memcpy, h3]
    · rw [getD_memcpy, h3, h4 k]
      by_cases hk : 16 * m ≤ k ∧ k < 16 * m + 16 ∧ k < OutBuffer.length
      · rw [if_pos hk, if_pos (by omega), Nat.zero_add,
          show k / 16 = m by omega, show k - 16 * m = k % 16 by omega, cbcChain]
      · rw [if_neg hk]
        by_cases hk2 : k < 16 * m ∧ k < OutBuffer.length
        · rw [if_pos hk2, if_pos (by omega)]
        · rw [if_neg hk2, if_neg (by omega)]

theorem AesCbcEncrypt_spec (c : AesCbcContext) (InBuffer OutBuffer : List Nat) (n : Nat)
    (hP : c.PreviousCipherBlock.length = 16) (hn : 16 * n < 2 ^ 32) :
    (AesCbcEncrypt c InBuffer OutBuffer (16 * n)).1 = 0 ∧
    (AesCbcEncrypt c InBuffer OutBuffer (16 * n)).2.1 =
      { Aes := c.Aes
        PreviousCipherBlock := cbcChain c.Aes c.PreviousCipherBlock InBuffer n } ∧
    (AesCbcEncrypt c InBuffer OutBuffer (16 * n)).2.2.length = OutBuffer.length ∧
    ∀ k, (AesCbcEncrypt c InBuffer OutBuffer (16 * n)).2.2.getD k 0 =
      if k < 16 * n ∧ k < OutBuffer.length then
        (cbcChain c.Aes c.PreviousCipherBlock InBuffer (k / 16 + 1)).getD (k % 16) 0
      else OutBuffer.getD k 0 := by
  obtain ⟨cA, cP⟩ := c
  have h := cbc_encrypt_loop cA cP InBuffer OutBuffer hP n hn
  have e1 : 16 * n % AES_BLOCK_SIZE = 0 := by simp only [AES_BLOCK_SIZE]; omega
  have e2 : 16 * n / AES_BLOCK_SIZE = n := by simp only [AES_BLOCK_SIZE]; omega
  have e : AesCbcEncrypt { Aes := cA, PreviousCipherBlock := cP } InBuffer OutBuffer (16 * n) =
      (0, ((List.range n).foldl (AesCbcEncryptBody InBuffer)
          { Context := { Aes := cA, PreviousCipherBlock := cP }
            OutBuffer := OutBuffer, offset := 0 }).Context,
        ((List.range n).foldl (AesCbcEncryptBody InBuffer)
          { Context := { Aes := cA, PreviousCipherBlock := cP }
            OutBuffer := OutBuffer, offset := 0 }).OutBuffer) := by
    unfold AesCbcEncrypt
    dsimp only
    rw [e1, e2, if_neg (by simp)]
  rw [e]
  exact ⟨rfl, h.1, h.2.2.1, h.2.2.2⟩

theorem length_cbcPrevious (Previous CipherBuffer : List Nat) (hP : Previous.length = 16)
    (i : Nat) : (cbcPrevious Previous CipherBuffer i).length = 16 := by
  unfold cbcPrevious
  split_ifs
  · exact hP
  · exact length_blockAt _ _

theorem memcpy_block (Previous InBuffer : List Nat) (j : Nat) (hP : Previous.length = 16) :
    memcpy Previous 0 InBuffer (16 * j) 16 = blockAt InBuffer j := by
  apply ext_getD
  · rw [length_memcpy, length_blockAt, hP]
  · intro k hk
    rw [length_memcpy, hP] at hk
    rw [getD_memcpy, if_pos (by omega), getD_blockAt _ _ _ hk, Nat.sub_zero]

theorem AesCbcDecryptBody_eq (Aes : AesContext) (Previous InBuffer OutBuffer : List Nat)
    (j i : Nat) (hP : Previous.length = 16) :
    AesCbcDecryptBody InBuffer
        { Context := { Aes := Aes, PreviousCipherBlock := Previous }
          OutBuffer := OutBuffer, offset := 16 * j } i =
      { Context := { Aes := Aes, PreviousCipherBlock := blockAt InBuffer j }
        OutBuffer :=
          XorAesBlock (memcpy OutBuffer (16 * j) (AesDecrypt Aes (blockAt InBuffer j)) 0 16)
            (16 * j) Previous 0
        offset := (16 * j + 16) % 2 ^ 32 } := by
  simp only [AesCbcDecryptBody, AES_BLOCK_SIZE]
  rw [memcpy_block _ _ _ hP, memcpy_full _ _ 16 (List.length_replicate _ _) hP]

theorem cbc_decrypt_loop (Aes : AesContext) (Previous InBuffer OutBuffer : List Nat)
    (hP : Previous.length = 16) :
    ∀ m : Nat, 16 * m < 2 ^ 32 →
      ((List.range m).foldl (AesCbcDecryptBody InBuffer)
          { Context := { Aes := Aes, PreviousCipherBlock := Previous }
            OutBuffer := OutBuffer, offset := 0 }).Context =
        { Aes := Aes, PreviousCipherBlock := cbcPrevious Previous InBuffer m } ∧
      ((List.range m).foldl (AesCbcDecryptBody InBuffer)
          { Context := { Aes := Aes, PreviousCipherBlock := Previous }
            OutBuffer := OutBuffer, offset := 0 }).offset = 16 * m ∧
      ((List.range m).foldl (AesCbcDecryptBody InBuffer)
          { Context := { Aes := Aes, PreviousCipherBlock := Previous }
            OutBuffer := OutBuffer, offset := 0 }).OutBuffer.length = OutBuffer.length ∧
      ∀ k, ((List.range m).foldl (AesCbcDecryptBody InBuffer)
          { Context := { Aes := Aes, PreviousCipherBlock := Previous }
            OutBuffer := OutBuffer, offset := 0 }).OutBuffer.getD k 0 =
        if k < 16 * m ∧ k < OutBuffer.length then
          (AesDecrypt Aes (blockAt InBuffer (k / 16))).getD (k % 16) 0 ^^^
            (cbcPrevious Previous InBuffer (k / 16)).getD (k % 16) 0
        else OutBuffer.getD k 0 := by
  intro m
  induction m with
  | zero =>
    intro _
    refine ⟨rfl, rfl, rfl, fun k => ?_⟩
    rw [List.range_zero, List.foldl_nil, if_neg (by omega)]
  | succ m ih =>
    intro hm
    obtain ⟨h1, h2, h3, h4⟩ := ih (by omega)
    rw [List.range_succ, List.foldl_append, List.foldl_cons, List.foldl_nil]
    generalize (List.range m).foldl (AesCbcDecryptBody InBuffer)
      { Context := { Aes := Aes, PreviousCipherBlock := Previous }
        OutBuffer := OutBuffer, offset := 0 } = v at h1 h2 h3 h4
    obtain ⟨vc, vo, voff⟩ := v
    simp only at h1 h2 h3 h4
    subst h1 h2
    rw [AesCbcDecryptBody_eq _ _ _ _ _ _ (length_cbcPrevious _ _ hP m)]
    dsimp only
    refine ⟨?_, ?_, ?_, fun k => ?_⟩
    · rw [cbcPrevious, if_neg (by omega), Nat.add_sub_cancel]
    · omega
    · rw [length_XorAesBlock, length_memcpy, h3]
    · rw [getD_XorAesBlock, length_memcpy, getD_memcpy, h3, h4 k]
      by_cases hk : 16 * m ≤ k ∧ k < 16 * m + 16 ∧ k < OutBuffer.length
      · rw [if_pos hk, if_pos hk, if_pos (by omega), Nat.zero_add,
          show k / 16 = m by omega, show k % 16 = k - 16 * m by omega]
      · rw [if_neg hk, if_neg hk]
        by_cases hk2 : k < 16 * m ∧ k < OutBuffer.length
        · rw [if_pos hk2, if_pos (by omega)]
        · rw [if_neg hk2, if_neg (by omega)]

theorem AesCbcDecrypt_spec (c : AesCbcContext) (InBuffer OutBuffer : List Nat) (n : Nat)
    (hP : c.PreviousCipherBlock.length = 16) (hn : 16 * n < 2 ^ 32) :
    (AesCbcDecrypt c InBuffer OutBuffer (16 * n)).1 = 0 ∧
    (AesCbcDecrypt c InBuffer OutBuffer (16 * n)).2.1 =
      { Aes := c.Aes
        PreviousCipherBlock := cbcPrevious c.PreviousCipherBlock InBuffer n } ∧
    (AesCbcDecrypt c InBuffer OutBuffer (16 * n)).2.2.length = OutBuffer.length ∧
    ∀ k, (AesCbcDecrypt c InBuffer OutBuffer (16 * n)).2.2.getD k 0 =
      if k < 16 * n ∧ k < OutBuffer.length then
        (AesDecrypt c.Aes (blockAt InBuffer (k / 16))).getD (k % 16) 0 ^^^
          (cbcPrevious c.PreviousCipherBlock InBuffer (k / 16)).getD (k % 16) 0
      else OutBuffer.getD k 0 := by
  obtain ⟨cA, cP⟩ := c
  have h := cbc_decrypt_loop cA cP InBuffer OutBuffer hP n hn
  have e1 : 16 * n % AES_BLOCK_SIZE = 0 := by simp only [AES_BLOCK_SIZE]; omega
  have e2 : 16 * n / AES_BLOCK_SIZE = n := by simp only [AES_BLOCK_SIZE]; omega
  have e : AesCbcDecrypt { Aes := cA, PreviousCipherBlock := cP } InBuffer OutBuffer (16 * n) =
      (0, ((List.range n).foldl (AesCbcDecryptBody InBuffer)
          { Context := { Aes := cA, PreviousCipherBlock := cP }
            OutBuffer := OutBuffer, offset := 0 }).Context,
        ((List.range n).foldl (AesCbcDecryptBody InBuffer)
          { Context := { Aes := cA, PreviousCipherBlock := cP }
            OutBuffer := OutBuffer, offset := 0 }).OutBuffer) := by
    unfold AesCbcDecrypt
    dsimp only
    rw [e1, e2, if_neg (by simp)]
  rw [e]
  exact ⟨rfl, h.1, h.2.2.1, h.2.2.2⟩

theorem blockAt_AesCbcEncrypt (c : AesCbcContext) (InBuffer OutBuffer : List Nat) (n i : Nat)
    (hP : c.PreviousCipherBlock.length = 16) (hn : 16 * n < 2 ^ 32)
    (hO : 16 * n ≤ OutBuffer.length) (hi : i < n) :
    blockAt (AesCbcEncrypt c InBuffer OutBuffer (16 * n)).2.2 i =
      cbcChain c.Aes c.PreviousCipherBlock InBuffer (i + 1) := by
  apply ext_getD
  · rw [length_blockAt, length_cbcChain _ _ _ hP]
  · intro k hk
    rw [length_blockAt] at hk
    rw [getD_blockAt _ _ _ hk, (AesCbcEncrypt_spec c InBuffer OutBuffer n hP hn).2.2.2,
      if_pos (by omega), show (16 * i + k) / 16 = i by omega,
      show (16 * i + k) % 16 = k by omega]

theorem cbcPrevious_AesCbcEncrypt (c : AesCbcContext) (InBuffer OutBuffer : List Nat) (n i : Nat)
    (hP : c.PreviousCipherBlock.length = 16) (hn : 16 * n < 2 ^ 32)
    (hO : 16 * n ≤ OutBuffer.length) (hi : i ≤ n) :
    cbcPrevious c.PreviousCipherBlock (AesCbcEncrypt c InBuffer OutBuffer (16 * n)).2.2 i =
      cbcChain c.Aes c.PreviousCipherBlock InBuffer i := by
  cases i with
  | zero => rw [cbcPrevious, if_pos rfl, cbcChain]
  | succ i =>
    rw [cbcPrevious, if_neg (by omega), Nat.add_sub_cancel,
      blockAt_AesCbcEncrypt c InBuffer OutBuffer n i hP hn hO (by omega)]

theorem blockAt_AesCbcDecrypt (c : AesCbcContext) (InBuffer OutBuffer : List Nat) (n i : Nat)
    (hP : c.PreviousCipherBlock.length = 16) (hn : 16 * n < 2 ^ 32)
    (hO : 16 * n ≤ OutBuffer.length) (hi : i < n) :
    blockAt (AesCbcDecrypt c InBuffer OutBuffer (16 * n)).2.2 i =
      xorBlock (AesDecrypt c.Aes (blockAt InBuffer i))
        (cbcPrevious c.PreviousCipherBlock InBuffer i) := by
  apply ext_getD
  · rw [length_blockAt, length_xorBlock]
  · intro k hk
    rw [length_blockAt] at hk
    rw [getD_blockAt _ _ _ hk, (AesCbcDecrypt_spec c InBuffer OutBuffer n hP hn).2.2.2,
      if_pos (by omega), show (16 * i + k) / 16 = i by omega,
      show (16 * i + k) % 16 = k by omega, getD_xorBlock _ _ _ hk]

theorem IsBlock_AesEncryptInPlace (ctx : AesContext) (hk : Bytes ctx.RoundKey) (B : List Nat)
    (hB : IsBlock B) : IsBlock (AesEncryptInPlace ctx B) := by
  unfold AesEncryptInPlace
  dsimp only
  have h0 : IsBlock (AddRoundKey 0 ctx B) := IsBlock_AddRoundKey ctx hk _ _ hB
  have ht : IsBlock ((List.range' 1 (ctx.NumberOfRounds - 1)).foldl (EncryptRound ctx)
      (AddRoundKey 0 ctx B)) :=
    foldl_preserves IsBlock _ (fun a b ha => IsBlock_EncryptRound ctx hk a b ha) _ _ h0
  exact IsBlock_AddRoundKey ctx hk _ _ (IsBlock_SubShift _ ht)

theorem AesDecrypt_AesEncrypt (ctx : AesContext) (hk : Bytes ctx.RoundKey) (X : List Nat)
    (hX : IsBlock X) : AesDecrypt ctx (AesEncrypt ctx X) = X := by
  rw [AesEncrypt_eq _ _ hX.1, AesDecrypt,
    memcpy_full _ _ AES_BLOCK_SIZE (List.length_replicate _ _)
      (by rw [length_AesEncryptInPlace, hX.1]; rfl),
    AesDecryptInPlace_AesEncryptInPlace ctx hk X hX]

theorem Bytes_blockAt (Buffer : List Nat) (hB : Bytes Buffer) (i : Nat) :
    Bytes (blockAt Buffer i) := by
  intro x hx
  rw [blockAt, List.mem_map] at hx
  obtain ⟨k, _, rfl⟩ := hx
  exact Bytes_getD hB _

theorem Bytes_xorBlock (A B : List Nat) (hA : Bytes A) (hB : Bytes B) : Bytes (xorBlock A B) := by
  intro x hx
  rw [xorBlock, List.mem_map] at hx
  obtain ⟨k, _, rfl⟩ := hx
  exact xor_lt_256 (Bytes_getD hA _) (Bytes_getD hB _)

theorem IsBlock_cbcChain (Aes : AesContext) (hk : Bytes Aes.RoundKey) (Previous InBuffer : List Nat)
    (hP : IsBlock Previous) (hIn : Bytes InBuffer) :
    ∀ i : Nat, IsBlock (cbcChain Aes Previous InBuffer i) := by
  intro i
  induction i with
  | zero => rw [cbcChain]; exact hP
  | succ i ih =>
    rw [cbcChain, AesEncrypt_eq _ _ (length_xorBlock _ _)]
    exact IsBlock_AesEncryptInPlace Aes hk _
      ⟨length_xorBlock _ _, Bytes_xorBlock _ _ (Bytes_blockAt _ hIn _) ih.2⟩

theorem xor_cancel_right (a b : Nat) : (a ^^^ b) ^^^ b = a := by
  rw [Nat.xor_assoc, Nat.xor_self, Nat.xor_zero]

theorem AesCbcInitialise_eq (Aes : AesContext) (IV : List Nat) (hIV : IV.length = 16) :
    AesCbcInitialise Aes IV = { Aes := Aes, PreviousCipherBlock := IV } := by
  rw [AesCbcInitialise, memcpy_full _ _ AES_BLOCK_SIZE (List.length_replicate _ _) hIV]

/-- CBC decryption undoes CBC encryption when both start from the same
chaining block. -/
theorem AesCbcDecrypt_AesCbcEncrypt (Aes : AesContext) (hk : Bytes Aes.RoundKey)
    (Previous P Out1 Out2 : List Nat) (n : Nat) (hPrev : IsBlock Previous) (hP : Bytes P)
    (hlen : P.length = 16 * n) (h32 : 16 * n < 2 ^ 32) (hO1 : Out1.length = P.length)
    (hO2 : Out2.length = P.length) :
    (AesCbcDecrypt { Aes := Aes, PreviousCipherBlock := Previous }
      (AesCbcEncrypt { Aes := Aes, PreviousCipherBlock := Previous } P Out1 (16 * n)).2.2
      Out2 (16 * n)).2.2 = P := by
  have hd := AesCbcDecrypt_spec { Aes := Aes, PreviousCipherBlock := Previous }
    (AesCbcEncrypt { Aes := Aes, PreviousCipherBlock := Previous } P Out1 (16 * n)).2.2
    Out2 n hPrev.1 h32
  apply ext_getD
  · rw [hd.2.2.1, hO2]
  · intro k hk'
    rw [hd.2.2.1, hO2, hlen] at hk'
    have hq : k / 16 < n := by omega
    have hr : k % 16 < 16 := Nat.mod_lt _ (by decide)
    have hX : IsBlock (xorBlock (blockAt P (k / 16)) (cbcChain Aes Previous P (k / 16))) :=
      ⟨length_xorBlock _ _, Bytes_xorBlock _ _ (Bytes_blockAt _ hP _)
        (IsBlock_cbcChain Aes hk Previous P hPrev hP _).2⟩
    rw [hd.2.2.2 k, if_pos (by omega)]
    dsimp only
    rw [blockAt_AesCbcEncrypt { Aes := Aes, PreviousCipherBlock := Previous } P Out1 n (k / 16)
        hPrev.1 h32 (by omega) hq,
      cbcPrevious_AesCbcEncrypt { Aes := Aes, PreviousCipherBlock := Previous } P Out1 n (k / 16)
        hPrev.1 h32 (by omega) (by omega)]
    dsimp only
    rw [cbcChain, AesDecrypt_AesEncrypt Aes hk _ hX, getD_xorBlock _ _ _ hr, xor_cancel_right,
      getD_blockAt _ _ _ hr, show 16 * (k / 16) + k % 16 = k by omega]

theorem blockAt_append_left (P1 P2 : List Nat) (n1 i : Nat) (h1 : P1.length = 16 * n1)
    (hi : i < n1) : blockAt (P1 ++ P2) i = blockAt P1 i := by
  apply ext_getD
  · rw [length_blockAt, length_blockAt]
  · intro k hk
    rw [length_blockAt] at hk
    rw [getD_blockAt _ _ _ hk, getD_blockAt _ _ _ hk, List.getD_append _ _ _ _ (by omega)]

theorem blockAt_append_right (P1 P2 : List Nat) (n1 j : Nat) (h1 : P1.length = 16 * n1) :
    blockAt (P1 ++ P2) (n1 + j) = blockAt P2 j := by
  apply ext_getD
  · rw [length_blockAt, length_blockAt]
  · intro k hk
    rw [length_blockAt] at hk
    rw [getD_blockAt _ _ _ hk, getD_blockAt _ _ _ hk,
      List.getD_append_right _ _ _ _ (by omega),
      show 16 * (n1 + j) + k - P1.length = 16 * j + k by omega]

theorem cbcChain_append_left (Aes : AesContext) (Previous P1 P2 : List Nat) (n1 : Nat)
    (h1 : P1.length = 16 * n1) :
    ∀ i : Nat, i ≤ n1 → cbcChain Aes Previous (P1 ++ P2) i = cbcChain Aes Previous P1 i := by
  intro i
  induction i with
  | zero => intro _; rw [cbcChain, cbcChain]
  | succ i ih =>
    intro hi
    rw [cbcChain, cbcChain, ih (by omega), blockAt_append_left P1 P2 n1 i h1 (by omega)]

theorem cbcChain_append_right (Aes : AesContext) (Previous P1 P2 : List Nat) (n1 : Nat)
    (h1 : P1.length = 16 * n1) :
    ∀ j : Nat, cbcChain Aes Previous (P1 ++ P2) (n1 + j) =
      cbcChain Aes (cbcChain Aes Previous P1 n1) P2 j := by
  intro j
  induction j with
  | zero =>
    rw [Nat.add_zero, cbcChain_append_left Aes Previous P1 P2 n1 h1 n1 (Nat.le_refl _)]
    conv => rhs; rw [cbcChain]
  | succ j ih =>
    rw [← Nat.add_assoc, cbcChain, ih, blockAt_append_right P1 P2 n1 j h1]
    conv => rhs; rw [cbcChain]

/-- One `AesCbcEncrypt` call over `P1 ++ P2` against two calls, the context
carried over. -/
theorem AesCbcEncrypt_append (c : AesCbcContext) (P1 P2 Out1 Out2 : List Nat) (n1 n2 : Nat)
    (hc : c.PreviousCipherBlock.length = 16) (h1 : P1.length = 16 * n1)
    (h32 : 16 * (n1 + n2) < 2 ^ 32) (hO1 : Out1.length = 16 * n1) (hO2 : Out2.length = 16 * n2) :
    (AesCbcEncrypt c (P1 ++ P2) (Out1 ++ Out2) (16 * (n1 + n2))).2.2 =
      (AesCbcEncrypt c P1 Out1 (16 * n1)).2.2 ++
        (AesCbcEncrypt (AesCbcEncrypt c P1 Out1 (16 * n1)).2.1 P2 Out2 (16 * n2)).2.2 ∧
    (AesCbcEncrypt c (P1 ++ P2) (Out1 ++ Out2) (16 * (n1 + n2))).2.1 =
      (AesCbcEncrypt (AesCbcEncrypt c P1 Out1 (16 * n1)).2.1 P2 Out2 (16 * n2)).2.1 := by
  have ha := AesCbcEncrypt_spec c (P1 ++ P2) (Out1 ++ Out2) (n1 + n2) hc h32
  have hb := AesCbcEncrypt_spec c P1 Out1 n1 hc (by omega)
  have hc2 : (AesCbcEncrypt c P1 Out1 (16 * n1)).2.1.PreviousCipherBlock.length = 16 := by
    rw [hb.2.1]; exact length_cbcChain _ _ _ hc _
  have hd := AesCbcEncrypt_spec (AesCbcEncrypt c P1 Out1 (16 * n1)).2.1 P2 Out2 n2 hc2 (by omega)
  have hAes : (AesCbcEncrypt c P1 Out1 (16 * n1)).2.1.Aes = c.Aes := by rw [hb.2.1]
  have hPrev : (AesCbcEncrypt c P1 Out1 (16 * n1)).2.1.PreviousCipherBlock =
      cbcChain c.Aes c.PreviousCipherBlock P1 n1 := by rw [hb.2.1]
  constructor
  · apply ext_getD
    · rw [ha.2.2.1, List.length_append, List.length_append, hb.2.2.1, hd.2.2.1]
    · intro k hk
      rw [ha.2.2.1, List.length_append, hO1, hO2] at hk
      rw [ha.2.2.2 k, if_pos (by rw [List.length_append, hO1, hO2]; omega)]
      by_cases hk1 : k < 16 * n1
      · rw [List.getD_append _ _ _ _ (by rw [hb.2.2.1, hO1]; exact hk1), hb.2.2.2 k,
          if_pos (by omega),
          cbcChain_append_left c.Aes c.PreviousCipherBlock P1 P2 n1 h1 _ (by omega)]
      · rw [List.getD_append_right _ _ _ _ (by rw [hb.2.2.1, hO1]; omega), hb.2.2.1, hO1,
          hd.2.2.2, if_pos (by omega), hAes, hPrev,
          ← cbcChain_append_right c.Aes c.PreviousCipherBlock P1 P2 n1 h1,
          show n1 + ((k - 16 * n1) / 16 + 1) = k / 16 + 1 by omega,
          show (k - 16 * n1) % 16 = k % 16 by omega]
  · rw [ha.2.1, hd.2.1, hAes, hPrev, cbcChain_append_right c.Aes c.PreviousCipherBlock P1 P2 n1 h1]

/-! ## The OFB chain and data independence of the stream modes -/

theorem length_ofbChainBlock (Aes : AesContext) (IV : List Nat) (j : Nat) :
    (ofbChainBlock Aes IV j).length = 16 := by
  cases j with
  | zero => rw [ofbChainBlock, length_AesEncrypt]
  | succ j => rw [ofbChainBlock, length_AesEncrypt]

theorem ofbChainBlock_eq_ofbBlock (Aes : AesContext) (IV : List Nat) (j : Nat) :
    ofbChainBlock Aes IV j = ofbBlock Aes (AesEncrypt Aes IV) j := by
  induction j with
  | zero => rw [ofbChainBlock, ofbBlock]
  | succ j ih =>
    rw [ofbChainBlock, ofbBlock, ← ih, AesEncrypt_eq _ _ (length_ofbChainBlock _ _ _)]

theorem flatten_blocks (f : Nat → List Nat) (hf : ∀ j, (f j).length = 16) :
    ∀ m : Nat, (((List.range m).map f).flatten).length = 16 * m ∧
      ∀ t, t < 16 * m → (((List.range m).map f).flatten).getD t 0 = (f (t / 16)).getD (t % 16) 0 := by
  intro m
  induction m with
  | zero => exact ⟨rfl, fun t ht => absurd ht (by omega)⟩
  | succ m ih =>
    obtain ⟨hl, hg⟩ := ih
    rw [List.range_succ, List.map_append, List.flatten_append, List.map_singleton,
      List.flatten_cons, List.flatten_nil, List.append_nil]
    refine ⟨by rw [List.length_append, hl, hf]; omega, fun t ht => ?_⟩
    by_cases h : t < 16 * m
    · rw [List.getD_append _ _ _ _ (by rw [hl]; exact h), hg t h]
    · rw [List.getD_append_right _ _ _ _ (by rw [hl]; omega), hl,
        show t / 16 = m by omega, show t - 16 * m = t % 16 by omega]

theorem length_ofbKeystream_take (Aes : AesContext) (IV : List Nat) (n : Nat) :
    ((ofbKeystream Aes IV (n / 16 + 1)).take n).length = n := by
  rw [List.length_take, ofbKeystream,
    (flatten_blocks _ (length_ofbChainBlock Aes IV) (n / 16 + 1)).1]
  omega

theorem getD_ofbKeystream_take (Aes : AesContext) (IV : List Nat) (n k : Nat) (hk : k < n) :
    ((ofbKeystream Aes IV (n / 16 + 1)).take n).getD k 0 =
      ofbStream (AesOfbInitialise Aes IV) k := by
  rw [getD_take_lt _ _ _ hk, ofbKeystream,
    (flatten_blocks _ (length_ofbChainBlock Aes IV) (n / 16 + 1)).2 k (by omega),
    ofbChainBlock_eq_ofbBlock, ofbStream, ofbStreamByte, AesOfbInitialise]
  dsimp only
  rw [Nat.zero_add, AesEncrypt]

theorem getD_zipWith_xor (A B : List Nat) (k : Nat) (hA : k < A.length) (hB : k < B.length) :
    (List.zipWith (fun a b => a ^^^ b) A B).getD k 0 = A.getD k 0 ^^^ B.getD k 0 := by
  rw [List.getD_eq_getElem?_getD, List.getD_eq_getElem?_getD, List.getD_eq_getElem?_getD,
    List.getElem?_eq_getElem (by rw [List.length_zipWith]; omega),
    List.getElem?_eq_getElem hA, List.getElem?_eq_getElem hB, List.getElem_zipWith]
  rfl

/-- The loop of `AesCtrXor` writes, at a set of positions that depends on the
session and the size only, the input byte XORed with a byte that depends on the
session and the size only; the other bytes of the output buffer are kept. -/
theorem ctr_loop_data_independent (Aes : AesContext) (n start first : Nat) :
    ∀ (l : List Nat) (pre : List Nat), ∃ (W : Nat → Bool) (ks : Nat → Nat),
      ∀ (In O enc : List Nat) (idx : Nat),
        (l.foldl (AesCtrXorBody Aes In n start first)
          { OutBuffer := O, preCipherBlock := pre, encCipherBlock := enc,
            cipherBlockIndex := idx }).OutBuffer.length = O.length ∧
        ∀ k, (l.foldl (AesCtrXorBody Aes In n start first)
          { OutBuffer := O, preCipherBlock := pre, encCipherBlock := enc,
            cipherBlockIndex := idx }).OutBuffer.getD k 0 =
          if W k = true ∧ k < O.length then In.getD k 0 ^^^ ks k else O.getD k 0 := by
  intro l
  induction l with
  | nil =>
    intro pre
    refine ⟨fun _ => false, fun _ => 0, fun In O enc idx => ⟨rfl, fun k => ?_⟩⟩
    rw [List.foldl_nil, if_neg (by simp)]
  | cons i l ih =>
    intro pre
    obtain ⟨W, ks, h⟩ := ih (STORE64H ((start + i) % 2 ^ 64) pre AES_CTR_IV_SIZE)
    refine ⟨fun k => W k || decide ((first + AES_BLOCK_SIZE * i) % 2 ^ 32 ≤ k ∧
        k < (first + AES_BLOCK_SIZE * i) % 2 ^ 32 +
          MIN (sub32 n ((first + AES_BLOCK_SIZE * i) % 2 ^ 32)) AES_BLOCK_SIZE),
      fun k => if W k = true then ks k else
        (AesEncrypt Aes (STORE64H ((start + i) % 2 ^ 64) pre AES_CTR_IV_SIZE)).getD
          (k - (first + AES_BLOCK_SIZE * i) % 2 ^ 32) 0,
      fun In O enc idx => ?_⟩
    have e : AesCtrXorBody Aes In n start first
        { OutBuffer := O, preCipherBlock := pre, encCipherBlock := enc,
          cipherBlockIndex := idx } i =
        { OutBuffer := XorBuffers In ((first + AES_BLOCK_SIZE * i) % 2 ^ 32)
            (AesEncrypt Aes (STORE64H ((start + i) % 2 ^ 64) pre AES_CTR_IV_SIZE)) 0 O
            ((first + AES_BLOCK_SIZE * i) % 2 ^ 32)
            (MIN (sub32 n ((first + AES_BLOCK_SIZE * i) % 2 ^ 32)) AES_BLOCK_SIZE)
          preCipherBlock := STORE64H ((start + i) % 2 ^ 64) pre AES_CTR_IV_SIZE
          encCipherBlock := AesEncrypt Aes (STORE64H ((start + i) % 2 ^ 64) pre AES_CTR_IV_SIZE)
          cipherBlockIndex := (start + i) % 2 ^ 64 } := by
      simp only [AesCtrXorBody]
    rw [List.foldl_cons, e]
    obtain ⟨hl, hg⟩ := h In
      (XorBuffers In ((first + AES_BLOCK_SIZE * i) % 2 ^ 32)
        (AesEncrypt Aes (STORE64H ((start + i) % 2 ^ 64) pre AES_CTR_IV_SIZE)) 0 O
        ((first + AES_BLOCK_SIZE * i) % 2 ^ 32)
        (MIN (sub32 n ((first + AES_BLOCK_SIZE * i) % 2 ^ 32)) AES_BLOCK_SIZE))
      (AesEncrypt Aes (STORE64H ((start + i) % 2 ^ 64) pre AES_CTR_IV_SIZE))
      ((start + i) % 2 ^ 64)
    rw [length_XorBuffers] at hl hg
    refine ⟨hl, fun k => ?_⟩
    rw [hg k, getD_XorBuffers]
    beta_reduce
    generalize (first + AES_BLOCK_SIZE * i) % 2 ^ 32 = off
    generalize MIN (sub32 n off) AES_BLOCK_SIZE = chunk
    generalize AesEncrypt Aes (STORE64H ((start + i) % 2 ^ 64) pre AES_CTR_IV_SIZE) = E
    by_cases hW : W k = true
    · by_cases hk : k < O.length
      · rw [if_pos ⟨hW, hk⟩, if_pos ⟨by simp [hW], hk⟩, if_pos hW]
      · rw [if_neg (fun h => hk h.2), if_neg (fun h => hk h.2.2), if_neg (fun h => hk h.2)]
    · rw [if_neg (fun h => hW h.1)]
      by_cases hk : off ≤ k ∧ k < off + chunk ∧ k < O.length
      · rw [if_pos hk, if_pos ⟨by simp [hk.1, hk.2.1], hk.2.2⟩, if_neg hW,
          show off + (k - off) = k by omega, Nat.zero_add]
      · rw [if_neg hk, if_neg]
        intro h
        apply hk
        obtain ⟨h1, h2⟩ := h
        simp only [Bool.or_eq_true, decide_eq_true_eq] at h1
        rcases h1 with h1 | h1
        · exact absurd h1 hW
        · exact ⟨h1.1, h1.2, h2⟩

/-- The output of `AesCtrXor`: at a set of positions that depends on the session
and the size only, the input byte XORed with a keystream byte that depends on
the session and the size only; every other byte of the output buffer is kept. -/
theorem AesCtrXor_data_independent (c : AesCtrContext) (n : Nat) :
    ∃ (W : Nat → Bool) (ks : Nat → Nat), ∀ (In Out : List Nat),
      (AesCtrXor c In Out n).2.length = Out.length ∧
      ∀ k, (AesCtrXor c In Out n).2.getD k 0 =
        if W k = true ∧ k < Out.length then In.getD k 0 ^^^ ks k else Out.getD k 0 := by
  obtain ⟨W, ks, h⟩ := ctr_loop_data_independent c.Aes n
    ((c.CurrentCipherBlockIndex + 1) % 2 ^ 64)
    (MIN ((AES_BLOCK_SIZE - c.StreamIndex % AES_BLOCK_SIZE) % 2 ^ 32) n)
    (List.range (((sub32 n (MIN ((AES_BLOCK_SIZE - c.StreamIndex % AES_BLOCK_SIZE) % 2 ^ 32) n) +
      AES_BLOCK_SIZE) % 2 ^ 32) / AES_BLOCK_SIZE))
    (memcpy (List.replicate AES_KEY_SIZE_128 0) 0 c.IV 0 AES_CTR_IV_SIZE)
  refine ⟨fun k => W k ||
      decide (k < MIN ((AES_BLOCK_SIZE - c.StreamIndex % AES_BLOCK_SIZE) % 2 ^ 32) n),
    fun k => if W k = true then ks k else
      c.CurrentCipherBlock.getD
        (sub32 AES_BLOCK_SIZE ((AES_BLOCK_SIZE - c.StreamIndex % AES_BLOCK_SIZE) % 2 ^ 32) + k) 0,
    fun In Out => ?_⟩
  obtain ⟨hl, hg⟩ := h In
    (XorBuffers In 0 c.CurrentCipherBlock
      (sub32 AES_BLOCK_SIZE ((AES_BLOCK_SIZE - c.StreamIndex % AES_BLOCK_SIZE) % 2 ^ 32)) Out 0
      (MIN ((AES_BLOCK_SIZE - c.StreamIndex % AES_BLOCK_SIZE) % 2 ^ 32) n))
    (List.replicate AES_KEY_SIZE_128 0) 0
  rw [length_XorBuffers] at hl hg
  have e : (AesCtrXor c In Out n).2 =
      ((List.range (((sub32 n (MIN ((AES_BLOCK_SIZE - c.StreamIndex % AES_BLOCK_SIZE) % 2 ^ 32) n) +
          AES_BLOCK_SIZE) % 2 ^ 32) / AES_BLOCK_SIZE)).foldl
        (AesCtrXorBody c.Aes In n ((c.CurrentCipherBlockIndex + 1) % 2 ^ 64)
          (MIN ((AES_BLOCK_SIZE - c.StreamIndex % AES_BLOCK_SIZE) % 2 ^ 32) n))
        { OutBuffer := XorBuffers In 0 c.CurrentCipherBlock
            (sub32 AES_BLOCK_SIZE ((AES_BLOCK_SIZE - c.StreamIndex % AES_BLOCK_SIZE) % 2 ^ 32))
            Out 0 (MIN ((AES_BLOCK_SIZE - c.StreamIndex % AES_BLOCK_SIZE) % 2 ^ 32) n)
          preCipherBlock := memcpy (List.replicate AES_KEY_SIZE_128 0) 0 c.IV 0 AES_CTR_IV_SIZE
          encCipherBlock := List.replicate AES_KEY_SIZE_128 0
          cipherBlockIndex := 0 }).OutBuffer := by
    simp only [AesCtrXor]
  rw [e]
  refine ⟨hl, fun k => ?_⟩
  rw [hg k, getD_XorBuffers]
  beta_reduce
  generalize MIN ((AES_BLOCK_SIZE - c.StreamIndex % AES_BLOCK_SIZE) % 2 ^ 32) n = first
  generalize sub32 AES_BLOCK_SIZE ((AES_BLOCK_SIZE - c.StreamIndex % AES_BLOCK_SIZE) % 2 ^ 32) = x
  by_cases hW : W k = true
  · by_cases hk : k < Out.length
    · rw [if_pos ⟨hW, hk⟩, if_pos ⟨by simp [hW], hk⟩, if_pos hW]
    · rw [if_neg (fun h => hk h.2), if_neg (fun h => hk h.2.2), if_neg (fun h => hk h.2)]
  · rw [if_neg (fun h => hW h.1)]
    by_cases hk : 0 ≤ k ∧ k < 0 + first ∧ k < Out.length
    · rw [if_pos hk, if_pos ⟨by simp [show k < first by omega], hk.2.2⟩, if_neg hW,
        Nat.sub_zero, Nat.zero_add]
    · rw [if_neg hk, if_neg]
      intro h
      apply hk
      obtain ⟨h1, h2⟩ := h
      simp only [Bool.or_eq_true, decide_eq_true_eq] at h1
      rcases h1 with h1 | h1
      · exact absurd h1 hW
      · exact ⟨Nat.zero_le _, by omega, h2⟩

/-- In place, two `AesCtrXor` calls from the same session state cancel, for
every state and every size. -/
theorem AesCtrXor_inplace_twice (c : AesCtrContext) (D : List Nat) (n : Nat) :
    (AesCtrXor c (AesCtrXor c D D n).2 (AesCtrXor c D D n).2 n).2 = D := by
  obtain ⟨W, ks, h⟩ := AesCtrXor_data_independent c n
  obtain ⟨l1, g1⟩ := h D D
  obtain ⟨l2, g2⟩ := h (AesCtrXor c D D n).2 (AesCtrXor c D D n).2
  apply ext_getD
  · rw [l2, l1]
  · intro k _
    rw [g2 k, l1, g1 k]
    by_cases hk : W k = true ∧ k < D.length
    · rw [if_pos hk, if_pos hk, xor_cancel_right]
    · rw [if_neg hk, if_neg hk]

theorem AesOfbXor_getD (c : AesOfbContext) (hc : c.IndexWithinCipherBlock ≤ 16)
    (In Out : List Nat) (n : Nat) (hn : n < 2 ^ 32) :
    (AesOfbXor c In Out n).2.length = Out.length ∧
    ∀ k, (AesOfbXor c In Out n).2.getD k 0 =
      if k < n ∧ k < Out.length then In.getD k 0 ^^^ ofbStream c k else Out.getD k 0 := by
  obtain ⟨A, B, idx⟩ := c
  obtain ⟨h1, h2, _⟩ := AesOfbXor_spec A B idx In Out n hc hn
  exact ⟨h1, h2⟩

/-- Two `AesOfbXor` calls from the same session state cancel. -/
theorem AesOfbXor_twice (c : AesOfbContext) (hc : c.IndexWithinCipherBlock ≤ 16)
    (D Out1 Out2 : List Nat) (hD : D.length < 2 ^ 32) (hO1 : Out1.length = D.length)
    (hO2 : Out2.length = D.length) :
    (AesOfbXor c (AesOfbXor c D Out1 D.length).2 Out2 D.length).2 = D := by
  obtain ⟨l1, g1⟩ := AesOfbXor_getD c hc D Out1 D.length hD
  obtain ⟨l2, g2⟩ := AesOfbXor_getD c hc (AesOfbXor c D Out1 D.length).2 Out2 D.length hD
  apply ext_getD
  · rw [l2, hO2]
  · intro k hk
    rw [l2, hO2] at hk
    rw [g2 k, if_pos (by omega), g1 k, if_pos (by omega), xor_cancel_right]

/-- Two `AesCtrXor` calls from the same session state cancel. -/
theorem AesCtrXor_twice (c : AesCtrContext) (hIV : c.IV.length = 8)
    (D Out1 Out2 : List Nat) (hD : D.length < 2 ^ 32 - 16) (hO1 : Out1.length = D.length)
    (hO2 : Out2.length = D.length) :
    (AesCtrXor c (AesCtrXor c D Out1 D.length).2 Out2 D.length).2 = D := by
  obtain ⟨l1, g1⟩ := AesCtrXor_out c D Out1 D.length hIV hD
  obtain ⟨l2, g2⟩ := AesCtrXor_out c (AesCtrXor c D Out1 D.length).2 Out2 D.length hIV hD
  apply ext_getD
  · rw [l2, hO2]
  · intro k hk
    rw [l2, hO2] at hk
    rw [g2 k, if_pos (by omega), g1 k, if_pos (by omega), xor_cancel_right]

/-- The `while` loop of `AesOfbXor` written with the recursor of the fuel. -/
theorem AesOfbXorLoop_rec :
    AesOfbXorLoop = fun In fuel v =>
      Nat.rec (motive := fun _ => OfbLoopVars → OfbLoopVars) (fun v => v)
        (fun _ ih v => if v.amountLeft > 0 then ih (AesOfbXorBody In v) else v) fuel v := by
  funext In fuel
  induction fuel with
  | zero => funext v; rfl
  | succ fuel ih =>
    funext v
    rw [AesOfbXorLoop]
    split_ifs with h
    · rw [ih]; simp only [h, if_true]
    · simp only [h, if_false]


/-! ## Claims about CBC -/

/-- C11 (counterexample): with `Size = 0` neither `AesCbcEncrypt` nor
`AesCbcDecrypt` returns -1; shown on a freshly initialised context and empty
buffers. -/
theorem cbc_zero_size_not_rejected :
    (AesCbcEncrypt (AesCbcInitialise zeroKeySchedule128 (List.range 16)) [] [] 0).1 ≠ -1 ∧
    (AesCbcDecrypt (AesCbcInitialise zeroKeySchedule128 (List.range 16)) [] [] 0).1 ≠ -1 := by
  constructor <;> decide

/-- C11 (amended): `AesCbcEncrypt` and `AesCbcDecrypt` called with `Size = 0`
return 0 and process nothing: the context and the output buffer are unchanged.
The length has to be a multiple of the block size, zero included. -/
theorem cbc_zero_size_returns_success (Context : AesCbcContext) (InBuffer OutBuffer : List Nat) :
    AesCbcEncrypt Context InBuffer OutBuffer 0 = (0, Context, OutBuffer) ∧
    AesCbcDecrypt Context InBuffer OutBuffer 0 = (0, Context, OutBuffer) :=
  ⟨rfl, rfl⟩

/-- C12: CBC return code. For every context, buffers and `Size`,
`AesCbcEncrypt` and `AesCbcDecrypt` return -1 when `Size mod 16` is not 0 and
return 0 otherwise. -/
theorem cbc_return_code (Context : AesCbcContext) (InBuffer OutBuffer : List Nat) (Size : Nat) :
    (AesCbcEncrypt Context InBuffer OutBuffer Size).1 = (if Size % 16 ≠ 0 then -1 else 0) ∧
    (AesCbcDecrypt Context InBuffer OutBuffer Size).1 = (if Size % 16 ≠ 0 then -1 else 0) := by
  unfold AesCbcEncrypt AesCbcDecrypt
  dsimp only
  by_cases h : Size % 16 = 0
  · have h1 : ¬ (0 ≠ Size % AES_BLOCK_SIZE) := fun e => e h.symm
    have h2 : ¬ (Size % 16 ≠ 0) := fun e => e h
    rw [if_neg h1, if_neg h1, if_neg h2]
    exact ⟨rfl, rfl⟩
  · have h1 : 0 ≠ Size % AES_BLOCK_SIZE := fun e => h e.symm
    rw [if_pos h1, if_pos h1, if_pos h]
    exact ⟨rfl, rfl⟩

/-- C13: CBC round trip. For every key of 16, 24 or 32 bytes, every 16-byte IV
and every plaintext `P` whose length is a multiple of 16 (and a 32 bit size),
`AesCbcDecrypt` on a context initialised with the same key schedule and IV,
applied to the output of `AesCbcEncrypt` on `P`, returns `P`; both calls
return 0. -/
theorem cbc_decrypt_encrypt_round_trip (Key IV P Out1 Out2 : List Nat) (ctx : AesContext)
    (hctx : (Key.length = 16 ∧ ctx = AesInitialise128 Key) ∨
      (Key.length = 24 ∧ ctx = AesInitialise192 Key) ∨
      (Key.length = 32 ∧ ctx = AesInitialise256 Key))
    (hKey : Bytes Key) (hIV : IsBlock IV) (hP : Bytes P) (hlen : P.length % 16 = 0)
    (h32 : P.length < 2 ^ 32) (hO1 : Out1.length = P.length) (hO2 : Out2.length = P.length) :
    (AesCbcDecrypt (AesCbcInitialise ctx IV)
      (AesCbcEncrypt (AesCbcInitialise ctx IV) P Out1 P.length).2.2 Out2 P.length).2.2 = P ∧
    (AesCbcEncrypt (AesCbcInitialise ctx IV) P Out1 P.length).1 = 0 ∧
    (AesCbcDecrypt (AesCbcInitialise ctx IV)
      (AesCbcEncrypt (AesCbcInitialise ctx IV) P Out1 P.length).2.2 Out2 P.length).1 = 0 := by
  have hk : Bytes ctx.RoundKey := by
    rcases hctx with ⟨_, rfl⟩ | ⟨_, rfl⟩ | ⟨_, rfl⟩
    · exact Bytes_AesInitialise128 Key hKey
    · exact Bytes_AesInitialise192 Key hKey
    · exact Bytes_AesInitialise256 Key hKey
  obtain ⟨n, hn⟩ : ∃ n, P.length = 16 * n := ⟨P.length / 16, by omega⟩
  rw [AesCbcInitialise_eq ctx IV hIV.1]
  have e := AesCbcDecrypt_AesCbcEncrypt ctx hk IV P Out1 Out2 n hIV hP hn (by omega) hO1 hO2
  rw [← hn] at e
  refine ⟨e, ?_, ?_⟩
  · rw [hn]
    exact (AesCbcEncrypt_spec _ P Out1 n hIV.1 (by omega)).1
  · rw [hn]
    exact (AesCbcDecrypt_spec _ _ Out2 n hIV.1 (by omega)).1

/-- Witness for C13: the key `0, .., 15`, the all-zero IV and the plaintext
`0, .., 31`. -/
theorem cbc_decrypt_encrypt_round_trip_witness :
    Bytes (List.range 16) ∧ IsBlock (List.replicate 16 0) ∧ Bytes (List.range 32) ∧
    (List.range 32).length % 16 = 0 ∧
    (AesCbcDecrypt (AesCbcInitialise (AesInitialise128 (List.range 16)) (List.replicate 16 0))
      (AesCbcEncrypt (AesCbcInitialise (AesInitialise128 (List.range 16)) (List.replicate 16 0))
        (List.range 32) (List.replicate 32 0) (List.range 32).length).2.2
      (List.replicate 32 0) (List.range 32).length).2.2 = List.range 32 :=
  ⟨by decide, by decide, by decide, by decide,
    (cbc_decrypt_encrypt_round_trip (List.range 16) (List.replicate 16 0) (List.range 32)
      (List.replicate 32 0) (List.replicate 32 0) (AesInitialise128 (List.range 16))
      (Or.inl ⟨by decide, rfl⟩) (by decide) (by decide) (by decide) (by decide) (by decide)
      (by decide) (by decide)).1⟩

/-- C14: CBC call splitting. For every context (with its 16-byte chaining
block) and all buffers `P1`, `P2` whose lengths are multiples of 16,
`AesCbcEncrypt` on `P1 ++ P2` in one call yields the same ciphertext bytes and
the same final context as `AesCbcEncrypt` on `P1` followed by `AesCbcEncrypt` on
`P2` with the context carried over; all three calls return 0. -/
theorem cbc_encrypt_call_splitting (c : AesCbcContext) (P1 P2 Out1 Out2 : List Nat)
    (hc : c.PreviousCipherBlock.length = 16) (h1 : P1.length % 16 = 0)
    (h2 : P2.length % 16 = 0) (h32 : P1.length + P2.length < 2 ^ 32)
    (hO1 : Out1.length = P1.length) (hO2 : Out2.length = P2.length) :
    (AesCbcEncrypt c (P1 ++ P2) (Out1 ++ Out2) (P1.length + P2.length)).2.2 =
      (AesCbcEncrypt c P1 Out1 P1.length).2.2 ++
        (AesCbcEncrypt (AesCbcEncrypt c P1 Out1 P1.length).2.1 P2 Out2 P2.length).2.2 ∧
    (AesCbcEncrypt c (P1 ++ P2) (Out1 ++ Out2) (P1.length + P2.length)).2.1 =
      (AesCbcEncrypt (AesCbcEncrypt c P1 Out1 P1.length).2.1 P2 Out2 P2.length).2.1 ∧
    (AesCbcEncrypt c (P1 ++ P2) (Out1 ++ Out2) (P1.length + P2.length)).1 = 0 ∧
    (AesCbcEncrypt c P1 Out1 P1.length).1 = 0 ∧
    (AesCbcEncrypt (AesCbcEncrypt c P1 Out1 P1.length).2.1 P2 Out2 P2.length).1 = 0 := by
  obtain ⟨n1, hn1⟩ : ∃ n, P1.length = 16 * n := ⟨P1.length / 16, by omega⟩
  obtain ⟨n2, hn2⟩ : ∃ n, P2.length = 16 * n := ⟨P2.length / 16, by omega⟩
  rw [hn1] at hO1
  rw [hn2] at hO2
  rw [hn1, hn2, ← Nat.mul_add]
  have hb := AesCbcEncrypt_spec c P1 Out1 n1 hc (by omega)
  have hc2 : (AesCbcEncrypt c P1 Out1 (16 * n1)).2.1.PreviousCipherBlock.length = 16 := by
    rw [hb.2.1]; exact length_cbcChain _ _ _ hc _
  obtain ⟨e1, e2⟩ := AesCbcEncrypt_append c P1 P2 Out1 Out2 n1 n2 hc hn1 (by omega) hO1 hO2
  exact ⟨e1, e2, (AesCbcEncrypt_spec c (P1 ++ P2) (Out1 ++ Out2) (n1 + n2) hc (by omega)).1,
    hb.1, (AesCbcEncrypt_spec _ P2 Out2 n2 hc2 (by omega)).1⟩

/-- Witness for C14: one block followed by two blocks. -/
theorem cbc_encrypt_call_splitting_witness :
    (List.range 16).length % 16 = 0 ∧ (List.replicate 32 5).length % 16 = 0 ∧
    (AesCbcEncrypt { Aes := zeroKeySchedule128, PreviousCipherBlock := List.replicate 16 1 }
      (List.range 16 ++ List.replicate 32 5) (List.replicate 16 0 ++ List.replicate 32 0)
      ((List.range 16).length + (List.replicate 32 5).length)).1 = 0 :=
  ⟨by decide, by decide,
    (cbc_encrypt_call_splitting
      { Aes := zeroKeySchedule128, PreviousCipherBlock := List.replicate 16 1 }
      (List.range 16) (List.replicate 32 5) (List.replicate 16 0) (List.replicate 32 0)
      (by decide) (by decide) (by decide) (by decide) (by decide) (by decide)).2.2.1⟩

/-- C15: CBC encryption recurrence. For `n` input blocks, `AesCbcEncrypt`
returns 0 and output block `i` is `AesEncrypt` of input block `i` XORed with
`C_{i-1}`, for every `i < n`, where `C_{-1}` is the `PreviousCipherBlock` of the
context on entry and `C_{i-1}` is output block `i - 1` otherwise; on return
`PreviousCipherBlock` is `C_{n-1}` (the block on entry when `n = 0`) and the
key schedule is unchanged. -/
theorem cbc_encrypt_recurrence (c : AesCbcContext) (InBuffer OutBuffer : List Nat) (n : Nat)
    (hP : c.PreviousCipherBlock.length = 16) (hn : 16 * n < 2 ^ 32)
    (hO : 16 * n ≤ OutBuffer.length) :
    (AesCbcEncrypt c InBuffer OutBuffer (16 * n)).1 = 0 ∧
    (∀ i, i < n →
      blockAt (AesCbcEncrypt c InBuffer OutBuffer (16 * n)).2.2 i =
        AesEncrypt c.Aes (xorBlock (blockAt InBuffer i)
          (cbcPrevious c.PreviousCipherBlock
            (AesCbcEncrypt c InBuffer OutBuffer (16 * n)).2.2 i))) ∧
    (AesCbcEncrypt c InBuffer OutBuffer (16 * n)).2.1.PreviousCipherBlock =
      cbcPrevious c.PreviousCipherBlock (AesCbcEncrypt c InBuffer OutBuffer (16 * n)).2.2 n ∧
    (AesCbcEncrypt c InBuffer OutBuffer (16 * n)).2.1.Aes = c.Aes := by
  have h := AesCbcEncrypt_spec c InBuffer OutBuffer n hP hn
  refine ⟨h.1, fun i hi => ?_, ?_, ?_⟩
  · rw [blockAt_AesCbcEncrypt c InBuffer OutBuffer n i hP hn hO hi,
      cbcPrevious_AesCbcEncrypt c InBuffer OutBuffer n i hP hn hO (by omega), cbcChain]
  · rw [cbcPrevious_AesCbcEncrypt c InBuffer OutBuffer n n hP hn hO (Nat.le_refl _), h.2.1]
  · rw [h.2.1]

/-- Witness for C15: two blocks on a freshly initialised context. -/
theorem cbc_encrypt_recurrence_witness :
    (AesCbcInitialise zeroKeySchedule128 (List.range 16)).PreviousCipherBlock.length = 16 ∧
    16 * 2 ≤ (List.replicate 32 0).length ∧
    (AesCbcEncrypt (AesCbcInitialise zeroKeySchedule128 (List.range 16)) (List.range 32)
      (List.replicate 32 0) (16 * 2)).1 = 0 :=
  ⟨by decide, by decide,
    (cbc_encrypt_recurrence (AesCbcInitialise zeroKeySchedule128 (List.range 16)) (List.range 32)
      (List.replicate 32 0) 2 (by decide) (by decide) (by decide)).1⟩

/-- C16: CBC decryption recurrence. For `n` ciphertext blocks, `AesCbcDecrypt`
returns 0 and output block `i` is `AesDecrypt` of ciphertext block `i` XORed
with `C_{i-1}`, for every `i < n`, where `C_{-1}` is the `PreviousCipherBlock`
of the context on entry and `C_{i-1}` is ciphertext block `i - 1` otherwise; on
return `PreviousCipherBlock` is `C_{n-1}`, the last ciphertext block consumed,
and the key schedule is unchanged. -/
theorem cbc_decrypt_recurrence (c : AesCbcContext) (InBuffer OutBuffer : List Nat) (n : Nat)
    (hP : c.PreviousCipherBlock.length = 16) (hn : 16 * n < 2 ^ 32)
    (hO : 16 * n ≤ OutBuffer.length) :
    (AesCbcDecrypt c InBuffer OutBuffer (16 * n)).1 = 0 ∧
    (∀ i, i < n →
      blockAt (AesCbcDecrypt c InBuffer OutBuffer (16 * n)).2.2 i =
        xorBlock (AesDecrypt c.Aes (blockAt InBuffer i))
          (cbcPrevious c.PreviousCipherBlock InBuffer i)) ∧
    (AesCbcDecrypt c InBuffer OutBuffer (16 * n)).2.1.PreviousCipherBlock =
      cbcPrevious c.PreviousCipherBlock InBuffer n ∧
    (AesCbcDecrypt c InBuffer OutBuffer (16 * n)).2.1.Aes = c.Aes := by
  have h := AesCbcDecrypt_spec c InBuffer OutBuffer n hP hn
  refine ⟨h.1, fun i hi => blockAt_AesCbcDecrypt c InBuffer OutBuffer n i hP hn hO hi, ?_, ?_⟩
  · rw [h.2.1]
  · rw [h.2.1]

/-- Witness for C16: two blocks on a freshly initialised context. -/
theorem cbc_decrypt_recurrence_witness :
    (AesCbcInitialise zeroKeySchedule128 (List.range 16)).PreviousCipherBlock.length = 16 ∧
    16 * 2 ≤ (List.replicate 32 0).length ∧
    (AesCbcDecrypt (AesCbcInitialise zeroKeySchedule128 (List.range 16)) (List.range 32)
      (List.replicate 32 0) (16 * 2)).1 = 0 :=
  ⟨by decide, by decide,
    (cbc_decrypt_recurrence (AesCbcInitialise zeroKeySchedule128 (List.range 16)) (List.range 32)
      (List.replicate 32 0) 2 (by decide) (by decide) (by decide)).1⟩

set_option maxRecDepth 100000 in
/-- C17: CBC matches NIST SP800-38A F.2.1 (CBC-AES128.Encrypt). With key
`2b7e151628aed2a6abf7158809cf4f3c` (`AesInitialise128`) and IV
`000102030405060708090a0b0c0d0e0f`, `AesCbcEncrypt` of the 32 bytes
`6bc1bee22e409f96e93d7e117393172a ae2d8a571e03ac9c9eb76fac45af8e51` returns 0
and outputs `7649abac8119b246cee98e9b12e9197d 5086cb9b507219ee95db113a917678b2`. -/
theorem cbc_nist_sp800_38a_known_answer :
    (AesCbcEncrypt
      (AesCbcInitialise
        (AesInitialise128 [0x2b, 0x7e, 0x15, 0x16, 0x28, 0xae, 0xd2, 0xa6,
          0xab, 0xf7, 0x15, 0x88, 0x09, 0xcf, 0x4f, 0x3c])
        [0x00, 0x01, 0x02, 0x03, 0x04, 0x05, 0x06, 0x07,
          0x08, 0x09, 0x0a, 0x0b, 0x0c, 0x0d, 0x0e, 0x0f])
      [0x6b, 0xc1, 0xbe, 0xe2, 0x2e, 0x40, 0x9f, 0x96, 0xe9, 0x3d, 0x7e, 0x11, 0x73, 0x93, 0x17, 0x2a,
       0xae, 0x2d, 0x8a, 0x57, 0x1e, 0x03, 0xac, 0x9c, 0x9e, 0xb7, 0x6f, 0xac, 0x45, 0xaf, 0x8e, 0x51]
      (List.replicate 32 0) 32).1 = 0 ∧
    (AesCbcEncrypt
      (AesCbcInitialise
        (AesInitialise128 [0x2b, 0x7e, 0x15, 0x16, 0x28, 0xae, 0xd2, 0xa6,
          0xab, 0xf7, 0x15, 0x88, 0x09, 0xcf, 0x4f, 0x3c])
        [0x00, 0x01, 0x02, 0x03, 0x04, 0x05, 0x06, 0x07,
          0x08, 0x09, 0x0a, 0x0b, 0x0c, 0x0d, 0x0e, 0x0f])
      [0x6b, 0xc1, 0xbe, 0xe2, 0x2e, 0x40, 0x9f, 0x96, 0xe9, 0x3d, 0x7e, 0x11, 0x73, 0x93, 0x17, 0x2a,
       0xae, 0x2d, 0x8a, 0x57, 0x1e, 0x03, 0xac, 0x9c, 0x9e, 0xb7, 0x6f, 0xac, 0x45, 0xaf, 0x8e, 0x51]
      (List.replicate 32 0) 32).2.2 =
      [0x76, 0x49, 0xab, 0xac, 0x81, 0x19, 0xb2, 0x46, 0xce, 0xe9, 0x8e, 0x9b, 0x12, 0xe9, 0x19, 0x7d,
       0x50, 0x86, 0xcb, 0x9b, 0x50, 0x72, 0x19, 0xee, 0x95, 0xdb, 0x11, 0x3a, 0x91, 0x76, 0x78, 0xb2]
    := by
  delta AesCbcEncrypt AesCbcEncryptBody AesCbcInitialise
  rw [AesEncryptInPlace_eq_fast, AesInitialise128_eq_fast]
  refine ⟨?_, ?_⟩ <;> decide!

/-! ## Claims about the stream modes -/

set_option maxRecDepth 100000 in
/-- C18: OFB known answer. AES-128-OFB with the all-zero 16-byte key and the
all-zero 16-byte IV (`AesOfbInitialise` on the `AesInitialise128` context, then
one `AesOfbXor`) applied to 48 zero bytes outputs
`66e94bd4ef8a2c3b884cfa59ca342b2e f795bd4a52e29ed713d313fa20e98dbc
a10cf66d0fddf3405370b4bf8df5bfb3`. -/
theorem ofb_aes128_zero_known_answer :
    (AesOfbXor (AesOfbInitialise (AesInitialise128 (List.replicate 16 0)) (List.replicate 16 0))
      (List.replicate 48 0) (List.replicate 48 0) 48).2 =
      [0x66, 0xe9, 0x4b, 0xd4, 0xef, 0x8a, 0x2c, 0x3b, 0x88, 0x4c, 0xfa, 0x59, 0xca, 0x34, 0x2b, 0x2e,
       0xf7, 0x95, 0xbd, 0x4a, 0x52, 0xe2, 0x9e, 0xd7, 0x13, 0xd3, 0x13, 0xfa, 0x20, 0xe9, 0x8d, 0xbc,
       0xa1, 0x0c, 0xf6, 0x6d, 0x0f, 0xdd, 0xf3, 0x40, 0x53, 0x70, 0xb4, 0xbf, 0x8d, 0xf5, 0xbf, 0xb3]
    := by
  rw [AesInitialise128_zero]
  delta AesOfbXor AesOfbInitialise
  rw [AesOfbXorLoop_rec]
  delta AesOfbXorBody
  rw [AesEncryptInPlace_eq_fast]
  decide!

/-- C19: OFB keystream chain. For every AES context, IV and 32 bit length, one
`AesOfbOutput` on a freshly initialised OFB context fills the buffer with the
first bytes of `O_1 ++ O_2 ++ O_3 ..`, where `O_1 = AesEncrypt(IV)` and
`O_{j+1} = AesEncrypt(O_j)`; one `AesOfbXor` outputs the input XORed bytewise
with that same sequence. -/
theorem ofb_keystream_chain (Aes : AesContext) (IV Buffer D Out : List Nat)
    (hB : Buffer.length < 2 ^ 32) (hD : D.length < 2 ^ 32) (hO : Out.length = D.length) :
    (AesOfbOutput (AesOfbInitialise Aes IV) Buffer Buffer.length).2 =
      (ofbKeystream Aes IV (Buffer.length / 16 + 1)).take Buffer.length ∧
    (AesOfbXor (AesOfbInitialise Aes IV) D Out D.length).2 =
      List.zipWith (fun a b => a ^^^ b) D
        ((ofbKeystream Aes IV (D.length / 16 + 1)).take D.length) ∧
    ofbChainBlock Aes IV 0 = AesEncrypt Aes IV ∧
    ∀ j, ofbChainBlock Aes IV (j + 1) = AesEncrypt Aes (ofbChainBlock Aes IV j) := by
  have hc : (AesOfbInitialise Aes IV).IndexWithinCipherBlock ≤ 16 :=
    (OfbInv_AesOfbInitialise Aes IV).2
  refine ⟨?_, ?_, by rw [ofbChainBlock], fun j => by rw [ofbChainBlock]⟩
  · rw [AesOfbOutput_eq]
    obtain ⟨l1, g1⟩ := AesOfbXor_getD (AesOfbInitialise Aes IV) hc
      (List.replicate Buffer.length 0) (List.replicate Buffer.length 0) Buffer.length hB
    rw [List.length_replicate] at l1 g1
    apply ext_getD
    · rw [l1, length_ofbKeystream_take]
    · intro k hk
      rw [l1] at hk
      rw [g1 k, if_pos ⟨hk, hk⟩, getD_ofbKeystream_take _ _ _ _ hk, List.getD_eq_getElem?_getD,
        List.getElem?_replicate, if_pos hk]
      exact Nat.zero_xor _
  · obtain ⟨l1, g1⟩ := AesOfbXor_getD (AesOfbInitialise Aes IV) hc D Out D.length hD
    apply ext_getD
    · rw [l1, hO, List.length_zipWith, length_ofbKeystream_take, Nat.min_self]
    · intro k hk
      rw [l1, hO] at hk
      rw [g1 k, if_pos ⟨hk, by omega⟩,
        getD_zipWith_xor _ _ _ hk (by rw [length_ofbKeystream_take]; exact hk),
        getD_ofbKeystream_take _ _ _ _ hk]

/-- Witness for C19: a request of 20 bytes. -/
theorem ofb_keystream_chain_witness :
    (List.replicate 20 7).length < 2 ^ 32 ∧
    (AesOfbOutput (AesOfbInitialise zeroKeySchedule128 (List.range 16)) (List.replicate 20 7)
      (List.replicate 20 7).length).2 =
      (ofbKeystream zeroKeySchedule128 (List.range 16)
        ((List.replicate 20 7).length / 16 + 1)).take (List.replicate 20 7).length :=
  ⟨by decide,
    (ofb_keystream_chain zeroKeySchedule128 (List.range 16) (List.replicate 20 7)
      (List.range 20) (List.replicate 20 0) (by decide) (by decide) (by decide)).1⟩

/-- The stream-mode round trip where it holds. For CTR (`AesCtrXor`) and for OFB
(`AesOfbXor`), applying the XOR operation from a session state to the output of
the XOR operation applied from the same state to a buffer returns that buffer:
for CTR in place, for every state, buffer `E` and size `n`; for CTR with output
buffers of their own, for every buffer `D` of fewer than `2^32 - 16` bytes; for
OFB with output buffers of their own (in place included), for every state with
index at most 16 and every buffer `F` of a 32 bit size. -/
theorem stream_xor_twice_round_trip (sCtr : AesCtrContext) (sOfb : AesOfbContext)
    (E D Out1 Out2 F Out3 Out4 : List Nat) (n : Nat)
    (hIV : sCtr.IV.length = 8) (hIdx : sOfb.IndexWithinCipherBlock ≤ 16)
    (hD : D.length < 2 ^ 32 - 16) (hO1 : Out1.length = D.length) (hO2 : Out2.length = D.length)
    (hF : F.length < 2 ^ 32) (hO3 : Out3.length = F.length) (hO4 : Out4.length = F.length) :
    (AesCtrXor sCtr (AesCtrXor sCtr E E n).2 (AesCtrXor sCtr E E n).2 n).2 = E ∧
    (AesCtrXor sCtr (AesCtrXor sCtr D Out1 D.length).2 Out2 D.length).2 = D ∧
    (AesOfbXor sOfb (AesOfbXor sOfb F Out3 F.length).2 Out4 F.length).2 = F :=
  ⟨AesCtrXor_inplace_twice sCtr E n, AesCtrXor_twice sCtr hIV D Out1 Out2 hD hO1 hO2,
    AesOfbXor_twice sOfb hIdx F Out3 Out4 hF hO3 hO4⟩

/-- An instance of the round trip: freshly initialised sessions and 20 bytes of
data. -/
theorem stream_xor_twice_round_trip_witness :
    (List.range 20).length < 2 ^ 32 - 16 ∧ (List.range 24).length < 2 ^ 32 ∧
    (AesOfbXor (AesOfbInitialise zeroKeySchedule128 (List.range 16))
      (AesOfbXor (AesOfbInitialise zeroKeySchedule128 (List.range 16)) (List.range 24)
        (List.replicate 24 0) (List.range 24).length).2
      (List.replicate 24 0) (List.range 24).length).2 = List.range 24 :=
  ⟨by decide, by decide,
    (stream_xor_twice_round_trip
      { Aes := zeroKeySchedule128, IV := List.replicate 8 0, StreamIndex := 0,
        CurrentCipherBlockIndex := 0, CurrentCipherBlock := List.replicate 16 0 }
      (AesOfbInitialise zeroKeySchedule128 (List.range 16))
      (List.range 5) (List.range 20) (List.replicate 20 0) (List.replicate 20 0)
      (List.range 24) (List.replicate 24 0) (List.replicate 24 0) 5
      (by decide) (OfbInv_AesOfbInitialise _ _).2 (by decide) (by decide) (by decide)
      (by decide) (by decide) (by decide)).2.2⟩

/-! ## RC4 and the frame of the CTR functions -/

theorem Rc4Output_context (l : List Nat) :
    ∀ (c : Rc4Context) (B : List Nat),
      (l.foldl Rc4OutputStep (c, B)).1 = l.foldl Rc4DropStep c := by
  induction l with
  | nil => intro c B; rfl
  | cons n l ih =>
    intro c B
    rw [List.foldl_cons, List.foldl_cons]
    exact ih _ _

theorem CreateCurrentCipherBlock_frame (c : AesCtrContext) :
    (CreateCurrentCipherBlock c).Aes = c.Aes ∧ (CreateCurrentCipherBlock c).IV = c.IV ∧
    (CreateCurrentCipherBlock c).StreamIndex = c.StreamIndex ∧
    (CreateCurrentCipherBlock c).CurrentCipherBlockIndex = c.CurrentCipherBlockIndex := by
  unfold CreateCurrentCipherBlock
  dsimp only
  exact ⟨rfl, rfl, rfl, rfl⟩

theorem AesCtrXor_frame (c : AesCtrContext) (In Out : List Nat) (n : Nat) :
    (AesCtrXor c In Out n).1.StreamIndex = (c.StreamIndex + n) % 2 ^ 64 ∧
    (AesCtrXor c In Out n).1.IV = c.IV ∧ (AesCtrXor c In Out n).1.Aes = c.Aes := by
  unfold AesCtrXor
  dsimp only
  split_ifs
  · exact ⟨rfl, rfl, rfl⟩
  · exact ⟨rfl, rfl, rfl⟩

theorem AesCtrSetStreamIndex_frame (c : AesCtrContext) (K : Nat) :
    (AesCtrSetStreamIndex c K).StreamIndex = K ∧ (AesCtrSetStreamIndex c K).IV = c.IV ∧
    (AesCtrSetStreamIndex c K).Aes = c.Aes := by
  unfold AesCtrSetStreamIndex
  dsimp only
  split_ifs
  · exact ⟨rfl, rfl, rfl⟩
  · exact ⟨rfl, rfl, rfl⟩

/-- The `while` loop of `AesCtrXor` (CryptLib_AesCtr.c) written with the
recursor of the fuel. -/
theorem Legacy_AesCtrXorLoop_rec :
    Legacy.AesCtrXorLoop = fun In fuel v =>
      Nat.rec (motive := fun _ => Legacy.CtrLoopVars → Legacy.CtrLoopVars) (fun v => v)
        (fun _ ih v => if v.amountLeft > 0 then ih (Legacy.AesCtrXorBody In v) else v) fuel v := by
  funext In fuel
  induction fuel with
  | zero => funext v; rfl
  | succ fuel ih =>
    funext v
    rw [Legacy.AesCtrXorLoop]
    split_ifs with h
    · rw [ih]; simp only [h, if_true]
    · simp only [h, if_false]

/-! ## The key schedule -/

theorem length_KeyExpansionStep (K : Nat) (rk : List Nat) (i : Nat) :
    (KeyExpansionStep K rk i).length = rk.length := by
  simp only [KeyExpansionStep, List.length_set]

theorem getD_KeyExpansionStep_other (K : Nat) (rk : List Nat) (i k : Nat)
    (h : k < 4 * i ∨ 4 * i + 4 ≤ k) : (KeyExpansionStep K rk i).getD k 0 = rk.getD k 0 := by
  unfold KeyExpansionStep
  dsimp only
  rw [getD_set_ne _ _ _ _ (by omega), getD_set_ne _ _ _ _ (by omega),
    getD_set_ne _ _ _ _ (by omega), getD_set_ne _ _ _ _ (by omega)]

theorem keyWord_congr (A B : List Nat) (j : Nat)
    (h : ∀ k, 4 * j ≤ k → k < 4 * j + 4 → A.getD k 0 = B.getD k 0) : keyWord A j = keyWord B j := by
  unfold keyWord
  rw [h (4 * j) (by omega) (by omega), h (4 * j + 1) (by omega) (by omega),
    h (4 * j + 2) (by omega) (by omega), h (4 * j + 3) (by omega) (by omega)]

theorem keyWord_KeyExpansionStep_other (K : Nat) (rk : List Nat) (i j : Nat) (h : j ≠ i) :
    keyWord (KeyExpansionStep K rk i) j = keyWord rk j :=
  keyWord_congr _ _ _ (fun k h1 h2 => getD_KeyExpansionStep_other K rk i k (by omega))

theorem keyWord_eq (L : List Nat) (i : Nat) :
    keyWord L i =
      [L.getD (i * 4 + 0) 0, L.getD (i * 4 + 1) 0, L.getD (i * 4 + 2) 0, L.getD (i * 4 + 3) 0] := by
  unfold keyWord
  rw [Nat.mul_comm]
  rfl

/-- What one step of the second loop of `KeyExpansion` writes: word `i` becomes
word `i - K` XORed with the transformed word `i - 1`. -/
theorem keyWord_KeyExpansionStep (K : Nat) (rk : List Nat) (i : Nat) (hK : 1 ≤ K) (hi : K ≤ i)
    (hlen : 4 * i + 4 ≤ rk.length) :
    keyWord (KeyExpansionStep K rk i) i =
      xorWord (keyWord rk (i - K)) (keyScheduleCore K i (keyWord rk (i - 1))) := by
  have r1 : ∀ (D : List Nat) (v : Nat),
      (D.set (i * 4 + 0) v).getD ((i - K) * 4 + 1) 0 = D.getD ((i - K) * 4 + 1) 0 :=
    fun D v => getD_set_ne D _ v _ (by omega)
  have r2a : ∀ (D : List Nat) (v : Nat),
      (D.set (i * 4 + 0) v).getD ((i - K) * 4 + 2) 0 = D.getD ((i - K) * 4 + 2) 0 :=
    fun D v => getD_set_ne D _ v _ (by omega)
  have r2b : ∀ (D : List Nat) (v : Nat),
      (D.set (i * 4 + 1) v).getD ((i - K) * 4 + 2) 0 = D.getD ((i - K) * 4 + 2) 0 :=
    fun D v => getD_set_ne D _ v _ (by omega)
  have r3a : ∀ (D : List Nat) (v : Nat),
      (D.set (i * 4 + 0) v).getD ((i - K) * 4 + 3) 0 = D.getD ((i - K) * 4 + 3) 0 :=
    fun D v => getD_set_ne D _ v _ (by omega)
  have r3b : ∀ (D : List Nat) (v : Nat),
      (D.set (i * 4 + 1) v).getD ((i - K) * 4 + 3) 0 = D.getD ((i - K) * 4 + 3) 0 :=
    fun D v => getD_set_ne D _ v _ (by omega)
  have r3c : ∀ (D : List Nat) (v : Nat),
      (D.set (i * 4 + 2) v).getD ((i - K) * 4 + 3) 0 = D.getD ((i - K) * 4 + 3) 0 :=
    fun D v => getD_set_ne D _ v _ (by omega)
  have e8 : AES_KEY_SIZE_256 / 4 = 8 := rfl
  rw [keyWord_eq, keyWord_eq, keyWord_eq]
  simp only [KeyExpansionStep, r1, r2a, r2b, r3a, r3b, r3c, e8]
  generalize rk.getD ((i - 1) * 4 + 0) 0 = t0
  generalize rk.getD ((i - 1) * 4 + 1) 0 = t1
  generalize rk.getD ((i - 1) * 4 + 2) 0 = t2
  generalize rk.getD ((i - 1) * 4 + 3) 0 = t3
  generalize rk.getD ((i - K) * 4 + 0) 0 = p0
  generalize rk.getD ((i - K) * 4 + 1) 0 = p1
  generalize rk.getD ((i - K) * 4 + 2) 0 = p2
  generalize rk.getD ((i - K) * 4 + 3) 0 = p3
  generalize htA : (if 0 = i % K then
      (SBOX.getD t1 0 ^^^ RCON.getD (i / K) 0, SBOX.getD t2 0, SBOX.getD t3 0, SBOX.getD t0 0)
    else (t0, t1, t2, t3)) = tempA
  generalize ht : (if 8 = K then
      if 4 = i % K then
        (SBOX.getD tempA.1 0, SBOX.getD tempA.2.1 0, SBOX.getD tempA.2.2.1 0,
          SBOX.getD tempA.2.2.2 0)
      else tempA
    else tempA) = temp
  rw [getD_set_ne _ _ _ _ (by omega), getD_set_ne _ _ _ _ (by omega),
    getD_set_ne _ _ _ _ (by omega), getD_set_eq _ _ _ (by omega),
    getD_set_ne _ _ _ _ (by omega), getD_set_ne _ _ _ _ (by omega),
    getD_set_eq _ _ _ (by rw [List.length_set]; omega),
    getD_set_ne _ _ _ _ (by omega),
    getD_set_eq _ _ _ (by rw [List.length_set, List.length_set]; omega),
    getD_set_eq _ _ _ (by rw [List.length_set, List.length_set, List.length_set]; omega)]
  by_cases c1 : i % K = 0
  · have c1b : 0 = i % K := c1.symm
    have c2 : ¬ (4 = i % K) := by omega
    have hA : tempA =
        (SBOX.getD t1 0 ^^^ RCON.getD (i / K) 0, SBOX.getD t2 0, SBOX.getD t3 0,
          SBOX.getD t0 0) := by
      rw [← htA, if_pos c1b]
    have hT : temp = tempA := by
      rw [← ht, if_neg c2, ite_self]
    rw [hT, hA, keyScheduleCore, if_pos c1]
    simp only [RotWord, SubWord, xorWord, List.map_cons, List.map_nil, List.zipWith_cons_cons,
      List.zipWith_nil_right, Nat.xor_zero]
  · have c1b : ¬ (0 = i % K) := fun h => c1 h.symm
    have hA : tempA = (t0, t1, t2, t3) := by rw [← htA, if_neg c1b]
    by_cases c3 : K = 8 ∧ i % 8 = 4
    · obtain ⟨c3a, c3b⟩ := c3
      subst c3a
      have hT : temp =
          (SBOX.getD tempA.1 0, SBOX.getD tempA.2.1 0, SBOX.getD tempA.2.2.1 0,
            SBOX.getD tempA.2.2.2 0) := by
        rw [← ht, if_pos rfl, if_pos c3b.symm]
      rw [hT, hA, keyScheduleCore, if_neg c1, if_pos ⟨rfl, c3b⟩]
      rfl
    · have hT : temp = tempA := by
        rw [← ht]
        by_cases c6 : 8 = K
        · rw [if_pos c6, if_neg]
          intro h
          subst c6
          exact c3 ⟨rfl, h.symm⟩
        · rw [if_neg c6]
      rw [hT, hA, keyScheduleCore, if_neg c1, if_neg c3]
      rfl

theorem KeyExpansion_fold_getD_lo (K : Nat) :
    ∀ (n s : Nat) (rk : List Nat) (k : Nat), k < 4 * s →
      ((List.range' s n).foldl (KeyExpansionStep K) rk).getD k 0 = rk.getD k 0 := by
  intro n
  induction n with
  | zero => intro s rk k _; rfl
  | succ n ih =>
    intro s rk k hk
    rw [List.range'_succ, List.foldl_cons, ih (s + 1) _ k (by omega),
      getD_KeyExpansionStep_other K rk s k (Or.inl hk)]

theorem length_KeyExpansion_fold (K : Nat) :
    ∀ (n s : Nat) (rk : List Nat),
      ((List.range' s n).foldl (KeyExpansionStep K) rk).length = rk.length := by
  intro n
  induction n with
  | zero => intro s rk; rfl
  | succ n ih =>
    intro s rk
    rw [List.range'_succ, List.foldl_cons, ih (s + 1) _, length_KeyExpansionStep]

theorem keyWord_KeyExpansion_fold_lo (K n s : Nat) (rk : List Nat) (j : Nat) (hj : j < s) :
    keyWord ((List.range' s n).foldl (KeyExpansionStep K) rk) j = keyWord rk j :=
  keyWord_congr _ _ _ (fun k _ h2 => KeyExpansion_fold_getD_lo K n s rk k (by omega))

/-- The recurrence of the key schedule holds in the array that the second loop
of `KeyExpansion` leaves, for every word the loop writes. -/
theorem KeyExpansion_fold_recurrence (K : Nat) (hK : 1 ≤ K) :
    ∀ (n s : Nat) (rk : List Nat), K ≤ s → 4 * (s + n) ≤ rk.length →
      ∀ i, s ≤ i → i < s + n →
        keyWord ((List.range' s n).foldl (KeyExpansionStep K) rk) i =
          xorWord (keyWord ((List.range' s n).foldl (KeyExpansionStep K) rk) (i - K))
            (keyScheduleCore K i
              (keyWord ((List.range' s n).foldl (KeyExpansionStep K) rk) (i - 1))) := by
  intro n
  induction n with
  | zero => intro s rk _ _ i h1 h2; omega
  | succ n ih =>
    intro s rk hs hlen i h1 h2
    rw [List.range'_succ, List.foldl_cons]
    by_cases hi : i = s
    · subst hi
      rw [keyWord_KeyExpansion_fold_lo K n (i + 1) _ i (by omega),
        keyWord_KeyExpansion_fold_lo K n (i + 1) _ (i - K) (by omega),
        keyWord_KeyExpansion_fold_lo K n (i + 1) _ (i - 1) (by omega),
        keyWord_KeyExpansionStep_other K rk i (i - K) (by omega),
        keyWord_KeyExpansionStep_other K rk i (i - 1) (by omega),
        keyWord_KeyExpansionStep K rk i hK hs (by omega)]
    · exact ih (s + 1) _ (by omega) (by rw [length_KeyExpansionStep]; omega) i (by omega)
        (by omega)

/-- The round key array that `KeyExpansion` leaves, byte by byte, from an
arbitrary array before the call: below `16 (Nr + 1)` it is given by the key
alone, from there on it is the array before the call. -/
theorem KeyExpansion_getD (K Nr : Nat) (Key R0 : List Nat) (hK : 1 ≤ K)
    (hKN : K ≤ 4 * (Nr + 1)) (hN : 16 * (Nr + 1) ≤ R0.length) :
    (KeyExpansion Key
        { RoundKey := R0, NumberOfRounds := Nr, KeySizeInWords := K }).RoundKey.length =
      R0.length ∧
    ∀ k, (KeyExpansion Key
        { RoundKey := R0, NumberOfRounds := Nr, KeySizeInWords := K }).RoundKey.getD k 0 =
      if k < 16 * (Nr + 1) then
        ((List.range' K (4 * (Nr + 1) - K)).foldl (fastKeyExpansionStep K)
          ((List.range (4 * K)).map (fun k => Key.getD k 0)).reverse).getD
          (16 * (Nr + 1) - 1 - k) 0
      else R0.getD k 0 := by
  obtain ⟨c1, c2⟩ := foldl_KeyCopyStep Key K R0
  have hrev : (((List.range (4 * K)).map (fun k => Key.getD k 0)).reverse).length = 4 * K := by
    rw [List.length_reverse, List.length_map, List.length_range]
  obtain ⟨g1, g2, g3, g4⟩ := KeyExpansion_loop_sim K R0 hK
    (4 * (Nr + 1) - K) K ((List.range K).foldl (KeyCopyStep Key) R0)
    (((List.range (4 * K)).map (fun k => Key.getD k 0)).reverse)
    (Nat.le_refl _) (by omega) hrev c1
    (fun k hk => by
      rw [c2 k, if_pos ⟨hk, by omega⟩,
        getD_reverse _ _ (by rw [List.length_map, List.length_range]; omega),
        List.length_map, List.length_range, getD_map_range _ _ _ (by omega),
        show 4 * K - 1 - (4 * K - 1 - k) = k by omega])
    (fun k hk => by rw [c2 k, if_neg (by omega)])
  have eN : K + (4 * (Nr + 1) - K) = 4 * (Nr + 1) := by omega
  rw [eN] at g3 g4
  unfold KeyExpansion
  dsimp only
  refine ⟨g2, fun k => ?_⟩
  by_cases h : k < 16 * (Nr + 1)
  · rw [if_pos h, g3 k (by omega), show 4 * (4 * (Nr + 1)) = 16 * (Nr + 1) by omega]
  · rw [if_neg h, g4 k (by omega)]

theorem getD_drop (l : List Nat) (a p : Nat) : (l.drop a).getD p 0 = l.getD (a + p) 0 :=
  (getD_of_drop l a _ rfl p).symm

/-- The shape of the round key array after `KeyExpansion` on a 240-byte array:
the key first, the bytes below `16 (Nr + 1)` independent of the array before
the call, the bytes from there on left as they were. -/
theorem KeyExpansion_shape (K Nr : Nat) (Key R0 : List Nat) (hK : 1 ≤ K)
    (hKN : K ≤ 4 * (Nr + 1)) (hN : 16 * (Nr + 1) ≤ 240) (hR0 : R0.length = 240)
    (hKey : Key.length = 4 * K) :
    (KeyExpansion Key
        { RoundKey := List.replicate AES_ROUND_KEY_BYTES 0, NumberOfRounds := Nr,
          KeySizeInWords := K }).RoundKey.length = 240 ∧
    (KeyExpansion Key
        { RoundKey := List.replicate AES_ROUND_KEY_BYTES 0, NumberOfRounds := Nr,
          KeySizeInWords := K }).RoundKey.take (4 * K) = Key ∧
    (KeyExpansion Key
        { RoundKey := R0, NumberOfRounds := Nr, KeySizeInWords := K }).RoundKey =
      (KeyExpansion Key
        { RoundKey := List.replicate AES_ROUND_KEY_BYTES 0, NumberOfRounds := Nr,
          KeySizeInWords := K }).RoundKey.take (16 * (Nr + 1)) ++ R0.drop (16 * (Nr + 1)) := by
  have hZ : (List.replicate AES_ROUND_KEY_BYTES 0).length = 240 := List.length_replicate _ _
  obtain ⟨z1, z2⟩ := KeyExpansion_getD K Nr Key (List.replicate AES_ROUND_KEY_BYTES 0) hK hKN
    (by rw [hZ]; exact hN)
  obtain ⟨r1, r2⟩ := KeyExpansion_getD K Nr Key R0 hK hKN (by rw [hR0]; exact hN)
  rw [hZ] at z1
  refine ⟨z1, ?_, ?_⟩
  · apply ext_getD
    · rw [List.length_take, z1, hKey]; omega
    · intro k hk
      rw [List.length_take, z1] at hk
      have hk4 : k < 4 * K := by omega
      rw [getD_take_lt _ _ _ hk4]
      unfold KeyExpansion
      dsimp only
      rw [KeyExpansion_fold_getD_lo K _ K _ k hk4, (foldl_KeyCopyStep Key K _).2 k,
        if_pos ⟨hk4, by rw [hZ]; omega⟩]
  · apply ext_getD
    · rw [r1, hR0, List.length_append, List.length_take, List.length_drop, z1, hR0]; omega
    · intro k hk
      rw [r1, hR0] at hk
      rw [r2 k]
      by_cases h : k < 16 * (Nr + 1)
      · rw [if_pos h, List.getD_append _ _ _ _ (by rw [List.length_take, z1]; omega),
          getD_take_lt _ _ _ h, z2 k, if_pos h]
      · rw [if_neg h, List.getD_append_right _ _ _ _ (by rw [List.length_take, z1]; omega),
          List.length_take, z1, getD_drop,
          show 16 * (Nr + 1) + (k - min (16 * (Nr + 1)) 240) = k by omega]

theorem KeyExpansion_recurrence (K Nr : Nat) (Key R0 : List Nat) (hK : 1 ≤ K)
    (hN : 16 * (Nr + 1) ≤ R0.length) (i : Nat) (hi : K ≤ i) (hi2 : i < 4 * (Nr + 1)) :
    keyWord (KeyExpansion Key
        { RoundKey := R0, NumberOfRounds := Nr, KeySizeInWords := K }).RoundKey i =
      xorWord
        (keyWord (KeyExpansion Key
          { RoundKey := R0, NumberOfRounds := Nr, KeySizeInWords := K }).RoundKey (i - K))
        (keyScheduleCore K i
          (keyWord (KeyExpansion Key
            { RoundKey := R0, NumberOfRounds := Nr, KeySizeInWords := K }).RoundKey (i - 1))) := by
  unfold KeyExpansion
  dsimp only
  exact KeyExpansion_fold_recurrence K hK (4 * (Nr + 1) - K) K _ (Nat.le_refl _)
    (by rw [(foldl_KeyCopyStep Key K R0).1]; omega) i hi (by omega)

theorem AesInitialise128_def (Key : List Nat) :
    AesInitialise128 Key = KeyExpansion Key
      { RoundKey := List.replicate AES_ROUND_KEY_BYTES 0, NumberOfRounds := 10,
        KeySizeInWords := 4 } := rfl

theorem AesInitialise192_def (Key : List Nat) :
    AesInitialise192 Key = KeyExpansion Key
      { RoundKey := List.replicate AES_ROUND_KEY_BYTES 0, NumberOfRounds := 12,
        KeySizeInWords := 6 } := rfl

theorem AesInitialise256_def (Key : List Nat) :
    AesInitialise256 Key = KeyExpansion Key
      { RoundKey := List.replicate AES_ROUND_KEY_BYTES 0, NumberOfRounds := 14,
        KeySizeInWords := 8 } := rfl

theorem KeyExpansion_rounds (Key : List Nat) (c : AesContext) :
    (KeyExpansion Key c).NumberOfRounds = c.NumberOfRounds ∧
    (KeyExpansion Key c).KeySizeInWords = c.KeySizeInWords := by
  unfold KeyExpansion
  exact ⟨rfl, rfl⟩

/-! ## Encryption is onto the blocks; the column transform in GF(2^8) -/

theorem finite_blocks : Finite { s : List Nat // IsBlock s } := by
  apply Finite.of_injective
    (fun (s : { s : List Nat // IsBlock s }) (i : Fin 16) =>
      (⟨s.1.getD i.1 0, Bytes_getD s.2.2 i.1⟩ : Fin 256))
  intro a b h
  apply Subtype.ext
  apply ext_getD (by rw [a.2.1, b.2.1])
  intro k hk
  rw [a.2.1] at hk
  exact congrArg Fin.val (congrFun h ⟨k, hk⟩)

/-- A map of blocks to blocks that has a left inverse is onto the blocks: it
is one-to-one on a finite set. -/
theorem onto_blocks_of_left_inverse (f g : List Nat → List Nat)
    (hf : ∀ s, IsBlock s → IsBlock (f s)) (hgf : ∀ s, IsBlock s → g (f s) = s)
    (b : List Nat) (hb : IsBlock b) : ∃ a, IsBlock a ∧ f a = b := by
  haveI := finite_blocks
  have hinj : Function.Injective
      (fun (s : { s : List Nat // IsBlock s }) =>
        (⟨f s.1, hf s.1 s.2⟩ : { s : List Nat // IsBlock s })) := by
    intro x y h
    apply Subtype.ext
    have h2 : f x.1 = f y.1 := congrArg Subtype.val h
    rw [← hgf x.1 x.2, ← hgf y.1 y.2, h2]
  obtain ⟨a, ha⟩ := (Finite.injective_iff_surjective.mp hinj) ⟨b, hb⟩
  exact ⟨a.1, a.2, congrArg Subtype.val ha⟩

theorem AesEncryptInPlace_AesDecryptInPlace (ctx : AesContext) (hk : Bytes ctx.RoundKey)
    (b : List Nat) (hb : IsBlock b) : AesEncryptInPlace ctx (AesDecryptInPlace ctx b) = b := by
  obtain ⟨a, ha, hab⟩ := onto_blocks_of_left_inverse (AesEncryptInPlace ctx)
    (AesDecryptInPlace ctx) (IsBlock_AesEncryptInPlace ctx hk)
    (AesDecryptInPlace_AesEncryptInPlace ctx hk) b hb
  rw [← hab, AesDecryptInPlace_AesEncryptInPlace ctx hk a ha]

theorem gfMul_two_three :
    ∀ x, x < 256 → gfMul 2 x = xtime x ∧ gfMul 3 x = xtime x ^^^ x ∧
      xtime x = ((x <<< 1) % 256) ^^^ (if x ≥ 0x80 then 0x1b else 0) := by
  decide!

theorem mix_column_byte (a b c d : Nat) (ha : a < 256) (hb : b < 256) :
    a ^^^ (xtime (a ^^^ b) ^^^ (a ^^^ b ^^^ c ^^^ d)) = gfMul 2 a ^^^ gfMul 3 b ^^^ c ^^^ d := by
  rw [(gfMul_two_three a ha).1, (gfMul_two_three b hb).2.1, xtime_xor]
  generalize xtime a = u
  generalize xtime b = v
  simp only [Nat.xor_assoc, Nat.xor_comm, xor_left_comm, xor_self_left, Nat.xor_self,
    Nat.xor_zero]

theorem MixColumns_explicit (a0 a1 a2 a3 a4 a5 a6 a7 a8 a9 a10 a11 a12 a13 a14 a15 : Nat) :
    MixColumns [a0, a1, a2, a3, a4, a5, a6, a7, a8, a9, a10, a11, a12, a13, a14, a15] =
      [a0 ^^^ (xtime (a0 ^^^ a1) ^^^ (a0 ^^^ a1 ^^^ a2 ^^^ a3)),
       a1 ^^^ (xtime (a1 ^^^ a2) ^^^ (a0 ^^^ a1 ^^^ a2 ^^^ a3)),
       a2 ^^^ (xtime (a2 ^^^ a3) ^^^ (a0 ^^^ a1 ^^^ a2 ^^^ a3)),
       a3 ^^^ (xtime (a3 ^^^ a0) ^^^ (a0 ^^^ a1 ^^^ a2 ^^^ a3)),
       a4 ^^^ (xtime (a4 ^^^ a5) ^^^ (a4 ^^^ a5 ^^^ a6 ^^^ a7)),
       a5 ^^^ (xtime (a5 ^^^ a6) ^^^ (a4 ^^^ a5 ^^^ a6 ^^^ a7)),
       a6 ^^^ (xtime (a6 ^^^ a7) ^^^ (a4 ^^^ a5 ^^^ a6 ^^^ a7)),
       a7 ^^^ (xtime (a7 ^^^ a4) ^^^ (a4 ^^^ a5 ^^^ a6 ^^^ a7)),
       a8 ^^^ (xtime (a8 ^^^ a9) ^^^ (a8 ^^^ a9 ^^^ a10 ^^^ a11)),
       a9 ^^^ (xtime (a9 ^^^ a10) ^^^ (a8 ^^^ a9 ^^^ a10 ^^^ a11)),
       a10 ^^^ (xtime (a10 ^^^ a11) ^^^ (a8 ^^^ a9 ^^^ a10 ^^^ a11)),
       a11 ^^^ (xtime (a11 ^^^ a8) ^^^ (a8 ^^^ a9 ^^^ a10 ^^^ a11)),
       a12 ^^^ (xtime (a12 ^^^ a13) ^^^ (a12 ^^^ a13 ^^^ a14 ^^^ a15)),
       a13 ^^^ (xtime (a13 ^^^ a14) ^^^ (a12 ^^^ a13 ^^^ a14 ^^^ a15)),
       a14 ^^^ (xtime (a14 ^^^ a15) ^^^ (a12 ^^^ a13 ^^^ a14 ^^^ a15)),
       a15 ^^^ (xtime (a15 ^^^ a12) ^^^ (a12 ^^^ a13 ^^^ a14 ^^^ a15))] := by
  simp [MixColumns, stGet, stSet]

/-- One column of `MixColumns` against the column transform of FIPS-197. -/
theorem mix_column (a b c d : Nat) (ha : a < 256) (hb : b < 256) (hc : c < 256)
    (hd : d < 256) :
    a ^^^ (xtime (a ^^^ b) ^^^ (a ^^^ b ^^^ c ^^^ d)) = gfMul 2 a ^^^ gfMul 3 b ^^^ c ^^^ d ∧
    b ^^^ (xtime (b ^^^ c) ^^^ (a ^^^ b ^^^ c ^^^ d)) = a ^^^ gfMul 2 b ^^^ gfMul 3 c ^^^ d ∧
    c ^^^ (xtime (c ^^^ d) ^^^ (a ^^^ b ^^^ c ^^^ d)) = a ^^^ b ^^^ gfMul 2 c ^^^ gfMul 3 d ∧
    d ^^^ (xtime (d ^^^ a) ^^^ (a ^^^ b ^^^ c ^^^ d)) = gfMul 3 a ^^^ b ^^^ c ^^^ gfMul 2 d := by
  rw [(gfMul_two_three a ha).1, (gfMul_two_three b hb).1, (gfMul_two_three c hc).1,
    (gfMul_two_three d hd).1, (gfMul_two_three a ha).2.1, (gfMul_two_three b hb).2.1,
    (gfMul_two_three c hc).2.1, (gfMul_two_three d hd).2.1, xtime_xor, xtime_xor, xtime_xor,
    xtime_xor]
  generalize xtime a = u
  generalize xtime b = v
  generalize xtime c = w
  generalize xtime d = z
  refine ⟨?_, ?_, ?_, ?_⟩ <;>
  simp only [Nat.xor_assoc, Nat.xor_comm, xor_left_comm, xor_self_left, Nat.xor_self,
    Nat.xor_zero]

/-! ## Claims about key sizes, the CTR frame, RC4 and the tables -/

/-- C21: key-size validation (CryptLib_AesCtr.c). `AesCtrInitialiseWithKey`
returns 0 when `KeySize` is 16, 24 or 32 and -1 for every other `KeySize`;
`AesCtrXorWithKey` returns the same code and, when it is -1, leaves the output
buffer as it was. -/
theorem legacy_ctr_key_size_validation (Key : List Nat) (KeySize : Nat)
    (IV InBuffer OutBuffer : List Nat) (BufferSize : Nat) (Context : AesCtrContext) :
    (Legacy.AesCtrInitialiseWithKey Key KeySize IV Context).1 =
      (if KeySize = 16 ∨ KeySize = 24 ∨ KeySize = 32 then 0 else -1) ∧
    (Legacy.AesCtrXorWithKey Key KeySize IV InBuffer OutBuffer BufferSize).1 =
      (Legacy.AesCtrInitialiseWithKey Key KeySize IV Context).1 ∧
    ((Legacy.AesCtrXorWithKey Key KeySize IV InBuffer OutBuffer BufferSize).1 = -1 →
      (Legacy.AesCtrXorWithKey Key KeySize IV InBuffer OutBuffer BufferSize).2 = OutBuffer) := by
  unfold Legacy.AesCtrXorWithKey Legacy.AesCtrInitialiseWithKey
  simp only [AES_KEY_SIZE_128, AES_KEY_SIZE_192, AES_KEY_SIZE_256]
  by_cases h1 : KeySize = 16
  · simp [h1]
  · by_cases h2 : KeySize = 24
    · simp [h2]
    · by_cases h3 : KeySize = 32
      · simp [h3]
      · simp [h1, h2, h3]

/-- C24: CTR cursor advance and frame. For every context and `Size`,
`AesCtrXor` leaves `StreamIndex` equal to `(old StreamIndex + Size) mod 2^64`
and leaves the IV and the AES key schedule unchanged; `AesCtrSetStreamIndex(K)`
sets `StreamIndex` to `K` and leaves the IV and the key schedule unchanged. -/
theorem ctr_cursor_advance_and_frame (c : AesCtrContext) (InBuffer OutBuffer : List Nat)
    (Size K : Nat) :
    (AesCtrXor c InBuffer OutBuffer Size).1.StreamIndex = (c.StreamIndex + Size) % 2 ^ 64 ∧
    (AesCtrXor c InBuffer OutBuffer Size).1.IV = c.IV ∧
    (AesCtrXor c InBuffer OutBuffer Size).1.Aes = c.Aes ∧
    (AesCtrSetStreamIndex c K).StreamIndex = K ∧
    (AesCtrSetStreamIndex c K).IV = c.IV ∧
    (AesCtrSetStreamIndex c K).Aes = c.Aes :=
  ⟨(AesCtrXor_frame c InBuffer OutBuffer Size).1, (AesCtrXor_frame c InBuffer OutBuffer Size).2.1,
    (AesCtrXor_frame c InBuffer OutBuffer Size).2.2, (AesCtrSetStreamIndex_frame c K).1,
    (AesCtrSetStreamIndex_frame c K).2.1, (AesCtrSetStreamIndex_frame c K).2.2⟩

/-- C26: RC4 drop equivalence. For every key and every `DropN`,
`Rc4Initialise(key, DropN)` leaves the context in the state (`S`, `i`, `j`) that
`Rc4Initialise(key, 0)` followed by one `Rc4Output` of `DropN` bytes leaves, so
every later output is the same. -/
theorem rc4_drop_equivalence (Key : List Nat) (KeySize DropN : Nat) (Buffer : List Nat) :
    (Rc4Output (Rc4Initialise Key KeySize 0) Buffer DropN).1 = Rc4Initialise Key KeySize DropN ∧
    ∀ (Buffer2 : List Nat) (Size : Nat),
      Rc4Output (Rc4Output (Rc4Initialise Key KeySize 0) Buffer DropN).1 Buffer2 Size =
        Rc4Output (Rc4Initialise Key KeySize DropN) Buffer2 Size := by
  have h : (Rc4Output (Rc4Initialise Key KeySize 0) Buffer DropN).1 =
      Rc4Initialise Key KeySize DropN := by
    rw [Rc4Output, Rc4Output_context]
    rfl
  exact ⟨h, fun B2 n => by rw [h]⟩

/-- C28: reposition is canonical. For every reachable CTR session and every
64 bit `K`, the state after `AesCtrSetStreamIndex(K)` is given by the key
schedule, the IV and `K` alone (for every `K`): `StreamIndex = K`,
`CurrentCipherBlockIndex = K div 16` and `CurrentCipherBlock` the AES encryption
of the IV followed by the big-endian `K div 16`; so `AesCtrSetStreamIndex(J)`
followed by `AesCtrSetStreamIndex(K)` gives the state of `AesCtrSetStreamIndex(K)`
alone, for every 64 bit `J`. -/
theorem ctr_reposition_is_canonical (Aes : AesContext) (IV : List Nat) (c : AesCtrContext)
    (J K : Nat) (hIV : IV.length = 8) (hc : CtrReachable Aes IV c) (hJ : J < 2 ^ 64) :
    AesCtrSetStreamIndex c K =
      { Aes := Aes, IV := IV, StreamIndex := K, CurrentCipherBlockIndex := K / 16,
        CurrentCipherBlock := AesEncryptInPlace Aes (IV ++ bigEndian64 (K / 16)) } ∧
    AesCtrSetStreamIndex (AesCtrSetStreamIndex c J) K = AesCtrSetStreamIndex c K := by
  have hinv := CtrInv_of_CtrReachable Aes IV hIV c hc
  have hinvJ := CtrInv_AesCtrSetStreamIndex Aes IV hIV c hinv J hJ
  rw [AesCtrSetStreamIndex_eq Aes IV hIV _ hinvJ K, AesCtrSetStreamIndex_eq Aes IV hIV c hinv K]
  exact ⟨rfl, rfl⟩

/-- Witness for C28: a fresh session, repositioned to 1000 and then to 37. -/
theorem ctr_reposition_is_canonical_witness :
    (List.replicate 8 0).length = 8 ∧ 1000 < 2 ^ 64 ∧
    AesCtrSetStreamIndex
      (AesCtrSetStreamIndex (AesCtrInitialise zeroKeySchedule128 (List.replicate 8 0)) 1000) 37 =
      AesCtrSetStreamIndex (AesCtrInitialise zeroKeySchedule128 (List.replicate 8 0)) 37 :=
  ⟨by decide, by decide,
    (ctr_reposition_is_canonical zeroKeySchedule128 (List.replicate 8 0)
      (AesCtrInitialise zeroKeySchedule128 (List.replicate 8 0)) 1000 37 (by decide)
      CtrReachable.init (by decide)).2⟩

/-- C29: the substitution tables are mutually inverse permutations. For every
byte `x`, `RSBOX[SBOX[x]] = x` and `SBOX[RSBOX[x]] = x`, both tables map bytes
to bytes, and `SBOX` is one-to-one and onto on `0..255`. -/
theorem sbox_tables_mutually_inverse (x y : Nat) (hx : x < 256) (hy : y < 256) :
    RSBOX.getD (SBOX.getD x 0) 0 = x ∧ SBOX.getD (RSBOX.getD x 0) 0 = x ∧
    SBOX.getD x 0 < 256 ∧ RSBOX.getD x 0 < 256 ∧
    (SBOX.getD x 0 = SBOX.getD y 0 → x = y) ∧
    (∃ z, z < 256 ∧ SBOX.getD z 0 = x) := by
  refine ⟨RSBOX_SBOX x hx, SBOX_RSBOX x hx, SBOX_lt x, RSBOX_lt x, fun h => ?_,
    ⟨RSBOX.getD x 0, RSBOX_lt x, SBOX_RSBOX x hx⟩⟩
  rw [← RSBOX_SBOX x hx, ← RSBOX_SBOX y hy, h]

/-- Witness for C29: the bytes `0x53` and `0xed`. -/
theorem sbox_tables_mutually_inverse_witness :
    0x53 < 256 ∧ RSBOX.getD (SBOX.getD 0x53 0) 0 = 0x53 ∧ SBOX.getD 0x53 0 = 0xed :=
  ⟨by decide, (sbox_tables_mutually_inverse 0x53 0xed (by decide) (by decide)).1, by decide⟩

set_option maxRecDepth 100000 in
/-- C25 (the code at the failing input): with the all-zero AES-128 key and the
all-zero IV, `AesCtrOutput` of CryptLib_AesCtr.c called for 8, 8 and 1 bytes on
a fresh context gives `66e94bd4ef8a2c3b 884cfa59ca342b2e 66`, while one call
for 17 bytes on a fresh context gives `66e94bd4ef8a2c3b884cfa59ca342b2e 58`:
after the second call the cursor is 16 and the cached block is still block 0. -/
theorem legacy_ctr_chunked_output_differs :
    (Legacy.AesCtrOutput
        (AesCtrInitialise (AesInitialise128 (List.replicate 16 0)) (List.replicate 8 0))
        (List.replicate 8 0) 8).2 ++
      (Legacy.AesCtrOutput
        (Legacy.AesCtrOutput
          (AesCtrInitialise (AesInitialise128 (List.replicate 16 0)) (List.replicate 8 0))
          (List.replicate 8 0) 8).1
        (List.replicate 8 0) 8).2 ++
      (Legacy.AesCtrOutput
        (Legacy.AesCtrOutput
          (Legacy.AesCtrOutput
            (AesCtrInitialise (AesInitialise128 (List.replicate 16 0)) (List.replicate 8 0))
            (List.replicate 8 0) 8).1
          (List.replicate 8 0) 8).1
        (List.replicate 1 0) 1).2 =
      [0x66, 0xe9, 0x4b, 0xd4, 0xef, 0x8a, 0x2c, 0x3b, 0x88, 0x4c, 0xfa, 0x59, 0xca, 0x34, 0x2b, 0x2e,
       0x66] ∧
    (Legacy.AesCtrOutput
        (AesCtrInitialise (AesInitialise128 (List.replicate 16 0)) (List.replicate 8 0))
        (List.replicate 17 0) 17).2 =
      [0x66, 0xe9, 0x4b, 0xd4, 0xef, 0x8a, 0x2c, 0x3b, 0x88, 0x4c, 0xfa, 0x59, 0xca, 0x34, 0x2b, 0x2e,
       0x58] ∧
    (Legacy.AesCtrOutput
        (Legacy.AesCtrOutput
          (AesCtrInitialise (AesInitialise128 (List.replicate 16 0)) (List.replicate 8 0))
          (List.replicate 8 0) 8).1
        (List.replicate 8 0) 8).1.StreamIndex = 16 ∧
    (Legacy.AesCtrOutput
        (Legacy.AesCtrOutput
          (AesCtrInitialise (AesInitialise128 (List.replicate 16 0)) (List.replicate 8 0))
          (List.replicate 8 0) 8).1
        (List.replicate 8 0) 8).1.CurrentCipherBlockIndex = 0 := by
  rw [AesInitialise128_zero]
  delta Legacy.AesCtrOutput Legacy.AesCtrXor
  rw [Legacy_AesCtrXorLoop_rec]
  delta Legacy.AesCtrXorBody AesCtrInitialise CreateCurrentCipherBlock
  rw [AesEncryptInPlace_eq_fast]
  refine ⟨?_, ?_, ?_, ?_⟩ <;> decide!

/-! ## Claims about the key schedule and the block cipher -/

/-- C22: key schedule shape. `AesInitialise128` / `192` / `256` set
`NumberOfRounds` to 10 / 12 / 14 and `KeySizeInWords` to 4 / 6 / 8; for every key
the first 16 / 24 / 32 bytes of the 240-byte `RoundKey` are the key bytes; and
the schedule filled in is the first 176 / 208 / 240 bytes: run on any array
`R0`, `KeyExpansion` gives these bytes as the key alone determines them and
leaves the bytes after them as they were. -/
theorem key_schedule_shape (Key16 Key24 Key32 R0 : List Nat) (h16 : Key16.length = 16)
    (h24 : Key24.length = 24) (h32 : Key32.length = 32) (hR0 : R0.length = 240) :
    ((AesInitialise128 Key16).NumberOfRounds = 10 ∧
      (AesInitialise128 Key16).KeySizeInWords = 4 ∧
      (AesInitialise128 Key16).RoundKey.length = 240 ∧
      (AesInitialise128 Key16).RoundKey.take 16 = Key16 ∧
      (KeyExpansion Key16
          { RoundKey := R0, NumberOfRounds := 10, KeySizeInWords := 4 }).RoundKey =
        (AesInitialise128 Key16).RoundKey.take 176 ++ R0.drop 176) ∧
    ((AesInitialise192 Key24).NumberOfRounds = 12 ∧
      (AesInitialise192 Key24).KeySizeInWords = 6 ∧
      (AesInitialise192 Key24).RoundKey.length = 240 ∧
      (AesInitialise192 Key24).RoundKey.take 24 = Key24 ∧
      (KeyExpansion Key24
          { RoundKey := R0, NumberOfRounds := 12, KeySizeInWords := 6 }).RoundKey =
        (AesInitialise192 Key24).RoundKey.take 208 ++ R0.drop 208) ∧
    ((AesInitialise256 Key32).NumberOfRounds = 14 ∧
      (AesInitialise256 Key32).KeySizeInWords = 8 ∧
      (AesInitialise256 Key32).RoundKey.length = 240 ∧
      (AesInitialise256 Key32).RoundKey.take 32 = Key32 ∧
      (KeyExpansion Key32
          { RoundKey := R0, NumberOfRounds := 14, KeySizeInWords := 8 }).RoundKey =
        (AesInitialise256 Key32).RoundKey.take 240 ++ R0.drop 240) := by
  obtain ⟨a1, a2, a3⟩ := KeyExpansion_shape 4 10 Key16 R0 (by decide) (by decide) (by decide)
    hR0 h16
  obtain ⟨b1, b2, b3⟩ := KeyExpansion_shape 6 12 Key24 R0 (by decide) (by decide) (by decide)
    hR0 h24
  obtain ⟨c1, c2, c3⟩ := KeyExpansion_shape 8 14 Key32 R0 (by decide) (by decide) (by decide)
    hR0 h32
  rw [AesInitialise128_def, AesInitialise192_def, AesInitialise256_def]
  exact ⟨⟨(KeyExpansion_rounds _ _).1, (KeyExpansion_rounds _ _).2, a1, a2, a3⟩,
    ⟨(KeyExpansion_rounds _ _).1, (KeyExpansion_rounds _ _).2, b1, b2, b3⟩,
    ⟨(KeyExpansion_rounds _ _).1, (KeyExpansion_rounds _ _).2, c1, c2, c3⟩⟩

/-- Witness for C22: the keys `0, 1, ..` of the three sizes and an array of
240 bytes `7`. -/
theorem key_schedule_shape_witness :
    (List.range 16).length = 16 ∧ (List.replicate 240 7).length = 240 ∧
    (AesInitialise128 (List.range 16)).RoundKey.take 16 = List.range 16 :=
  ⟨by decide, List.length_replicate 240 7,
    (key_schedule_shape (List.range 16) (List.range 24) (List.range 32) (List.replicate 240 7)
      (by decide) (by decide) (by decide) (List.length_replicate 240 7)).1.2.2.2.1⟩

/-- C23: key schedule recurrence. For each key size (4, 6 or 8 key words, 10,
12 or 14 rounds) and every word index `i` from the number of key words up to
`4 (rounds + 1) - 1`, word `i` of `RoundKey` is word `i - keyWords` XORed with
the transformed word `i - 1`: rotated left by one byte, substituted through
`SBOX` and its first byte XORed with `RCON[i div keyWords]` when
`i mod keyWords = 0`; substituted through `SBOX` only when `keyWords = 8` and
`i mod 8 = 4`; unchanged otherwise. -/
theorem key_schedule_recurrence (Key16 Key24 Key32 : List Nat) (i4 i6 i8 : Nat)
    (h4 : 4 ≤ i4 ∧ i4 < 4 * (10 + 1)) (h6 : 6 ≤ i6 ∧ i6 < 4 * (12 + 1))
    (h8 : 8 ≤ i8 ∧ i8 < 4 * (14 + 1)) :
    keyWord (AesInitialise128 Key16).RoundKey i4 =
      xorWord (keyWord (AesInitialise128 Key16).RoundKey (i4 - 4))
        (keyScheduleCore 4 i4 (keyWord (AesInitialise128 Key16).RoundKey (i4 - 1))) ∧
    keyWord (AesInitialise192 Key24).RoundKey i6 =
      xorWord (keyWord (AesInitialise192 Key24).RoundKey (i6 - 6))
        (keyScheduleCore 6 i6 (keyWord (AesInitialise192 Key24).RoundKey (i6 - 1))) ∧
    keyWord (AesInitialise256 Key32).RoundKey i8 =
      xorWord (keyWord (AesInitialise256 Key32).RoundKey (i8 - 8))
        (keyScheduleCore 8 i8 (keyWord (AesInitialise256 Key32).RoundKey (i8 - 1))) := by
  have hZ : (List.replicate AES_ROUND_KEY_BYTES 0).length = 240 := List.length_replicate _ _
  rw [AesInitialise128_def, AesInitialise192_def, AesInitialise256_def]
  exact ⟨KeyExpansion_recurrence 4 10 Key16 _ (by decide) (by rw [hZ]; decide) i4 h4.1 h4.2,
    KeyExpansion_recurrence 6 12 Key24 _ (by decide) (by rw [hZ]; decide) i6 h6.1 h6.2,
    KeyExpansion_recurrence 8 14 Key32 _ (by decide) (by rw [hZ]) i8 h8.1 h8.2⟩

/-- Witness for C23: the words 4, 10 and 12 of the three schedules. -/
theorem key_schedule_recurrence_witness :
    (4 ≤ 4 ∧ 4 < 4 * (10 + 1)) ∧ (8 ≤ 12 ∧ 12 < 4 * (14 + 1)) ∧
    keyWord (AesInitialise256 (List.range 32)).RoundKey 12 =
      xorWord (keyWord (AesInitialise256 (List.range 32)).RoundKey (12 - 8))
        (keyScheduleCore 8 12 (keyWord (AesInitialise256 (List.range 32)).RoundKey (12 - 1))) :=
  ⟨by decide, by decide,
    (key_schedule_recurrence (List.range 16) (List.range 24) (List.range 32) 4 10 12
      (by decide) (by decide) (by decide)).2.2⟩

/-- C27: decryption is a two-sided inverse. For every key of 16, 24 or 32
bytes, with the context built by `AesInitialise128`, `AesInitialise192` or
`AesInitialise256` respectively, and every 16-byte block `b`,
`AesEncryptInPlace(ctx, AesDecryptInPlace(ctx, b)) = b`. -/
theorem aes_encrypt_decrypt_round_trip (Key Block : List Nat) (ctx : AesContext)
    (hctx : (Key.length = 16 ∧ ctx = AesInitialise128 Key) ∨
      (Key.length = 24 ∧ ctx = AesInitialise192 Key) ∨
      (Key.length = 32 ∧ ctx = AesInitialise256 Key))
    (hKey : Bytes Key) (hBlock : IsBlock Block) :
    AesEncryptInPlace ctx (AesDecryptInPlace ctx Block) = Block := by
  have hk : Bytes ctx.RoundKey := by
    rcases hctx with ⟨_, rfl⟩ | ⟨_, rfl⟩ | ⟨_, rfl⟩
    · exact Bytes_AesInitialise128 Key hKey
    · exact Bytes_AesInitialise192 Key hKey
    · exact Bytes_AesInitialise256 Key hKey
  exact AesEncryptInPlace_AesDecryptInPlace ctx hk Block hBlock

/-- Witness for C27: the 32-byte key `0, 1, .., 31` and the block `0, 17, .., 255`. -/
theorem aes_encrypt_decrypt_round_trip_witness :
    Bytes (List.range 32) ∧ IsBlock ((List.range 16).map (fun i => 17 * i)) ∧
    AesEncryptInPlace (AesInitialise256 (List.range 32))
      (AesDecryptInPlace (AesInitialise256 (List.range 32))
        ((List.range 16).map (fun i => 17 * i))) = (List.range 16).map (fun i => 17 * i) :=
  ⟨by decide, by decide,
    aes_encrypt_decrypt_round_trip (List.range 32) ((List.range 16).map (fun i => 17 * i))
      (AesInitialise256 (List.range 32)) (Or.inr (Or.inr ⟨by decide, rfl⟩)) (by decide)
      (by decide)⟩

/-- C30: MixColumns is the column transform of FIPS-197. For every block and
every column `c` (block bytes `4c .. 4c+3`, called `a0, a1, a2, a3`),
`MixColumns` replaces the column by `(2*a0 + 3*a1 + a2 + a3,
a0 + 2*a1 + 3*a2 + a3, a0 + a1 + 2*a2 + 3*a3, 3*a0 + a1 + a2 + 2*a3)`, where `+`
is XOR and `*` is the multiplication of GF(2^8) modulo `x^8+x^4+x^3+x+1`; and for
every byte `x`, `xtime(x)` is `2*x` in that field, which is `(x << 1) mod 256`
XORed with `0x1b` when `x >= 0x80`. The product `{57} * {83} = {c1}` of FIPS-197
is checked on the multiplication used. -/
theorem mix_columns_is_fips197_column_transform (s : List Nat) (c x : Nat) (hs : IsBlock s)
    (hc : c < 4) (hx : x < 256) :
    (MixColumns s).length = 16 ∧
    (MixColumns s).getD (4 * c) 0 =
      gfMul 2 (s.getD (4 * c) 0) ^^^ gfMul 3 (s.getD (4 * c + 1) 0) ^^^
        s.getD (4 * c + 2) 0 ^^^ s.getD (4 * c + 3) 0 ∧
    (MixColumns s).getD (4 * c + 1) 0 =
      s.getD (4 * c) 0 ^^^ gfMul 2 (s.getD (4 * c + 1) 0) ^^^
        gfMul 3 (s.getD (4 * c + 2) 0) ^^^ s.getD (4 * c + 3) 0 ∧
    (MixColumns s).getD (4 * c + 2) 0 =
      s.getD (4 * c) 0 ^^^ s.getD (4 * c + 1) 0 ^^^
        gfMul 2 (s.getD (4 * c + 2) 0) ^^^ gfMul 3 (s.getD (4 * c + 3) 0) ∧
    (MixColumns s).getD (4 * c + 3) 0 =
      gfMul 3 (s.getD (4 * c) 0) ^^^ s.getD (4 * c + 1) 0 ^^^
        s.getD (4 * c + 2) 0 ^^^ gfMul 2 (s.getD (4 * c + 3) 0) ∧
    xtime x = gfMul 2 x ∧
    xtime x = ((x <<< 1) % 256) ^^^ (if x ≥ 0x80 then 0x1b else 0) ∧
    gfMul 0x57 0x83 = 0xc1 := by
  obtain ⟨hl, hb⟩ := hs
  obtain ⟨a0, a1, a2, a3, a4, a5, a6, a7, a8, a9, a10, a11, a12, a13, a14, a15, rfl⟩ :=
    length16_cases s hl
  simp only [Bytes, List.mem_cons, forall_eq_or_imp] at hb
  obtain ⟨b0, b1, b2, b3, b4, b5, b6, b7, b8, b9, b10, b11, b12, b13, b14, b15, _⟩ := hb
  refine ⟨by rw [length_MixColumns]; rfl, ?_, ?_, ?_, ?_, ((gfMul_two_three x hx).1).symm,
    (gfMul_two_three x hx).2.2, by decide⟩ <;>
  · rw [MixColumns_explicit]
    interval_cases c
    · first
      | exact (mix_column a0 a1 a2 a3 b0 b1 b2 b3).1
      | exact (mix_column a0 a1 a2 a3 b0 b1 b2 b3).2.1
      | exact (mix_column a0 a1 a2 a3 b0 b1 b2 b3).2.2.1
      | exact (mix_column a0 a1 a2 a3 b0 b1 b2 b3).2.2.2
    · first
      | exact (mix_column a4 a5 a6 a7 b4 b5 b6 b7).1
      | exact (mix_column a4 a5 a6 a7 b4 b5 b6 b7).2.1
      | exact (mix_column a4 a5 a6 a7 b4 b5 b6 b7).2.2.1
      | exact (mix_column a4 a5 a6 a7 b4 b5 b6 b7).2.2.2
    · first
      | exact (mix_column a8 a9 a10 a11 b8 b9 b10 b11).1
      | exact (mix_column a8 a9 a10 a11 b8 b9 b10 b11).2.1
      | exact (mix_column a8 a9 a10 a11 b8 b9 b10 b11).2.2.1
      | exact (mix_column a8 a9 a10 a11 b8 b9 b10 b11).2.2.2
    · first
      | exact (mix_column a12 a13 a14 a15 b12 b13 b14 b15).1
      | exact (mix_column a12 a13 a14 a15 b12 b13 b14 b15).2.1
      | exact (mix_column a12 a13 a14 a15 b12 b13 b14 b15).2.2.1
      | exact (mix_column a12 a13 a14 a15 b12 b13 b14 b15).2.2.2

/-- Witness for C30: the column `db 13 53 45` of a block, which MixColumns
turns into `8e 4d a1 bc`. -/
theorem mix_columns_is_fips197_column_transform_witness :
    IsBlock [0xdb, 0x13, 0x53, 0x45, 0, 0, 0, 0, 0, 0, 0, 0, 0, 0, 0, 0] ∧
    (MixColumns [0xdb, 0x13, 0x53, 0x45, 0, 0, 0, 0, 0, 0, 0, 0, 0, 0, 0, 0]).getD (4 * 0) 0 =
      gfMul 2 0xdb ^^^ gfMul 3 0x13 ^^^ 0x53 ^^^ 0x45 ∧
    MixColumns [0xdb, 0x13, 0x53, 0x45, 0, 0, 0, 0, 0, 0, 0, 0, 0, 0, 0, 0] =
      [0x8e, 0x4d, 0xa1, 0xbc, 0, 0, 0, 0, 0, 0, 0, 0, 0, 0, 0, 0] :=
  ⟨by decide,
    (mix_columns_is_fips197_column_transform
      [0xdb, 0x13, 0x53, 0x45, 0, 0, 0, 0, 0, 0, 0, 0, 0, 0, 0, 0] 0 0x80 (by decide)
      (by decide) (by decide)).2.1,
    by decide⟩

/-! ## Row rotation, zero-length and very long counter mode requests -/

theorem ShiftRows_explicit (a0 a1 a2 a3 a4 a5 a6 a7 a8 a9 a10 a11 a12 a13 a14 a15 : Nat) :
    ShiftRows [a0, a1, a2, a3, a4, a5, a6, a7, a8, a9, a10, a11, a12, a13, a14, a15] =
      [a0, a5, a10, a15, a4, a9, a14, a3, a8, a13, a2, a7, a12, a1, a6, a11] := by
  simp [ShiftRows, stGet, stSet]

theorem XorBuffers_one (S1 : List Nat) (o1 : Nat) (S2 : List Nat) (o2 : Nat) (D : List Nat) :
    XorBuffers S1 o1 S2 o2 D 0 1 = D.set 0 (S1.getD o1 0 ^^^ S2.getD o2 0) := by
  simp [XorBuffers, List.range_succ]

/-- With the cursor at byte 15 of a block and `Size = 2^32 - 1`, the 32 bit sum
`(Size - firstChunkSize) + 16` wraps to 14, the loop of `AesCtrXor` does not
run, and only the first chunk of one byte is written. -/
theorem AesCtrXor_wrap (c : AesCtrContext) (In Out : List Nat) (h : c.StreamIndex = 15) :
    AesCtrXor c In Out (2 ^ 32 - 1) =
      ({ c with StreamIndex := (15 + (2 ^ 32 - 1)) % 2 ^ 64 },
        XorBuffers In 0 c.CurrentCipherBlock 15 Out 0 1) := by
  have h1 : (AES_BLOCK_SIZE - 15 % AES_BLOCK_SIZE) % 2 ^ 32 = 1 := by decide
  have h2 : MIN 1 (2 ^ 32 - 1) = 1 := by decide
  have h3 : (sub32 (2 ^ 32 - 1) 1 + AES_BLOCK_SIZE) % 2 ^ 32 / AES_BLOCK_SIZE = 0 := by decide
  have h4 : sub32 AES_BLOCK_SIZE 1 = 15 := by decide
  unfold AesCtrXor
  simp only [h, h1, h2, h3, h4, List.range_zero, List.foldl_nil, gt_iff_lt, Nat.lt_irrefl,
    if_false]

/-! ## The invariant of output feedback sessions -/

theorem OfbInv_AesOfbXor (c : AesOfbContext) (hc : OfbInv c) (In Out : List Nat) (n : Nat)
    (hn : n < 2 ^ 32) : OfbInv (AesOfbXor c In Out n).1 := by
  obtain ⟨A, B, idx⟩ := c
  obtain ⟨hB, hidx⟩ := hc
  obtain ⟨_, _, _, K, c, hc, _, e1, e2⟩ := AesOfbXor_spec A B idx In Out n hidx hn
  refine ⟨?_, ?_⟩
  · rw [e1, length_ofbBlock]; exact hB
  · rw [e2]; exact hc

theorem OfbInv_of_OfbReachable (Aes : AesContext) (IV : List Nat) (c : AesOfbContext)
    (hc : OfbReachable Aes IV c) : OfbInv c := by
  induction hc with
  | init => exact OfbInv_AesOfbInitialise Aes IV
  | xor c In Out n _ hn ih => exact OfbInv_AesOfbXor c ih In Out n hn
  | output c B n _ hn ih => exact OfbInv_AesOfbXor c ih _ _ n hn

/-! ## The session evolution of counter mode does not depend on the data -/

/-- The block variables of the loop of `AesCtrXor` do not depend on the
buffers. -/
theorem ctr_loop_blocks_data_independent (Aes : AesContext) (n start first : Nat)
    (In1 In2 : List Nat) :
    ∀ (l : List Nat) (O1 O2 pre enc : List Nat) (idx : Nat),
      (l.foldl (AesCtrXorBody Aes In1 n start first)
        { OutBuffer := O1, preCipherBlock := pre, encCipherBlock := enc,
          cipherBlockIndex := idx }).preCipherBlock =
      (l.foldl (AesCtrXorBody Aes In2 n start first)
        { OutBuffer := O2, preCipherBlock := pre, encCipherBlock := enc,
          cipherBlockIndex := idx }).preCipherBlock ∧
      (l.foldl (AesCtrXorBody Aes In1 n start first)
        { OutBuffer := O1, preCipherBlock := pre, encCipherBlock := enc,
          cipherBlockIndex := idx }).encCipherBlock =
      (l.foldl (AesCtrXorBody Aes In2 n start first)
        { OutBuffer := O2, preCipherBlock := pre, encCipherBlock := enc,
          cipherBlockIndex := idx }).encCipherBlock ∧
      (l.foldl (AesCtrXorBody Aes In1 n start first)
        { OutBuffer := O1, preCipherBlock := pre, encCipherBlock := enc,
          cipherBlockIndex := idx }).cipherBlockIndex =
      (l.foldl (AesCtrXorBody Aes In2 n start first)
        { OutBuffer := O2, preCipherBlock := pre, encCipherBlock := enc,
          cipherBlockIndex := idx }).cipherBlockIndex := by
  intro l
  induction l with
  | nil => intro O1 O2 pre enc idx; exact ⟨rfl, rfl, rfl⟩
  | cons i l ih =>
    intro O1 O2 pre enc idx
    rw [List.foldl_cons, List.foldl_cons]
    simp only [AesCtrXorBody]
    exact ih _ _ _ _ _

/-- The context `AesCtrXor` leaves does not depend on the buffers. -/
theorem AesCtrXor_context_data_independent (c : AesCtrContext) (n : Nat)
    (In1 Out1 In2 Out2 : List Nat) :
    (AesCtrXor c In1 Out1 n).1 = (AesCtrXor c In2 Out2 n).1 := by
  obtain ⟨_, h2, h3⟩ := ctr_loop_blocks_data_independent c.Aes n
    ((c.CurrentCipherBlockIndex + 1) % 2 ^ 64)
    (MIN ((AES_BLOCK_SIZE - c.StreamIndex % AES_BLOCK_SIZE) % 2 ^ 32) n) In1 In2
    (List.range (((sub32 n (MIN ((AES_BLOCK_SIZE - c.StreamIndex % AES_BLOCK_SIZE) % 2 ^ 32) n) +
      AES_BLOCK_SIZE) % 2 ^ 32) / AES_BLOCK_SIZE))
    (XorBuffers In1 0 c.CurrentCipherBlock
      (sub32 AES_BLOCK_SIZE ((AES_BLOCK_SIZE - c.StreamIndex % AES_BLOCK_SIZE) % 2 ^ 32)) Out1 0
      (MIN ((AES_BLOCK_SIZE - c.StreamIndex % AES_BLOCK_SIZE) % 2 ^ 32) n))
    (XorBuffers In2 0 c.CurrentCipherBlock
      (sub32 AES_BLOCK_SIZE ((AES_BLOCK_SIZE - c.StreamIndex % AES_BLOCK_SIZE) % 2 ^ 32)) Out2 0
      (MIN ((AES_BLOCK_SIZE - c.StreamIndex % AES_BLOCK_SIZE) % 2 ^ 32) n))
    (memcpy (List.replicate AES_KEY_SIZE_128 0) 0 c.IV 0 AES_CTR_IV_SIZE)
    (List.replicate AES_KEY_SIZE_128 0) 0
  unfold AesCtrXor
  dsimp only
  rw [h2, h3]

theorem xor_cancel_left (a b : Nat) : (a ^^^ b) ^^^ a = b := by
  rw [Nat.xor_comm a b, Nat.xor_assoc, Nat.xor_self, Nat.xor_zero]

/-- In place, the XOR of the output of `AesCtrXor` with its input does not
depend on the input, for every session state and every size. -/
theorem AesCtrXor_inplace_keystream (c : AesCtrContext) (n : Nat) (D1 D2 : List Nat)
    (hD : D1.length = D2.length) (k : Nat) :
    (AesCtrXor c D1 D1 n).2.getD k 0 ^^^ D1.getD k 0 =
      (AesCtrXor c D2 D2 n).2.getD k 0 ^^^ D2.getD k 0 := by
  obtain ⟨W, ks, h⟩ := AesCtrXor_data_independent c n
  rw [(h D1 D1).2 k, (h D2 D2).2 k, hD]
  by_cases hk : W k = true ∧ k < D2.length
  · rw [if_pos hk, if_pos hk, xor_cancel_left, xor_cancel_left]
  · rw [if_neg hk, if_neg hk, Nat.xor_self, Nat.xor_self]

/-- With buffers of their own and a request below `2^32 - 16` bytes, the XOR
of the output of `AesCtrXor` with its input does not depend on the buffers. -/
theorem AesCtrXor_keystream (c : AesCtrContext) (n : Nat) (hIV : c.IV.length = 8)
    (hn : n < 2 ^ 32 - 16) (In1 Out1 In2 Out2 : List Nat) (h1 : n ≤ Out1.length)
    (h2 : n ≤ Out2.length) (k : Nat) (hk : k < n) :
    (AesCtrXor c In1 Out1 n).2.getD k 0 ^^^ In1.getD k 0 =
      (AesCtrXor c In2 Out2 n).2.getD k 0 ^^^ In2.getD k 0 := by
  have e1 := (AesCtrXor_out c In1 Out1 n hIV hn).2 k
  have e2 := (AesCtrXor_out c In2 Out2 n hIV hn).2 k
  rw [if_pos ⟨hk, by omega⟩] at e1 e2
  rw [e1, e2, xor_cancel_left, xor_cancel_left]

/-! ## The earlier counter mode module against the current one -/

theorem Legacy_AesCtrXorLoop_zero (In : List Nat) (fuel : Nat) (v : Legacy.CtrLoopVars)
    (h : v.amountLeft = 0) : Legacy.AesCtrXorLoop In fuel v = v := by
  cases fuel with
  | zero => rfl
  | succ fuel => rw [Legacy.AesCtrXorLoop, if_neg (by omega)]

theorem Legacy_AesCtrXorLoop_pos (In : List Nat) (fuel : Nat) (v : Legacy.CtrLoopVars)
    (h : 0 < v.amountLeft) :
    Legacy.AesCtrXorLoop In (fuel + 1) v =
      Legacy.AesCtrXorLoop In fuel (Legacy.AesCtrXorBody In v) := by
  rw [Legacy.AesCtrXorLoop, if_pos h]

/-- The `while` loop of `AesCtrXor` (CryptLib_AesCtr.c), started with `rem`
bytes left at offset `off`: with at least `rem` units of fuel the loop runs to
its exit, writes the input XORed with the keystream blocks that follow the
cached index, and leaves `StreamIndex` alone. -/
theorem legacy_ctr_loop (In : List Nat) (n : Nat) (hn : n < 2 ^ 32) (A : AesContext)
    (IV : List Nat) (hIV : IV.length = 8) (SI : Nat) :
    ∀ (fuel : Nat) (I : Nat) (B : List Nat) (O : List Nat) (rem off ch : Nat),
      B.length = 16 → rem ≤ fuel → off + rem = n →
      (Legacy.AesCtrXorLoop In fuel
        { Context := { Aes := A, IV := IV, StreamIndex := SI, CurrentCipherBlockIndex := I,
                       CurrentCipherBlock := B }
          OutBuffer := O, amountLeft := rem, outputOffset := off, chunkSize := ch
        }).OutBuffer.length = O.length ∧
      (Legacy.AesCtrXorLoop In fuel
        { Context := { Aes := A, IV := IV, StreamIndex := SI, CurrentCipherBlockIndex := I,
                       CurrentCipherBlock := B }
          OutBuffer := O, amountLeft := rem, outputOffset := off, chunkSize := ch
        }).Context.StreamIndex = SI ∧
      (∀ k, (Legacy.AesCtrXorLoop In fuel
        { Context := { Aes := A, IV := IV, StreamIndex := SI, CurrentCipherBlockIndex := I,
                       CurrentCipherBlock := B }
          OutBuffer := O, amountLeft := rem, outputOffset := off, chunkSize := ch
        }).OutBuffer.getD k 0 =
        if off ≤ k ∧ k < n ∧ k < O.length then
          In.getD k 0 ^^^
            (ctrKeystreamBlock A IV ((I + 1 + (k - off) / 16) % 2 ^ 64)).getD ((k - off) % 16) 0
        else O.getD k 0) := by
  intro fuel
  induction fuel with
  | zero =>
    intro I B O rem off ch hB hrem hoff
    have h0 : rem = 0 := by omega
    subst h0
    refine ⟨rfl, rfl, fun k => ?_⟩
    have : ¬ (off ≤ k ∧ k < n ∧ k < O.length) := by omega
    rw [if_neg this]; rfl
  | succ fuel ih =>
    intro I B O rem off ch hB hrem hoff
    rcases Nat.eq_zero_or_pos rem with h0 | hpos
    · subst h0
      rw [Legacy_AesCtrXorLoop_zero _ _ _ rfl]
      refine ⟨rfl, rfl, fun k => ?_⟩
      have : ¬ (off ≤ k ∧ k < n ∧ k < O.length) := by omega
      rw [if_neg this]
    · rw [Legacy_AesCtrXorLoop_pos _ _ _ hpos]
      have hchunk : MIN rem AES_BLOCK_SIZE = min rem 16 := MIN_eq_min _ _
      have hsub : sub32 rem (min rem 16) = rem - min rem 16 :=
        sub32_eq _ _ (by omega) (by omega)
      have hoff' : (off + min rem 16) % 2 ^ 32 = off + min rem 16 := by omega
      simp only [Legacy.AesCtrXorBody, hchunk, hsub, hoff']
      rw [CreateCurrentCipherBlock_mk A IV SI ((I + 1) % 2 ^ 64) B hIV hB]
      dsimp only
      obtain ⟨i1, i2, i3⟩ := ih ((I + 1) % 2 ^ 64) (ctrKeystreamBlock A IV ((I + 1) % 2 ^ 64))
        (XorBuffers In off (ctrKeystreamBlock A IV ((I + 1) % 2 ^ 64)) 0 O off (min rem 16))
        (rem - min rem 16) (off + min rem 16) (min rem 16)
        (length_ctrKeystreamBlock A IV hIV _) (by omega) (by omega)
      rw [length_XorBuffers] at i1 i3
      refine ⟨i1, i2, fun k => ?_⟩
      rw [i3 k, getD_XorBuffers]
      by_cases ha : off + min rem 16 ≤ k ∧ k < n ∧ k < O.length
      · have hb : off ≤ k ∧ k < n ∧ k < O.length := by omega
        have e1 : ((I + 1) % 2 ^ 64 + 1 + (k - (off + min rem 16)) / 16) % 2 ^ 64 =
            (I + 1 + (k - off) / 16) % 2 ^ 64 := by omega
        have e2 : (k - (off + min rem 16)) % 16 = (k - off) % 16 := by omega
        rw [if_pos ha, if_pos hb, e1, e2]
      · rw [if_neg ha]
        by_cases hb : off ≤ k ∧ k < off + min rem 16 ∧ k < O.length
        · have hc : off ≤ k ∧ k < n ∧ k < O.length := by omega
          have e1 : off + (k - off) = k := by omega
          have e2 : (I + 1 + (k - off) / 16) % 2 ^ 64 = (I + 1) % 2 ^ 64 := by
            have : (k - off) / 16 = 0 := by omega
            rw [this, Nat.add_zero]
          have e3 : 0 + (k - off) = (k - off) % 16 := by omega
          rw [if_pos hb, if_pos hc, e1, e2, e3]
        · have hc : ¬ (off ≤ k ∧ k < n ∧ k < O.length) := by omega
          rw [if_neg hb, if_neg hc]

/-- The output buffer and the cursor of `AesCtrXor` of CryptLib_AesCtr.c, for
every 32 bit request: the first chunk is the input XORed with the cached block
from the cursor position on, the following bytes are the input XORed with the
keystream blocks that follow the cached index, and bytes from `Size` on are
untouched. -/
theorem Legacy_AesCtrXor_out (c : AesCtrContext) (In Out : List Nat) (n : Nat)
    (hIV : c.IV.length = 8) (hB : c.CurrentCipherBlock.length = 16) (hn : n < 2 ^ 32) :
    (Legacy.AesCtrXor c In Out n).2.length = Out.length ∧
    (Legacy.AesCtrXor c In Out n).1.StreamIndex = (c.StreamIndex + n) % 2 ^ 64 ∧
    ∀ k, (Legacy.AesCtrXor c In Out n).2.getD k 0 =
      if k < n ∧ k < Out.length then
        In.getD k 0 ^^^
          (if k < 16 - c.StreamIndex % 16 then
            c.CurrentCipherBlock.getD (c.StreamIndex % 16 + k) 0
          else
            (ctrKeystreamBlock c.Aes c.IV
              (((c.CurrentCipherBlockIndex + 1) % 2 ^ 64 +
                (k - (16 - c.StreamIndex % 16)) / 16) % 2 ^ 64)).getD
              ((k - (16 - c.StreamIndex % 16)) % 16) 0)
      else Out.getD k 0 := by
  obtain ⟨A, IV, SI, I, B⟩ := c
  dsimp only at hIV hB ⊢
  have havail : (AES_BLOCK_SIZE - SI % AES_BLOCK_SIZE) % 2 ^ 32 = 16 - SI % 16 := by
    simp only [AES_BLOCK_SIZE]; omega
  have hfirst : MIN (16 - SI % 16) n = min (16 - SI % 16) n := MIN_eq_min _ _
  have hsub : sub32 AES_BLOCK_SIZE (16 - SI % 16) = SI % 16 := by
    rw [sub32_eq _ _ (by simp [AES_BLOCK_SIZE]) (by simp only [AES_BLOCK_SIZE]; omega)]
    simp only [AES_BLOCK_SIZE]; omega
  have hsub2 : sub32 n (min (16 - SI % 16) n) = n - min (16 - SI % 16) n :=
    sub32_eq _ _ hn (by omega)
  have hoff : (0 + min (16 - SI % 16) n) % 2 ^ 32 = min (16 - SI % 16) n := by omega
  obtain ⟨l1, l2, l3⟩ := legacy_ctr_loop In n hn A IV hIV SI (n - min (16 - SI % 16) n) I B
    (XorBuffers In 0 B (SI % 16) Out 0 (min (16 - SI % 16) n))
    (n - min (16 - SI % 16) n) (min (16 - SI % 16) n) (min (16 - SI % 16) n) hB
    (Nat.le_refl _) (by omega)
  rw [length_XorBuffers] at l1 l3
  unfold Legacy.AesCtrXor
  simp only [havail, hfirst, hsub, hsub2, hoff]
  generalize hw : Legacy.AesCtrXorLoop In (n - min (16 - SI % 16) n)
    { Context := { Aes := A, IV := IV, StreamIndex := SI, CurrentCipherBlockIndex := I,
                   CurrentCipherBlock := B }
      OutBuffer := XorBuffers In 0 B (SI % 16) Out 0 (min (16 - SI % 16) n)
      amountLeft := n - min (16 - SI % 16) n
      outputOffset := min (16 - SI % 16) n
      chunkSize := min (16 - SI % 16) n } = w at l1 l2 l3 ⊢
  refine ⟨l1, ?_, fun k => ?_⟩
  · split_ifs
    · rw [(CreateCurrentCipherBlock_frame _).2.2.1, l2]
    · rw [l2]
  · rw [l3 k, getD_XorBuffers]
    by_cases h1 : k < n ∧ k < Out.length
    · rw [if_pos h1]
      by_cases h2 : k < 16 - SI % 16
      · have h3 : ¬ (min (16 - SI % 16) n ≤ k ∧ k < n ∧ k < Out.length) := by omega
        have h4 : 0 ≤ k ∧ k < 0 + min (16 - SI % 16) n ∧ k < Out.length := by omega
        rw [if_neg h3, if_pos h4, if_pos h2, Nat.sub_zero, Nat.zero_add]
      · have h3 : min (16 - SI % 16) n ≤ k ∧ k < n ∧ k < Out.length := by omega
        have e1 : (I + 1 + (k - min (16 - SI % 16) n) / 16) % 2 ^ 64 =
            ((I + 1) % 2 ^ 64 + (k - (16 - SI % 16)) / 16) % 2 ^ 64 := by
          have : min (16 - SI % 16) n = 16 - SI % 16 := by omega
          rw [this]; omega
        have e2 : (k - min (16 - SI % 16) n) % 16 = (k - (16 - SI % 16)) % 16 := by
          have : min (16 - SI % 16) n = 16 - SI % 16 := by omega
          rw [this]
        rw [if_pos h3, if_neg h2, e1, e2]
    · have h3 : ¬ (min (16 - SI % 16) n ≤ k ∧ k < n ∧ k < Out.length) := by omega
      have h4 : ¬ (0 ≤ k ∧ k < 0 + min (16 - SI % 16) n ∧ k < Out.length) := by omega
      rw [if_neg h1, if_neg h3, if_neg h4]

theorem length_block_AesCtrInitialise (Aes : AesContext) (IV : List Nat) (hIV : IV.length = 8) :
    (AesCtrInitialise Aes IV).CurrentCipherBlock.length = 16 := by
  rw [AesCtrInitialise_eq Aes IV hIV]
  dsimp only
  exact length_ctrKeystreamBlock Aes IV hIV 0

/-! ## Key expansion stays inside its arrays -/

theorem getD_set_opt (D : List (Option Nat)) (p : Nat) (v : Option Nat) (k : Nat) :
    (D.set p v).getD k none = if k = p ∧ k < D.length then v else D.getD k none := by
  rw [List.getD_eq_getElem?_getD, List.getD_eq_getElem?_getD, List.getElem?_set]
  by_cases h : p = k
  · subst h
    by_cases h2 : p < D.length
    · simp [h2]
    · simp [h2, List.getElem?_eq_none (Nat.le_of_not_lt h2)]
  · have : ¬ (k = p ∧ k < D.length) := fun hh => h hh.1.symm
    simp [h, this]

/-- A write at `p` keeps the correspondence between a checked array and a plain
array, and extends it to `p`. -/
theorem sim_set (a : List (Option Nat)) (rk : List Nat) (P : Nat → Prop) (p v : Nat)
    (h : ∀ k, P k → a.getD k none = some (rk.getD k 0)) (hp : p < a.length)
    (hq : p < rk.length) :
    ∀ k, (P k ∨ k = p) → (a.set p (some v)).getD k none = some ((rk.set p v).getD k 0) := by
  intro k hk
  rw [getD_set_opt, getD_set]
  by_cases e : k = p
  · subst e
    rw [if_pos ⟨rfl, hp⟩, if_pos ⟨rfl, hq⟩]
  · rw [if_neg (fun hh => e hh.1), if_neg (fun hh => e hh.1)]
    rcases hk with hk | hk
    · exact h k hk
    · exact absurd hk e

theorem writeRoundKey_eq (a : List (Option Nat)) (k v : Nat) (h : k < a.length) :
    writeRoundKey a k v = some (a.set k (some v)) := by
  rw [writeRoundKey, if_pos h]

theorem readRCON_eq (k : Nat) (h1 : 1 ≤ k) (h2 : k < 11) : readRCON k = some (RCON.getD k 0) := by
  rw [readRCON, if_pos ⟨h1, h2⟩]

/-- One checked step of the second loop succeeds and writes what the plain
step writes, when the words below `i` have been written. -/
theorem KeyExpansionStepChecked_sim (K i L : Nat) (a : List (Option Nat)) (rk : List Nat)
    (hK : 1 ≤ K) (hi : K ≤ i) (hL : 4 * i + 4 ≤ L) (hrc : 1 ≤ i / K ∧ i / K < 11)
    (ha : a.length = L) (hrk : L ≤ rk.length)
    (hs : ∀ k, k < 4 * i → a.getD k none = some (rk.getD k 0)) :
    ∃ b, KeyExpansionStepChecked K a i = some b ∧ b.length = L ∧
      ∀ k, k < 4 * (i + 1) → b.getD k none = some ((KeyExpansionStep K rk i).getD k 0) := by
  have t0 := hs ((i - 1) * 4 + 0) (by omega)
  have t1 := hs ((i - 1) * 4 + 1) (by omega)
  have t2 := hs ((i - 1) * 4 + 2) (by omega)
  have t3 := hs ((i - 1) * 4 + 3) (by omega)
  have x0 := hs ((i - K) * 4 + 0) (by omega)
  have x1 := hs ((i - K) * 4 + 1) (by omega)
  have x2 := hs ((i - K) * 4 + 2) (by omega)
  have x3 := hs ((i - K) * 4 + 3) (by omega)
  have r1 : ∀ (D : List (Option Nat)) (v : Option Nat),
      (D.set (i * 4 + 0) v).getD ((i - K) * 4 + 1) none = D.getD ((i - K) * 4 + 1) none := by
    intro D v; rw [getD_set_opt, if_neg (by omega)]
  have r2 : ∀ (D : List (Option Nat)) (v w : Option Nat),
      ((D.set (i * 4 + 0) v).set (i * 4 + 1) w).getD ((i - K) * 4 + 2) none =
        D.getD ((i - K) * 4 + 2) none := by
    intro D v w; rw [getD_set_opt, if_neg (by omega), getD_set_opt, if_neg (by omega)]
  have r3 : ∀ (D : List (Option Nat)) (v w u : Option Nat),
      (((D.set (i * 4 + 0) v).set (i * 4 + 1) w).set (i * 4 + 2) u).getD ((i - K) * 4 + 3) none =
        D.getD ((i - K) * 4 + 3) none := by
    intro D v w u
    rw [getD_set_opt, if_neg (by omega), getD_set_opt, if_neg (by omega), getD_set_opt,
      if_neg (by omega)]
  have s1 : ∀ (D : List Nat) (v : Nat),
      (D.set (i * 4 + 0) v).getD ((i - K) * 4 + 1) 0 = D.getD ((i - K) * 4 + 1) 0 := by
    intro D v; rw [getD_set, if_neg (by omega)]
  have s2 : ∀ (D : List Nat) (v w : Nat),
      ((D.set (i * 4 + 0) v).set (i * 4 + 1) w).getD ((i - K) * 4 + 2) 0 =
        D.getD ((i - K) * 4 + 2) 0 := by
    intro D v w; rw [getD_set, if_neg (by omega), getD_set, if_neg (by omega)]
  have s3 : ∀ (D : List Nat) (v w u : Nat),
      (((D.set (i * 4 + 0) v).set (i * 4 + 1) w).set (i * 4 + 2) u).getD ((i - K) * 4 + 3) 0 =
        D.getD ((i - K) * 4 + 3) 0 := by
    intro D v w u
    rw [getD_set, if_neg (by omega), getD_set, if_neg (by omega), getD_set, if_neg (by omega)]
  have w0 : i * 4 + 0 < L := by omega
  have w1 : i * 4 + 1 < L := by omega
  have w2 : i * 4 + 2 < L := by omega
  have w3 : i * 4 + 3 < L := by omega
  have e : ∃ v0 v1 v2 v3,
      KeyExpansionStepChecked K a i =
        some ((((a.set (i * 4 + 0) (some v0)).set (i * 4 + 1) (some v1)).set (i * 4 + 2)
          (some v2)).set (i * 4 + 3) (some v3)) ∧
      KeyExpansionStep K rk i =
        (((rk.set (i * 4 + 0) v0).set (i * 4 + 1) v1).set (i * 4 + 2) v2).set (i * 4 + 3) v3 := by
    unfold KeyExpansionStepChecked KeyExpansionStep
    by_cases c : 0 = i % K
    · simp only [readRoundKey, writeRoundKey, t0, t1, t2, t3, Option.bind_eq_bind,
        Option.some_bind, readRCON_eq _ hrc.1 hrc.2, Option.pure_def, ha, List.length_set, w0, w1,
        w2, w3, if_true, x0, r1, r2, r3, x1, x2, x3, s1, s2, s3, if_pos c]
      exact ⟨_, _, _, _, rfl, rfl⟩
    · simp only [readRoundKey, writeRoundKey, t0, t1, t2, t3, Option.bind_eq_bind,
        Option.some_bind, Option.pure_def, ha, List.length_set, w0, w1,
        w2, w3, if_true, x0, r1, r2, r3, x1, x2, x3, s1, s2, s3, if_neg c]
      exact ⟨_, _, _, _, rfl, rfl⟩
  obtain ⟨v0, v1, v2, v3, e1, e2⟩ := e
  refine ⟨_, e1, by simp only [List.length_set, ha], fun k hk => ?_⟩
  rw [e2]
  have q0 := sim_set a rk (fun k => k < 4 * i) (i * 4 + 0) v0 hs (by omega) (by omega)
  have q1 := sim_set _ _ _ (i * 4 + 1) v1 q0 (by rw [List.length_set]; omega)
    (by rw [List.length_set]; omega)
  have q2 := sim_set _ _ _ (i * 4 + 2) v2 q1 (by simp only [List.length_set]; omega)
    (by simp only [List.length_set]; omega)
  have q3 := sim_set _ _ _ (i * 4 + 3) v3 q2 (by simp only [List.length_set]; omega)
    (by simp only [List.length_set]; omega)
  apply q3 k
  omega


/-- One checked step of the first loop succeeds and writes what the plain step
writes. -/
theorem KeyCopyStepChecked_sim (Key : List Nat) (i L : Nat) (a : List (Option Nat))
    (rk : List Nat) (hL : 4 * i + 4 ≤ L) (ha : a.length = L) (hrk : L ≤ rk.length)
    (hs : ∀ k, k < 4 * i → a.getD k none = some (rk.getD k 0)) :
    ∃ b, KeyCopyStepChecked Key a i = some b ∧ b.length = L ∧
      ∀ k, k < 4 * (i + 1) → b.getD k none = some ((KeyCopyStep Key rk i).getD k 0) := by
  have w0 : i * 4 + 0 < L := by omega
  have w1 : i * 4 + 1 < L := by omega
  have w2 : i * 4 + 2 < L := by omega
  have w3 : i * 4 + 3 < L := by omega
  have e : KeyCopyStepChecked Key a i =
      some ((((a.set (i * 4 + 0) (some (Key.getD (i * 4 + 0) 0))).set (i * 4 + 1)
        (some (Key.getD (i * 4 + 1) 0))).set (i * 4 + 2) (some (Key.getD (i * 4 + 2) 0))).set
        (i * 4 + 3) (some (Key.getD (i * 4 + 3) 0))) := by
    unfold KeyCopyStepChecked
    simp only [writeRoundKey, Option.bind_eq_bind, Option.some_bind, ha, List.length_set, w0, w1,
      w2, w3, if_true]
  refine ⟨_, e, by simp only [List.length_set, ha], fun k hk => ?_⟩
  unfold KeyCopyStep
  dsimp only
  have q0 := sim_set a rk (fun k => k < 4 * i) (i * 4 + 0) (Key.getD (i * 4 + 0) 0) hs
    (by omega) (by omega)
  have q1 := sim_set _ _ _ (i * 4 + 1) (Key.getD (i * 4 + 1) 0) q0
    (by rw [List.length_set]; omega) (by rw [List.length_set]; omega)
  have q2 := sim_set _ _ _ (i * 4 + 2) (Key.getD (i * 4 + 2) 0) q1
    (by simp only [List.length_set]; omega) (by simp only [List.length_set]; omega)
  have q3 := sim_set _ _ _ (i * 4 + 3) (Key.getD (i * 4 + 3) 0) q2
    (by simp only [List.length_set]; omega) (by simp only [List.length_set]; omega)
  apply q3 k
  omega

theorem length_KeyCopyStep_fold (Key : List Nat) (l : List Nat) :
    ∀ rk : List Nat, (l.foldl (KeyCopyStep Key) rk).length = rk.length := by
  induction l with
  | nil => intro rk; rfl
  | cons i l ih => intro rk; rw [List.foldl_cons, ih, length_KeyCopyStep]

/-- The first loop with checked accesses succeeds and agrees with the plain
loop on the bytes written. -/
theorem KeyCopy_fold_sim (Key : List Nat) (L : Nat) :
    ∀ (n s : Nat) (a : List (Option Nat)) (rk : List Nat),
      4 * (s + n) ≤ L → a.length = L → L ≤ rk.length →
      (∀ k, k < 4 * s → a.getD k none = some (rk.getD k 0)) →
      ∃ b, (List.range' s n).foldlM (KeyCopyStepChecked Key) a = some b ∧ b.length = L ∧
        ∀ k, k < 4 * (s + n) →
          b.getD k none = some (((List.range' s n).foldl (KeyCopyStep Key) rk).getD k 0) := by
  intro n
  induction n with
  | zero => intro s a rk _ ha _ hs; exact ⟨a, rfl, ha, hs⟩
  | succ n ih =>
    intro s a rk hL ha hrk hs
    obtain ⟨b, e1, e2, e3⟩ := KeyCopyStepChecked_sim Key s L a rk (by omega) ha hrk hs
    obtain ⟨d, f1, f2, f3⟩ := ih (s + 1) b (KeyCopyStep Key rk s) (by omega) e2
      (by rw [length_KeyCopyStep]; exact hrk) e3
    refine ⟨d, ?_, f2, fun k hk => ?_⟩
    · rw [List.range'_succ, List.foldlM_cons, e1]
      exact f1
    · rw [List.range'_succ, List.foldl_cons]
      exact f3 k (by omega)

/-- The second loop with checked accesses succeeds and agrees with the plain
loop on the bytes written, when every round constant index is in `1 .. 10`. -/
theorem KeyExpansion_fold_sim (K L : Nat) (hK : 1 ≤ K) :
    ∀ (n s : Nat) (a : List (Option Nat)) (rk : List Nat),
      K ≤ s → 4 * (s + n) ≤ L → a.length = L → L ≤ rk.length →
      (∀ i, s ≤ i → i < s + n → 1 ≤ i / K ∧ i / K < 11) →
      (∀ k, k < 4 * s → a.getD k none = some (rk.getD k 0)) →
      ∃ b, (List.range' s n).foldlM (KeyExpansionStepChecked K) a = some b ∧ b.length = L ∧
        ∀ k, k < 4 * (s + n) →
          b.getD k none = some (((List.range' s n).foldl (KeyExpansionStep K) rk).getD k 0) := by
  intro n
  induction n with
  | zero => intro s a rk _ _ ha _ _ hs; exact ⟨a, rfl, ha, hs⟩
  | succ n ih =>
    intro s a rk hs0 hL ha hrk hrc hs
    obtain ⟨b, e1, e2, e3⟩ := KeyExpansionStepChecked_sim K s L a rk hK hs0 (by omega)
      (hrc s (Nat.le_refl _) (by omega)) ha hrk hs
    obtain ⟨d, f1, f2, f3⟩ := ih (s + 1) b (KeyExpansionStep K rk s) (by omega) (by omega) e2
      (by rw [length_KeyExpansionStep]; exact hrk)
      (fun i h1 h2 => hrc i (by omega) (by omega)) e3
    refine ⟨d, ?_, f2, fun k hk => ?_⟩
    · rw [List.range'_succ, List.foldlM_cons, e1]
      exact f1
    · rw [List.range'_succ, List.foldl_cons]
      exact f3 k (by omega)

/-- `KeyExpansion` with checked accesses succeeds, and the array it leaves holds
the first `16 (Nr + 1)` bytes of the schedule that `KeyExpansion` computes. -/
theorem KeyExpansionChecked_eq (K Nr : Nat) (Key R0 : List Nat) (hK : 1 ≤ K)
    (hKN : K ≤ 4 * (Nr + 1)) (hN : 16 * (Nr + 1) ≤ R0.length)
    (hrc : ∀ i, K ≤ i → i < 4 * (Nr + 1) → 1 ≤ i / K ∧ i / K < 11) :
    KeyExpansionChecked Key { RoundKey := R0, NumberOfRounds := Nr, KeySizeInWords := K } =
      some (((KeyExpansion Key
        { RoundKey := R0, NumberOfRounds := Nr, KeySizeInWords := K }).RoundKey.take
          (16 * (Nr + 1))).map some) := by
  obtain ⟨b, e1, e2, e3⟩ := KeyCopy_fold_sim Key (16 * (Nr + 1)) K 0
    (List.replicate (16 * (Nr + 1)) none) R0 (by omega) (List.length_replicate _ _) hN
    (fun k hk => absurd hk (by omega))
  obtain ⟨d, f1, f2, f3⟩ := KeyExpansion_fold_sim K (16 * (Nr + 1)) hK (4 * (Nr + 1) - K) K b
    ((List.range' 0 K).foldl (KeyCopyStep Key) R0) (Nat.le_refl _) (by omega) e2
    (by rw [length_KeyCopyStep_fold]; exact hN)
    (fun i h1 h2 => hrc i h1 (by omega)) (fun k hk => e3 k (by omega))
  unfold KeyExpansionChecked KeyExpansion
  dsimp only
  rw [List.range_eq_range', e1]
  simp only [Option.bind_eq_bind, Option.some_bind]
  rw [f1]
  congr 1
  apply List.ext_getElem?
  intro k
  by_cases hk : k < 16 * (Nr + 1)
  · have g := f3 k (by omega)
    rw [List.getD_eq_getElem?_getD, List.getD_eq_getElem?_getD] at g
    have hkd : k < d.length := by omega
    have hkr : k < ((List.range' K (4 * (Nr + 1) - K)).foldl (KeyExpansionStep K)
        ((List.range' 0 K).foldl (KeyCopyStep Key) R0)).length := by
      rw [length_KeyExpansion_fold, length_KeyCopyStep_fold]; omega
    rw [List.getElem?_eq_getElem hkd] at g ⊢
    rw [List.getElem?_eq_getElem hkr] at g
    rw [List.getElem?_map, List.getElem?_take_of_lt hk, List.getElem?_eq_getElem hkr]
    simpa using g
  · rw [List.getElem?_eq_none (by omega), List.getElem?_eq_none]
    rw [List.length_map, List.length_take]
    omega

/-- The checks of the instrumented key expansion are effective: the round
constant table has 11 entries, entries 0 and 11 are refused, a byte that has not
been written cannot be read, and the byte just past the array can be neither
read nor written. -/
theorem checked_accesses_refuse (a : List (Option Nat)) (n k v : Nat) :
    RCON.length = 11 ∧ readRCON 0 = none ∧ readRCON 11 = none ∧
    readRoundKey (List.replicate n none) k = none ∧
    readRoundKey a a.length = none ∧ writeRoundKey a a.length v = none := by
  refine ⟨rfl, rfl, rfl, ?_, ?_, ?_⟩
  · rw [readRoundKey, List.getD_eq_getElem?_getD]
    by_cases h : k < n
    · rw [List.getElem?_eq_getElem (by rw [List.length_replicate]; exact h),
        List.getElem_replicate]
      rfl
    · rw [List.getElem?_eq_none (by rw [List.length_replicate]; omega)]
      rfl
  · rw [readRoundKey, List.getD_eq_getElem?_getD, List.getElem?_eq_none (Nat.le_refl _)]
    rfl
  · rw [writeRoundKey, if_neg (Nat.lt_irrefl _)]

theorem length_zeroContext_RoundKey : zeroContext.RoundKey.length = 240 :=
  List.length_replicate _ _

/-! ## Requests whose loop count wraps, with output buffers of their own -/

theorem getD_replicate_lt (n a k : Nat) (h : k < n) : (List.replicate n a).getD k 0 = a := by
  rw [List.getD_eq_getElem?_getD,
    List.getElem?_eq_getElem (by rw [List.length_replicate]; exact h), List.getElem_replicate]
  rfl

/-- At cursor 15 a request of `2^32 - 1` bytes leaves every byte of the output
buffer but byte 0 as it was. -/
theorem AesCtrXor_wrap_getD (c : AesCtrContext) (In Out : List Nat) (h : c.StreamIndex = 15)
    (k : Nat) (hk : 1 ≤ k) : (AesCtrXor c In Out (2 ^ 32 - 1)).2.getD k 0 = Out.getD k 0 := by
  rw [AesCtrXor_wrap c In Out h, XorBuffers_one]
  dsimp only
  rw [getD_set, if_neg (by omega)]

/-! ## Claims C31 to C39 -/

/-- C31: `ShiftRows` rotates row `r` left by `r`. With the block read
column-major (byte `4c + r` is row `r`, column `c`), for every 16-byte block
and all `r`, `c` in `0..3` the byte at (row `r`, column `c`) after `ShiftRows`
is the byte that was at (row `r`, column `(c + r) mod 4`) before; row 0 is
unchanged and the block keeps its 16 bytes. -/
theorem shift_rows_rotates_row_left (s : List Nat) (r c : Nat) (hs : s.length = 16)
    (hr : r < 4) (hc : c < 4) :
    (ShiftRows s).getD (4 * c + r) 0 = s.getD (4 * ((c + r) % 4) + r) 0 ∧
    (ShiftRows s).getD (4 * c + 0) 0 = s.getD (4 * c + 0) 0 ∧
    (ShiftRows s).length = 16 := by
  obtain ⟨a0, a1, a2, a3, a4, a5, a6, a7, a8, a9, a10, a11, a12, a13, a14, a15, rfl⟩ :=
    length16_cases s hs
  rw [ShiftRows_explicit]
  interval_cases r <;> interval_cases c <;> exact ⟨rfl, rfl, rfl⟩

/-- Witness for C31: row 3, column 2 of the block `0, 1, .., 15` (byte 11 of
the result is byte 7 of the input). -/
theorem shift_rows_rotates_row_left_witness :
    (List.range 16).length = 16 ∧ 3 < 4 ∧ 2 < 4 ∧
    (ShiftRows (List.range 16)).getD (4 * 2 + 3) 0 = 7 :=
  ⟨by decide, by decide, by decide,
    (shift_rows_rotates_row_left (List.range 16) 3 2 (by decide) (by decide) (by decide)).1⟩

/-- C32: the cached block of a CTR session is consistent with its index. In
every session state reachable from `AesCtrInitialise` (8-byte IV) by
`AesCtrXor`, `AesCtrOutput` and `AesCtrSetStreamIndex`, `CurrentCipherBlock` is
the AES encryption, under the session key schedule, of the IV followed by the
8-byte big-endian encoding of `CurrentCipherBlockIndex`. -/
theorem ctr_cached_block_consistent_with_index (Aes : AesContext) (IV : List Nat)
    (c : AesCtrContext) (hIV : IV.length = 8) (hc : CtrReachable Aes IV c) :
    c.CurrentCipherBlock =
      AesEncryptInPlace c.Aes (c.IV ++ bigEndian64 c.CurrentCipherBlockIndex) ∧
    c.Aes = Aes ∧ c.IV = IV ∧ c.CurrentCipherBlockIndex < 2 ^ 64 := by
  obtain ⟨h1, h2, h3, h4, _⟩ := CtrInv_of_CtrReachable Aes IV hIV c hc
  refine ⟨?_, h1, h2, h4⟩
  rw [h3, h1, h2, ctrKeystreamBlock]

/-- Witness for C32: the session after a seek to byte 1000 and an `AesCtrXor`
of five bytes. -/
theorem ctr_cached_block_consistent_with_index_witness :
    (List.replicate 8 0).length = 8 ∧
    (AesCtrXor (AesCtrSetStreamIndex (AesCtrInitialise zeroKeySchedule128 (List.replicate 8 0))
        1000) [1, 2, 3, 4, 5] [0, 0, 0, 0, 0] 5).1.IV = List.replicate 8 0 :=
  ⟨by decide,
    (ctr_cached_block_consistent_with_index zeroKeySchedule128 (List.replicate 8 0) _ (by decide)
      (CtrReachable.xor _ [1, 2, 3, 4, 5] [0, 0, 0, 0, 0] 5
        (CtrReachable.seek _ 1000 CtrReachable.init (by decide)) (by decide))).2.2.1⟩

set_option maxRecDepth 100000 in
/-- C33 (the code departs from the claim): a zero-length `AesCtrXor` is not a
no-op. On the freshly initialised session with the all-zero AES-128 key and the
all-zero IV (a reachable state), `AesCtrXor` with `Size = 0` leaves
`StreamIndex = 0` but sets `CurrentCipherBlockIndex` to 1 and replaces the
cached block `66e94bd4..` by keystream block 1, `58e2fcce..`; the next
`AesCtrOutput` of one byte then gives `58` where the fresh session gives `66`. -/
theorem ctr_zero_length_request_changes_context :
    (AesCtrInitialise (AesInitialise128 (List.replicate 16 0))
      (List.replicate 8 0)).CurrentCipherBlockIndex = 0 ∧
    (AesCtrInitialise (AesInitialise128 (List.replicate 16 0))
      (List.replicate 8 0)).CurrentCipherBlock =
      [0x66, 0xe9, 0x4b, 0xd4, 0xef, 0x8a, 0x2c, 0x3b,
       0x88, 0x4c, 0xfa, 0x59, 0xca, 0x34, 0x2b, 0x2e] ∧
    (AesCtrXor (AesCtrInitialise (AesInitialise128 (List.replicate 16 0))
      (List.replicate 8 0)) [] [] 0).1.StreamIndex = 0 ∧
    (AesCtrXor (AesCtrInitialise (AesInitialise128 (List.replicate 16 0))
      (List.replicate 8 0)) [] [] 0).1.CurrentCipherBlockIndex = 1 ∧
    (AesCtrXor (AesCtrInitialise (AesInitialise128 (List.replicate 16 0))
      (List.replicate 8 0)) [] [] 0).1.CurrentCipherBlock =
      [0x58, 0xe2, 0xfc, 0xce, 0xfa, 0x7e, 0x30, 0x61,
       0x36, 0x7f, 0x1d, 0x57, 0xa4, 0xe7, 0x45, 0x5a] ∧
    (AesCtrOutput (AesCtrXor (AesCtrInitialise (AesInitialise128 (List.replicate 16 0))
      (List.replicate 8 0)) [] [] 0).1 [0] 1).2 = [0x58] ∧
    (AesCtrOutput (AesCtrInitialise (AesInitialise128 (List.replicate 16 0))
      (List.replicate 8 0)) [0] 1).2 = [0x66] := by
  rw [AesInitialise128_zero]
  delta AesCtrOutput AesCtrXor AesCtrXorBody AesEncrypt AesCtrInitialise CreateCurrentCipherBlock
  rw [AesEncryptInPlace_eq_fast]
  refine ⟨?_, ?_, ?_, ?_, ?_, ?_, ?_⟩ <;> decide!

/-- C34 (the code departs from the claim): the loop count does not cover every
32 bit `Size`. For every key schedule, IV and buffers, on the session
positioned at byte 15 a request of `Size = 2^32 - 1` has `firstChunkSize = 1`,
the 32 bit sum `(Size - firstChunkSize) + 16` wraps to 14, so
`numIterations = 0` and `numIterations * 16 >= Size - firstChunkSize` fails;
the call writes byte 0 only, leaves every other byte of the output buffer
as it was, and still advances `StreamIndex` by `Size`. -/
theorem ctr_loop_count_wraps_for_large_size (Aes : AesContext) (IV In Out : List Nat) :
    (AesCtrSetStreamIndex (AesCtrInitialise Aes IV) 15).StreamIndex = 15 ∧
    MIN ((AES_BLOCK_SIZE - 15 % AES_BLOCK_SIZE) % 2 ^ 32) (2 ^ 32 - 1) = 1 ∧
    (sub32 (2 ^ 32 - 1) 1 + AES_BLOCK_SIZE) % 2 ^ 32 / AES_BLOCK_SIZE = 0 ∧
    ¬ (0 * 16 ≥ (2 ^ 32 - 1) - 1) ∧
    (AesCtrXor (AesCtrSetStreamIndex (AesCtrInitialise Aes IV) 15) In Out (2 ^ 32 - 1)).2 =
      XorBuffers In 0 (AesCtrSetStreamIndex (AesCtrInitialise Aes IV) 15).CurrentCipherBlock 15
        Out 0 1 ∧
    (AesCtrXor (AesCtrSetStreamIndex (AesCtrInitialise Aes IV) 15) In Out
      (2 ^ 32 - 1)).2.drop 1 = Out.drop 1 ∧
    (AesCtrXor (AesCtrSetStreamIndex (AesCtrInitialise Aes IV) 15) In Out
      (2 ^ 32 - 1)).1.StreamIndex = 15 + (2 ^ 32 - 1) := by
  have hSI := (AesCtrSetStreamIndex_frame (AesCtrInitialise Aes IV) 15).1
  rw [AesCtrXor_wrap _ In Out hSI, XorBuffers_one]
  refine ⟨hSI, by decide, by decide, by decide, rfl, ?_, ?_⟩
  · cases Out with
    | nil => rfl
    | cons a Out => rfl
  · show (15 + (2 ^ 32 - 1)) % 2 ^ 64 = 15 + (2 ^ 32 - 1)
    decide


/-- C38: `InvMixColumns` undoes `MixColumns`. For every 16-byte state `s`,
`InvMixColumns (MixColumns s) = s`. -/
theorem inv_mix_columns_undoes_mix_columns (s : List Nat) (hs : s.length = 16) :
    InvMixColumns (MixColumns s) = s :=
  InvMixColumns_MixColumns s hs

/-- Witness for C38: the state `0, 1, .., 15`. -/
theorem inv_mix_columns_undoes_mix_columns_witness :
    (List.range 16).length = 16 ∧ InvMixColumns (MixColumns (List.range 16)) = List.range 16 :=
  ⟨by decide, inv_mix_columns_undoes_mix_columns (List.range 16) (by decide)⟩

/-- C35: OFB index bound. In every session state reachable from
`AesOfbInitialise` by `AesOfbXor` and `AesOfbOutput` calls,
`IndexWithinCipherBlock <= 16` and `CurrentCipherBlock` has 16 bytes; so the
32 bit subtraction `16 - IndexWithinCipherBlock` of the next call does not
wrap, the first chunk of that call reads the block from offset
`IndexWithinCipherBlock` and ends at or before byte 16, and every chunk of the
loop reads at most the 16 bytes of a block. -/
theorem ofb_index_within_cipher_block_bounded (Aes : AesContext) (IV : List Nat)
    (c : AesOfbContext) (Size amountLeft : Nat) (hc : OfbReachable Aes IV c) :
    c.IndexWithinCipherBlock ≤ 16 ∧ c.CurrentCipherBlock.length = 16 ∧
    sub32 AES_BLOCK_SIZE c.IndexWithinCipherBlock = 16 - c.IndexWithinCipherBlock ∧
    sub32 AES_BLOCK_SIZE (sub32 AES_BLOCK_SIZE c.IndexWithinCipherBlock) =
      c.IndexWithinCipherBlock ∧
    sub32 AES_BLOCK_SIZE (sub32 AES_BLOCK_SIZE c.IndexWithinCipherBlock) +
      MIN (sub32 AES_BLOCK_SIZE c.IndexWithinCipherBlock) Size ≤ c.CurrentCipherBlock.length ∧
    MIN amountLeft AES_BLOCK_SIZE ≤
      (AesEncryptInPlace c.Aes c.CurrentCipherBlock).length := by
  obtain ⟨hB, hidx⟩ := OfbInv_of_OfbReachable Aes IV c hc
  have h1 : sub32 AES_BLOCK_SIZE c.IndexWithinCipherBlock = 16 - c.IndexWithinCipherBlock :=
    sub32_eq _ _ (by simp [AES_BLOCK_SIZE]) (by simpa [AES_BLOCK_SIZE] using hidx)
  have h2 : sub32 AES_BLOCK_SIZE (16 - c.IndexWithinCipherBlock) = c.IndexWithinCipherBlock := by
    rw [sub32_eq _ _ (by simp [AES_BLOCK_SIZE]) (by simp only [AES_BLOCK_SIZE]; omega)]
    simp only [AES_BLOCK_SIZE]; omega
  refine ⟨hidx, hB, h1, ?_, ?_, ?_⟩
  · rw [h1, h2]
  · rw [h1, h2, MIN_eq_min, hB]
    omega
  · rw [MIN_eq_min, length_AesEncryptInPlace, hB]
    simp only [AES_BLOCK_SIZE]
    omega

/-- Witness for C35: the session after `AesOfbXor` of 8 bytes and `AesOfbOutput`
of 8 bytes on a fresh context; its index is 16. -/
theorem ofb_index_within_cipher_block_bounded_witness :
    (AesOfbOutput (AesOfbXor (AesOfbInitialise zeroKeySchedule128 (List.replicate 16 0))
      (List.replicate 8 1) (List.replicate 8 0) 8).1
      (List.replicate 8 0) 8).1.IndexWithinCipherBlock ≤ 16 :=
  (ofb_index_within_cipher_block_bounded zeroKeySchedule128 (List.replicate 16 0) _ 5 40
    (OfbReachable.output _ (List.replicate 8 0) 8
      (OfbReachable.xor _ (List.replicate 8 1) (List.replicate 8 0) 8 OfbReachable.init
        (by decide)) (by decide))).1

/-- What does not depend on the data in a CTR session. For every context and
`Size`, `AesCtrXor` leaves the same final context whatever the
input and output buffers are, and so does `AesCtrOutput`; in place, for any two
buffers of one length, the XOR of each output with its own input is the same
byte at every position, for every `Size`; with output buffers of their own of
at least `Size` bytes, an 8-byte IV and `Size < 2^32 - 16`, the XOR of each
output with its own input is the same byte at every position below `Size`. -/
theorem ctr_session_evolution_independent_of_data (c : AesCtrContext) (Size : Nat)
    (In1 Out1 In2 Out2 D1 D2 B1 B2 : List Nat) :
    (AesCtrXor c In1 Out1 Size).1 = (AesCtrXor c In2 Out2 Size).1 ∧
    (AesCtrOutput c B1 Size).1 = (AesCtrXor c In2 Out2 Size).1 ∧
    (AesCtrOutput c B1 Size).1 = (AesCtrOutput c B2 Size).1 ∧
    (D1.length = D2.length → ∀ k,
      (AesCtrXor c D1 D1 Size).2.getD k 0 ^^^ D1.getD k 0 =
        (AesCtrXor c D2 D2 Size).2.getD k 0 ^^^ D2.getD k 0) ∧
    (c.IV.length = 8 → Size < 2 ^ 32 - 16 → Size ≤ Out1.length → Size ≤ Out2.length →
      ∀ k, k < Size →
        (AesCtrXor c In1 Out1 Size).2.getD k 0 ^^^ In1.getD k 0 =
          (AesCtrXor c In2 Out2 Size).2.getD k 0 ^^^ In2.getD k 0) :=
  ⟨AesCtrXor_context_data_independent c Size In1 Out1 In2 Out2,
    AesCtrXor_context_data_independent c Size _ _ In2 Out2,
    AesCtrXor_context_data_independent c Size _ _ _ _,
    fun hD k => AesCtrXor_inplace_keystream c Size D1 D2 hD k,
    fun hIV hn h1 h2 k hk => AesCtrXor_keystream c Size hIV hn In1 Out1 In2 Out2 h1 h2 k hk⟩

/-- An instance of the data independence: a fresh session and two inputs of 20
bytes, in place and with output buffers of their own. -/
theorem ctr_session_evolution_independent_of_data_witness :
    (List.range 20).length = (List.replicate 20 7).length ∧
    (AesCtrInitialise zeroKeySchedule128 (List.replicate 8 0)).IV.length = 8 ∧
    20 < 2 ^ 32 - 16 ∧ 20 ≤ (List.replicate 20 0).length ∧ 3 < 20 ∧
    (AesCtrXor (AesCtrInitialise zeroKeySchedule128 (List.replicate 8 0)) (List.range 20)
        (List.range 20) 20).2.getD 3 0 ^^^ (List.range 20).getD 3 0 =
      (AesCtrXor (AesCtrInitialise zeroKeySchedule128 (List.replicate 8 0)) (List.replicate 20 7)
        (List.replicate 20 7) 20).2.getD 3 0 ^^^ (List.replicate 20 7).getD 3 0 ∧
    (AesCtrXor (AesCtrInitialise zeroKeySchedule128 (List.replicate 8 0)) (List.range 20)
        (List.replicate 20 0) 20).2.getD 3 0 ^^^ (List.range 20).getD 3 0 =
      (AesCtrXor (AesCtrInitialise zeroKeySchedule128 (List.replicate 8 0)) (List.replicate 20 7)
        (List.replicate 20 0) 20).2.getD 3 0 ^^^ (List.replicate 20 7).getD 3 0 :=
  ⟨by decide, by decide, by decide, by decide,
    by decide,
    (ctr_session_evolution_independent_of_data
      (AesCtrInitialise zeroKeySchedule128 (List.replicate 8 0)) 20
      (List.range 20) (List.replicate 20 0) (List.replicate 20 7) (List.replicate 20 0)
      (List.range 20) (List.replicate 20 7) [] []).2.2.2.1 (by decide) 3,
    (ctr_session_evolution_independent_of_data
      (AesCtrInitialise zeroKeySchedule128 (List.replicate 8 0)) 20
      (List.range 20) (List.replicate 20 0) (List.replicate 20 7) (List.replicate 20 0)
      (List.range 20) (List.replicate 20 7) [] []).2.2.2.2
      (by decide) (by decide) (by decide) (by decide) 3 (by decide)⟩

/-- C36: the earlier and the current CTR module agree on the output. For every
context with an 8-byte IV and a 16-byte cached block (in particular every
context in which `CurrentCipherBlockIndex = StreamIndex div 16` and
`CurrentCipherBlock` is the encryption of the IV followed by the big-endian
`CurrentCipherBlockIndex`), every input and output buffer and every
`Size < 2^32 - 16`, `AesCtrXor` of CryptLib_AesCtr.c and `AesCtrXor` of
WjCryptLib_AesCtr.c leave the same output buffer and the same `StreamIndex`. -/
theorem legacy_and_current_ctr_agree (c : AesCtrContext) (In Out : List Nat) (Size : Nat)
    (hIV : c.IV.length = 8) (hB : c.CurrentCipherBlock.length = 16)
    (hn : Size < 2 ^ 32 - 16) :
    (Legacy.AesCtrXor c In Out Size).2 = (AesCtrXor c In Out Size).2 ∧
    (Legacy.AesCtrXor c In Out Size).1.StreamIndex = (AesCtrXor c In Out Size).1.StreamIndex := by
  obtain ⟨l1, l2, l3⟩ := Legacy_AesCtrXor_out c In Out Size hIV hB (by omega)
  obtain ⟨m1, m3⟩ := AesCtrXor_out c In Out Size hIV hn
  refine ⟨ext_getD (by rw [l1, m1]) (fun k _ => by rw [l3 k, m3 k]), ?_⟩
  rw [l2, (AesCtrXor_frame c In Out Size).1]

/-- Witness for C36: a freshly initialised session (block index 0, cursor 0,
cached block the encryption of the IV followed by eight zero bytes) and a
request of 40 bytes. -/
theorem legacy_and_current_ctr_agree_witness :
    (AesCtrInitialise zeroKeySchedule128 (List.replicate 8 0)).IV.length = 8 ∧
    (AesCtrInitialise zeroKeySchedule128 (List.replicate 8 0)).CurrentCipherBlockIndex =
      (AesCtrInitialise zeroKeySchedule128 (List.replicate 8 0)).StreamIndex / 16 ∧
    40 < 2 ^ 32 - 16 ∧
    (Legacy.AesCtrXor (AesCtrInitialise zeroKeySchedule128 (List.replicate 8 0)) (List.range 40)
      (List.replicate 40 0) 40).2 =
    (AesCtrXor (AesCtrInitialise zeroKeySchedule128 (List.replicate 8 0)) (List.range 40)
      (List.replicate 40 0) 40).2 :=
  ⟨by decide, by decide, by decide,
    (legacy_and_current_ctr_agree (AesCtrInitialise zeroKeySchedule128 (List.replicate 8 0))
      (List.range 40) (List.replicate 40 0) 40 (by decide)
      (length_block_AesCtrInitialise _ _ (by decide)) (by decide)).1⟩

/-- C39: key expansion never indexes out of range. For every key and each of
the three key sizes, `KeyExpansion` run with checked accesses on a `RoundKey`
array of exactly `16 (NumberOfRounds + 1)` bytes (176, 208 and 240; the array of
the context has 240) succeeds: no `RoundKey` index read or written reaches
`16 (NumberOfRounds + 1)`, every `RoundKey` byte read has been written earlier
in the expansion, and every `RCON` index read is in `1 .. 10`; the bytes it
leaves are those of the schedule of `AesInitialise128`, `AesInitialise192` and
`AesInitialise256`. Moreover for every index `i` of the second loop
(`KeySizeInWords <= i < 4 (NumberOfRounds + 1)`) the round constant index
`i div KeySizeInWords` is in `1 .. 10`, inside the 11-entry `RCON` table. -/
theorem key_expansion_never_indexes_out_of_range (Key : List Nat) :
    KeyExpansionChecked Key
        { zeroContext with KeySizeInWords := AES_KEY_SIZE_128 / 4, NumberOfRounds := 10 } =
      some (((AesInitialise128 Key).RoundKey.take (16 * (10 + 1))).map some) ∧
    KeyExpansionChecked Key
        { zeroContext with KeySizeInWords := AES_KEY_SIZE_192 / 4, NumberOfRounds := 12 } =
      some (((AesInitialise192 Key).RoundKey.take (16 * (12 + 1))).map some) ∧
    KeyExpansionChecked Key
        { zeroContext with KeySizeInWords := AES_KEY_SIZE_256 / 4, NumberOfRounds := 14 } =
      some (((AesInitialise256 Key).RoundKey.take (16 * (14 + 1))).map some) ∧
    (∀ i, AES_KEY_SIZE_128 / 4 ≤ i → i < 4 * (10 + 1) →
      1 ≤ i / (AES_KEY_SIZE_128 / 4) ∧ i / (AES_KEY_SIZE_128 / 4) ≤ 10) ∧
    (∀ i, AES_KEY_SIZE_192 / 4 ≤ i → i < 4 * (12 + 1) →
      1 ≤ i / (AES_KEY_SIZE_192 / 4) ∧ i / (AES_KEY_SIZE_192 / 4) ≤ 10) ∧
    (∀ i, AES_KEY_SIZE_256 / 4 ≤ i → i < 4 * (14 + 1) →
      1 ≤ i / (AES_KEY_SIZE_256 / 4) ∧ i / (AES_KEY_SIZE_256 / 4) ≤ 10) ∧
    RCON.length = 11 ∧ 16 * (14 + 1) = AES_ROUND_KEY_BYTES := by
  refine ⟨?_, ?_, ?_, ?_, ?_, ?_, rfl, rfl⟩
  · rw [AesInitialise128_def]
    exact KeyExpansionChecked_eq 4 10 Key _ (by omega) (by omega)
      (le_of_le_of_eq (by decide) length_zeroContext_RoundKey.symm) (fun i h1 h2 => by omega)
  · rw [AesInitialise192_def]
    exact KeyExpansionChecked_eq 6 12 Key _ (by omega) (by omega)
      (le_of_le_of_eq (by decide) length_zeroContext_RoundKey.symm) (fun i h1 h2 => by omega)
  · rw [AesInitialise256_def]
    exact KeyExpansionChecked_eq 8 14 Key _ (by omega) (by omega)
      (le_of_le_of_eq (by decide) length_zeroContext_RoundKey.symm) (fun i h1 h2 => by omega)
  · intro i h1 h2
    have : AES_KEY_SIZE_128 / 4 = 4 := rfl
    rw [this] at h1 ⊢
    omega
  · intro i h1 h2
    have : AES_KEY_SIZE_192 / 4 = 6 := rfl
    rw [this] at h1 ⊢
    omega
  · intro i h1 h2
    have : AES_KEY_SIZE_256 / 4 = 8 := rfl
    rw [this] at h1 ⊢
    omega

/-- Witness for C39: the key `0, 1, .., 15` and the last index of the second
loop for a 128 bit key, `i = 43`, whose round constant index is 10. -/
theorem key_expansion_never_indexes_out_of_range_witness :
    AES_KEY_SIZE_128 / 4 ≤ 43 ∧ 43 < 4 * (10 + 1) ∧ 43 / (AES_KEY_SIZE_128 / 4) = 10 ∧
    1 ≤ 43 / (AES_KEY_SIZE_128 / 4) ∧ 43 / (AES_KEY_SIZE_128 / 4) ≤ 10 :=
  ⟨by decide, by decide, by decide,
    (key_expansion_never_indexes_out_of_range (List.range 16)).2.2.2.1 43 (by decide)
      (by decide)⟩

/-- C20 (the code departs from the claim): the CTR round trip fails for a
request whose loop count wraps. On the session positioned at byte 15 (reachable
for every key schedule and IV), with output buffers of their own and
`Size = 2^32 - 1`, each `AesCtrXor` call writes byte 0 only; so for every data
buffer `D` the second call returns, from byte 1 on, the bytes its output buffer
held before, not those of `D`. With `D` of `2^32 - 1` bytes `1` and
zero-filled output buffers, byte 1 of the result is `0` and the result is not
`D`. -/
theorem ctr_xor_twice_fails_for_large_size (Aes : AesContext) (IV D Out1 Out2 : List Nat) :
    CtrReachable Aes IV (AesCtrSetStreamIndex (AesCtrInitialise Aes IV) 15) ∧
    (AesCtrXor (AesCtrSetStreamIndex (AesCtrInitialise Aes IV) 15)
      (AesCtrXor (AesCtrSetStreamIndex (AesCtrInitialise Aes IV) 15) D Out1 (2 ^ 32 - 1)).2
      Out2 (2 ^ 32 - 1)).2.getD 1 0 = Out2.getD 1 0 ∧
    (List.replicate (2 ^ 32 - 1) 1).length = 2 ^ 32 - 1 ∧
    (AesCtrXor (AesCtrSetStreamIndex (AesCtrInitialise Aes IV) 15)
      (AesCtrXor (AesCtrSetStreamIndex (AesCtrInitialise Aes IV) 15)
        (List.replicate (2 ^ 32 - 1) 1) (List.replicate (2 ^ 32 - 1) 0) (2 ^ 32 - 1)).2
      (List.replicate (2 ^ 32 - 1) 0) (2 ^ 32 - 1)).2.getD 1 0 = 0 ∧
    (List.replicate (2 ^ 32 - 1) 1).getD 1 0 = 1 ∧
    (AesCtrXor (AesCtrSetStreamIndex (AesCtrInitialise Aes IV) 15)
      (AesCtrXor (AesCtrSetStreamIndex (AesCtrInitialise Aes IV) 15)
        (List.replicate (2 ^ 32 - 1) 1) (List.replicate (2 ^ 32 - 1) 0) (2 ^ 32 - 1)).2
      (List.replicate (2 ^ 32 - 1) 0) (2 ^ 32 - 1)).2 ≠ List.replicate (2 ^ 32 - 1) 1 := by
  have hSI := (AesCtrSetStreamIndex_frame (AesCtrInitialise Aes IV) 15).1
  have h0 : (List.replicate (2 ^ 32 - 1) 0).getD 1 0 = 0 :=
    getD_replicate_lt _ _ _ (by norm_num)
  have h1 : (List.replicate (2 ^ 32 - 1) 1).getD 1 0 = 1 :=
    getD_replicate_lt _ _ _ (by norm_num)
  have e := AesCtrXor_wrap_getD (AesCtrSetStreamIndex (AesCtrInitialise Aes IV) 15)
    (AesCtrXor (AesCtrSetStreamIndex (AesCtrInitialise Aes IV) 15)
      (List.replicate (2 ^ 32 - 1) 1) (List.replicate (2 ^ 32 - 1) 0) (2 ^ 32 - 1)).2
    (List.replicate (2 ^ 32 - 1) 0) hSI 1 (Nat.le_refl 1)
  refine ⟨CtrReachable.seek _ 15 CtrReachable.init (by norm_num),
    AesCtrXor_wrap_getD _ _ Out2 hSI 1 (Nat.le_refl 1), List.length_replicate _ _,
    e.trans h0, h1, fun hne => ?_⟩
  rw [hne, h1, h0] at e
  exact absurd e (by decide)

/-- C37 (the code departs from the claim): with output buffers of their own the
XOR of the output of `AesCtrXor` with its input depends on the data when the
loop count wraps. On the session positioned at byte 15 (reachable for every key
schedule and IV) and `Size = 2^32 - 1`, byte 1 of the output is the byte the
output buffer held before, for every input; so for the inputs of `2^32 - 1`
bytes `2` and of `2^32 - 1` bytes `1`, each with a zero-filled output buffer,
byte 1 of output XOR input is `2` and `1`. The final contexts are equal. -/
theorem ctr_output_xor_input_depends_on_data_for_large_size (Aes : AesContext)
    (IV In Out : List Nat) :
    CtrReachable Aes IV (AesCtrSetStreamIndex (AesCtrInitialise Aes IV) 15) ∧
    (AesCtrXor (AesCtrSetStreamIndex (AesCtrInitialise Aes IV) 15) In Out
      (2 ^ 32 - 1)).2.getD 1 0 = Out.getD 1 0 ∧
    (List.replicate (2 ^ 32 - 1) 2).length = 2 ^ 32 - 1 ∧
    (List.replicate (2 ^ 32 - 1) 1).length = 2 ^ 32 - 1 ∧
    (AesCtrXor (AesCtrSetStreamIndex (AesCtrInitialise Aes IV) 15)
      (List.replicate (2 ^ 32 - 1) 2) (List.replicate (2 ^ 32 - 1) 0) (2 ^ 32 - 1)).2.getD 1 0 ^^^
      (List.replicate (2 ^ 32 - 1) 2).getD 1 0 = 2 ∧
    (AesCtrXor (AesCtrSetStreamIndex (AesCtrInitialise Aes IV) 15)
      (List.replicate (2 ^ 32 - 1) 1) (List.replicate (2 ^ 32 - 1) 0) (2 ^ 32 - 1)).2.getD 1 0 ^^^
      (List.replicate (2 ^ 32 - 1) 1).getD 1 0 = 1 ∧
    (AesCtrXor (AesCtrSetStreamIndex (AesCtrInitialise Aes IV) 15)
      (List.replicate (2 ^ 32 - 1) 2) (List.replicate (2 ^ 32 - 1) 0) (2 ^ 32 - 1)).1 =
    (AesCtrXor (AesCtrSetStreamIndex (AesCtrInitialise Aes IV) 15)
      (List.replicate (2 ^ 32 - 1) 1) (List.replicate (2 ^ 32 - 1) 0) (2 ^ 32 - 1)).1 := by
  have hSI := (AesCtrSetStreamIndex_frame (AesCtrInitialise Aes IV) 15).1
  have h0 : (List.replicate (2 ^ 32 - 1) 0).getD 1 0 = 0 :=
    getD_replicate_lt _ _ _ (by norm_num)
  have h1 : (List.replicate (2 ^ 32 - 1) 1).getD 1 0 = 1 :=
    getD_replicate_lt _ _ _ (by norm_num)
  have h2 : (List.replicate (2 ^ 32 - 1) 2).getD 1 0 = 2 :=
    getD_replicate_lt _ _ _ (by norm_num)
  refine ⟨CtrReachable.seek _ 15 CtrReachable.init (by norm_num),
    AesCtrXor_wrap_getD _ _ _ hSI 1 (Nat.le_refl 1), List.length_replicate _ _,
    List.length_replicate _ _, ?_, ?_, AesCtrXor_context_data_independent _ _ _ _ _ _⟩
  · rw [AesCtrXor_wrap_getD _ _ _ hSI 1 (Nat.le_refl 1), h0, h2]
    rfl
  · rw [AesCtrXor_wrap_getD _ _ _ hSI 1 (Nat.le_refl 1), h0, h1]
    rfl

end WjCryptLib
